import Mathlib

/-!
# Particle swarm optimiser of Jerry-The-Race-Car-Driver

A shallow embedding of `particle.h`, `particle.cpp`, `pso.h`, `pso.cpp` and
`utils.cpp`, followed by theorems about it.

Conventions of the embedding.

* A `double` is an exact rational: the comparisons and the arithmetic are the
  ones of the source, rounding is not modelled.
* An `Eigen::VectorXd` is a `List ℚ`; coefficient-wise operations are `zipWith`.
* `Eigen::VectorXd::Random(n)` reads its `n` coefficients from an explicit random
  source `g : ℕ → ℚ` (coefficient `i` is `g i`), so every function that draws
  random numbers takes its sources as arguments.
* A `Particle*` (the neighbour lists, the value returned by `PSO::next`) is the
  index of the particle in `PSO::swarm`.
* An access outside a `std::vector` is undefined behaviour in the source; the
  functions that can perform one return `Option`, with `none` for that case.
* The `size_t` counters of `PSO` and the `int` cursor `next_particle_id` are
  natural numbers: they only ever count calls or hold an index below
  `n_particles`. The index arithmetic of the ring topology, where `i - 1` wraps
  around at `i = 0`, is done modulo `2 ^ 64`.
-/

namespace Jerry

/-! ## Constants -/

/-- The constant `DBL_MAX` of `<float.h>`, the largest finite `double`. -/
def DBL_MAX : ℚ := (2 ^ 53 - 1) * 2 ^ 971

/-- The macro `TO_BE_EVALUATED` of `particle.h`, the dummy value of the objective function. -/
def TO_BE_EVALUATED : ℚ := -1

/-- The macro `MAXIMIZE` of `particle.h`. -/
def MAXIMIZE : Int := 0

/-- The macro `MINIMIZE` of `particle.h`. -/
def MINIMIZE : Int := 1

/-- The macro `TOPOLOGY_ERGODIC` of `pso.h`. -/
def TOPOLOGY_ERGODIC : Int := 0

/-- The macro `TOPOLOGY_RING` of `pso.h`. -/
def TOPOLOGY_RING : Int := 1

/-- The macro `TOPOLOGY_STAR` of `pso.h`. -/
def TOPOLOGY_STAR : Int := 2

/-- Number of values of a 64-bit `size_t`. -/
def SIZE_T_RANGE : Nat := 2 ^ 64

/-! ## Vectors -/

/-- An `Eigen::VectorXd`. -/
abbrev VectorXd := List ℚ

/-- The vector `Eigen::VectorXd::Zero(n)`. -/
def VectorXd.Zero (n : Nat) : VectorXd := List.replicate n 0

/-- The vector `Eigen::VectorXd::Ones(n)`. -/
def VectorXd.Ones (n : Nat) : VectorXd := List.replicate n 1

/-- The vector `Eigen::VectorXd::Random(n)`, read from the random source `g`;
Eigen draws every coefficient in `[-1, 1]`. -/
def VectorXd.Random (n : Nat) (g : ℕ → ℚ) : VectorXd := (List.range n).map g

/-- Vector sum `a + b`. -/
def VectorXd.add (a b : VectorXd) : VectorXd := List.zipWith (fun s t => s + t) a b

/-- Vector difference `a - b`. -/
def VectorXd.sub (a b : VectorXd) : VectorXd := List.zipWith (fun s t => s - t) a b

/-- Product `c * a` of a scalar and a vector. -/
def VectorXd.scale (c : ℚ) (a : VectorXd) : VectorXd := a.map (fun t => c * t)

/-- Quotient `a / c` of a vector by a scalar. -/
def VectorXd.divScalar (a : VectorXd) (c : ℚ) : VectorXd := a.map (fun t => t / c)

/-- Coefficient-wise product `a.cwiseProduct(b)`. -/
def VectorXd.cwiseProduct (a b : VectorXd) : VectorXd := List.zipWith (fun s t => s * t) a b

/-- Coefficient-wise maximum `a.cwiseMax(b)`. -/
def VectorXd.cwiseMax (a b : VectorXd) : VectorXd := List.zipWith (fun s t => max s t) a b

/-- Coefficient-wise minimum `a.cwiseMin(b)`. -/
def VectorXd.cwiseMin (a b : VectorXd) : VectorXd := List.zipWith (fun s t => min s t) a b

/-- The function `randUniform(n)` of `utils.cpp`: `(Random(n) + ones) / 2.0`. -/
def randUniform (n : Nat) (g : ℕ → ℚ) : VectorXd :=
  VectorXd.divScalar (VectorXd.add (VectorXd.Random n g) (VectorXd.Ones n)) 2

/-- Every coefficient of `x` lies between the coefficients of `lb` and `ub` of
the same index, the three vectors having the same length. -/
def InBounds (x lb ub : VectorXd) : Prop :=
  List.Forall₂ (fun l t => l ≤ t) lb x ∧ List.Forall₂ (fun t u => t ≤ u) x ub

instance (x lb ub : VectorXd) : Decidable (InBounds x lb ub) := by
  unfold InBounds; infer_instance

/-! ## Particles -/

/-- The struct `Solution` of `particle.h`. -/
structure Solution where
  x : VectorXd
  eval : ℚ
  deriving DecidableEq

/-- The data members of the class `Particle` of `particle.h`. -/
structure Particle where
  task : Int
  n_dim : Nat
  velocity : VectorXd
  current : Solution
  pbest : Solution
  gbest : Solution
  neighbours : List Nat
  lbs : VectorXd
  ubs : VectorXd
  inertia : ℚ
  phi_1 : ℚ
  phi_2 : ℚ
  deriving DecidableEq

/-- The constructor `Particle::Particle(task, n_dim, phi_1, phi_2, inertia)`. -/
def Particle.ctor (task : Int) (n_dim : Nat) (phi_1 phi_2 inertia : ℚ) : Particle :=
  { task := task
    n_dim := n_dim
    current := { x := VectorXd.Zero n_dim, eval := if task = MAXIMIZE then -DBL_MAX else DBL_MAX }
    pbest := { x := VectorXd.Zero n_dim, eval := if task = MAXIMIZE then -DBL_MAX else DBL_MAX }
    gbest := { x := VectorXd.Zero n_dim, eval := if task = MAXIMIZE then -DBL_MAX else DBL_MAX }
    velocity := VectorXd.Zero n_dim
    neighbours := []
    lbs := []
    ubs := []
    phi_1 := phi_1
    phi_2 := phi_2
    inertia := inertia }

/-- The method `Particle::initialize(lbs, ubs)`; `g_pos` is the random source of
the `randUniform` call and `g_vel` the one of the `Random` call. -/
def Particle.initialize (p : Particle) (lbs ubs : VectorXd) (g_pos g_vel : ℕ → ℚ) : Particle :=
  let position : VectorXd :=
    VectorXd.cwiseProduct (randUniform p.n_dim g_pos) (VectorXd.add (VectorXd.sub ubs lbs) lbs)
  let range : VectorXd := VectorXd.sub ubs lbs
  { p with
    lbs := lbs
    ubs := ubs
    current := { x := position, eval := TO_BE_EVALUATED }
    velocity := VectorXd.cwiseProduct (VectorXd.Random position.length g_vel) range }

/-- The method `Particle::move()` in exact arithmetic; `g1` and `g2` are the
random sources of its two `randUniform` calls, in the order of the calls. The
method on values of the type `double`, with overflow to the infinities and NaN,
is `Particle.moveDouble`. -/
def Particle.move (p : Particle) (g1 g2 : ℕ → ℚ) : Particle :=
  let pb : VectorXd := p.pbest.x
  let lb : VectorXd := p.gbest.x
  let x : VectorXd := p.current.x
  let v0 : VectorXd := VectorXd.scale p.inertia p.velocity
  let u1 : VectorXd := randUniform p.n_dim g1
  let v1 : VectorXd := VectorXd.add v0 (VectorXd.scale p.phi_1 (VectorXd.cwiseProduct u1 (VectorXd.sub pb x)))
  let u2 : VectorXd := randUniform p.n_dim g2
  let v2 : VectorXd := VectorXd.add v1 (VectorXd.scale p.phi_2 (VectorXd.cwiseProduct u2 (VectorXd.sub lb x)))
  let x1 : VectorXd := VectorXd.add x v2
  let x2 : VectorXd := VectorXd.cwiseMax x1 p.lbs
  let x3 : VectorXd := VectorXd.cwiseMin x2 p.ubs
  { p with velocity := v2, current := { x := x3, eval := TO_BE_EVALUATED } }

/-- The method `Particle::addNeighbour(neighbour)`. -/
def Particle.addNeighbour (p : Particle) (neighbour : Nat) : Particle :=
  { p with neighbours := p.neighbours ++ [neighbour] }

/-- The particles a list of pointers points to; `none` when one of them is not
a particle of the swarm. -/
def deref (swarm : List Particle) : List Nat → Option (List Particle)
  | [] => some []
  | k :: ks =>
    match swarm[k]?, deref swarm ks with
    | some p, some ps => some (p :: ps)
    | _, _ => none

/-- The loop of `Particle::checkNeibourhood()` over the personal-best scores of
the neighbours still to visit, from the loop counter `i` and the current
`best_index` and `best_score`; the result is the final `best_index`. -/
def checkNeibourhoodLoop (task : Int) : List ℚ → Nat → Nat → ℚ → Nat
  | [], _, best_index, _ => best_index
  | score :: rest, i, best_index, best_score =>
    if (decide (task = MAXIMIZE)) != (decide (score < best_score)) then
      checkNeibourhoodLoop task rest (i + 1) i score
    else
      checkNeibourhoodLoop task rest (i + 1) best_index best_score

/-- The method `Particle::checkNeibourhood()` called on particle `self` of the
swarm; `none` when `neighbours[best_index]` is outside the neighbour list. -/
def Particle.checkNeibourhood (swarm : List Particle) (self : Nat) : Option (List Particle) :=
  match swarm[self]? with
  | none => none
  | some p =>
    match deref swarm p.neighbours with
    | none => none
    | some nbs =>
      let best_index := checkNeibourhoodLoop p.task (nbs.map (fun q => q.pbest.eval)) 0 0
        (if p.task = MAXIMIZE then -DBL_MAX else DBL_MAX)
      match nbs[best_index]? with
      | none => none
      | some q => some (swarm.set self { p with gbest := q.pbest })

/-- The second loop of `Particle::setEvaluation`: `checkNeibourhood()` on each
neighbour in turn. -/
def checkNeighbours (swarm : List Particle) : List Nat → Option (List Particle)
  | [] => some swarm
  | k :: ks =>
    match Particle.checkNeibourhood swarm k with
    | none => none
    | some swarm1 => checkNeighbours swarm1 ks

/-- The first three lines of `Particle::setEvaluation(eval)`: the current fitness
is recorded and the personal best replaced when `eval` is greater. -/
def Particle.recordEvaluation (p : Particle) (eval : ℚ) : Particle :=
  let p1 : Particle := { p with current := { x := p.current.x, eval := eval } }
  if eval > p1.pbest.eval then { p1 with pbest := p1.current } else p1

/-- The method `Particle::setEvaluation(eval)` called on particle `self` of the
swarm. -/
def Particle.setEvaluation (swarm : List Particle) (self : Nat) (eval : ℚ) :
    Option (List Particle) :=
  match swarm[self]? with
  | none => none
  | some p =>
    let p1 := Particle.recordEvaluation p eval
    match Particle.checkNeibourhood (swarm.set self p1) self with
    | none => none
    | some swarm1 => checkNeighbours swarm1 p1.neighbours

/-! ## The swarm optimiser -/

/-- The data members of the class `PSO` of `pso.h`, with their default member
initialisers. The method pointer `setNeighborhood` is not stored: both
constructors leave it determined by `topology` (see `PSO.setNeighborhood`). -/
structure PSO where
  task : Int := MAXIMIZE
  topology : Int := TOPOLOGY_ERGODIC
  n_iterations : Nat := 0
  n_evaluations : Nat := 0
  n_eval_without_improvement : Nat := 0
  max_n_eval_without_improvement : Nat := 300
  max_iterations : Nat := 1000
  max_evaluations : Nat := 10000
  n_dim : Nat := 0
  n_particles : Nat := 25
  inertia : ℚ := 1
  decay : ℚ := 98 / 100
  phi_1 : ℚ := 1
  phi_2 : ℚ := 1
  swarm : List Particle := []
  next_particle_id : Nat := 0
  global_best : Solution := { x := [], eval := 0 }
  deriving DecidableEq

/-- A loop `for (size_t i = 0; i < n; i++)` that updates `swarm[i]` to
`f i swarm[i]`. -/
def forParticles (n : Nat) (f : Nat → Particle → Particle) (swarm : List Particle) :
    List Particle :=
  swarm.mapIdx (fun i p => if i < n then f i p else p)

/-- The statement `swarm[i]->addNeighbour(swarm[k])`. -/
def addNeighbourAt (swarm : List Particle) (i k : Nat) : List Particle :=
  swarm.modify (fun p => Particle.addNeighbour p k) i

/-- The method `PSO::createRingTopology()`; `i - 1` and `i + 1` are computed on
`size_t`. -/
def PSO.createRingTopology (s : PSO) : PSO :=
  { s with
    swarm := (List.range s.n_particles).foldl
      (fun sw i =>
        addNeighbourAt
          (addNeighbourAt sw i (((i + SIZE_T_RANGE - 1) % SIZE_T_RANGE) % s.n_particles))
          i (((i + 1) % SIZE_T_RANGE) % s.n_particles))
      s.swarm }

/-- The method `PSO::createStarTopology()`. -/
def PSO.createStarTopology (s : PSO) : PSO :=
  { s with
    swarm := (List.range s.n_particles).tail.foldl
      (fun sw i => addNeighbourAt (addNeighbourAt sw i 0) 0 i)
      s.swarm }

/-- The method `PSO::createErgodicTopology()`. -/
def PSO.createErgodicTopology (s : PSO) : PSO :=
  { s with
    swarm := (List.range s.n_particles).foldl
      (fun sw i =>
        (List.range i).foldl (fun sw1 j => addNeighbourAt (addNeighbourAt sw1 i j) j i) sw)
      s.swarm }

/-- The call `(this->*setNeighborhood)()`: the method selected by the `switch`
of the constructor, the ergodic topology by default. -/
def PSO.setNeighborhood (s : PSO) : PSO :=
  if s.topology = TOPOLOGY_ERGODIC then s.createErgodicTopology
  else if s.topology = TOPOLOGY_RING then s.createRingTopology
  else if s.topology = TOPOLOGY_STAR then s.createStarTopology
  else s.createErgodicTopology

/-- The method `PSO::initialize(task, n_dim)`; `none` when `swarm[0]` does not
exist. -/
def PSO.initialize (s : PSO) (task : Int) (n_dim : Nat) : Option PSO :=
  let s1 : PSO := { s with n_dim := n_dim, n_eval_without_improvement := 0, next_particle_id := 0 }
  let s2 : PSO :=
    { s1 with
      swarm := s1.swarm ++
        List.replicate s1.n_particles (Particle.ctor task n_dim s1.phi_1 s1.phi_2 s1.inertia) }
  let s3 : PSO := s2.setNeighborhood
  match s3.swarm[0]? with
  | none => none
  | some p => some { s3 with global_best := p.pbest }

/-- The constructor `PSO::PSO(task, n_particles, n_dim)`; its body does not read
`n_particles`. -/
def PSO.ctor (task : Int) (_n_particles : Nat) (n_dim : Nat) : Option PSO :=
  PSO.initialize {} task n_dim

/-- The constructor `PSO::PSO(task, n_particles, n_dim, topology)`. -/
def PSO.ctorTopology (task : Int) (n_particles : Nat) (n_dim : Nat) (topology : Int) :
    Option PSO :=
  PSO.initialize { n_particles := n_particles, topology := topology } task n_dim

/-- The loop of `PSO::update()` over the particles still to visit, from the
current `global_best` and `is_improvement`. -/
def updateLoop : List Particle → Solution → Bool → Solution × Bool
  | [], global_best, is_improvement => (global_best, is_improvement)
  | p :: rest, global_best, is_improvement =>
    if p.pbest.eval > global_best.eval then updateLoop rest p.pbest true
    else updateLoop rest global_best is_improvement

/-- The method `PSO::update()`. -/
def PSO.update (s : PSO) : PSO :=
  let r := updateLoop (s.swarm.take s.n_particles) s.global_best false
  { s with
    n_evaluations := s.n_evaluations + 1
    global_best := r.1
    n_eval_without_improvement := if !r.2 then s.n_eval_without_improvement + 1 else 0 }

/-- The method `PSO::setPhi1(phi_1)`. -/
def PSO.setPhi1 (s : PSO) (phi_1 : ℚ) : PSO :=
  { s with
    phi_1 := phi_1
    swarm := forParticles s.n_particles (fun _ p => { p with phi_1 := phi_1 }) s.swarm }

/-- The method `PSO::setPhi2(phi_2)`. -/
def PSO.setPhi2 (s : PSO) (phi_2 : ℚ) : PSO :=
  { s with
    phi_2 := phi_2
    swarm := forParticles s.n_particles (fun _ p => { p with phi_2 := phi_2 }) s.swarm }

/-- The method `PSO::setInertia(inertia)`. -/
def PSO.setInertia (s : PSO) (inertia : ℚ) : PSO :=
  { s with
    inertia := inertia
    swarm := forParticles s.n_particles (fun _ p => { p with inertia := inertia }) s.swarm }

/-- The random sources of one generational update: for particle `i`, the
sources of the two `randUniform` calls of its `move()`. -/
abbrev MoveSources := Nat → (ℕ → ℚ) × (ℕ → ℚ)

/-- The method `PSO::next()`: the particle returned and the new state. -/
def PSO.next (s : PSO) (g : MoveSources) : Nat × PSO :=
  let s1 : PSO :=
    if s.next_particle_id = 0 ∧ s.n_evaluations > 0 then
      let moved : PSO :=
        { s with
          swarm := forParticles s.n_particles (fun i p => Particle.move p (g i).1 (g i).2) s.swarm
          n_iterations := s.n_iterations + 1 }
      moved.setInertia (moved.inertia * moved.decay)
    else s
  (s1.next_particle_id, { s1 with next_particle_id := (s1.next_particle_id + 1) % s1.n_particles })

/-- The method `PSO::terminationCondition()`: the value returned and the state
after the call. -/
def PSO.terminationCondition (s : PSO) : Bool × PSO :=
  if s.n_iterations > s.max_iterations then (true, s)
  else if s.n_evaluations > s.max_evaluations then (true, s)
  else if s.n_eval_without_improvement ≥ s.max_n_eval_without_improvement then (true, s)
  else (false, s)

/-! ## Sequences of calls -/

/-- One call made on a swarm by its owner: a method of particle `i`, or a
method of the optimiser. -/
inductive Call where
  | initialise (i : Nat) (lbs ubs : VectorXd) (g_pos g_vel : ℕ → ℚ)
  | move (i : Nat) (g1 g2 : ℕ → ℚ)
  | setEvaluation (i : Nat) (eval : ℚ)
  | update
  | next (g : MoveSources)

/-- The state after one call; `none` when the call is made on a particle that
does not exist or runs into undefined behaviour. -/
def PSO.call (s : PSO) : Call → Option PSO
  | Call.initialise i lbs ubs g_pos g_vel =>
    match s.swarm[i]? with
    | none => none
    | some p =>
      let p1 : Particle := Particle.initialize p lbs ubs g_pos g_vel
      some { s with swarm := s.swarm.set i p1 }
  | Call.move i g1 g2 =>
    match s.swarm[i]? with
    | none => none
    | some p => some { s with swarm := s.swarm.set i (Particle.move p g1 g2) }
  | Call.setEvaluation i eval =>
    match Particle.setEvaluation s.swarm i eval with
    | none => none
    | some swarm1 => some { s with swarm := swarm1 }
  | Call.update => some s.update
  | Call.next g => some (s.next g).2

/-- The state after a sequence of calls, made in the order of the list. -/
def PSO.run (s : PSO) : List Call → Option PSO
  | [] => some s
  | c :: cs =>
    match s.call c with
    | none => none
    | some s1 => s1.run cs


/-! ## Notions used by the statements -/

/-- Solution `r` is entry `m` of `l`, no entry of `l` has a greater fitness and
every entry before it has a smaller one: the first entry of maximal fitness. -/
def IsFirstMax (l : List Solution) (m : Nat) (r : Solution) : Prop :=
  l[m]? = some r ∧ (∀ (j : Nat) (q : Solution), l[j]? = some q → q.eval ≤ r.eval) ∧
    (∀ (j : Nat) (q : Solution), j < m → l[j]? = some q → q.eval < r.eval)

/-- A scan that keeps the candidate `b` until an entry of strictly greater
fitness is met, which then becomes the candidate. -/
def improveFold : List Solution → Solution → Solution
  | [], b => b
  | r :: rs, b => if r.eval > b.eval then improveFold rs r else improveFold rs b

/-- The particle with its neighbourhood best blanked out: what
`checkNeibourhood()` never writes. -/
def eraseGbest (p : Particle) : Particle := { p with gbest := { x := [], eval := 0 } }

/-- Every particle of the swarm has a neighbour, and all its neighbours are
particles of the swarm. -/
def NeighboursValid (sw : List Particle) : Prop :=
  ∀ q ∈ sw, q.neighbours ≠ [] ∧ ∀ k ∈ q.neighbours, k < sw.length

instance (sw : List Particle) : Decidable (NeighboursValid sw) := by
  unfold NeighboursValid; infer_instance

/-- The vectors of the particle all have `n_dim` coefficients, as they do once
`initialize(lbs, ubs)` has been called with bounds of `n_dim` coefficients. -/
def Particle.Initialised (p : Particle) : Prop :=
  p.lbs.length = p.n_dim ∧ p.ubs.length = p.n_dim ∧ p.current.x.length = p.n_dim ∧
    p.velocity.length = p.n_dim ∧ p.pbest.x.length = p.n_dim ∧ p.gbest.x.length = p.n_dim

instance (p : Particle) : Decidable p.Initialised := by
  unfold Particle.Initialised; infer_instance

/-- The clipping `clip(t, lo, hi)` of the specification: `t` brought back into
`[lo, hi]`. -/
def clip (t lo hi : ℚ) : ℚ := if t < lo then lo else if hi < t then hi else t

/-- The fitness reports received by particle `i` during a sequence of calls: for
each `setEvaluation(f)` made on it, the position it held at that call, paired
with `f`, in the order of the calls. -/
def reports (i : Nat) : PSO → List Call → List Solution
  | _, [] => []
  | s, c :: cs =>
    match s.call c with
    | none => []
    | some s1 =>
      match c, s.swarm[i]? with
      | Call.setEvaluation j f, some p =>
        if j = i then { x := p.current.x, eval := f } :: reports i s1 cs else reports i s1 cs
      | _, _ => reports i s1 cs

/-- The number of `next()` calls in a sequence of calls. -/
def nextCalls : List Call → Nat
  | [] => 0
  | Call.next _ :: cs => nextCalls cs + 1
  | _ :: cs => nextCalls cs

/-! ## Concrete swarms and particles -/

/-- The two `initialize` calls of the scenario: bounds `[0, 10]`, particle 0 at
`x = 2` and particle 1 at `x = 8`. -/
def ringStartCalls : List Call :=
  [ Call.initialise 0 [0] [10] (fun _ => -3 / 5) (fun _ => 0),
    Call.initialise 1 [0] [10] (fun _ => 3 / 5) (fun _ => 0) ]

/-- The construction of the scenario: a ring of two particles of one dimension
with `decay = 1`, both particles initialised. -/
def ringStartRun : Option PSO :=
  match PSO.ctorTopology MAXIMIZE 2 1 TOPOLOGY_RING with
  | none => none
  | some s => PSO.run { s with decay := 1 } ringStartCalls

/-- The state of the scenario before any evaluation. -/
def ringStart : PSO := ringStartRun.getD {}

/-- Particle 0 of `ringStart`. -/
def ringParticle0 : Particle :=
  { task := MAXIMIZE
    n_dim := 1
    velocity := [0]
    current := { x := [2], eval := TO_BE_EVALUATED }
    pbest := { x := [0], eval := -DBL_MAX }
    gbest := { x := [0], eval := -DBL_MAX }
    neighbours := [1, 1]
    lbs := [0]
    ubs := [10]
    inertia := 1
    phi_1 := 1
    phi_2 := 1 }

/-- The two evaluations of the scenario: particle 0 evaluates to 5 and particle
1 to 9. -/
def ringScenarioCalls : List Call :=
  [ Call.setEvaluation 0 5, Call.setEvaluation 1 9 ]

/-- The outcome of the scenario before its `update()`. -/
def ringScenarioRun : Option PSO := ringStart.run ringScenarioCalls

/-- The state of the scenario before its `update()`. -/
def ringScenario : PSO := ringScenarioRun.getD {}

/-- A longer life of the ring: evaluations, a move of particle 0, an update and
a dispatch. -/
def ringLifeCalls : List Call :=
  [ Call.setEvaluation 0 5,
    Call.move 0 (fun _ => 0) (fun _ => 0),
    Call.setEvaluation 0 3,
    Call.update,
    Call.next (fun _ => (fun _ => 0, fun _ => 0)),
    Call.setEvaluation 1 9,
    Call.update ]

/-- The state after `ringLifeCalls`. -/
def ringLife : PSO := (ringStart.run ringLifeCalls).getD {}

/-- The state after particle 0 of `ringStart` has reported the fitness
`-DBL_MAX`. -/
def ringSentinel : PSO := (ringStart.run [Call.setEvaluation 0 (-DBL_MAX)]).getD {}

/-- The state of the ring after 300 `update()` calls without any evaluation. -/
def ringStagnant : PSO := (ringStart.run (List.replicate 300 Call.update)).getD {}

/-- The state of the ring after 300 `update()` calls without any evaluation,
then the evaluation of particle 0 to 5 and one more `update()`. -/
def ringRevived : PSO := (ringStagnant.run [Call.setEvaluation 0 5, Call.update]).getD {}

/-- A particle of one dimension initialised with the bounds `[3000, 8000]` of a
gear threshold, the uniform draw being `1 / 4`. -/
def gearBoundsParticle : Particle :=
  Particle.initialize (Particle.ctor MAXIMIZE 1 1 1 1) [3000] [8000] (fun _ => -1 / 2) (fun _ => 0)

/-- The number of `update()` calls in a sequence of calls. -/
def updateCalls : List Call → Nat
  | [] => 0
  | Call.update :: cs => updateCalls cs + 1
  | _ :: cs => updateCalls cs

/-- For each `update()` of a sequence of calls, in the order of the calls,
whether some particle's personal-best fitness strictly exceeded the global-best
fitness held before that `update()`. -/
def improvements : PSO → List Call → List Bool
  | _, [] => []
  | s, c :: cs =>
    match s.call c with
    | none => []
    | some s1 =>
      match c with
      | Call.update =>
        s.swarm.any (fun p => decide (s.global_best.eval < p.pbest.eval)) :: improvements s1 cs
      | _ => improvements s1 cs

/-- The number of consecutive most recent entries of the list that are `false`. -/
def trailingFalse (l : List Bool) : Nat := (l.reverse.takeWhile (fun b => !b)).length

/-- The state of the ring after `ringLifeCalls` and two more `update()` calls. -/
def ringLifeTwoMore : PSO := (ringLife.run [Call.update, Call.update]).getD {}

/-- The swarm after the generational update of `PSO::next()`: every particle is
moved, with the random sources `g` gives it, and receives the new inertia. -/
def movedSwarm (s : PSO) (g : MoveSources) : List Particle :=
  s.swarm.mapIdx (fun i p =>
    { Particle.move p (g i).1 (g i).2 with inertia := s.inertia * s.decay })

/-- The ring of two particles after one `update()` made before any dispatch. -/
def ringEarlyUpdate : PSO := (ringStart.run [Call.update]).getD {}

/-! ## The optimiser side of the controller -/

/-- The data members of the class `Controller` of `driver.h` that drive the
optimiser. The control modules, which the optimiser never reads, are in
`ControllerModules`, and the model file is left out; `currentParticle` is the
index of the particle. -/
structure Controller where
  is_training : Bool := true
  pso : PSO
  currentParticle : Nat := 0
  objective : List ℚ := []

/-- The random sources of `Controller::initialize()`: for particle `i`, the
sources of its `initialize(lbs, ubs)`. -/
abbrev InitSources := Nat → (ℕ → ℚ) × (ℕ → ℚ)

/-- The method `Controller::initialize()` as far as the optimiser is concerned:
`lbs` and `ubs` are the bounds the modules give, `g` the sources of `next()`. -/
def Controller.initialize (c : Controller) (lbs ubs : VectorXd) (gi : InitSources)
    (g : MoveSources) : Controller :=
  let sw : List Particle :=
    forParticles c.pso.n_particles
      (fun i p => Particle.initialize p lbs ubs (gi i).1 (gi i).2) c.pso.swarm
  let r := PSO.next { c.pso with swarm := sw } g
  { c with objective := [], pso := r.2, currentParticle := r.1 }

/-- The optimiser at the moment `Controller::update(objective)` calls `next()`:
after `currentParticle->setEvaluation(objective)` and `pso->update()`. -/
def Controller.beforeNext (c : Controller) (objective : ℚ) : Option PSO :=
  match Particle.setEvaluation c.pso.swarm c.currentParticle objective with
  | none => none
  | some sw => some (PSO.update { c.pso with swarm := sw })

/-- The method `Controller::update(objective)` as far as the optimiser is
concerned; `g` gives the sources of `next()`. -/
def Controller.update (c : Controller) (objective : ℚ) (g : MoveSources) : Option Controller :=
  let c1 : Controller := { c with objective := c.objective ++ [objective] }
  if c1.is_training then
    match c1.beforeNext objective with
    | none => none
    | some s =>
      let r := s.next g
      some { c1 with pso := r.2, currentParticle := r.1 }
  else some c1

/-- The controller after `Controller::update` has been called once for each
received fitness, in the order of the list. -/
def Controller.updates : Controller → List (ℚ × MoveSources) → Option Controller
  | c, [] => some c
  | c, fg :: rest =>
    match c.update fg.1 fg.2 with
    | none => none
    | some c1 => Controller.updates c1 rest

/-- For each received fitness, the particle that received it and the optimiser
at the moment the `next()` of that `Controller::update` was called. -/
def Controller.log : Controller → List (ℚ × MoveSources) → List (Nat × PSO)
  | _, [] => []
  | c, fg :: rest =>
    match c.beforeNext fg.1, c.update fg.1 fg.2 with
    | some s, some c1 => (c.currentParticle, s) :: Controller.log c1 rest
    | _, _ => []

/-- The state of the controller of a swarm of `N` particles, of initial inertia
`w0` and decay `d`, after `q * N + r` of the fitness values `all` have been
received, `r < N`: the counters, the cursor, the inertia and the current
fitness of the particles already evaluated in the current pass. -/
structure ProtocolInv (N : Nat) (w0 d : ℚ) (all : List (ℚ × MoveSources)) (q r : Nat)
    (c : Controller) : Prop where
  training : c.is_training = true
  nparticles : c.pso.n_particles = N
  len : c.pso.swarm.length = N
  valid : NeighboursValid c.pso.swarm
  decay : c.pso.decay = d
  rlt : r < N
  nevals : c.pso.n_evaluations = q * N + r
  niter : c.pso.n_iterations = q
  cursor : c.pso.next_particle_id = (r + 1) % N
  current : c.currentParticle = r
  inertia : c.pso.inertia = w0 * d ^ q
  pinertia : ∀ p ∈ c.pso.swarm, p.inertia = w0 * d ^ q
  evals : ∀ i < r, ∃ p, c.pso.swarm[i]? = some p ∧
    some p.current.eval = (all[q * N + i]?).map Prod.fst

/-- What holds of the log entry of fitness number `a`: it went to particle
`a mod N`; when `a + 1` is a multiple of `N` the `next()` of that call moves every
particle, each particle holding as current fitness the value reported for it in
the pass just completed; otherwise that `next()` leaves the swarm as it is. -/
def LogEntrySpec (N : Nat) (all : List (ℚ × MoveSources)) (a : Nat) (entry : Nat × PSO) : Prop :=
  entry.1 = a % N ∧
    ((a + 1) % N = 0 →
      (∀ g, (entry.2.next g).2.swarm = movedSwarm entry.2 g) ∧
        ∀ i < N, ∃ p, entry.2.swarm[i]? = some p ∧
          some p.current.eval = (all[a + 1 - N + i]?).map Prod.fst) ∧
    ((a + 1) % N ≠ 0 → ∀ g, (entry.2.next g).2.swarm = entry.2.swarm)

/-- A controller in training mode on a ring of two particles of one dimension,
with the weights the constructor of `Controller` sets. -/
def ringController : Controller :=
  { pso := PSO.setInertia (PSO.setPhi2 (PSO.setPhi1
      ((PSO.ctorTopology MAXIMIZE 2 1 TOPOLOGY_RING).getD {}) (187 / 100)) (124 / 100))
      (85 / 100) }

/-- The controller `ringController` once `Controller::initialize()` has run with
the bounds `[0, 10]`: particle 0 at 2, particle 1 at 8. -/
def ringControllerStart : Controller :=
  Controller.initialize ringController [0] [10]
    (fun i => if i = 0 then (fun _ => -3 / 5, fun _ => 0) else (fun _ => 3 / 5, fun _ => 0))
    (fun _ => (fun _ => 0, fun _ => 0))

/-- Three fitness values, 5, 9 and 7, with the sources of the `next()` that
follows each. -/
def threeFitnessValues : List (ℚ × MoveSources) :=
  [(5, fun _ => (fun _ => 0, fun _ => 0)), (9, fun _ => (fun _ => 0, fun _ => 0)),
    (7, fun _ => (fun _ => 0, fun _ => 0))]

/-! ## Notions used by the statements on topologies -/

/-- The particle with the pointers `extra` appended to its neighbour list. -/
def withNeighbours (p : Particle) (extra : List Nat) : Particle :=
  { p with neighbours := p.neighbours ++ extra }

/-- The optimiser as `PSO::initialize` has it when it calls the topology method:
`n` freshly constructed particles, without neighbours. -/
def freshSwarm (n : Nat) (task : Int) (n_dim : Nat) (topology : Int) : PSO :=
  { n_particles := n, topology := topology, n_dim := n_dim,
    swarm := List.replicate n (Particle.ctor task n_dim 1 1 1) }

/-! ## Concrete swarms for the topologies -/

/-- The ring of three particles of one dimension the constructor builds. -/
def ringOfThree : PSO := (PSO.ctorTopology MAXIMIZE 3 1 TOPOLOGY_RING).getD {}

/-- The swarm of a single particle of one dimension the constructor builds with
the given topology, the particle then being initialised at 2 with the bounds
`[0, 10]`. -/
def singleParticle (topology : Int) : PSO :=
  ((PSO.ctorTopology MAXIMIZE 1 1 topology).bind
    (fun s => s.run [Call.initialise 0 [0] [10] (fun _ => -3 / 5) (fun _ => 0)])).getD {}

/-! ## Notions used by the statements on the neighbourhood best -/

/-- Solution `r` is entry `m` of `l`, no entry of `l` has a greater fitness and
every entry after it has a smaller one: the last entry of maximal fitness. -/
def IsLastMax (l : List Solution) (m : Nat) (r : Solution) : Prop :=
  l[m]? = some r ∧ (∀ (j : Nat) (q : Solution), l[j]? = some q → q.eval ≤ r.eval) ∧
    (∀ (j : Nat) (q : Solution), m < j → l[j]? = some q → q.eval < r.eval)

/-- The ergodic swarm of three particles of one dimension the constructor
builds. -/
def ergodicOfThree : PSO := (PSO.ctorTopology MAXIMIZE 3 1 TOPOLOGY_ERGODIC).getD {}

/-- The three particles are initialised at 2, 5 and 8 with the bounds `[0, 10]`,
then particles 1 and 2 are both evaluated to 7. -/
def ergodicTieCalls : List Call :=
  [ Call.initialise 0 [0] [10] (fun _ => -3 / 5) (fun _ => 0),
    Call.initialise 1 [0] [10] (fun _ => 0) (fun _ => 0),
    Call.initialise 2 [0] [10] (fun _ => 3 / 5) (fun _ => 0),
    Call.setEvaluation 1 7,
    Call.setEvaluation 2 7 ]

/-- The ergodic swarm of three particles after `ergodicTieCalls`. -/
def ergodicTie : PSO := (ergodicOfThree.run ergodicTieCalls).getD {}

/-- Particle 0 of `ergodicTie`. -/
def ergodicTieParticle0 : Particle :=
  (ergodicTie.swarm[0]?).getD (Particle.ctor MAXIMIZE 1 1 1 1)

/-! ## Notions used by the statement on the fitness of the bests -/

/-- The fitness values passed to `setEvaluation` in a sequence of calls, in the
order of the calls. -/
def evaluationsPassed : List Call → List ℚ
  | [] => []
  | Call.setEvaluation _ f :: cs => f :: evaluationsPassed cs
  | _ :: cs => evaluationsPassed cs

/-- A fitness that is the initial `-DBL_MAX` or one of the values `A`. -/
def Allowed (A : List ℚ) (v : ℚ) : Prop := v = -DBL_MAX ∨ v ∈ A

/-- The personal best and the neighbourhood best of every particle of the list
have an allowed fitness. -/
def SwarmBests (A : List ℚ) (sw : List Particle) : Prop :=
  ∀ p ∈ sw, Allowed A p.pbest.eval ∧ Allowed A p.gbest.eval

/-- The state after `ergodicTieCalls`, one `update()`, a move of particle 0 and
a dispatch. -/
def ergodicTieLater : PSO :=
  (ergodicTie.run [Call.update, Call.move 0 (fun _ => 0) (fun _ => 0),
    Call.next (fun _ => (fun _ => 0, fun _ => 0))]).getD {}

/-! ## Notions used by the statement on the size of the swarm -/

/-- The identifiers of the particles returned by `n` successive calls of
`PSO::next()`, the first call first. -/
def dispatched (g : MoveSources) : Nat → PSO → List Nat
  | 0, _ => []
  | n + 1, s => (s.next g).1 :: dispatched g n (s.next g).2

/-- The optimiser built by `Controller::Controller()` for `n_parameters`
parameters: `new PSO(MAXIMIZE, 50, n_parameters)`, then `setPhi1(1.87)`,
`setPhi2(1.24)` and `setInertia(0.85)`. -/
def controllerPSO (n_parameters : Nat) : Option PSO :=
  (PSO.ctor MAXIMIZE 50 n_parameters).map
    (fun s => ((s.setPhi1 (187 / 100)).setPhi2 (124 / 100)).setInertia (85 / 100))

/-! ## Segments and matrices

Sizes, offsets and loop counters are natural numbers: the `int` and `size_t`
variables of the source hold them exactly as long as a network has fewer than
`2 ^ 31` parameters. An access outside a vector or a matrix, an assignment
between blocks of different sizes and a failed `assert` give `none`. -/

/-- The coefficient read `v[i]`. -/
def VectorXd.coeff (v : VectorXd) (i : Nat) : Option ℚ := v[i]?

/-- The coefficient write `v[i] = x`. -/
def VectorXd.setCoeff (v : VectorXd) (i : Nat) (x : ℚ) : Option VectorXd :=
  if i < v.length then some (v.set i x) else none

/-- The block read `v.segment(start, n)`. -/
def VectorXd.segment (v : VectorXd) (start n : Nat) : Option VectorXd :=
  if start + n ≤ v.length then some ((v.drop start).take n) else none

/-- The block write `v.segment(start, n) = rhs`. -/
def VectorXd.setSegment (v : VectorXd) (start n : Nat) (rhs : VectorXd) : Option VectorXd :=
  if start + n ≤ v.length ∧ rhs.length = n then
    some (v.take start ++ rhs ++ v.drop (start + n))
  else none

/-- An `Eigen::MatrixXd`: its dimensions and its lines, `coeff[i]` being line
`i`. -/
structure MatrixXd where
  rows : Nat
  cols : Nat
  coeff : List VectorXd
  deriving DecidableEq

/-- The matrix `Eigen::MatrixXd::Zero(rows, cols)`. -/
def MatrixXd.Zero (rows cols : Nat) : MatrixXd :=
  { rows := rows, cols := cols, coeff := List.replicate rows (VectorXd.Zero cols) }

/-- The line read `A.row(i)`. -/
def MatrixXd.row (A : MatrixXd) (i : Nat) : Option VectorXd :=
  if i < A.rows then A.coeff[i]? else none

/-- The line write `A.row(i) = rhs`. -/
def MatrixXd.setRow (A : MatrixXd) (i : Nat) (rhs : VectorXd) : Option MatrixXd :=
  if i < A.rows ∧ i < A.coeff.length ∧ rhs.length = A.cols then
    some { A with coeff := A.coeff.set i rhs }
  else none

/-- The coefficient `A(i, j)`, zero outside the matrix. -/
def MatrixXd.at (A : MatrixXd) (i j : Nat) : ℚ := (A.coeff.getD i []).getD j 0

/-- The product `A.transpose() * v`. -/
def MatrixXd.transposeMul (A : MatrixXd) (v : VectorXd) : Option VectorXd :=
  if v.length = A.rows then
    some ((List.range A.cols).map
      (fun j => ((List.range A.rows).map (fun i => A.at i j * v.getD i 0)).sum))
  else none

/-- The compound assignment `v += w`. -/
def VectorXd.addAssign (v w : VectorXd) : Option VectorXd :=
  if v.length = w.length then some (v.add w) else none

/-- The lines of a matrix have the length and the number its dimensions say. -/
def MatrixXd.WF (A : MatrixXd) : Prop :=
  A.coeff.length = A.rows ∧ ∀ r ∈ A.coeff, r.length = A.cols

instance (A : MatrixXd) : Decidable A.WF := by
  unfold MatrixXd.WF
  infer_instance

/-! ## Activation functions -/

/-- The code `ACTIVATION_SIGMOID` of `utils.h`. -/
def ACTIVATION_SIGMOID : Int := 0

/-- The code `ACTIVATION_TANH` of `utils.h`. -/
def ACTIVATION_TANH : Int := 1

/-- The code `ACTIVATION_RELU` of `utils.h`. -/
def ACTIVATION_RELU : Int := 2

/-- The code `ACTIVATION_CLIPPING` of `utils.h`. -/
def ACTIVATION_CLIPPING : Int := 3

/-- The function `inplaceTanh(X)`; `std::tanh` is the argument `tanh`. -/
def inplaceTanh (tanh : ℚ → ℚ) (X : VectorXd) : VectorXd := X.map tanh

/-- The function `inplaceSigmoid(X)`; `std::exp` is the argument `exp`. -/
def inplaceSigmoid (exp : ℚ → ℚ) (X : VectorXd) : VectorXd :=
  X.map (fun x => 1 / (1 + exp (-x)))

/-- The function `inplaceReLU(X)`. -/
def inplaceReLU (X : VectorXd) : VectorXd := X.map (fun x => max 0 x)

/-- The function `inplaceClipping(X)`. -/
def inplaceClipping (X : VectorXd) : VectorXd :=
  X.map (fun x => max 0 (min 1 (x + 1 / 2)))

/-! ## Multi-layer perceptrons -/

/-- The data members of the class `MLP` of `mlp.h`. -/
structure MLP where
  n_inputs : Nat
  use_bias : Bool
  h : List VectorXd
  A : List MatrixXd
  b : List VectorXd
  activations : List Int
  deriving DecidableEq

/-- The constructor `MLP::MLP(n_inputs, use_bias)`. -/
def MLP.ctor (n_inputs : Nat) (use_bias : Bool) : MLP :=
  { n_inputs := n_inputs, use_bias := use_bias, A := [], b := [],
    h := [VectorXd.Zero n_inputs], activations := [] }

/-- The constructor `MLP::MLP(n_inputs)`, with biases. -/
def MLP.ctorBias (n_inputs : Nat) : MLP := MLP.ctor n_inputs true

/-- The method `MLP::addFullyConnectedLayer(n_inputs, n_outputs)`. The vector
`Eigen::VectorXd(n_outputs)` pushed on `h` has indeterminate coefficients until
`forward()` writes it; they are taken as zero. -/
def MLP.addFullyConnectedLayer (m : MLP) (n_inputs n_outputs : Nat) : MLP :=
  { m with
    A := m.A ++ [MatrixXd.Zero n_inputs n_outputs]
    b := if m.use_bias then m.b ++ [VectorXd.Zero n_outputs] else m.b
    h := m.h ++ [VectorXd.Zero n_outputs] }

/-- The method `MLP::addActivation(activation)`. -/
def MLP.addActivation (m : MLP) (activation : Int) : MLP :=
  { m with activations := m.activations ++ [activation] }

/-- One turn of the loop of `MLP::getNumberOfParameters()`, for layer `i`, from
the count `n`. -/
def MLP.countLayer (m : MLP) (n i : Nat) : Option Nat :=
  match m.A[i]? with
  | none => none
  | some Ai =>
    if m.use_bias then
      match m.b[i]? with
      | none => none
      | some bi => some (n + Ai.cols * Ai.rows + bi.length)
    else some (n + Ai.cols * Ai.rows)

/-- The method `MLP::getNumberOfParameters()`. -/
def MLP.getNumberOfParameters (m : MLP) : Option Nat :=
  (List.range m.A.length).foldlM m.countLayer 0

/-- The inner loop of `MLP::getWeights()`: the lines of `A` written into
`weights` from offset `j`. -/
def MLP.storeRows (A : MatrixXd) (j : Nat) (weights : VectorXd) : Option VectorXd :=
  (List.range A.rows).foldlM
    (fun w i =>
      match A.row i with
      | none => none
      | some r => w.setSegment (j + i * A.cols) A.cols r)
    weights

/-- One turn of the outer loop of `MLP::getWeights()`, for layer `k`, from the
vector `weights` and the offset `j`. -/
def MLP.storeLayer (m : MLP) (st : VectorXd × Nat) (k : Nat) : Option (VectorXd × Nat) :=
  match m.A[k]? with
  | none => none
  | some A =>
    match MLP.storeRows A st.2 st.1 with
    | none => none
    | some w =>
      if m.use_bias then
        match m.b[k]? with
        | none => none
        | some bk =>
          match w.setSegment (st.2 + A.rows * A.cols) A.cols bk with
          | none => none
          | some w1 => some (w1, st.2 + A.rows * A.cols + A.cols)
      else some (w, st.2 + A.rows * A.cols)

/-- The method `MLP::getWeights()`. -/
def MLP.getWeights (m : MLP) : Option VectorXd :=
  match m.getNumberOfParameters with
  | none => none
  | some n =>
    match (List.range m.A.length).foldlM m.storeLayer (VectorXd.Zero n, 0) with
    | none => none
    | some st => if st.2 = st.1.length then some st.1 else none

/-- The inner loop of `MLP::setWeights()`: the lines of `A` read from the block
`_A`. -/
def MLP.loadRows (A : MatrixXd) (blockA : VectorXd) : Option MatrixXd :=
  (List.range A.rows).foldlM
    (fun M i =>
      match blockA.segment (i * A.cols) A.cols with
      | none => none
      | some r => M.setRow i r)
    A

/-- One turn of the outer loop of `MLP::setWeights(weights)`, for layer `k`,
from the network `st.1` and the offset `st.2`. -/
def MLP.loadLayer (weights : VectorXd) (st : MLP × Nat) (k : Nat) : Option (MLP × Nat) :=
  match st.1.A[k]? with
  | none => none
  | some A =>
    match weights.segment st.2 (A.rows * A.cols) with
    | none => none
    | some blockA =>
      match MLP.loadRows A blockA with
      | none => none
      | some A1 =>
        let m1 : MLP := { st.1 with A := st.1.A.set k A1 }
        if m1.use_bias then
          match weights.segment (st.2 + A.rows * A.cols) A.cols with
          | none => none
          | some bk =>
            if k < m1.b.length then
              some ({ m1 with b := m1.b.set k bk }, st.2 + A.rows * A.cols + A.cols)
            else none
        else some (m1, st.2 + A.rows * A.cols)

/-- The method `MLP::setWeights(weights)`. -/
def MLP.setWeights (m : MLP) (weights : VectorXd) : Option MLP :=
  match (List.range m.A.length).foldlM (MLP.loadLayer weights) (m, 0) with
  | none => none
  | some st => if st.2 = weights.length then some st.1 else none

/-- The `switch` of `MLP::forward()` on the activation code. -/
def MLP.activate (exp tanh : ℚ → ℚ) (activation : Int) (X : VectorXd) : VectorXd :=
  if activation = ACTIVATION_SIGMOID then inplaceSigmoid exp X
  else if activation = ACTIVATION_TANH then inplaceTanh tanh X
  else if activation = ACTIVATION_RELU then inplaceReLU X
  else if activation = ACTIVATION_CLIPPING then inplaceClipping X
  else inplaceSigmoid exp X

/-- The activation step of `MLP::forward()` for layer `k`: the `switch` when
`k < activations.size()`, nothing otherwise. -/
def MLP.activateLayer (exp tanh : ℚ → ℚ) (activations : List Int) (k : Nat) (X : VectorXd) :
    VectorXd :=
  match activations[k]? with
  | some a => MLP.activate exp tanh a X
  | none => X

/-- One turn of the loop of `MLP::forward()`, for layer `k`. -/
def MLP.forwardLayer (exp tanh : ℚ → ℚ) (m : MLP) (k : Nat) : Option MLP :=
  match m.A[k]?, m.h[k]? with
  | some A, some hk =>
    match A.transposeMul hk with
    | none => none
    | some lin =>
      let biased : Option VectorXd :=
        if m.use_bias then
          match m.b[k]? with
          | none => none
          | some bk => lin.addAssign bk
        else some lin
      match biased with
      | none => none
      | some v =>
        let out : VectorXd := MLP.activateLayer exp tanh m.activations k v
        if k + 1 < m.h.length then some { m with h := m.h.set (k + 1) out } else none
  | _, _ => none

/-- The method `MLP::forward()`; `std::exp` and `std::tanh` are the arguments
`exp` and `tanh`. -/
def MLP.forward (m : MLP) (exp tanh : ℚ → ℚ) : Option MLP :=
  (List.range m.A.length).foldlM (MLP.forwardLayer exp tanh) m

/-- The accessor `MLP::in(i)` used as `in(i) = x`. -/
def MLP.setIn (m : MLP) (i : Nat) (x : ℚ) : Option MLP :=
  match m.h[0]? with
  | none => none
  | some h0 =>
    match h0.setCoeff i x with
    | none => none
    | some h1 => some { m with h := m.h.set 0 h1 }

/-- The accessor `MLP::out()`. -/
def MLP.out (m : MLP) : Option VectorXd := m.h[m.h.length - 1]?

/-! ## Notions used by the statements on networks -/

/-- The network after `MLP(n_inputs, use_bias)` and the calls
`addFullyConnectedLayer(rows, cols)` for the pairs of `layers` in order. -/
def MLP.build (n_inputs : Nat) (use_bias : Bool) (layers : List (Nat × Nat)) : MLP :=
  layers.foldl (fun m l => m.addFullyConnectedLayer l.1 l.2) (MLP.ctor n_inputs use_bias)

/-- The sum over the layers of `rows * cols`, plus `cols` per layer with
biases. -/
def parameterCount (use_bias : Bool) (layers : List (Nat × Nat)) : Nat :=
  (layers.map (fun l => l.1 * l.2 + if use_bias then l.2 else 0)).sum

/-- The network of `TargetSpeedModule::TargetSpeedModule()`. -/
def targetSpeedMLP : MLP :=
  (((((MLP.ctorBias 7).addFullyConnectedLayer 7 7).addActivation ACTIVATION_TANH).addFullyConnectedLayer
    7 7).addActivation ACTIVATION_TANH).addFullyConnectedLayer 7 1 |>.addActivation
      ACTIVATION_CLIPPING

/-- One layer with the 2 x 2 identity as weights, no bias and the clipping
activation, holding `[3/10, -2/10]` as input. -/
def identityLayer : MLP :=
  { n_inputs := 2, use_bias := false, h := [[3 / 10, -2 / 10], [0, 0]],
    A := [{ rows := 2, cols := 2, coeff := [[1, 0], [0, 1]] }], b := [],
    activations := [ACTIVATION_CLIPPING] }
instance : Inhabited MatrixXd := ⟨MatrixXd.Zero 0 0⟩

/-- The block of layer `k` in the serialisation the specification describes: the
weight matrix line by line, then the biases when the network has them. -/
def MLP.layerBlock (m : MLP) (k : Nat) : VectorXd :=
  (m.A.getD k default).coeff.flatten ++ (if m.use_bias then m.b.getD k [] else [])

/-- The serialisation the specification describes: the blocks of the layers in
construction order. -/
def MLP.specWeights (m : MLP) : VectorXd :=
  ((List.range m.A.length).map m.layerBlock).flatten

/-- The offset of the block of layer `k` in the serialisation. -/
def MLP.blockOffset (m : MLP) (k : Nat) : Nat :=
  ((List.range k).map (fun l => (m.layerBlock l).length)).sum

/-- The shape of a network that its construction gives and `setWeights` keeps:
every matrix has the lines its dimensions say and, with biases, every layer has
a bias vector as long as its matrix is wide. -/
def MLP.Shaped (m : MLP) : Prop :=
  (∀ A ∈ m.A, A.WF) ∧
    (m.use_bias = true →
      m.b.length = m.A.length ∧
        ∀ k < m.A.length, (m.b.getD k []).length = (m.A.getD k default).cols)

instance (m : MLP) : Decidable m.Shaped := by
  unfold MLP.Shaped
  infer_instance

/-- A network with biases and the layers 2 x 3 and 3 x 1, after `setWeights` on
the numbers 0 to 12. -/
def twoLayerCounting : MLP :=
  ((MLP.build 2 true [(2, 3), (3, 1)]).setWeights
    ((List.range 13).map (fun i => (i : ℚ)))).getD (MLP.ctor 0 true)

/-! ## Notions used by the statement on the round trip of the weights -/

/-- The matrix `A` once its lines are read from `w`, line `i` at offset
`off + i * cols`. -/
def MLP.loadedMatrix (w : VectorXd) (off : Nat) (A : MatrixXd) : MatrixXd :=
  { A with coeff := (List.range A.rows).map (fun i => (w.drop (off + i * A.cols)).take A.cols) }

/-- The network once its first `n` layers are read from `w`, the block of layer
`k` at offset `blockOffset k`. -/
def MLP.loadedUpTo (m : MLP) (w : VectorXd) (n : Nat) : MLP :=
  { m with
    A := m.A.mapIdx (fun k A => if k < n then MLP.loadedMatrix w (m.blockOffset k) A else A)
    b := if m.use_bias then
        m.b.mapIdx (fun k v =>
          if k < n then
            (w.drop (m.blockOffset k + (m.A.getD k default).rows * (m.A.getD k default).cols)).take
              (m.A.getD k default).cols
          else v)
      else m.b }

/-! ## Notions used by the statement on the forward pass -/

/-- The activation of layer `k` as the specification states it: the
clipped-shift activation `clamp(x + 0.5, 0, 1)`, the rectified-linear activation
`max(0, x)`, the hyperbolic tangent and the sigmoid, coefficient by coefficient;
the identity for a layer without activation. -/
def specActivation (exp tanh : ℚ → ℚ) (activations : List Int) (k : Nat) (v : VectorXd) :
    VectorXd :=
  match activations[k]? with
  | none => v
  | some a =>
    if a = ACTIVATION_CLIPPING then v.map (fun x => clip (x + 1 / 2) 0 1)
    else if a = ACTIVATION_RELU then v.map (fun x => max 0 x)
    else if a = ACTIVATION_TANH then v.map tanh
    else v.map (fun x => 1 / (1 + exp (-x)))

/-- The product `Aᵀ · v` of the specification: coefficient `j` is the sum over
`i` of `A(i, j) * v[i]`. -/
def specTransposeMul (A : MatrixXd) (v : VectorXd) : VectorXd :=
  (List.range A.cols).map (fun j => ((List.range A.rows).map (fun i => A.at i j * v.getD i 0)).sum)

/-- The output of layer `k` as the specification states it:
`activation_k(A_kᵀ · h[k] + b_k)`, without the term `b_k` when the network has
no biases. -/
def specLayer (exp tanh : ℚ → ℚ) (m : MLP) (k : Nat) (hk : VectorXd) : VectorXd :=
  let lin := specTransposeMul (m.A.getD k default) hk
  specActivation exp tanh m.activations k
    (if m.use_bias then List.zipWith (fun s t => s + t) lin (m.b.getD k []) else lin)

/-- The network after the first `n` layers of a forward pass, each layer
computed as the specification states it from the output of the layer before. -/
def forwardUpTo (exp tanh : ℚ → ℚ) (m : MLP) : Nat → MLP
  | 0 => m
  | n + 1 =>
    { forwardUpTo exp tanh m n with
      h := (forwardUpTo exp tanh m n).h.set (n + 1)
        (specLayer exp tanh m n ((forwardUpTo exp tanh m n).h.getD n [])) }

/-- The dimensions of a network on which a forward pass is defined: `h` has one
vector more than there are layers, the input is as long as the first matrix is
high, every matrix is as wide as the next one is high and, with biases, every
layer has a bias vector as long as its matrix is wide. -/
def MLP.Chained (m : MLP) : Prop :=
  m.h.length = m.A.length + 1 ∧
    (0 < m.A.length → (m.h.getD 0 []).length = (m.A.getD 0 default).rows) ∧
    (∀ k < m.A.length - 1, (m.A.getD k default).cols = (m.A.getD (k + 1) default).rows) ∧
    (m.use_bias = true →
      m.b.length = m.A.length ∧
        ∀ k < m.A.length, (m.b.getD k []).length = (m.A.getD k default).cols)

instance (m : MLP) : Decidable m.Chained := by
  unfold MLP.Chained
  infer_instance

/-! ## The modules of the controller

The five classes derived from `Module` (`module.h`). Their loops over a vector
or an array are instances of `assignLoop`. -/

/-- The loop `for (int i = lo; i < hi; i++) dst[i - off] = value(i);`, where
reading `value(i)` or writing `dst[i - off]` may be out of range. -/
def assignLoop (lo hi off : Nat) (value : Nat → Option ℚ) (dst : VectorXd) : Option VectorXd :=
  (List.range' lo (hi - lo)).foldlM
    (fun d i =>
      match value i with
      | none => none
      | some x => VectorXd.setCoeff d (i - off) x)
    dst

/-- The data member of the class `AccelBrakeModule`. -/
structure AccelBrakeModule where
  threshold : ℚ
  deriving DecidableEq

/-- The constant `AccelBrakeModule::threshold_lb`. -/
def AccelBrakeModule.threshold_lb : ℚ := 1

/-- The constant `AccelBrakeModule::threshold_ub`. -/
def AccelBrakeModule.threshold_ub : ℚ := 2

/-- The method `AccelBrakeModule::getNumberOfParameters()`. -/
def AccelBrakeModule.getNumberOfParameters (_m : AccelBrakeModule) : Nat := 1

/-- The method `AccelBrakeModule::getLowerBounds()`. -/
def AccelBrakeModule.getLowerBounds (_m : AccelBrakeModule) : Option VectorXd :=
  (VectorXd.Zero 1).setCoeff 0 AccelBrakeModule.threshold_lb

/-- The method `AccelBrakeModule::getUpperBounds()`. -/
def AccelBrakeModule.getUpperBounds (_m : AccelBrakeModule) : Option VectorXd :=
  (VectorXd.Zero 1).setCoeff 0 AccelBrakeModule.threshold_ub

/-- The method `AccelBrakeModule::getParameters()`. -/
def AccelBrakeModule.getParameters (m : AccelBrakeModule) : Option VectorXd :=
  (VectorXd.Zero 1).setCoeff 0 m.threshold

/-- The method `AccelBrakeModule::setParameters(parameters)`. -/
def AccelBrakeModule.setParameters (_m : AccelBrakeModule) (parameters : VectorXd) :
    Option AccelBrakeModule :=
  match parameters.coeff 0 with
  | none => none
  | some x => some { threshold := x }

/-- The data members of the class `GearModule`, with their default member
initialisers. -/
structure GearModule where
  GI : List Int := [8000, 8000, 8000, 8000, 8000, 0]
  GD : List Int := [0, 2500, 3000, 3000, 3500, 3500]
  stuck : Nat := 0
  getting_unstuck : Bool := false
  deriving DecidableEq

/-- The constructor `GearModule::GearModule()`. -/
def GearModule.ctor : GearModule := { stuck := 0, getting_unstuck := false }

/-- The method `GearModule::getNumberOfParameters()`. -/
def GearModule.getNumberOfParameters (_m : GearModule) : Nat := 12

/-- The method `GearModule::getLowerBounds()`. -/
def GearModule.getLowerBounds (_m : GearModule) : Option VectorXd :=
  match assignLoop 0 6 0 (fun _ => some 3000) (VectorXd.Zero 12) with
  | none => none
  | some lbs => assignLoop 6 12 0 (fun _ => some 1000) lbs

/-- The method `GearModule::getUpperBounds()`. -/
def GearModule.getUpperBounds (_m : GearModule) : Option VectorXd :=
  match assignLoop 0 6 0 (fun _ => some 8000) (VectorXd.Zero 12) with
  | none => none
  | some ubs => assignLoop 6 12 0 (fun _ => some 4000) ubs

/-- The two loops shared by `GearModule::getParameters()` and
`GearModule::setParameters(parameters)`: `parameters[i] = GI[i]` for `i` from 0
to 5, then `parameters[i] = GD[i - 6]` for `i` from 6 to 11. -/
def GearModule.writeThresholds (m : GearModule) (parameters : VectorXd) : Option VectorXd :=
  match assignLoop 0 6 0 (fun i => (m.GI[i]?).map (fun (t : Int) => (t : ℚ))) parameters with
  | none => none
  | some p => assignLoop 6 12 0 (fun i => (m.GD[i - 6]?).map (fun (t : Int) => (t : ℚ))) p

/-- The method `GearModule::getParameters()`. -/
def GearModule.getParameters (m : GearModule) : Option VectorXd :=
  m.writeThresholds (VectorXd.Zero 12)

/-- The method `GearModule::setParameters(parameters)`: its two loops assign
the thresholds to the coefficients of its argument, a copy of the vector of the
caller, and leave the module as it is. -/
def GearModule.setParameters (m : GearModule) (parameters : VectorXd) : Option GearModule :=
  match m.writeThresholds parameters with
  | none => none
  | some _ => some m

/-- The data members of the class `OpponentsModule`, with their default member
initialisers. -/
structure OpponentsModule where
  tol_brake : List ℚ := [6, 65 / 10, 7, 75 / 10, 8]
  tol_overtake : List ℚ := [10, 12, 14, 16, 18, 20]
  inc_overtake : List ℚ := [10 / 100, 12 / 100, 14 / 100, 16 / 100, 18 / 100, 20 / 100]
  deriving DecidableEq

/-- The method `OpponentsModule::getNumberOfParameters()`. -/
def OpponentsModule.getNumberOfParameters (_m : OpponentsModule) : Nat := 17

/-- The method `OpponentsModule::getLowerBounds()`. -/
def OpponentsModule.getLowerBounds (_m : OpponentsModule) : Option VectorXd :=
  some (VectorXd.Zero 17)

/-- The method `OpponentsModule::getUpperBounds()`. -/
def OpponentsModule.getUpperBounds (_m : OpponentsModule) : Option VectorXd :=
  match assignLoop 0 11 0 (fun _ => some 20) (VectorXd.Zero 17) with
  | none => none
  | some ubs => assignLoop 11 17 0 (fun _ => some (30 / 100)) ubs

/-- The method `OpponentsModule::getParameters()`, whose vector is
`Eigen::VectorXd::Zero(12)`. -/
def OpponentsModule.getParameters (m : OpponentsModule) : Option VectorXd :=
  match assignLoop 0 5 0 (fun i => m.tol_brake[i]?) (VectorXd.Zero 12) with
  | none => none
  | some p1 =>
    match assignLoop 5 11 0 (fun i => m.tol_overtake[i - 5]?) p1 with
    | none => none
    | some p2 => assignLoop 11 17 0 (fun i => m.inc_overtake[i - 11]?) p2

/-- The method `OpponentsModule::setParameters(parameters)`. -/
def OpponentsModule.setParameters (m : OpponentsModule) (parameters : VectorXd) :
    Option OpponentsModule :=
  match assignLoop 0 5 0 (fun i => parameters[i]?) m.tol_brake with
  | none => none
  | some tb =>
    match assignLoop 5 11 5 (fun i => parameters[i]?) m.tol_overtake with
    | none => none
    | some tov =>
      match assignLoop 11 17 11 (fun i => parameters[i]?) m.inc_overtake with
      | none => none
      | some io => some { tol_brake := tb, tol_overtake := tov, inc_overtake := io }

/-- The data member of the class `SteeringControlModule`. -/
structure SteeringControlModule where
  weights : VectorXd
  deriving DecidableEq

/-- The constructor `SteeringControlModule::SteeringControlModule()`. -/
def SteeringControlModule.ctor : SteeringControlModule := { weights := VectorXd.Zero 9 }

/-- The method `SteeringControlModule::getNumberOfParameters()`. -/
def SteeringControlModule.getNumberOfParameters (_m : SteeringControlModule) : Nat := 9

/-- The method `SteeringControlModule::getLowerBounds()`; the loop variable `i`
of the source, from -4 to 4, is `t - 4`. -/
def SteeringControlModule.getLowerBounds (_m : SteeringControlModule) : Option VectorXd :=
  assignLoop 0 9 0 (fun t => some ((((t : ℚ) - 4) * (1 / 2)) - 1 / 2)) (VectorXd.Zero 9)

/-- The method `SteeringControlModule::getUpperBounds()`; the loop variable `i`
of the source, from -4 to 4, is `t - 4`. -/
def SteeringControlModule.getUpperBounds (_m : SteeringControlModule) : Option VectorXd :=
  assignLoop 0 9 0 (fun t => some ((((t : ℚ) - 4) * (1 / 2)) + 1 / 2)) (VectorXd.Zero 9)

/-- The method `SteeringControlModule::getParameters()`. -/
def SteeringControlModule.getParameters (m : SteeringControlModule) : VectorXd := m.weights

/-- The method `SteeringControlModule::setParameters(parameters)`. -/
def SteeringControlModule.setParameters (_m : SteeringControlModule) (parameters : VectorXd) :
    SteeringControlModule :=
  { weights := parameters }

/-- The data members of the class `TargetSpeedModule`. -/
structure TargetSpeedModule where
  mlp : MLP
  min_speed : ℚ
  max_speed : ℚ
  deriving DecidableEq

/-- The constructor `TargetSpeedModule::TargetSpeedModule()`. It leaves
`min_speed` and `max_speed` indeterminate: they are the arguments. -/
def TargetSpeedModule.ctor (min_speed max_speed : ℚ) : TargetSpeedModule :=
  { mlp := targetSpeedMLP, min_speed := min_speed, max_speed := max_speed }

/-- The method `TargetSpeedModule::getNumberOfParameters()`. -/
def TargetSpeedModule.getNumberOfParameters (m : TargetSpeedModule) : Option Nat :=
  match m.mlp.getNumberOfParameters with
  | none => none
  | some n => some (n + 2)

/-- The body shared by `TargetSpeedModule::getLowerBounds()` and
`getUpperBounds()`: `weight` for the weights of the network, then the bounds of
the two speeds. -/
def TargetSpeedModule.bounds (m : TargetSpeedModule) (weight speed_min speed_max : ℚ) :
    Option VectorXd :=
  match m.mlp.getNumberOfParameters with
  | none => none
  | some n =>
    match assignLoop 0 n 0 (fun _ => some weight) (VectorXd.Zero (n + 2)) with
    | none => none
    | some v =>
      match v.setCoeff n speed_min with
      | none => none
      | some v1 => v1.setCoeff (n + 1) speed_max

/-- The method `TargetSpeedModule::getLowerBounds()`; `xavier` is the double
`std::sqrt(6.0 / (14.0 * 14.0))`. -/
def TargetSpeedModule.getLowerBounds (m : TargetSpeedModule) (xavier : ℚ) : Option VectorXd :=
  m.bounds (-xavier) 0 100

/-- The method `TargetSpeedModule::getUpperBounds()`; `xavier` is the double
`std::sqrt(6.0 / (14.0 * 14.0))`. -/
def TargetSpeedModule.getUpperBounds (m : TargetSpeedModule) (xavier : ℚ) : Option VectorXd :=
  m.bounds xavier 70 350

/-- The method `TargetSpeedModule::getParameters()`. -/
def TargetSpeedModule.getParameters (m : TargetSpeedModule) : Option VectorXd :=
  match m.mlp.getNumberOfParameters with
  | none => none
  | some n =>
    match m.mlp.getWeights with
    | none => none
    | some weights =>
      match assignLoop 0 n 0 (fun i => weights[i]?) (VectorXd.Zero (n + 2)) with
      | none => none
      | some p =>
        match p.setCoeff n m.min_speed with
        | none => none
        | some p1 => p1.setCoeff (n + 1) m.max_speed

/-- The method `TargetSpeedModule::setParameters(parameters)`. -/
def TargetSpeedModule.setParameters (m : TargetSpeedModule) (parameters : VectorXd) :
    Option TargetSpeedModule :=
  match m.mlp.getNumberOfParameters with
  | none => none
  | some n =>
    match assignLoop 0 n 0 (fun i => parameters[i]?) (VectorXd.Zero n) with
    | none => none
    | some weights =>
      match m.mlp.setWeights weights with
      | none => none
      | some mlp1 =>
        match parameters.coeff n, parameters.coeff (n + 1) with
        | some lo, some hi => some { mlp := mlp1, min_speed := lo, max_speed := hi }
        | _, _ => none

/-! ## The modules inside the controller -/

/-- The data members of the class `Controller` of `driver.h` that hold the
modules and the number of parameters. -/
structure ControllerModules where
  gear_module : GearModule
  target_speed_module : TargetSpeedModule
  accelbrake_module : AccelBrakeModule
  steering_module : SteeringControlModule
  opponents_module : OpponentsModule
  n_parameters : Nat
  deriving DecidableEq

/-- The first statements of `Controller::Controller()`: the modules are
default-constructed and `n_parameters` is the sum of their numbers of
parameters. The three indeterminate members of the modules are arguments. -/
def Controller.ctorModules (threshold min_speed max_speed : ℚ) : Option ControllerModules :=
  let gear_module := GearModule.ctor
  let target_speed_module := TargetSpeedModule.ctor min_speed max_speed
  let accelbrake_module : AccelBrakeModule := { threshold := threshold }
  let steering_module := SteeringControlModule.ctor
  let opponents_module : OpponentsModule := {}
  match target_speed_module.getNumberOfParameters with
  | none => none
  | some n =>
    some
      { gear_module := gear_module, target_speed_module := target_speed_module,
        accelbrake_module := accelbrake_module, steering_module := steering_module,
        opponents_module := opponents_module,
        n_parameters := 0 + accelbrake_module.getNumberOfParameters +
          gear_module.getNumberOfParameters + opponents_module.getNumberOfParameters +
          steering_module.getNumberOfParameters + n }

/-- One stanza of a getter of the controller: `n = module.getNumberOfParameters();`
and `v.segment(j, n) = module.get...();`, from the vector `v` and the offset
`j`; the offset returned is `j + n`, the value of `j` in the next stanza. -/
def Controller.place (st : Option (VectorXd × Nat)) (n : Option Nat) (rhs : Option VectorXd) :
    Option (VectorXd × Nat) :=
  match st, n, rhs with
  | some s, some k, some r =>
    match s.1.setSegment s.2 k r with
    | none => none
    | some v => some (v, s.2 + k)
  | _, _, _ => none

/-- The body shared by `Controller::getLowerBounds()`, `getUpperBounds()` and
`getParameters()`, which differ in the getter they call on each module only:
the stanzas of the acceleration and brake module, the gear module, the
opponents module, the steering module and the target speed module, in this
order, each given as the number of parameters and the vector of the module. -/
def Controller.concatenate (n_parameters : Nat)
    (accelbrake gear opponents steering target_speed : Option Nat × Option VectorXd) :
    Option VectorXd :=
  let st0 : Option (VectorXd × Nat) := some (VectorXd.Zero n_parameters, 0)
  let st1 := Controller.place st0 accelbrake.1 accelbrake.2
  let st2 := Controller.place st1 gear.1 gear.2
  let st3 := Controller.place st2 opponents.1 opponents.2
  let st4 := Controller.place st3 steering.1 steering.2
  let st5 := Controller.place st4 target_speed.1 target_speed.2
  st5.map (fun s => s.1)

/-- The method `Controller::getLowerBounds()`. -/
def Controller.getLowerBounds (c : ControllerModules) (xavier : ℚ) : Option VectorXd :=
  Controller.concatenate c.n_parameters
    (some c.accelbrake_module.getNumberOfParameters, c.accelbrake_module.getLowerBounds)
    (some c.gear_module.getNumberOfParameters, c.gear_module.getLowerBounds)
    (some c.opponents_module.getNumberOfParameters, c.opponents_module.getLowerBounds)
    (some c.steering_module.getNumberOfParameters, c.steering_module.getLowerBounds)
    (c.target_speed_module.getNumberOfParameters, c.target_speed_module.getLowerBounds xavier)

/-- The method `Controller::getUpperBounds()`. -/
def Controller.getUpperBounds (c : ControllerModules) (xavier : ℚ) : Option VectorXd :=
  Controller.concatenate c.n_parameters
    (some c.accelbrake_module.getNumberOfParameters, c.accelbrake_module.getUpperBounds)
    (some c.gear_module.getNumberOfParameters, c.gear_module.getUpperBounds)
    (some c.opponents_module.getNumberOfParameters, c.opponents_module.getUpperBounds)
    (some c.steering_module.getNumberOfParameters, c.steering_module.getUpperBounds)
    (c.target_speed_module.getNumberOfParameters, c.target_speed_module.getUpperBounds xavier)

/-- The method `Controller::getParameters()`. -/
def Controller.getParameters (c : ControllerModules) : Option VectorXd :=
  Controller.concatenate c.n_parameters
    (some c.accelbrake_module.getNumberOfParameters, c.accelbrake_module.getParameters)
    (some c.gear_module.getNumberOfParameters, c.gear_module.getParameters)
    (some c.opponents_module.getNumberOfParameters, c.opponents_module.getParameters)
    (some c.steering_module.getNumberOfParameters, some c.steering_module.getParameters)
    (c.target_speed_module.getNumberOfParameters, c.target_speed_module.getParameters)

/-- The method `Controller::setParameters(parameters)`. -/
def Controller.setParameters (c : ControllerModules) (parameters : VectorXd) :
    Option ControllerModules :=
  let j0 := 0
  let n0 := c.accelbrake_module.getNumberOfParameters
  match (parameters.segment j0 n0).bind c.accelbrake_module.setParameters with
  | none => none
  | some accelbrake =>
    let j1 := j0 + n0
    let n1 := c.gear_module.getNumberOfParameters
    match (parameters.segment j1 n1).bind c.gear_module.setParameters with
    | none => none
    | some gear =>
      let j2 := j1 + n1
      let n2 := c.opponents_module.getNumberOfParameters
      match (parameters.segment j2 n2).bind c.opponents_module.setParameters with
      | none => none
      | some opponents =>
        let j3 := j2 + n2
        let n3 := c.steering_module.getNumberOfParameters
        match (parameters.segment j3 n3).map c.steering_module.setParameters with
        | none => none
        | some steering =>
          let j4 := j3 + n3
          match c.target_speed_module.getNumberOfParameters with
          | none => none
          | some n4 =>
            match (parameters.segment j4 n4).bind c.target_speed_module.setParameters with
            | none => none
            | some target_speed =>
              some
                { c with
                  accelbrake_module := accelbrake, gear_module := gear,
                  opponents_module := opponents, steering_module := steering,
                  target_speed_module := target_speed }

/-! ## Concrete modules -/

/-- The modules of a controller just constructed, the indeterminate members
being 0. -/
def freshModules : ControllerModules := (Controller.ctorModules 0 0 0).getD
  { gear_module := {}, target_speed_module := TargetSpeedModule.ctor 0 0,
    accelbrake_module := { threshold := 0 }, steering_module := SteeringControlModule.ctor,
    opponents_module := {}, n_parameters := 0 }

/-! ## Notions used by the statements on the parameters of the modules -/

/-- The arrays of a gear module have their 6 entries. -/
def GearModule.WF (m : GearModule) : Prop := m.GI.length = 6 ∧ m.GD.length = 6

instance (m : GearModule) : Decidable m.WF := by
  unfold GearModule.WF
  infer_instance

/-- The arrays of an opponents module have their 5, 6 and 6 entries. -/
def OpponentsModule.WF (m : OpponentsModule) : Prop :=
  m.tol_brake.length = 5 ∧ m.tol_overtake.length = 6 ∧ m.inc_overtake.length = 6

instance (m : OpponentsModule) : Decidable m.WF := by
  unfold OpponentsModule.WF
  infer_instance

/-- The network of a target speed module has the shape of its construction and
120 parameters. -/
def TargetSpeedModule.WF (m : TargetSpeedModule) : Prop :=
  m.mlp.Shaped ∧ m.mlp.blockOffset m.mlp.A.length = 120

instance (m : TargetSpeedModule) : Decidable m.WF := by
  unfold TargetSpeedModule.WF
  infer_instance

/-- The modules of a controller have the shapes their construction gives, and
`n_parameters` is 161. -/
def ControllerModules.WF (c : ControllerModules) : Prop :=
  c.n_parameters = 161 ∧ c.gear_module.WF ∧ c.opponents_module.WF ∧ c.target_speed_module.WF

instance (c : ControllerModules) : Decidable c.WF := by
  unfold ControllerModules.WF
  infer_instance

/-- The flat vector `r` holds the vector `a` of the acceleration and brake
module at `[0, 1)`, `g` of the gear module at `[1, 13)`, `o` of the opponents
module at `[13, 30)`, `s` of the steering module at `[30, 39)` and `t` of the
target speed module at `[39, 161)`. -/
def LaidOut (r a g o s t : VectorXd) : Prop :=
  r.length = 161 ∧ (r.drop 0).take 1 = a ∧ (r.drop 1).take 12 = g ∧
    (r.drop 13).take 17 = o ∧ (r.drop 30).take 9 = s ∧ (r.drop 39).take 122 = t

instance (r a g o s t : VectorXd) : Decidable (LaidOut r a g o s t) := by
  unfold LaidOut
  infer_instance

/-! ## Notions used by the statements on the bounds -/

/-- The vectors `lo` and `hi` are a box of dimension `n`: both have length `n`
and `lo[i] <= hi[i]` for every index `i`. -/
def IsBox (lo hi : VectorXd) (n : Nat) : Prop :=
  lo.length = n ∧ hi.length = n ∧ List.Forall₂ (fun l u => l ≤ u) lo hi

instance (lo hi : VectorXd) (n : Nat) : Decidable (IsBox lo hi n) := by
  unfold IsBox
  infer_instance

/-! ## The best position and the parameter file -/

/-- The accessor `PSO::getBestPosition()`. -/
def PSO.getBestPosition (s : PSO) : VectorXd := s.global_best.x

/-- The least magnitude that overflows the type `double`: `DBL_MAX` plus half a
unit in its last place, which rounds to an infinity. -/
def DBL_OVERFLOW : ℚ := 2 ^ 1024 - 2 ^ 970

/-- The decimal value is read as a finite `double`. -/
def InDoubleRange (v : ℚ) : Prop := -DBL_OVERFLOW < v ∧ v < DBL_OVERFLOW

instance (v : ℚ) : Decidable (InDoubleRange v) := by
  unfold InDoubleRange
  infer_instance

/-- The state of the input stream `file`: the decimal values still to read and
the `failbit`. -/
structure Ifstream where
  values : List ℚ
  failbit : Bool
  deriving DecidableEq

/-- The extraction `file >> num`. On a stream that has failed nothing is read
and `num` is left as it is. At the end of the file the extraction fails and
leaves `num` as it is. A value that overflows the type `double` is consumed,
stores `DBL_MAX` or `-DBL_MAX` in `num` and sets the `failbit`. Any other value
goes to `num`; its rounding to a `double` is not modelled. The result is the new
`num` and the new state of the stream. -/
def extractDouble (file : Ifstream) (num : ℚ) : ℚ × Ifstream :=
  if file.failbit then (num, file)
  else
    match file.values with
    | [] => (num, { values := [], failbit := true })
    | v :: rest =>
      if DBL_OVERFLOW ≤ v then (DBL_MAX, { values := rest, failbit := true })
      else if v ≤ -DBL_OVERFLOW then (-DBL_MAX, { values := rest, failbit := true })
      else (v, { values := rest, failbit := false })

/-- One turn of the loop of `Controller::loadModel()`: `file >> num;` and
`parameters[i] = num;`, from the vector, the stream and `num`. -/
def Controller.loadValue (st : VectorXd × Ifstream × ℚ) (i : Nat) :
    Option (VectorXd × Ifstream × ℚ) :=
  let r := extractDouble st.2.1 st.2.2
  match st.1.setCoeff i r.1 with
  | none => none
  | some parameters => some (parameters, r.2, r.1)

/-- The method `Controller::loadModel()`. The file is `none` when it cannot be
opened, else the decimal values it holds; `num` is the indeterminate value of
the local variable `num` before the first extraction. The result is `none` when
the method throws or makes an access out of range. -/
def Controller.loadModel (c : Controller) (m : ControllerModules) (file : Option (List ℚ))
    (num : ℚ) : Option ControllerModules :=
  let n := c.pso.n_dim
  let parameters := VectorXd.Zero n
  match file with
  | some values =>
    match (List.range n).foldlM Controller.loadValue
        (parameters, { values := values, failbit := false }, num) with
    | none => none
    | some st => Controller.setParameters m st.1
  | none => none

/-- The values that successive extractions store in `num` until the stream
fails: the values of the file up to the first one that overflows, which is
stored as `DBL_MAX` or `-DBL_MAX`. -/
def delivered : List ℚ → List ℚ
  | [] => []
  | v :: rest =>
    if DBL_OVERFLOW ≤ v then [DBL_MAX]
    else if v ≤ -DBL_OVERFLOW then [-DBL_MAX]
    else v :: delivered rest

/-- The values that successive extractions from the stream still store in
`num`. -/
def Ifstream.pending (file : Ifstream) : List ℚ :=
  if file.failbit then [] else delivered file.values

/-- The state of the stream after `k` extractions. -/
def Ifstream.after (file : Ifstream) : Nat → Ifstream
  | 0 => file
  | k + 1 => (extractDouble (file.after k) 0).2

/-- The value of `num` after `k` extractions that store the values `values`, in
this order, as long as there are any. -/
def numAfter (values : List ℚ) (num : ℚ) (k : Nat) : ℚ := ((values.take k).getLast?).getD num

/-- A controller whose optimiser searches in 161 dimensions. -/
def controller161 : Controller := { pso := { n_dim := 161 } }

/-- A parameter file that holds the 200 values 0, 1, ..., 199. -/
def countingFile : List ℚ := (List.range 200).map (fun (k : Nat) => (k : ℚ))

/-- A parameter file of 161 values whose first value, `2 ^ 1024`, overflows the
type `double`. -/
def overflowingFile : List ℚ := 2 ^ 1024 :: List.replicate 160 1

/-- The ergodic swarm of three particles just constructed, after
`setEvaluation(5)` on particle 0. -/
def ergodicUninitialised : List Particle :=
  (Particle.setEvaluation ergodicOfThree.swarm 0 5).getD []

/-! ## The car state and the control methods of the modules

The `float` members of `CarState` are rational numbers. `std::sqrt` and
`std::exp` are arguments of the methods that call them. A read outside an
array and a division of doubles by zero, whose quotient is infinite or not a
number, give `none`. -/

/-- The constant `M_PI` of `<cmath>`: the double nearest to π. -/
def M_PI : ℚ := 884279719003555 / 281474976710656

/-- The read `a[k]` of an array or vector at an `int` index. -/
def atInt {α : Type} (a : List α) (k : Int) : Option α :=
  if 0 ≤ k then a[k.toNat]? else none

/-- The values of the loop variable of `for (int i = lo; i < hi; i++)`. -/
def intRange (lo hi : Int) : List Int :=
  (List.range (hi - lo).toNat).map (fun t => lo + (t : Int))

/-- The quotient `a / b` of two doubles, `none` when `b` is zero. -/
def divide (a b : ℚ) : Option ℚ := if b = 0 then none else some (a / b)

/-- The members of the class `CarState` of `carstate.h` that the modules read;
`opponents` has 36 entries, `track` 19 and `wheelSpinVel` 4. -/
structure CarState where
  angle : ℚ
  gear : Int
  opponents : List ℚ
  rpm : Int
  speedX : ℚ
  speedY : ℚ
  speedZ : ℚ
  track : List ℚ
  trackPos : ℚ
  wheelSpinVel : List ℚ
  deriving DecidableEq

/-- The arrays of a car state have their declared lengths. -/
def CarState.WF (cs : CarState) : Prop :=
  cs.opponents.length = 36 ∧ cs.track.length = 19 ∧ cs.wheelSpinVel.length = 4

instance (cs : CarState) : Decidable cs.WF := by
  unfold CarState.WF
  infer_instance

/-- The method `CarState::getWheelsSpeed()`. -/
def CarState.getWheelsSpeed (cs : CarState) : Option ℚ :=
  match (intRange 0 4).foldlM
      (fun velocity i => (atInt cs.wheelSpinVel i).map (fun w => velocity + w)) (0 : ℚ) with
  | none => none
  | some velocity =>
    let wheel_radius : ℚ := 3325 / 10000
    some (velocity / 4 * wheel_radius * 4 * M_PI ^ 2)

/-- The method `CarState::getSpeed()`; `std::sqrt` is the argument `sqrt`. -/
def CarState.getSpeed (sqrt : ℚ → ℚ) (cs : CarState) : ℚ :=
  let sx := cs.speedX
  let sy := cs.speedY
  let sz := cs.speedZ
  sqrt (sx * sx + sy * sy + sz * sz)

/-- The method `AccelBrakeModule::control(cs, target_speed)`; `std::exp` and
`std::sqrt` are the arguments `exp` and `sqrt`. -/
def AccelBrakeModule.control (m : AccelBrakeModule) (exp sqrt : ℚ → ℚ) (cs : CarState)
    (target_speed : ℚ) : Option ℚ :=
  if cs.gear = -1 then some 1
  else
    let accelbrake : ℚ := 2 / (1 + exp (cs.getSpeed sqrt - target_speed))
    match cs.getWheelsSpeed with
    | none => none
    | some wheels =>
      let filtered : ℚ :=
        if cs.getSpeed sqrt - wheels > m.threshold then
          accelbrake - (cs.getSpeed sqrt - wheels - m.threshold) / 5
        else accelbrake
      some (filtered / 2)

/-- The part of `Controller::control(cs)` that turns the value `accelbrake` of
the modules into the commands `accel` and `brake`: the pair `(accel, brake)`. -/
def Controller.pedals (accelbrake : ℚ) : ℚ × ℚ :=
  if accelbrake > 1 / 2 then ((accelbrake - 1 / 2) * 2, 0) else (0, 1 - accelbrake * 2)

/-- The method `GearModule::checkIfStuck(cs)`: the value returned and the module
after the call. -/
def GearModule.checkIfStuck (m : GearModule) (cs : CarState) : Option (Bool × GearModule) :=
  let m1 : GearModule :=
    if |cs.angle| > M_PI / 6 then { m with stuck := m.stuck + 1 } else { m with stuck := 0 }
  let m2 : GearModule := if m1.stuck ≥ 25 then { m1 with getting_unstuck := true } else m1
  if m2.getting_unstuck then
    match atInt cs.track 9 with
    | none => none
    | some front =>
      if cs.angle * cs.trackPos > 0 ∨ (front > 10 ∧ |M_PI| < 2) then
        some (false, { m2 with getting_unstuck := false })
      else some (m2.getting_unstuck, m2)
  else some (m2.getting_unstuck, m2)

/-- The method `GearModule::control(cs)`: the gear returned and the module after
the call. -/
def GearModule.control (m : GearModule) (cs : CarState) : Option (Int × GearModule) :=
  match atInt m.GI (cs.gear + 1), atInt m.GD (cs.gear + 1) with
  | some gd, some gi =>
    match m.checkIfStuck cs with
    | none => none
    | some (stuck, m1) =>
      if stuck then some (-1, m1)
      else if cs.rpm > gi ∧ cs.gear < 6 then some (cs.gear + 1, m1)
      else if cs.rpm < gd ∧ cs.gear > 1 then some (cs.gear - 1, m1)
      else some (cs.gear, m1)
  | _, _ => none

/-- The constant `OpponentsModule::FRONT`. -/
def OpponentsModule.FRONT : Int := 18

/-- The loop of `OpponentsModule::violatedSecurityDistance(cs)` over the values
of `i` still to visit; a violation breaks the loop. -/
def OpponentsModule.violatedLoop (m : OpponentsModule) (cs : CarState) : List Int → Option Bool
  | [] => some false
  | i :: rest =>
    match atInt cs.opponents (OpponentsModule.FRONT + i), atInt m.tol_brake (i + 4) with
    | some o, some tol => if o < tol then some true else m.violatedLoop cs rest
    | _, _ => none

/-- The method `OpponentsModule::violatedSecurityDistance(cs)`. -/
def OpponentsModule.violatedSecurityDistance (m : OpponentsModule) (cs : CarState) :
    Option Bool :=
  m.violatedLoop cs (intRange (-4) 5)

/-- One turn of the second loop of `OpponentsModule::control`, for the sensor
`FRONT + i`, from the steering value `steer`. -/
def OpponentsModule.overtake (m : OpponentsModule) (cs : CarState) (steer : ℚ) (i : Int) :
    Option ℚ :=
  let sign : ℚ := if i < 0 then -1 else 1
  if |i| > 5 then
    match atInt cs.opponents (OpponentsModule.FRONT + i), atInt m.tol_overtake 0 with
    | some o, some tol =>
      if o < tol then (atInt m.inc_overtake 0).map (fun inc => steer + -sign * inc)
      else some steer
    | _, _ => none
  else
    match atInt cs.opponents (OpponentsModule.FRONT + i), atInt m.tol_overtake (i + 5) with
    | some o, some tol =>
      if o < tol then (atInt m.inc_overtake (i + 5)).map (fun inc => steer + -sign * inc)
      else some steer
    | _, _ => none

/-- The method `OpponentsModule::control(cs, steer, accelbrake)`: the new values
of `steer` and `accelbrake`; `std::sqrt` is the argument `sqrt`. -/
def OpponentsModule.control (m : OpponentsModule) (sqrt : ℚ → ℚ) (cs : CarState)
    (steer accelbrake : ℚ) : Option (ℚ × ℚ) :=
  let braked : Option ℚ :=
    if cs.getSpeed sqrt > 70 then
      match m.violatedSecurityDistance cs with
      | none => none
      | some violated => if violated then some (max 0 (accelbrake - 1 / 2)) else some accelbrake
    else some accelbrake
  match braked with
  | none => none
  | some accelbrake1 =>
    match (intRange (-10) 11).foldlM (m.overtake cs) steer with
    | none => none
    | some steer1 => some (steer1, accelbrake1)

/-- The constant `SteeringControlModule::STEER_LOCK`. -/
def SteeringControlModule.STEER_LOCK : ℚ := 785398 / 1000000

/-- The constant `SteeringControlModule::FRONT`. -/
def SteeringControlModule.FRONT : Int := 9

/-- The method `SteeringControlModule::isOnTrack(cs)`. -/
def SteeringControlModule.isOnTrack (_m : SteeringControlModule) (cs : CarState) : Bool :=
  decide (|cs.trackPos| > 1)

/-- One turn of the loop of `SteeringControlModule::control`, from the pair
`(steer, norm)`. -/
def SteeringControlModule.weigh (m : SteeringControlModule) (cs : CarState) (st : ℚ × ℚ)
    (i : Int) : Option (ℚ × ℚ) :=
  match atInt cs.track (SteeringControlModule.FRONT + i), atInt m.weights (i + 4) with
  | some t, some w => some (st.1 + t * w, st.2 + t)
  | _, _ => none

/-- The method `SteeringControlModule::control(cs)`. -/
def SteeringControlModule.control (m : SteeringControlModule) (cs : CarState) : Option ℚ :=
  if cs.gear = -1 then some (-cs.angle / SteeringControlModule.STEER_LOCK)
  else if m.isOnTrack cs then
    match atInt cs.track SteeringControlModule.FRONT with
    | none => none
    | some front =>
      let f0 : ℚ := if front ≥ 100 then 2 / 10 else 1
      match (intRange (-4) 5).foldlM (m.weigh cs) (0, 0) with
      | none => none
      | some st =>
        match divide f0 st.2 with
        | none => none
        | some q => some (st.1 * q)
  else some ((cs.angle - cs.trackPos * (1 / 2)) / SteeringControlModule.STEER_LOCK)

/-! ## Concrete car states -/

/-- A car at rest in the middle of a straight track: every track sensor reads
`track`, every opponent sensor 200 (no opponent), first gear. -/
def restingCar (track : ℚ) : CarState :=
  { angle := 0, gear := 1, opponents := List.replicate 36 200, rpm := 0, speedX := 0,
    speedY := 0, speedZ := 0, track := List.replicate 19 track, trackPos := 0,
    wheelSpinVel := List.replicate 4 0 }

/-- The nine track readings `track[5..13]` that the loop of
`SteeringControlModule::control` adds up. -/
def CarState.frontReadings (cs : CarState) : List ℚ := (cs.track.drop 5).take 9

/-- A function that agrees with `std::sqrt` at 0 and at 10000. -/
def sqrtSample (x : ℚ) : ℚ := if x = 10000 then 100 else 0

/-- A function that agrees with `std::exp` at 0 and is positive everywhere. -/
def expSample (x : ℚ) : ℚ := if x = 0 then 1 else 2

/-- A car moving at speed 100 with locked wheels. -/
def lockedWheelsCar : CarState := { restingCar 200 with speedX := 100 }

/-- A car in first gear at 5000 rpm, aligned with the track. -/
def firstGearCar : CarState := { restingCar 200 with rpm := 5000 }

/-! ## Notions used by the statements on stale neighbourhood bests -/

/-- The personal bests of the particles a list of pointers points to. -/
def bestsOf (sw : List Particle) (ks : List Nat) : Option (List Solution) :=
  (deref sw ks).map (fun nbs => nbs.map (fun q => q.pbest))

/-- The Solution the loop of `checkNeibourhood()` selects from the personal bests
of the neighbours, in the order of the neighbour list. -/
def selectBest (task : Int) (sols : List Solution) : Option Solution :=
  sols[checkNeibourhoodLoop task (sols.map (fun r => r.eval)) 0 0
    (if task = MAXIMIZE then -DBL_MAX else DBL_MAX)]?

/-- The neighbourhood best of particle `p` is the Solution `checkNeibourhood()`
would select from the current personal bests of its neighbours in `sw`. -/
def FreshAt (sw : List Particle) (p : Particle) : Prop :=
  (bestsOf sw p.neighbours).bind (selectBest p.task) = some p.gbest

/-- No particle of the swarm holds a stale neighbourhood best:
`checkNeibourhood()` called on any particle leaves the swarm as it is. -/
def NoStaleBest (sw : List Particle) : Prop :=
  ∀ j < sw.length, Particle.checkNeibourhood sw j = some sw

instance (sw : List Particle) : Decidable (NoStaleBest sw) := by
  unfold NoStaleBest; infer_instance

/-- The adjacency of the swarm is undirected: a particle is a neighbour of each
of its neighbours. -/
def Undirected (sw : List Particle) : Prop :=
  ∀ (i j : Nat) (p q : Particle), sw[i]? = some p → sw[j]? = some q →
    i ∈ q.neighbours → j ∈ p.neighbours

/-- What `checkNeibourhood()` reads and writes of a particle. -/
def bestView (p : Particle) : Int × List Nat × Solution × Solution :=
  (p.task, p.neighbours, p.pbest, p.gbest)

/-- The call is made on a particle of a swarm of `n` particles, or on the
optimiser. -/
def Call.InSwarm (n : Nat) : Call → Prop
  | Call.initialise i _ _ _ _ => i < n
  | Call.move i _ _ => i < n
  | Call.setEvaluation i _ => i < n
  | Call.update => True
  | Call.next _ => True

instance (n : Nat) (c : Call) : Decidable (c.InSwarm n) := by
  cases c <;> unfold Call.InSwarm <;> infer_instance

/-! ## Concrete swarms for the statements on stale neighbourhood bests -/

/-- The star swarm of three particles of one dimension the constructor builds. -/
def starOfThree : PSO := (PSO.ctorTopology MAXIMIZE 3 1 TOPOLOGY_STAR).getD {}

/-- The three particles are initialised at 2, 5 and 8 with the bounds `[0, 10]`;
the leaves 1 and 2 are evaluated to 7 and 9 and the centre to 3; after an
`update()` the next dispatch moves the swarm, and leaf 1 is evaluated to 8. -/
def starCalls : List Call :=
  [ Call.initialise 0 [0] [10] (fun _ => -3 / 5) (fun _ => 0),
    Call.initialise 1 [0] [10] (fun _ => 0) (fun _ => 0),
    Call.initialise 2 [0] [10] (fun _ => 3 / 5) (fun _ => 0),
    Call.setEvaluation 1 7,
    Call.setEvaluation 2 9,
    Call.setEvaluation 0 3,
    Call.update,
    Call.next (fun _ => (fun _ => 0, fun _ => 0)),
    Call.setEvaluation 1 8 ]

/-- The star swarm of three particles after `starCalls`. -/
def starLater : PSO := (starOfThree.run starCalls).getD {}

/-- The three particles of the ergodic swarm are initialised at 2, 5 and 8 with
the bounds `[0, 10]` and evaluated to 1, 2 and 3, then `update()` is called. -/
def ergodicRankedCalls : List Call :=
  [ Call.initialise 0 [0] [10] (fun _ => -3 / 5) (fun _ => 0),
    Call.initialise 1 [0] [10] (fun _ => 0) (fun _ => 0),
    Call.initialise 2 [0] [10] (fun _ => 3 / 5) (fun _ => 0),
    Call.setEvaluation 0 1,
    Call.setEvaluation 1 2,
    Call.setEvaluation 2 3,
    Call.update ]

/-- The ergodic swarm of three particles after `ergodicRankedCalls`. -/
def ergodicRanked : PSO := (ergodicOfThree.run ergodicRankedCalls).getD {}

/-- Particle 2 of `ergodicRanked`. -/
def ergodicRankedParticle2 : Particle :=
  (ergodicRanked.swarm[2]?).getD (Particle.ctor MAXIMIZE 1 1 1 1)

/-! ## The type `double` with its infinities and NaN

The products of `Particle::move()` overflow for large finite weights, so the
method is also given on values of the type `double`. Rounding is not modelled:
the result of an operation is kept exact when its magnitude is below
`DBL_OVERFLOW` and is an infinity otherwise. -/

/-- A value of the type `double`: a number, an infinity or a NaN. -/
inductive Double where
  | finite (q : ℚ)
  | posInf
  | negInf
  | nan
  deriving DecidableEq

/-- The value is a number: `std::isfinite`. -/
def Double.isFinite : Double → Bool
  | Double.finite _ => true
  | _ => false

/-- The `double` returned by an operation whose exact result is `q`. -/
def Double.round (q : ℚ) : Double :=
  if DBL_OVERFLOW ≤ q then Double.posInf
  else if q ≤ -DBL_OVERFLOW then Double.negInf
  else Double.finite q

/-- The opposite `-a`. -/
def Double.neg : Double → Double
  | Double.finite a => Double.finite (-a)
  | Double.posInf => Double.negInf
  | Double.negInf => Double.posInf
  | Double.nan => Double.nan

/-- The sum `a + b`: infinities of opposite signs add up to NaN. -/
def Double.add : Double → Double → Double
  | Double.finite a, Double.finite b => Double.round (a + b)
  | Double.nan, _ => Double.nan
  | _, Double.nan => Double.nan
  | Double.posInf, Double.negInf => Double.nan
  | Double.negInf, Double.posInf => Double.nan
  | Double.posInf, _ => Double.posInf
  | Double.negInf, _ => Double.negInf
  | Double.finite _, Double.posInf => Double.posInf
  | Double.finite _, Double.negInf => Double.negInf

/-- The difference `a - b`. -/
def Double.sub (a b : Double) : Double := Double.add a (Double.neg b)

/-- The product of an infinity of sign `positive` and the number `b`: NaN when
`b` is zero. -/
def Double.mulInf (positive : Bool) (b : ℚ) : Double :=
  if b = 0 then Double.nan
  else if (decide (0 < b)) = positive then Double.posInf
  else Double.negInf

/-- The product `a * b`. -/
def Double.mul : Double → Double → Double
  | Double.finite a, Double.finite b => Double.round (a * b)
  | Double.nan, _ => Double.nan
  | _, Double.nan => Double.nan
  | Double.posInf, Double.finite b => Double.mulInf true b
  | Double.negInf, Double.finite b => Double.mulInf false b
  | Double.finite a, Double.posInf => Double.mulInf true a
  | Double.finite a, Double.negInf => Double.mulInf false a
  | Double.posInf, Double.posInf => Double.posInf
  | Double.posInf, Double.negInf => Double.negInf
  | Double.negInf, Double.posInf => Double.negInf
  | Double.negInf, Double.negInf => Double.posInf

/-- The comparison `a < b`: false when one of the two is NaN. -/
def Double.lt : Double → Double → Bool
  | Double.finite a, Double.finite b => decide (a < b)
  | Double.nan, _ => false
  | _, Double.nan => false
  | Double.negInf, Double.negInf => false
  | Double.negInf, _ => true
  | _, Double.negInf => false
  | Double.posInf, _ => false
  | Double.finite _, Double.posInf => true

/-- The function `std::max(a, b)`, applied by `cwiseMax` to each coefficient on
the scalar path: `(a < b) ? b : a`. -/
def Double.max (a b : Double) : Double := if Double.lt a b then b else a

/-- The function `std::min(a, b)`, applied by `cwiseMin` to each coefficient on
the scalar path: `(b < a) ? b : a`. -/
def Double.min (a b : Double) : Double := if Double.lt b a then b else a

/-- The velocity and the position of a particle as vectors of `double`. -/
structure Flight where
  velocity : List Double
  x : List Double
  deriving DecidableEq

/-- The velocity and the position of a particle whose coefficients are
numbers. -/
def Particle.flight (p : Particle) : Flight :=
  { velocity := p.velocity.map Double.finite, x := p.current.x.map Double.finite }

/-- The method `Particle::move()` on values of the type `double`, from the
velocity and the position `st`: the new velocity and the new position. The
personal best, the neighbourhood best, the bounds and the weights of `p` are
finite; `g1` and `g2` are the random sources of the two `randUniform` calls. -/
def Particle.moveDouble (p : Particle) (st : Flight) (g1 g2 : ℕ → ℚ) : Flight :=
  let pb : List Double := p.pbest.x.map Double.finite
  let lb : List Double := p.gbest.x.map Double.finite
  let x : List Double := st.x
  let v0 : List Double := st.velocity.map (fun t => Double.mul t (Double.finite p.inertia))
  let u1 : List Double := (randUniform p.n_dim g1).map Double.finite
  let v1 : List Double := List.zipWith Double.add v0
    ((List.zipWith Double.mul u1 (List.zipWith Double.sub pb x)).map
      (fun t => Double.mul (Double.finite p.phi_1) t))
  let u2 : List Double := (randUniform p.n_dim g2).map Double.finite
  let v2 : List Double := List.zipWith Double.add v1
    ((List.zipWith Double.mul u2 (List.zipWith Double.sub lb x)).map
      (fun t => Double.mul (Double.finite p.phi_2) t))
  let x1 : List Double := List.zipWith Double.add x v2
  let x2 : List Double := List.zipWith Double.max x1 (p.lbs.map Double.finite)
  let x3 : List Double := List.zipWith Double.min x2 (p.ubs.map Double.finite)
  { velocity := v2, x := x3 }

/-- A particle of one dimension with the bounds `[0, 100]`, at position 10 with
velocity 50, whose inertia and first acceleration weight are the finite
`double` `2 ^ 1023`. -/
def overflowParticle : Particle :=
  { task := MAXIMIZE
    n_dim := 1
    velocity := [50]
    current := { x := [10], eval := 5 }
    pbest := { x := [0], eval := 7 }
    gbest := { x := [0], eval := 7 }
    neighbours := [0]
    lbs := [0]
    ubs := [100]
    inertia := 2 ^ 1023
    phi_1 := 2 ^ 1023
    phi_2 := 1 }

/-! ## Theorems -/

/-! ### Best-so-far scans -/

theorem improveFold_of_le (l : List Solution) (b : Solution)
    (h : ∀ r ∈ l, r.eval ≤ b.eval) : improveFold l b = b := by
  induction l with
  | nil => rfl
  | cons r rs ih =>
    have hr : ¬ r.eval > b.eval := not_lt.mpr (h r (List.mem_cons_self _ _))
    simp only [improveFold, hr, if_false]
    exact ih (fun q hq => h q (List.mem_cons_of_mem _ hq))

theorem improveFold_firstMax (l : List Solution) (b : Solution) (m : Nat) (r : Solution)
    (hm : IsFirstMax l m r) (hb : b.eval < r.eval) : improveFold l b = r := by
  induction l generalizing b m with
  | nil => simp [IsFirstMax] at hm
  | cons a as ih =>
    obtain ⟨hget, hmax, hfirst⟩ := hm
    cases m with
    | zero =>
      simp only [List.getElem?_cons_zero, Option.some.injEq] at hget
      subst hget
      simp only [improveFold, gt_iff_lt, hb, if_true]
      apply improveFold_of_le
      intro q hq
      obtain ⟨j, hj⟩ := List.getElem?_of_mem hq
      exact hmax (j + 1) q (by simpa using hj)
    | succ k =>
      have hk : IsFirstMax as k r := by
        refine ⟨by simpa using hget, ?_, ?_⟩
        · intro j q hj
          exact hmax (j + 1) q (by simpa using hj)
        · intro j q hjk hj
          exact hfirst (j + 1) q (by omega) (by simpa using hj)
      have ha : a.eval < r.eval := hfirst 0 a (by omega) (by simp)
      by_cases hab : a.eval > b.eval
      · simp only [improveFold, hab, if_true]
        exact ih a k hk ha
      · simp only [improveFold, hab, if_false]
        exact ih b k hk hb

theorem exists_isFirstMax (l : List Solution) (h : l ≠ []) : ∃ m r, IsFirstMax l m r := by
  induction l with
  | nil => exact absurd rfl h
  | cons a as ih =>
    by_cases has : as = []
    · subst has
      refine ⟨0, a, by simp, ?_, ?_⟩
      · intro j q hj
        cases j with
        | zero => simp at hj; subst hj; exact le_refl _
        | succ k => simp at hj
      · intro j q hj; omega
    · obtain ⟨m, r, hget, hmax, hfirst⟩ := ih has
      by_cases hra : r.eval ≤ a.eval
      · refine ⟨0, a, by simp, ?_, ?_⟩
        · intro j q hj
          cases j with
          | zero => simp at hj; subst hj; exact le_refl _
          | succ k => exact le_trans (hmax k q (by simpa using hj)) hra
        · intro j q hj; omega
      · refine ⟨m + 1, r, by simpa using hget, ?_, ?_⟩
        · intro j q hj
          cases j with
          | zero => simp at hj; subst hj; exact le_of_lt (not_le.mp hra)
          | succ k => exact hmax k q (by simpa using hj)
        · intro j q hjm hj
          cases j with
          | zero => simp at hj; subst hj; exact not_le.mp hra
          | succ k => exact hfirst k q (by omega) (by simpa using hj)

theorem improveFold_eval_ge (l : List Solution) (b : Solution) :
    b.eval ≤ (improveFold l b).eval := by
  induction l generalizing b with
  | nil => exact le_refl _
  | cons r rs ih =>
    by_cases hr : r.eval > b.eval
    · simp only [improveFold, hr, if_true]
      exact le_trans (le_of_lt hr) (ih r)
    · simp only [improveFold, hr, if_false]
      exact ih b

theorem updateLoop_fst (l : List Particle) (gb : Solution) (b : Bool) :
    (updateLoop l gb b).1 = improveFold (l.map (fun p => p.pbest)) gb := by
  induction l generalizing gb b with
  | nil => rfl
  | cons p ps ih =>
    by_cases hp : p.pbest.eval > gb.eval
    · simp only [updateLoop, hp, if_true, List.map_cons, improveFold]
      exact ih _ _
    · simp only [updateLoop, hp, if_false, List.map_cons, improveFold]
      exact ih _ _

theorem update_global_best_eq (s : PSO) (h : s.swarm.length = s.n_particles) :
    s.update.global_best = improveFold (s.swarm.map (fun p => p.pbest)) s.global_best := by
  simp only [PSO.update, updateLoop_fst]
  rw [List.take_of_length_le (le_of_eq h)]

/-! ### The global best -/

/-- C1: on a swarm of `n_particles ≥ 1` particles, let `r` be the personal best
of the first particle of maximal personal-best fitness. `PSO::update()` leaves
`global_best` equal to `r` when the fitness of `r` strictly exceeds the previous
global-best fitness and leaves it unchanged otherwise; afterwards no personal
best is fitter than the global best, and the global-best fitness is the best
personal-best fitness as soon as some personal best had reached the previous
global best. -/
theorem PSO.update_global_best (s : PSO) (hlen : s.swarm.length = s.n_particles)
    (hpos : 0 < s.n_particles) :
    ∃ m r, IsFirstMax (s.swarm.map (fun p => p.pbest)) m r ∧
      (s.global_best.eval < r.eval → s.update.global_best = r) ∧
      (¬ s.global_best.eval < r.eval → s.update.global_best = s.global_best) ∧
      (∀ p ∈ s.swarm, p.pbest.eval ≤ s.update.global_best.eval) ∧
      ((∃ p ∈ s.swarm, s.global_best.eval ≤ p.pbest.eval) →
        s.update.global_best.eval = r.eval) := by
  have hne : s.swarm.map (fun p => p.pbest) ≠ [] := by
    intro h
    have h1 : s.swarm = [] := by simpa using h
    rw [h1] at hlen
    simp at hlen
    omega
  obtain ⟨m, r, hm⟩ := exists_isFirstMax _ hne
  have hall : ∀ p ∈ s.swarm, p.pbest.eval ≤ r.eval := by
    intro p hp
    obtain ⟨j, hj⟩ := List.getElem?_of_mem hp
    exact hm.2.1 j p.pbest (by simp [hj])
  have hup := update_global_best_eq s hlen
  refine ⟨m, r, hm, ?_, ?_, ?_, ?_⟩
  · intro hlt
    rw [hup]
    exact improveFold_firstMax _ _ m r hm hlt
  · intro hge
    rw [hup]
    apply improveFold_of_le
    intro q hq
    obtain ⟨p, hp, rfl⟩ := List.mem_map.mp hq
    exact le_trans (hall p hp) (not_lt.mp hge)
  · intro p hp
    rw [hup]
    by_cases hlt : s.global_best.eval < r.eval
    · rw [improveFold_firstMax _ _ m r hm hlt]
      exact hall p hp
    · exact le_trans (le_trans (hall p hp) (not_lt.mp hlt)) (improveFold_eval_ge _ _)
  · rintro ⟨p, hp, hle⟩
    rw [hup]
    by_cases hlt : s.global_best.eval < r.eval
    · rw [improveFold_firstMax _ _ m r hm hlt]
    · rw [improveFold_of_le]
      · exact le_antisymm (le_trans hle (hall p hp)) (not_lt.mp hlt)
      · intro q hq
        obtain ⟨p1, hp1, rfl⟩ := List.mem_map.mp hq
        exact le_trans (hall p1 hp1) (not_lt.mp hlt)

/-- C1, the scenario: the construction and the four calls run without error,
particle 0 sits at 2 with fitness 5 and particle 1 at 8 with fitness 9, and one
`update()` leaves the global best at position 8 with fitness 9, as
`PSO.update_global_best` says. -/
theorem PSO.update_global_best_ring_scenario :
    ringStartRun = some ringStart ∧
    ringScenarioRun = some ringScenario ∧
    ringScenario.swarm.map (fun p => p.current) = [⟨[2], 5⟩, ⟨[8], 9⟩] ∧
    ringScenario.update.global_best = ⟨[8], 9⟩ ∧
    IsFirstMax (ringScenario.swarm.map (fun p => p.pbest)) 1 ⟨[8], 9⟩ ∧
    ringScenario.swarm.length = ringScenario.n_particles ∧
    0 < ringScenario.n_particles ∧
    ∃ m r, IsFirstMax (ringScenario.swarm.map (fun p => p.pbest)) m r ∧
      (ringScenario.global_best.eval < r.eval → ringScenario.update.global_best = r) ∧
      (¬ ringScenario.global_best.eval < r.eval →
        ringScenario.update.global_best = ringScenario.global_best) ∧
      (∀ p ∈ ringScenario.swarm, p.pbest.eval ≤ ringScenario.update.global_best.eval) ∧
      ((∃ p ∈ ringScenario.swarm, ringScenario.global_best.eval ≤ p.pbest.eval) →
        ringScenario.update.global_best.eval = r.eval) := by
  refine ⟨by decide!, by decide!, by decide!, by decide!, ?_, by decide!, by decide!,
    PSO.update_global_best ringScenario (by decide!) (by decide!)⟩
  refine ⟨by decide!, ?_, ?_⟩
  · intro j q hj
    have h2 : ringScenario.swarm.map (fun p => p.pbest) = [⟨[2], 5⟩, ⟨[8], 9⟩] := by decide!
    rw [h2] at hj
    match j, hj with
    | 0, hj => simp at hj; subst hj; norm_num
    | 1, hj => simp at hj; subst hj; norm_num
    | (k + 2), hj => simp at hj
  · intro j q hj1 hj
    have h2 : ringScenario.swarm.map (fun p => p.pbest) = [⟨[2], 5⟩, ⟨[8], 9⟩] := by decide!
    rw [h2] at hj
    have hj0 : j = 0 := by omega
    subst hj0
    simp at hj; subst hj; norm_num

/-! ### Initialisation and moves of a particle -/

theorem randUniform_length (n : Nat) (g : ℕ → ℚ) : (randUniform n g).length = n := by
  simp [randUniform, VectorXd.divScalar, VectorXd.add, VectorXd.Random, VectorXd.Ones]

theorem Particle.move_initialised (p : Particle) (h : p.Initialised) (g1 g2 : ℕ → ℚ) :
    (Particle.move p g1 g2).Initialised := by
  obtain ⟨h1, h2, h3, h4, h5, h6⟩ := h
  simp [Particle.Initialised, Particle.move, VectorXd.add, VectorXd.sub, VectorXd.scale,
    VectorXd.cwiseProduct, VectorXd.cwiseMax, VectorXd.cwiseMin, randUniform_length,
    h1, h2, h3, h4, h5, h6]

theorem cwiseMin_cwiseMax_inBounds (lbs ubs : VectorXd)
    (hb : List.Forall₂ (fun l u => l ≤ u) lbs ubs) (x : VectorXd) (hx : x.length = lbs.length) :
    InBounds (VectorXd.cwiseMin (VectorXd.cwiseMax x lbs) ubs) lbs ubs := by
  induction hb generalizing x with
  | nil =>
    have : x = [] := List.length_eq_zero.mp hx
    subst this
    simp [InBounds, VectorXd.cwiseMin, VectorXd.cwiseMax]
  | @cons l u ls us hlu _ ih =>
    cases x with
    | nil => simp at hx
    | cons a as =>
      have has : as.length = ls.length := by simpa using hx
      obtain ⟨i1, i2⟩ := ih as has
      constructor
      · simp only [VectorXd.cwiseMin, VectorXd.cwiseMax, List.zipWith_cons_cons,
          List.forall₂_cons]
        exact ⟨le_min (le_max_right a l) hlu, i1⟩
      · simp only [VectorXd.cwiseMin, VectorXd.cwiseMax, List.zipWith_cons_cons,
          List.forall₂_cons]
        exact ⟨min_le_right _ _, i2⟩

theorem Particle.move_current_inBounds (p : Particle) (hinit : p.Initialised)
    (hb : List.Forall₂ (fun l u => l ≤ u) p.lbs p.ubs) (g1 g2 : ℕ → ℚ) :
    InBounds (Particle.move p g1 g2).current.x p.lbs p.ubs := by
  obtain ⟨h1, h2, h3, h4, h5, h6⟩ := hinit
  simp only [Particle.move]
  apply cwiseMin_cwiseMax_inBounds _ _ hb
  simp [VectorXd.add, VectorXd.sub, VectorXd.scale, VectorXd.cwiseProduct, randUniform_length,
    h1, h2, h3, h4, h5, h6]

theorem Particle.foldl_move_invariant (gs : List ((ℕ → ℚ) × (ℕ → ℚ))) (p : Particle)
    (hinit : p.Initialised) :
    (gs.foldl (fun q g => Particle.move q g.1 g.2) p).Initialised ∧
      (gs.foldl (fun q g => Particle.move q g.1 g.2) p).lbs = p.lbs ∧
      (gs.foldl (fun q g => Particle.move q g.1 g.2) p).ubs = p.ubs := by
  induction gs generalizing p with
  | nil => exact ⟨hinit, rfl, rfl⟩
  | cons g gs ih =>
    simp only [List.foldl_cons]
    obtain ⟨i1, i2, i3⟩ := ih (Particle.move p g.1 g.2) (Particle.move_initialised p hinit _ _)
    exact ⟨i1, i2, i3⟩

/-- C2, the failing input: with the bounds `[3000, 8000]` and the uniform draw
`1 / 4`, `Particle::initialize` multiplies the draw by `(ubs - lbs) + lbs`, that
is by `ubs`, and puts the particle at `2000`, below its lower bound. -/
theorem Particle.initialize_gear_bounds_escape :
    gearBoundsParticle.lbs = [3000] ∧ gearBoundsParticle.ubs = [8000] ∧
      randUniform 1 (fun _ => -1 / 2) = [1 / 4] ∧
      gearBoundsParticle.current.x = [2000] ∧
      (InBounds gearBoundsParticle.current.x gearBoundsParticle.lbs gearBoundsParticle.ubs) = False := by
  refine ⟨by decide!, by decide!, by decide!, by decide!, ?_⟩
  have h : ¬ InBounds gearBoundsParticle.current.x gearBoundsParticle.lbs gearBoundsParticle.ubs := by
    decide!
  simpa using h

/-- In exact arithmetic, where no product overflows: for a particle whose
vectors all have `n_dim` coefficients and whose bounds satisfy `lbs ≤ ubs`
coefficient by coefficient, after any sequence of `move()` calls followed by one
more `move()`, whatever the random draws, the velocity, the position, the
personal best, the neighbourhood best and the weights, every coefficient of the
position lies between its bounds. -/
theorem Particle.move_in_bounds (p : Particle) (hinit : p.Initialised)
    (hb : List.Forall₂ (fun l u => l ≤ u) p.lbs p.ubs)
    (gs : List ((ℕ → ℚ) × (ℕ → ℚ))) (g1 g2 : ℕ → ℚ) :
    InBounds (Particle.move (gs.foldl (fun q g => Particle.move q g.1 g.2) p) g1 g2).current.x
      p.lbs p.ubs := by
  obtain ⟨i1, i2, i3⟩ := Particle.foldl_move_invariant gs p hinit
  have h := Particle.move_current_inBounds _ i1 (by rw [i2, i3]; exact hb) g1 g2
  rw [i2, i3] at h
  exact h

/-- In exact arithmetic, an instance: the particle initialised at `2000` with bounds
`[3000, 8000]` is moved twice; the first move, with both draws equal to 1, sends
it to `-2000` before clipping and leaves it at `3000`. -/
theorem Particle.move_in_bounds_gear_instance :
    gearBoundsParticle.Initialised ∧
      List.Forall₂ (fun l u => l ≤ u) gearBoundsParticle.lbs gearBoundsParticle.ubs ∧
      (Particle.move gearBoundsParticle (fun _ => 1) (fun _ => 1)).current.x = [3000] ∧
      InBounds
        (Particle.move
          ([((fun _ => 1), (fun _ => 1))].foldl (fun q g => Particle.move q g.1 g.2)
            gearBoundsParticle)
          (fun _ => 0) (fun _ => 1 / 2)).current.x
        gearBoundsParticle.lbs gearBoundsParticle.ubs :=
  ⟨by decide!, by decide!, by decide!,
    Particle.move_in_bounds gearBoundsParticle (by decide!) (by decide!)
      [((fun _ => 1), (fun _ => 1))] (fun _ => 0) (fun _ => 1 / 2)⟩

theorem forall₂_le_getD (lbs ubs : VectorXd) (hb : List.Forall₂ (fun l u => l ≤ u) lbs ubs)
    (i : Nat) : lbs.getD i 0 ≤ ubs.getD i 0 := by
  induction hb generalizing i with
  | nil => simp
  | @cons l u ls us hlu _ ih =>
    cases i with
    | zero => simpa using hlu
    | succ k => simpa using ih k

theorem checkNeibourhood_erase (sw sw1 : List Particle) (k : Nat)
    (h : Particle.checkNeibourhood sw k = some sw1) :
    sw1.map eraseGbest = sw.map eraseGbest := by
  unfold Particle.checkNeibourhood at h
  cases hp : sw[k]? with
  | none => simp [hp] at h
  | some p =>
    simp only [hp] at h
    cases hd : deref sw p.neighbours with
    | none => simp [hd] at h
    | some nbs =>
      simp only [hd] at h
      split at h
      · simp at h
      · rename_i q hq
        simp only [Option.some.injEq] at h
        subst h
        apply List.ext_getElem?
        intro i
        simp only [List.getElem?_map, List.getElem?_set]
        by_cases hki : k = i
        · subst hki
          have hlt : k < sw.length := by
            obtain ⟨hlt, _⟩ := List.getElem?_eq_some.mp hp
            exact hlt
          simp [hlt, hp, eraseGbest]
        · simp [hki]

theorem checkNeighbours_erase (ks : List Nat) (sw sw1 : List Particle)
    (h : checkNeighbours sw ks = some sw1) :
    sw1.map eraseGbest = sw.map eraseGbest := by
  induction ks generalizing sw with
  | nil =>
    simp only [checkNeighbours, Option.some.injEq] at h
    rw [h]
  | cons k ks ih =>
    simp only [checkNeighbours] at h
    cases hc : Particle.checkNeibourhood sw k with
    | none => simp [hc] at h
    | some sw2 =>
      simp only [hc] at h
      rw [ih sw2 h, checkNeibourhood_erase sw sw2 k hc]

theorem setEvaluation_erase (sw sw1 : List Particle) (i : Nat) (f : ℚ)
    (h : Particle.setEvaluation sw i f = some sw1) :
    ∃ p, sw[i]? = some p ∧
      sw1.map eraseGbest = (sw.set i (Particle.recordEvaluation p f)).map eraseGbest := by
  unfold Particle.setEvaluation at h
  cases hp : sw[i]? with
  | none => simp [hp] at h
  | some p =>
    simp only [hp] at h
    refine ⟨p, rfl, ?_⟩
    cases hc : Particle.checkNeibourhood (sw.set i (Particle.recordEvaluation p f)) i with
    | none => simp [hc] at h
    | some sw2 =>
      simp only [hc] at h
      rw [checkNeighbours_erase _ sw2 sw1 h, checkNeibourhood_erase _ sw2 i hc]

theorem erase_getElem? (sw sw1 : List Particle) (h : sw1.map eraseGbest = sw.map eraseGbest)
    (i : Nat) (p : Particle) (hp : sw[i]? = some p) :
    ∃ p1, sw1[i]? = some p1 ∧ eraseGbest p1 = eraseGbest p := by
  have h1 := congrArg (fun l => l[i]?) h
  simp only [List.getElem?_map, hp, Option.map_some'] at h1
  cases hq : sw1[i]? with
  | none => simp [hq] at h1
  | some q =>
    simp only [hq, Option.map_some', Option.some.injEq] at h1
    exact ⟨q, rfl, h1⟩

theorem eraseGbest_pbest (p q : Particle) (h : eraseGbest p = eraseGbest q) :
    p.pbest = q.pbest ∧ p.current = q.current := by
  have h1 := congrArg Particle.pbest h
  have h2 := congrArg Particle.current h
  exact ⟨h1, h2⟩

/-! ### `setEvaluation` succeeds on a swarm with valid neighbour lists -/

theorem neighboursValid_iff_map (sw : List Particle) :
    NeighboursValid sw ↔
      ∀ ns ∈ sw.map (fun q => q.neighbours),
        ns ≠ [] ∧ ∀ k ∈ ns, k < (sw.map (fun q => q.neighbours)).length := by
  simp [NeighboursValid]

theorem neighboursValid_congr (sw sw1 : List Particle)
    (h : sw1.map (fun q => q.neighbours) = sw.map (fun q => q.neighbours))
    (hv : NeighboursValid sw) : NeighboursValid sw1 := by
  rw [neighboursValid_iff_map] at hv ⊢
  rw [h]
  exact hv

theorem neighbours_of_erase (sw sw1 : List Particle)
    (h : sw1.map eraseGbest = sw.map eraseGbest) :
    sw1.map (fun q => q.neighbours) = sw.map (fun q => q.neighbours) := by
  have h1 := congrArg (List.map (fun q : Particle => q.neighbours)) h
  simpa [List.map_map, Function.comp_def, eraseGbest] using h1

theorem deref_isSome (sw : List Particle) (ks : List Nat) (h : ∀ k ∈ ks, k < sw.length) :
    ∃ nbs, deref sw ks = some nbs ∧ nbs.length = ks.length := by
  induction ks with
  | nil => exact ⟨[], rfl, rfl⟩
  | cons k ks ih =>
    obtain ⟨nbs, h1, h2⟩ := ih (fun j hj => h j (List.mem_cons_of_mem _ hj))
    have hk : k < sw.length := h k (List.mem_cons_self _ _)
    refine ⟨sw[k] :: nbs, ?_, by simp [h2]⟩
    simp [deref, h1, List.getElem?_eq_getElem hk]

theorem checkNeibourhoodLoop_lt (task : Int) (l : List ℚ) (i best_index : Nat) (best_score : ℚ)
    (h : best_index < i + l.length) :
    checkNeibourhoodLoop task l i best_index best_score < i + l.length := by
  induction l generalizing i best_index best_score with
  | nil => simpa [checkNeibourhoodLoop] using h
  | cons a as ih =>
    simp only [checkNeibourhoodLoop, List.length_cons]
    split
    · have := ih (i + 1) i a (by omega)
      omega
    · have := ih (i + 1) best_index best_score (by simp only [List.length_cons] at h; omega)
      omega

theorem checkNeibourhood_isSome (sw : List Particle) (k : Nat) (hv : NeighboursValid sw)
    (hk : k < sw.length) : ∃ sw1, Particle.checkNeibourhood sw k = some sw1 := by
  have hp : sw[k]? = some sw[k] := List.getElem?_eq_getElem hk
  obtain ⟨hne, hin⟩ := hv sw[k] (List.getElem_mem hk)
  obtain ⟨nbs, hd, hl⟩ := deref_isSome sw sw[k].neighbours hin
  have hpos : 0 < nbs.length := by
    rw [hl]
    exact List.length_pos.mpr hne
  have hlt := checkNeibourhoodLoop_lt sw[k].task (nbs.map (fun q => q.pbest.eval)) 0 0
    (if sw[k].task = MAXIMIZE then -DBL_MAX else DBL_MAX) (by simpa using hpos)
  simp only [List.length_map, Nat.zero_add] at hlt
  simp only [Particle.checkNeibourhood, hp, hd, List.getElem?_eq_getElem hlt]
  exact ⟨_, rfl⟩

theorem checkNeighbours_isSome (ks : List Nat) (sw : List Particle) (hv : NeighboursValid sw)
    (h : ∀ k ∈ ks, k < sw.length) : ∃ sw1, checkNeighbours sw ks = some sw1 := by
  induction ks generalizing sw with
  | nil => exact ⟨sw, rfl⟩
  | cons k ks ih =>
    obtain ⟨sw2, h2⟩ := checkNeibourhood_isSome sw k hv (h k (List.mem_cons_self _ _))
    have he := checkNeibourhood_erase sw sw2 k h2
    have hlen : sw2.length = sw.length := by simpa using congrArg List.length he
    obtain ⟨sw1, h1⟩ := ih sw2 (neighboursValid_congr sw sw2 (neighbours_of_erase _ _ he) hv)
      (fun j hj => by rw [hlen]; exact h j (List.mem_cons_of_mem _ hj))
    exact ⟨sw1, by simp [checkNeighbours, h2, h1]⟩

theorem setEvaluation_isSome (sw : List Particle) (i : Nat) (f : ℚ) (hv : NeighboursValid sw)
    (hi : i < sw.length) : ∃ sw1, Particle.setEvaluation sw i f = some sw1 := by
  have hp : sw[i]? = some sw[i] := List.getElem?_eq_getElem hi
  have hn : (sw.set i (Particle.recordEvaluation sw[i] f)).map (fun q => q.neighbours) =
      sw.map (fun q => q.neighbours) := by
    apply List.ext_getElem?
    intro j
    simp only [List.getElem?_map, List.getElem?_set]
    by_cases hij : i = j
    · subst hij
      by_cases hf : f > sw[i].pbest.eval
      · simp [hi, hp, Particle.recordEvaluation, hf]
      · simp [hi, hp, Particle.recordEvaluation, hf]
    · simp [hij]
  have hv1 := neighboursValid_congr sw _ hn hv
  obtain ⟨sw2, h2⟩ := checkNeibourhood_isSome _ i hv1 (by simpa using hi)
  have he := checkNeibourhood_erase _ sw2 i h2
  have hlen : sw2.length = sw.length := by simpa using congrArg List.length he
  have hnb : (Particle.recordEvaluation sw[i] f).neighbours = sw[i].neighbours := by
    by_cases hf : f > sw[i].pbest.eval
    · simp [Particle.recordEvaluation, hf]
    · simp [Particle.recordEvaluation, hf]
  obtain ⟨sw1, h1⟩ := checkNeighbours_isSome (Particle.recordEvaluation sw[i] f).neighbours sw2
    (neighboursValid_congr _ sw2 (neighbours_of_erase _ _ he) hv1)
    (fun j hj => by
      rw [hlen]
      rw [hnb] at hj
      exact (hv sw[i] (List.getElem_mem hi)).2 j hj)
  exact ⟨sw1, by simp [Particle.setEvaluation, hp, h2, h1]⟩

/-! ### Personal bests along a sequence of calls -/

theorem forParticles_getElem? (n : Nat) (f : Nat → Particle → Particle) (sw : List Particle)
    (i : Nat) :
    (forParticles n f sw)[i]? = (sw[i]?).map (fun p => if i < n then f i p else p) := by
  simp [forParticles, List.getElem?_mapIdx]

theorem next_particle (s : PSO) (g : MoveSources) (i : Nat) (p : Particle)
    (hp : s.swarm[i]? = some p) :
    ∃ p1, (s.next g).2.swarm[i]? = some p1 ∧ p1.pbest = p.pbest := by
  by_cases hc : s.next_particle_id = 0 ∧ s.n_evaluations > 0
  · simp only [PSO.next, hc, and_self, if_true, PSO.setInertia, forParticles_getElem?, hp,
      Option.map_some']
    refine ⟨_, rfl, ?_⟩
    by_cases hi : i < s.n_particles
    · simp [hi, Particle.move]
    · simp [hi]
  · simp only [PSO.next, hc, if_false]
    exact ⟨p, hp, rfl⟩

theorem call_pbest (s s1 : PSO) (c : Call) (h : s.call c = some s1) (i : Nat) (p : Particle)
    (hp : s.swarm[i]? = some p) :
    ∃ p1, s1.swarm[i]? = some p1 ∧
      ((∃ f, c = Call.setEvaluation i f ∧ p1.pbest = (Particle.recordEvaluation p f).pbest ∧
          p1.current = (Particle.recordEvaluation p f).current) ∨
        ((∀ f, c ≠ Call.setEvaluation i f) ∧ p1.pbest = p.pbest)) := by
  have hlt : i < s.swarm.length := (List.getElem?_eq_some.mp hp).1
  cases c with
  | initialise j lbs ubs g_pos g_vel =>
    simp only [PSO.call] at h
    cases hj : s.swarm[j]? with
    | none => simp [hj] at h
    | some pj =>
      simp only [hj, Option.some.injEq] at h
      subst h
      by_cases hji : j = i
      · subst hji
        rw [hp] at hj
        simp only [Option.some.injEq] at hj
        subst hj
        exact ⟨ Particle.initialize p lbs ubs g_pos g_vel, by simp [List.getElem?_set, hlt],
          Or.inr ⟨by simp, rfl⟩⟩
      · exact ⟨p, by simp [List.getElem?_set, hji, hp], Or.inr ⟨by simp, rfl⟩⟩
  | move j g1 g2 =>
    simp only [PSO.call] at h
    cases hj : s.swarm[j]? with
    | none => simp [hj] at h
    | some pj =>
      simp only [hj, Option.some.injEq] at h
      subst h
      by_cases hji : j = i
      · subst hji
        rw [hp] at hj
        simp only [Option.some.injEq] at hj
        subst hj
        exact ⟨Particle.move p g1 g2, by simp [List.getElem?_set, hlt], Or.inr ⟨by simp, rfl⟩⟩
      · exact ⟨p, by simp [List.getElem?_set, hji, hp], Or.inr ⟨by simp, rfl⟩⟩
  | setEvaluation j f =>
    simp only [PSO.call] at h
    cases hs : Particle.setEvaluation s.swarm j f with
    | none => simp [hs] at h
    | some sw1 =>
      simp only [hs, Option.some.injEq] at h
      subst h
      obtain ⟨pj, hpj, he⟩ := setEvaluation_erase _ _ _ _ hs
      by_cases hji : j = i
      · subst hji
        rw [hp] at hpj
        simp only [Option.some.injEq] at hpj
        subst hpj
        obtain ⟨p1, hp1, hp1e⟩ := erase_getElem? _ _ he j (Particle.recordEvaluation p f)
          (by simp [List.getElem?_set, hlt])
        obtain ⟨e1, e2⟩ := eraseGbest_pbest _ _ hp1e
        exact ⟨p1, hp1, Or.inl ⟨f, rfl, e1, e2⟩⟩
      · obtain ⟨p1, hp1, hp1e⟩ := erase_getElem? _ _ he i p
          (by simp [List.getElem?_set, hji, hp])
        obtain ⟨e1, _⟩ := eraseGbest_pbest _ _ hp1e
        refine ⟨p1, hp1, Or.inr ⟨?_, e1⟩⟩
        intro f1 hf1
        simp only [Call.setEvaluation.injEq] at hf1
        exact hji hf1.1
  | update =>
    simp only [PSO.call, Option.some.injEq] at h
    subst h
    exact ⟨p, hp, Or.inr ⟨by simp, rfl⟩⟩
  | next g =>
    simp only [PSO.call, Option.some.injEq] at h
    subst h
    obtain ⟨p1, hp1, e⟩ := next_particle s g i p hp
    exact ⟨p1, hp1, Or.inr ⟨by simp, e⟩⟩

theorem recordEvaluation_pbest (p : Particle) (f : ℚ) :
    (Particle.recordEvaluation p f).pbest =
      improveFold [{ x := p.current.x, eval := f }] p.pbest := by
  by_cases hf : f > p.pbest.eval
  · simp [Particle.recordEvaluation, improveFold, hf]
  · simp [Particle.recordEvaluation, improveFold, hf]

theorem improveFold_append (l1 l2 : List Solution) (b : Solution) :
    improveFold (l1 ++ l2) b = improveFold l2 (improveFold l1 b) := by
  induction l1 generalizing b with
  | nil => rfl
  | cons r rs ih =>
    by_cases hr : r.eval > b.eval
    · simp only [List.cons_append, improveFold, hr, if_true]
      exact ih r
    · simp only [List.cons_append, improveFold, hr, if_false]
      exact ih b

theorem run_pbest (i : Nat) (calls : List Call) (s s1 : PSO) (p : Particle)
    (h : s.run calls = some s1) (hp : s.swarm[i]? = some p) :
    ∃ p1, s1.swarm[i]? = some p1 ∧ p1.pbest = improveFold (reports i s calls) p.pbest := by
  induction calls generalizing s p with
  | nil =>
    simp only [PSO.run, Option.some.injEq] at h
    subst h
    exact ⟨p, hp, rfl⟩
  | cons c cs ih =>
    simp only [PSO.run] at h
    cases hc : s.call c with
    | none => simp [hc] at h
    | some s2 =>
      simp only [hc] at h
      obtain ⟨p2, hp2, hcase⟩ := call_pbest s s2 c hc i p hp
      obtain ⟨p1, hp1, e1⟩ := ih s2 p2 h hp2
      refine ⟨p1, hp1, ?_⟩
      rw [e1]
      rcases hcase with ⟨f, rfl, e2, _⟩ | ⟨hne, e2⟩
      · simp only [reports, hc, hp, if_true]
        rw [e2, recordEvaluation_pbest, ← improveFold_append]
        rfl
      · rw [e2]
        cases c with
        | setEvaluation j f =>
          have hji : j ≠ i := by
            intro hji
            exact hne f (by rw [hji])
          simp only [reports, hc, hp, hji, if_false]
        | initialise j lbs ubs g_pos g_vel => simp only [reports, hc]
        | move j g1 g2 => simp only [reports, hc]
        | update => simp only [reports, hc]
        | next g => simp only [reports, hc]

/-- C5: along any sequence of calls on the swarm (`setEvaluation`, `move`,
`initialize` on any particle, `update`, `next`), the personal-best fitness of
every particle at the end is greater than or equal to the one at the start; a
sequence of one call gives the statement for each single call. -/
theorem Particle.pbest_eval_monotone (s s1 : PSO) (calls : List Call)
    (h : s.run calls = some s1) (i : Nat) (p : Particle) (hp : s.swarm[i]? = some p) :
    ∃ p1, s1.swarm[i]? = some p1 ∧ p.pbest.eval ≤ p1.pbest.eval := by
  obtain ⟨p1, hp1, e⟩ := run_pbest i calls s s1 p h hp
  exact ⟨p1, hp1, by rw [e]; exact improveFold_eval_ge _ _⟩

/-- C5, an instance: on the ring of two particles, particle 0 reports 5, moves,
reports 3, then the swarm is updated, dispatched and particle 1 reports 9; the
personal-best fitness of particle 0 goes from `-DBL_MAX` to 5 and stays there. -/
theorem Particle.pbest_eval_monotone_ring_instance :
    ringStartRun = some ringStart ∧
      ringStart.run ringLifeCalls = some ringLife ∧
      ringStart.swarm[0]? = some ringParticle0 ∧
      (ringLife.swarm[0]?).map (fun p => p.pbest) = some ⟨[2], 5⟩ ∧
      ∃ p1, ringLife.swarm[0]? = some p1 ∧ ringParticle0.pbest.eval ≤ p1.pbest.eval :=
  ⟨by decide!, by decide!, by decide!, by decide!,
    Particle.pbest_eval_monotone ringStart ringLife ringLifeCalls (by decide!) 0 ringParticle0
      (by decide!)⟩

/-- C6 as stated fails: particle 0 of the ring, sitting at 2 with the personal
best `(0, -DBL_MAX)` of its constructor, reports the fitness `-DBL_MAX`. The
maximum of the reported values is `-DBL_MAX`, first reported at position 2, and
the personal best is still `(0, -DBL_MAX)`, whose position is not 2. -/
theorem Particle.setEvaluation_sentinel_report :
    ringStartRun = some ringStart ∧
      ringStart.swarm[0]? = some ringParticle0 ∧
      ringStart.run [Call.setEvaluation 0 (-DBL_MAX)] = some ringSentinel ∧
      reports 0 ringStart [Call.setEvaluation 0 (-DBL_MAX)] = [⟨[2], -DBL_MAX⟩] ∧
      IsFirstMax (reports 0 ringStart [Call.setEvaluation 0 (-DBL_MAX)]) 0 ⟨[2], -DBL_MAX⟩ ∧
      (ringSentinel.swarm[0]?).map (fun p => p.pbest) = some ⟨[0], -DBL_MAX⟩ ∧
      (ringSentinel.swarm[0]?).map (fun p => p.pbest.x) ≠ some [2] := by
  have hr : reports 0 ringStart [Call.setEvaluation 0 (-DBL_MAX)] = [⟨[2], -DBL_MAX⟩] := by
    decide!
  refine ⟨by decide!, by decide!, by decide!, hr, ?_, by decide!, by decide!⟩
  rw [hr]
  refine ⟨rfl, ?_, ?_⟩
  · intro j q hj
    cases j with
    | zero =>
      simp only [List.getElem?_cons_zero, Option.some.injEq] at hj
      rw [← hj]
    | succ k => simp at hj
  · intro j q hj
    omega

/-- C6, amended: `setEvaluation(f)`, which succeeds when every particle has a
neighbour and all neighbours are particles of the swarm, records `f` as the
current fitness of the particle and replaces its personal best by (current
position, `f`) exactly when `f` is strictly greater than the previous
personal-best fitness. Consequently,
after any sequence of calls, if `r` is the first report of maximal fitness among
the reports (position held, fitness) the particle received, the personal best is
`r` when the fitness of `r` is strictly greater than the personal-best fitness
the particle started with (`-DBL_MAX` after construction), and is the initial
personal best otherwise. -/
theorem Particle.setEvaluation_pbest (s : PSO) (i : Nat) (p : Particle)
    (hp : s.swarm[i]? = some p) :
    (NeighboursValid s.swarm → ∀ f, ∃ sw1, Particle.setEvaluation s.swarm i f = some sw1) ∧
      (∀ f sw1, Particle.setEvaluation s.swarm i f = some sw1 →
        ∃ p1, sw1[i]? = some p1 ∧ p1.current = ⟨p.current.x, f⟩ ∧
          (p.pbest.eval < f → p1.pbest = ⟨p.current.x, f⟩) ∧
          (¬ p.pbest.eval < f → p1.pbest = p.pbest)) ∧
      (∀ calls s1 m r, s.run calls = some s1 → IsFirstMax (reports i s calls) m r →
        ∃ p1, s1.swarm[i]? = some p1 ∧
          (p.pbest.eval < r.eval → p1.pbest = r) ∧
          (¬ p.pbest.eval < r.eval → p1.pbest = p.pbest)) := by
  refine ⟨fun hv f => setEvaluation_isSome s.swarm i f hv (List.getElem?_eq_some.mp hp).1,
    ?_, ?_⟩
  · intro f sw1 h
    have hc : s.call (Call.setEvaluation i f) = some { s with swarm := sw1 } := by
      simp [PSO.call, h]
    obtain ⟨p1, hp1, hcase⟩ := call_pbest s _ _ hc i p hp
    rcases hcase with ⟨f1, hf1, e1, e2⟩ | ⟨hne, _⟩
    · simp only [Call.setEvaluation.injEq, true_and] at hf1
      subst hf1
      refine ⟨p1, hp1, ?_, ?_, ?_⟩
      · rw [e2]
        by_cases hf : f > p.pbest.eval
        · simp [Particle.recordEvaluation, hf]
        · simp [Particle.recordEvaluation, hf]
      · intro hf
        rw [e1]
        simp [Particle.recordEvaluation, hf]
      · intro hf
        rw [e1]
        simp [Particle.recordEvaluation, hf]
    · exact absurd rfl (hne f)
  · intro calls s1 m r h hm
    obtain ⟨p1, hp1, e⟩ := run_pbest i calls s s1 p h hp
    refine ⟨p1, hp1, ?_, ?_⟩
    · intro hlt
      rw [e]
      exact improveFold_firstMax _ _ m r hm hlt
    · intro hge
      rw [e]
      apply improveFold_of_le
      intro q hq
      obtain ⟨j, hj⟩ := List.getElem?_of_mem hq
      exact le_trans (hm.2.1 j q hj) (not_lt.mp hge)

/-- C6, an instance: particle 0 of the ring, constructed with the personal best
`(0, -DBL_MAX)` and sitting at 2, reports 5, moves and reports 3; its reports
are `(2, 5)` and then 3 at the new position, and its personal best is `(2, 5)`. -/
theorem Particle.setEvaluation_pbest_ring_instance :
    ringStart.swarm[0]? = some ringParticle0 ∧
      NeighboursValid ringStart.swarm ∧
      (Particle.ctor MAXIMIZE 1 1 1 1).pbest = ⟨[0], -DBL_MAX⟩ ∧
      ringStart.run ringLifeCalls = some ringLife ∧
      (reports 0 ringStart ringLifeCalls).map (fun q => q.eval) = [5, 3] ∧
      (reports 0 ringStart ringLifeCalls)[0]? = some ⟨[2], 5⟩ ∧
      (ringLife.swarm[0]?).map (fun p => p.pbest) = some ⟨[2], 5⟩ ∧
      (∀ calls s1 m r, ringStart.run calls = some s1 → IsFirstMax (reports 0 ringStart calls) m r →
        ∃ p1, s1.swarm[0]? = some p1 ∧
          (ringParticle0.pbest.eval < r.eval → p1.pbest = r) ∧
          (¬ ringParticle0.pbest.eval < r.eval → p1.pbest = ringParticle0.pbest)) :=
  ⟨by decide!, by decide!, by decide!, by decide!, by decide!, by decide!, by decide!,
    (Particle.setEvaluation_pbest ringStart 0 ringParticle0 (by decide!)).2.2⟩

/-! ### Counters, cursor and global best along a sequence of calls -/

theorem updateLoop_snd (l : List Particle) (gb : Solution) (b : Bool) :
    (updateLoop l gb b).2 = (b || decide (gb.eval < (updateLoop l gb b).1.eval)) := by
  induction l generalizing gb b with
  | nil => simp [updateLoop]
  | cons p ps ih =>
    by_cases hp : p.pbest.eval > gb.eval
    · simp only [updateLoop, hp, if_true]
      rw [ih p.pbest true]
      have h1 : p.pbest.eval ≤ (updateLoop ps p.pbest true).1.eval := by
        rw [updateLoop_fst]
        exact improveFold_eval_ge _ _
      have h2 : gb.eval < (updateLoop ps p.pbest true).1.eval := lt_of_lt_of_le hp h1
      simp [h2]
    · simp only [updateLoop, hp, if_false]
      exact ih gb b

theorem update_global_best_ge (s : PSO) : s.global_best.eval ≤ s.update.global_best.eval := by
  simp only [PSO.update, updateLoop_fst]
  exact improveFold_eval_ge _ _

theorem update_stagnation (s : PSO) (h : s.update.global_best.eval = s.global_best.eval) :
    s.update.n_eval_without_improvement = s.n_eval_without_improvement + 1 := by
  have h2 := updateLoop_snd (s.swarm.take s.n_particles) s.global_best false
  have h3 : (updateLoop (s.swarm.take s.n_particles) s.global_best false).1.eval =
      s.global_best.eval := h
  rw [h3] at h2
  simp only [PSO.update]
  simp [h2]

theorem setEvaluation_length (sw sw1 : List Particle) (i : Nat) (f : ℚ)
    (h : Particle.setEvaluation sw i f = some sw1) : sw1.length = sw.length := by
  obtain ⟨p, _, he⟩ := setEvaluation_erase sw sw1 i f h
  have := congrArg List.length he
  simpa using this

theorem call_frame (s s1 : PSO) (c : Call) (h : s.call c = some s1) :
    s1.n_particles = s.n_particles ∧ s1.max_iterations = s.max_iterations ∧
      s1.max_evaluations = s.max_evaluations ∧
      s1.max_n_eval_without_improvement = s.max_n_eval_without_improvement ∧
      s1.swarm.length = s.swarm.length ∧
      s.n_iterations ≤ s1.n_iterations ∧ s.n_evaluations ≤ s1.n_evaluations ∧
      s.global_best.eval ≤ s1.global_best.eval ∧
      (s1.global_best.eval = s.global_best.eval →
        s.n_eval_without_improvement ≤ s1.n_eval_without_improvement) ∧
      s1.next_particle_id =
        (if nextCalls [c] = 0 then s.next_particle_id
          else (s.next_particle_id + 1) % s.n_particles) := by
  cases c with
  | initialise j lbs ubs g_pos g_vel =>
    simp only [PSO.call] at h
    cases hj : s.swarm[j]? with
    | none => simp [hj] at h
    | some pj =>
      simp only [hj, Option.some.injEq] at h
      subst h
      simp [nextCalls]
  | move j g1 g2 =>
    simp only [PSO.call] at h
    cases hj : s.swarm[j]? with
    | none => simp [hj] at h
    | some pj =>
      simp only [hj, Option.some.injEq] at h
      subst h
      simp [nextCalls]
  | setEvaluation j f =>
    simp only [PSO.call] at h
    cases hs : Particle.setEvaluation s.swarm j f with
    | none => simp [hs] at h
    | some sw1 =>
      simp only [hs, Option.some.injEq] at h
      subst h
      simp [nextCalls, setEvaluation_length _ _ _ _ hs]
  | update =>
    simp only [PSO.call, Option.some.injEq] at h
    subst h
    refine ⟨rfl, rfl, rfl, rfl, rfl, le_refl _, Nat.le_succ _, update_global_best_ge s, ?_, ?_⟩
    · intro he
      rw [update_stagnation s he]
      exact Nat.le_succ _
    · simp [nextCalls, PSO.update]
  | next g =>
    simp only [PSO.call, Option.some.injEq] at h
    subst h
    by_cases hc : s.next_particle_id = 0 ∧ s.n_evaluations > 0
    · simp [PSO.next, hc, PSO.setInertia, forParticles, nextCalls]
    · simp [PSO.next, hc, nextCalls]

theorem nextCalls_cons (c : Call) (cs : List Call) :
    nextCalls (c :: cs) = nextCalls [c] + nextCalls cs := by
  cases c <;> simp [nextCalls, Nat.add_comm]

theorem nextCalls_singleton_le (c : Call) : nextCalls [c] = 0 ∨ nextCalls [c] = 1 := by
  cases c <;> simp [nextCalls]

theorem run_frame (calls : List Call) (s s1 : PSO) (h : s.run calls = some s1) :
    s1.n_particles = s.n_particles ∧ s1.max_iterations = s.max_iterations ∧
      s1.max_evaluations = s.max_evaluations ∧
      s1.max_n_eval_without_improvement = s.max_n_eval_without_improvement ∧
      s1.swarm.length = s.swarm.length ∧
      s.n_iterations ≤ s1.n_iterations ∧ s.n_evaluations ≤ s1.n_evaluations ∧
      s.global_best.eval ≤ s1.global_best.eval ∧
      (s1.global_best.eval = s.global_best.eval →
        s.n_eval_without_improvement ≤ s1.n_eval_without_improvement) ∧
      (s.next_particle_id < s.n_particles →
        s1.next_particle_id = (s.next_particle_id + nextCalls calls) % s.n_particles) := by
  induction calls generalizing s with
  | nil =>
    simp only [PSO.run, Option.some.injEq] at h
    subst h
    refine ⟨rfl, rfl, rfl, rfl, rfl, le_refl _, le_refl _, le_refl _, fun _ => le_refl _, ?_⟩
    intro hlt
    simp [nextCalls, Nat.mod_eq_of_lt hlt]
  | cons c cs ih =>
    simp only [PSO.run] at h
    cases hc : s.call c with
    | none => simp [hc] at h
    | some s2 =>
      simp only [hc] at h
      obtain ⟨a1, a2, a3, a4, a5, a6, a7, a8, a9, a10⟩ := call_frame s s2 c hc
      obtain ⟨b1, b2, b3, b4, b5, b6, b7, b8, b9, b10⟩ := ih s2 h
      refine ⟨b1.trans a1, b2.trans a2, b3.trans a3, b4.trans a4, b5.trans a5,
        le_trans a6 b6, le_trans a7 b7, le_trans a8 b8, ?_, ?_⟩
      · intro he
        have e2 : s2.global_best.eval = s.global_best.eval :=
          le_antisymm (by rw [← he]; exact b8) a8
        have e1 : s1.global_best.eval = s2.global_best.eval := by rw [he, e2]
        exact le_trans (a9 e2) (b9 e1)
      · intro hlt
        rw [nextCalls_cons]
        rcases nextCalls_singleton_le c with h0 | h1
        · rw [h0] at a10
          simp only [if_true] at a10
          rw [b10 (by rw [a10, a1]; exact hlt), a10, a1, h0, Nat.zero_add]
        · rw [h1] at a10
          simp only [Nat.one_ne_zero, if_false] at a10
          have hpos : 0 < s.n_particles := Nat.lt_of_le_of_lt (Nat.zero_le _) hlt
          rw [b10 (by rw [a10, a1]; exact Nat.mod_lt _ hpos), a10, a1, h1, Nat.mod_add_mod,
            Nat.add_assoc]

/-! ### Global best, termination and dispatch -/

/-- C7: the global-best fitness after `update()` is greater than or equal to the
one before it, in every state; and along any sequence of calls (`update`,
`setEvaluation`, `move`, `initialize`, `next`) the global-best fitness at the end
is greater than or equal to the one at the start. -/
theorem PSO.global_best_eval_monotone (s : PSO) :
    s.global_best.eval ≤ s.update.global_best.eval ∧
      ∀ calls s1, s.run calls = some s1 → s.global_best.eval ≤ s1.global_best.eval :=
  ⟨update_global_best_ge s, fun calls s1 h => (run_frame calls s s1 h).2.2.2.2.2.2.2.1⟩

/-- C7, an instance: along `ringLifeCalls` the global-best fitness of the ring
goes from `-DBL_MAX` to 9. -/
theorem PSO.global_best_eval_monotone_ring_instance :
    ringStart.run ringLifeCalls = some ringLife ∧
      ringStart.global_best.eval = -DBL_MAX ∧ ringLife.global_best.eval = 9 ∧
      ringStart.global_best.eval ≤ ringLife.global_best.eval :=
  ⟨by decide!, by decide!, by decide!,
    (PSO.global_best_eval_monotone ringStart).2 ringLifeCalls ringLife (by decide!)⟩

theorem terminationCondition_fst (s : PSO) :
    s.terminationCondition.1 = true ↔
      (s.n_iterations > s.max_iterations ∨ s.n_evaluations > s.max_evaluations ∨
        s.n_eval_without_improvement ≥ s.max_n_eval_without_improvement) := by
  unfold PSO.terminationCondition
  by_cases h1 : s.n_iterations > s.max_iterations
  · simp [h1]
  · by_cases h2 : s.n_evaluations > s.max_evaluations
    · simp [h1, h2]
    · by_cases h3 : s.n_eval_without_improvement ≥ s.max_n_eval_without_improvement
      · simp [h1, h2, h3]
      · simp [h1, h2, h3]

/-- C8: `terminationCondition()` returns true exactly when
`n_iterations > max_iterations`, or `n_evaluations > max_evaluations`, or
`n_eval_without_improvement >= max_n_eval_without_improvement`, and it leaves
the state as it was. -/
theorem PSO.terminationCondition_iff (s : PSO) :
    (s.terminationCondition.1 = true ↔
        (s.n_iterations > s.max_iterations ∨ s.n_evaluations > s.max_evaluations ∨
          s.n_eval_without_improvement ≥ s.max_n_eval_without_improvement)) ∧
      s.terminationCondition.2 = s := by
  refine ⟨terminationCondition_fst s, ?_⟩
  unfold PSO.terminationCondition
  split
  · rfl
  · split
    · rfl
    · split
      · rfl
      · rfl

/-- C9 as stated fails: after 300 `update()` calls without improvement the ring
has met its stagnation limit and `terminationCondition()` returns true; particle
0 is then evaluated to 5, the next `update()` improves the global best and
resets the stagnation counter, and `terminationCondition()` returns false. -/
theorem PSO.terminationCondition_not_absorbing :
    ringStartRun = some ringStart ∧
      ringStart.run (List.replicate 300 Call.update) = some ringStagnant ∧
      ringStagnant.n_eval_without_improvement = 300 ∧
      ringStagnant.max_n_eval_without_improvement = 300 ∧
      ringStagnant.terminationCondition.1 = true ∧
      ringStagnant.run [Call.setEvaluation 0 5, Call.update] = some ringRevived ∧
      ringRevived.n_eval_without_improvement = 0 ∧
      ringRevived.n_evaluations = 301 ∧ ringRevived.max_evaluations = 10000 ∧
      ringRevived.n_iterations = 0 ∧
      ringRevived.terminationCondition.1 = false :=
  ⟨by decide!, by decide!, by decide!, by decide!, by decide!, by decide!, by decide!,
    by decide!, by decide!, by decide!, by decide!⟩

/-- C9, amended: once `terminationCondition()` has returned true, it returns true
after every subsequent sequence of calls, provided that the iteration limit or
the evaluation limit was exceeded, or that the global-best fitness is the same
at the end of the sequence as at its start (no `update()` of the sequence
improved the global best). -/
theorem PSO.terminationCondition_stable (s s1 : PSO) (calls : List Call)
    (h : s.run calls = some s1) (ht : s.terminationCondition.1 = true)
    (hcause : s.n_iterations > s.max_iterations ∨ s.n_evaluations > s.max_evaluations ∨
      s1.global_best.eval = s.global_best.eval) :
    s1.terminationCondition.1 = true := by
  obtain ⟨_, a2, a3, a4, _, a6, a7, _, a9, _⟩ := run_frame calls s s1 h
  rw [terminationCondition_fst s1]
  rw [terminationCondition_fst s] at ht
  rw [a2, a3, a4]
  rcases hcause with h1 | h2 | h3
  · exact Or.inl (lt_of_lt_of_le h1 a6)
  · exact Or.inr (Or.inl (lt_of_lt_of_le h2 a7))
  · rcases ht with t1 | t2 | t3
    · exact Or.inl (lt_of_lt_of_le t1 a6)
    · exact Or.inr (Or.inl (lt_of_lt_of_le t2 a7))
    · exact Or.inr (Or.inr (le_trans t3 (a9 h3)))

/-- C9, an instance of the amended claim: the stagnant ring stays terminated
after a dispatch and one more `update()` without evaluation. -/
theorem PSO.terminationCondition_stable_ring_instance :
    ringStagnant.terminationCondition.1 = true ∧
      ringStagnant.run [Call.next (fun _ => (fun _ => 0, fun _ => 0)), Call.update] =
        some (ringStagnant.next (fun _ => (fun _ => 0, fun _ => 0))).2.update ∧
      (ringStagnant.next (fun _ => (fun _ => 0, fun _ => 0))).2.update.terminationCondition.1 =
        true :=
  ⟨by decide!, rfl,
    PSO.terminationCondition_stable ringStagnant _
      [Call.next (fun _ => (fun _ => 0, fun _ => 0)), Call.update] rfl (by decide!)
      (Or.inr (Or.inr (by decide!)))⟩

/-- C10: on a swarm of `n_particles ≥ 1` particles whose cursor starts at 0,
after any sequence of calls containing `k` calls of `next()`, the following call
of `next()` returns particle `k mod n_particles`, which is a particle of the
swarm, and leaves the cursor at `(k + 1) mod n_particles`. -/
theorem PSO.next_round_robin (s s1 : PSO) (calls : List Call) (h : s.run calls = some s1)
    (hcur : s.next_particle_id = 0) (hpos : 0 < s.n_particles)
    (hlen : s.swarm.length = s.n_particles) (g : MoveSources) :
    (s1.next g).1 = nextCalls calls % s.n_particles ∧
      (s1.next g).1 < (s1.next g).2.swarm.length ∧
      (s1.next g).2.next_particle_id = (nextCalls calls + 1) % s.n_particles := by
  obtain ⟨a1, _, _, _, a5, _, _, _, _, a10⟩ := run_frame calls s s1 h
  have hid : s1.next_particle_id = nextCalls calls % s.n_particles := by
    rw [a10 (by rw [hcur]; exact hpos), hcur, Nat.zero_add]
  have hret : (s1.next g).1 = s1.next_particle_id := by
    by_cases hc : s1.next_particle_id = 0 ∧ s1.n_evaluations > 0
    · simp [PSO.next, hc, PSO.setInertia]
    · simp [PSO.next, hc]
  have hsw : (s1.next g).2.swarm.length = s1.swarm.length := by
    by_cases hc : s1.next_particle_id = 0 ∧ s1.n_evaluations > 0
    · simp [PSO.next, hc, PSO.setInertia, forParticles]
    · simp [PSO.next, hc]
  have hnext : (s1.next g).2.next_particle_id = (s1.next_particle_id + 1) % s1.n_particles := by
    by_cases hc : s1.next_particle_id = 0 ∧ s1.n_evaluations > 0
    · simp [PSO.next, hc, PSO.setInertia]
    · simp [PSO.next, hc]
  refine ⟨by rw [hret, hid], ?_, ?_⟩
  · rw [hret, hsw, a5, hlen, hid]
    exact Nat.mod_lt _ hpos
  · rw [hnext, hid, a1, Nat.mod_add_mod]

/-- C10, an instance: after `ringLifeCalls`, which contain one `next()`, the next
`next()` on the ring of two particles returns particle 1 and leaves the cursor
at 0. -/
theorem PSO.next_round_robin_ring_instance :
    ringStart.run ringLifeCalls = some ringLife ∧ nextCalls ringLifeCalls = 1 ∧
      ringStart.next_particle_id = 0 ∧ ringStart.n_particles = 2 ∧
      (ringLife.next (fun _ => (fun _ => 0, fun _ => 0))).1 = 1 ∧
      (ringLife.next (fun _ => (fun _ => 0, fun _ => 0))).2.next_particle_id = 0 ∧
      (ringLife.next (fun _ => (fun _ => 0, fun _ => 0))).1 =
        nextCalls ringLifeCalls % ringStart.n_particles :=
  ⟨by decide!, by decide!, by decide!, by decide!, by decide!, by decide!,
    (PSO.next_round_robin ringStart ringLife ringLifeCalls (by decide!) (by decide!)
      (by decide!) (by decide!) (fun _ => (fun _ => 0, fun _ => 0))).1⟩

/-! ### The counters of `update()` -/

theorem updateLoop_snd_any (l : List Particle) (gb : Solution) (b : Bool) :
    (updateLoop l gb b).2 = (b || l.any (fun p => decide (gb.eval < p.pbest.eval))) := by
  induction l generalizing gb b with
  | nil => simp [updateLoop]
  | cons p ps ih =>
    by_cases hp : p.pbest.eval > gb.eval
    · have h1 : (updateLoop ps p.pbest true).2 = true := by
        rw [updateLoop_snd]
        rfl
      simp only [updateLoop, hp, if_true, h1, List.any_cons]
      simp [gt_iff_lt.mp hp]
    · have hp1 : ¬ gb.eval < p.pbest.eval := hp
      simp only [updateLoop, hp, if_false, List.any_cons, ih gb b, hp1, decide_False,
        Bool.false_or]

theorem update_counter_eq (s : PSO) (hlen : s.swarm.length = s.n_particles) :
    s.update.n_eval_without_improvement =
      if s.swarm.any (fun p => decide (s.global_best.eval < p.pbest.eval)) then 0
      else s.n_eval_without_improvement + 1 := by
  have h := updateLoop_snd_any (s.swarm.take s.n_particles) s.global_best false
  rw [List.take_of_length_le (le_of_eq hlen)] at h
  simp only [PSO.update, List.take_of_length_le (le_of_eq hlen), h, Bool.false_or]
  cases s.swarm.any (fun p => decide (s.global_best.eval < p.pbest.eval)) <;> simp

theorem trailingFalse_append (l : List Bool) (b : Bool) :
    trailingFalse (l ++ [b]) = if b then 0 else trailingFalse l + 1 := by
  cases b <;> simp [trailingFalse, List.takeWhile]

theorem foldl_counter_eq (l : List Bool) :
    l.foldl (fun c b => if b then 0 else c + 1) 0 = trailingFalse l := by
  induction l using List.reverseRecOn with
  | nil => rfl
  | append_singleton l b ih =>
    rw [List.foldl_append, trailingFalse_append, ih]
    cases b <;> simp

theorem run_counter (calls : List Call) (s s1 : PSO) (h : s.run calls = some s1)
    (hlen : s.swarm.length = s.n_particles) :
    s1.n_eval_without_improvement =
      (improvements s calls).foldl (fun c b => if b then 0 else c + 1)
        s.n_eval_without_improvement := by
  induction calls generalizing s with
  | nil =>
    simp only [PSO.run, Option.some.injEq] at h
    subst h
    rfl
  | cons c cs ih =>
    simp only [PSO.run] at h
    cases hc : s.call c with
    | none => simp [hc] at h
    | some s2 =>
      simp only [hc] at h
      obtain ⟨a1, _, _, _, a5, _⟩ := call_frame s s2 c hc
      have hlen2 : s2.swarm.length = s2.n_particles := by rw [a5, a1, hlen]
      rw [ih s2 h hlen2]
      cases c with
      | update =>
        simp only [PSO.call, Option.some.injEq] at hc
        subst hc
        simp only [improvements, PSO.call, List.foldl_cons]
        rw [update_counter_eq s hlen]
      | initialise j lbs ubs g_pos g_vel =>
        have hk : s2.n_eval_without_improvement = s.n_eval_without_improvement := by
          simp only [PSO.call] at hc
          cases hj : s.swarm[j]? with
          | none => simp [hj] at hc
          | some pj =>
            simp only [hj, Option.some.injEq] at hc
            subst hc
            rfl
        simp only [improvements, hc, hk]
      | move j g1 g2 =>
        have hk : s2.n_eval_without_improvement = s.n_eval_without_improvement := by
          simp only [PSO.call] at hc
          cases hj : s.swarm[j]? with
          | none => simp [hj] at hc
          | some pj =>
            simp only [hj, Option.some.injEq] at hc
            subst hc
            rfl
        simp only [improvements, hc, hk]
      | setEvaluation j f =>
        have hk : s2.n_eval_without_improvement = s.n_eval_without_improvement := by
          simp only [PSO.call] at hc
          cases hj : Particle.setEvaluation s.swarm j f with
          | none => simp [hj] at hc
          | some sw =>
            simp only [hj, Option.some.injEq] at hc
            subst hc
            rfl
        simp only [improvements, hc, hk]
      | next g =>
        have hk : s2.n_eval_without_improvement = s.n_eval_without_improvement := by
          simp only [PSO.call, Option.some.injEq] at hc
          subst hc
          by_cases hg : s.next_particle_id = 0 ∧ s.n_evaluations > 0
          · simp [PSO.next, hg, PSO.setInertia]
          · simp [PSO.next, hg]
        simp only [improvements, hc, hk]

/-- C13: on a swarm of `n_particles` particles, `update()` increments
`n_evaluations` by exactly 1, sets `n_eval_without_improvement` to 0 when some
particle's personal-best fitness strictly exceeds the global-best fitness held
before the call, and increases it by exactly 1 otherwise; so, starting from the
counter 0 of the constructor, after any sequence of calls the counter is the
number of consecutive most recent `update()` calls without improvement. -/
theorem PSO.update_counters (s : PSO) (hlen : s.swarm.length = s.n_particles) :
    s.update.n_evaluations = s.n_evaluations + 1 ∧
      ((∃ p ∈ s.swarm, s.global_best.eval < p.pbest.eval) →
        s.update.n_eval_without_improvement = 0) ∧
      ((¬ ∃ p ∈ s.swarm, s.global_best.eval < p.pbest.eval) →
        s.update.n_eval_without_improvement = s.n_eval_without_improvement + 1) ∧
      (s.n_eval_without_improvement = 0 → ∀ calls s1, s.run calls = some s1 →
        s1.n_eval_without_improvement = trailingFalse (improvements s calls)) := by
  refine ⟨rfl, ?_, ?_, ?_⟩
  · intro hex
    rw [update_counter_eq s hlen]
    have : s.swarm.any (fun p => decide (s.global_best.eval < p.pbest.eval)) = true := by
      simpa using hex
    simp [this]
  · intro hex
    rw [update_counter_eq s hlen]
    have : s.swarm.any (fun p => decide (s.global_best.eval < p.pbest.eval)) = false := by
      simpa using hex
    simp [this]
  · intro h0 calls s1 h
    rw [run_counter calls s s1 h hlen, h0, foldl_counter_eq]

/-- C13, an instance: along `ringLifeCalls` the two `update()` calls of the ring
both improve the global best; after two more `update()` calls without any
evaluation the stagnation counter is 2 and `n_evaluations` is 4. -/
theorem PSO.update_counters_ring_instance :
    ringStart.swarm.length = ringStart.n_particles ∧
      ringStart.n_eval_without_improvement = 0 ∧
      ringStart.run (ringLifeCalls ++ [Call.update, Call.update]) = some ringLifeTwoMore ∧
      improvements ringStart (ringLifeCalls ++ [Call.update, Call.update]) =
        [true, true, false, false] ∧
      ringLifeTwoMore.n_eval_without_improvement = 2 ∧
      ringLifeTwoMore.n_evaluations = 4 ∧
      ringLifeTwoMore.n_eval_without_improvement =
        trailingFalse (improvements ringStart (ringLifeCalls ++ [Call.update, Call.update])) :=
  ⟨by decide!, by decide!, by decide!, by decide!, by decide!, by decide!,
    (PSO.update_counters ringStart (by decide!)).2.2.2 (by decide!) _ _ (by decide!)⟩

/-! ### The generational update of `next()` -/

theorem next_of_guard (s : PSO) (g : MoveSources) (hlen : s.swarm.length = s.n_particles)
    (hg : s.next_particle_id = 0 ∧ s.n_evaluations > 0) :
    (s.next g).2.swarm = movedSwarm s g ∧ (s.next g).2.inertia = s.inertia * s.decay ∧
      (s.next g).2.n_iterations = s.n_iterations + 1 := by
  refine ⟨?_, ?_, ?_⟩
  · simp only [PSO.next, hg, and_self, if_true, PSO.setInertia, movedSwarm]
    apply List.ext_getElem?
    intro i
    simp only [forParticles_getElem?, List.getElem?_mapIdx]
    cases hi : s.swarm[i]? with
    | none => simp
    | some p =>
      have hlt : i < s.n_particles := by
        rw [← hlen]
        exact (List.getElem?_eq_some.mp hi).1
      simp [hlt]
  · simp [PSO.next, hg, PSO.setInertia]
  · simp [PSO.next, hg, PSO.setInertia]

theorem next_of_not_guard (s : PSO) (g : MoveSources)
    (hg : ¬ (s.next_particle_id = 0 ∧ s.n_evaluations > 0)) :
    (s.next g).2.swarm = s.swarm ∧ (s.next g).2.inertia = s.inertia ∧
      (s.next g).2.n_iterations = s.n_iterations := by
  simp [PSO.next, hg]

theorem updateCalls_cons (c : Call) (cs : List Call) :
    updateCalls (c :: cs) = updateCalls [c] + updateCalls cs := by
  cases c <;> simp [updateCalls, Nat.add_comm]

theorem call_n_evaluations (s s1 : PSO) (c : Call) (h : s.call c = some s1) :
    s1.n_evaluations = s.n_evaluations + updateCalls [c] := by
  cases c with
  | initialise j lbs ubs g_pos g_vel =>
    simp only [PSO.call] at h
    cases hj : s.swarm[j]? with
    | none => simp [hj] at h
    | some pj =>
      simp only [hj, Option.some.injEq] at h
      subst h
      rfl
  | move j g1 g2 =>
    simp only [PSO.call] at h
    cases hj : s.swarm[j]? with
    | none => simp [hj] at h
    | some pj =>
      simp only [hj, Option.some.injEq] at h
      subst h
      rfl
  | setEvaluation j f =>
    simp only [PSO.call] at h
    cases hs : Particle.setEvaluation s.swarm j f with
    | none => simp [hs] at h
    | some sw1 =>
      simp only [hs, Option.some.injEq] at h
      subst h
      rfl
  | update =>
    simp only [PSO.call, Option.some.injEq] at h
    subst h
    rfl
  | next g =>
    simp only [PSO.call, Option.some.injEq] at h
    subst h
    by_cases hc : s.next_particle_id = 0 ∧ s.n_evaluations > 0
    · simp [PSO.next, hc, PSO.setInertia, updateCalls]
    · simp [PSO.next, hc, updateCalls]

theorem run_n_evaluations (calls : List Call) (s s1 : PSO) (h : s.run calls = some s1) :
    s1.n_evaluations = s.n_evaluations + updateCalls calls := by
  induction calls generalizing s with
  | nil =>
    simp only [PSO.run, Option.some.injEq] at h
    subst h
    rfl
  | cons c cs ih =>
    simp only [PSO.run] at h
    cases hc : s.call c with
    | none => simp [hc] at h
    | some s2 =>
      simp only [hc] at h
      rw [ih s2 h, call_n_evaluations s s2 c hc, updateCalls_cons c cs, Nat.add_assoc]

/-- C12 as stated fails: on the ring of two particles, `update()` is called once
before any `next()`; the first `next()` then finds the cursor at 0 and
`n_evaluations = 1`, and moves the swarm (particle 0 goes from 2 to 0, the
iteration count becomes 1) although `next()` has not returned any particle
yet. -/
theorem PSO.next_moves_before_dispatch :
    ringStart.run [Call.update] = some ringEarlyUpdate ∧
      nextCalls [Call.update] = 0 ∧ ringEarlyUpdate.n_particles = 2 ∧
      ringEarlyUpdate.next_particle_id = 0 ∧ ringEarlyUpdate.n_evaluations = 1 ∧
      ringEarlyUpdate.n_iterations = 0 ∧
      ringEarlyUpdate.swarm.map (fun p => p.current.x) = [[2], [8]] ∧
      (ringEarlyUpdate.next (fun _ => (fun _ => 0, fun _ => 0))).1 = 0 ∧
      (ringEarlyUpdate.next (fun _ => (fun _ => 0, fun _ => 0))).2.n_iterations = 1 ∧
      (ringEarlyUpdate.next (fun _ => (fun _ => 0, fun _ => 0))).2.swarm.map
        (fun p => p.current.x) = [[0], [0]] :=
  ⟨by decide!, by decide!, by decide!, by decide!, by decide!, by decide!, by decide!,
    by decide!, by decide!, by decide!⟩

/-- C12, amended: on a swarm of `n_particles` particles, `next()` performs the
generational update (every particle is moved and receives the inertia multiplied
by `decay`, the iteration is counted) when the cursor is at 0 and
`n_evaluations > 0`, and leaves the swarm, the inertia and the iteration count
as they are otherwise. After any sequence of calls on a swarm whose cursor and
`n_evaluations` started at 0, this condition holds exactly when the number of
`next()` calls made is a multiple of `n_particles` and `update()` has been
called; so, when `update()` has been called if and only if `next()` has, it
holds exactly when the cursor is at 0 and `next()` has already returned
`n_particles` particles. -/
theorem PSO.next_generational_update (s : PSO) (hlen : s.swarm.length = s.n_particles)
    (hpos : 0 < s.n_particles) :
    (∀ g, (s.next_particle_id = 0 ∧ s.n_evaluations > 0) →
        (s.next g).2.swarm = movedSwarm s g ∧ (s.next g).2.inertia = s.inertia * s.decay ∧
          (s.next g).2.n_iterations = s.n_iterations + 1) ∧
      (∀ g, ¬ (s.next_particle_id = 0 ∧ s.n_evaluations > 0) →
        (s.next g).2.swarm = s.swarm ∧ (s.next g).2.inertia = s.inertia ∧
          (s.next g).2.n_iterations = s.n_iterations) ∧
      (s.next_particle_id = 0 → s.n_evaluations = 0 → ∀ calls s1, s.run calls = some s1 →
        ((s1.next_particle_id = 0 ∧ s1.n_evaluations > 0) ↔
            (nextCalls calls % s.n_particles = 0 ∧ updateCalls calls > 0)) ∧
          ((updateCalls calls > 0 ↔ nextCalls calls > 0) →
            ((s1.next_particle_id = 0 ∧ s1.n_evaluations > 0) ↔
              (s1.next_particle_id = 0 ∧ nextCalls calls ≥ s.n_particles)))) := by
  refine ⟨fun g hg => next_of_guard s g hlen hg, fun g hg => next_of_not_guard s g hg, ?_⟩
  intro hcur hev calls s1 h
  have hid : s1.next_particle_id = nextCalls calls % s.n_particles := by
    rw [(run_frame calls s s1 h).2.2.2.2.2.2.2.2.2 (by rw [hcur]; exact hpos), hcur,
      Nat.zero_add]
  have hne : s1.n_evaluations = updateCalls calls := by
    rw [run_n_evaluations calls s s1 h, hev, Nat.zero_add]
  have h1 : (s1.next_particle_id = 0 ∧ s1.n_evaluations > 0) ↔
      (nextCalls calls % s.n_particles = 0 ∧ updateCalls calls > 0) := by
    rw [hid, hne]
  refine ⟨h1, ?_⟩
  intro hbal
  rw [h1, hid]
  constructor
  · rintro ⟨hm, hu⟩
    refine ⟨hm, ?_⟩
    have hn : nextCalls calls > 0 := hbal.mp hu
    exact Nat.le_of_dvd hn (Nat.dvd_of_mod_eq_zero hm)
  · rintro ⟨hm, hn⟩
    exact ⟨hm, hbal.mpr (Nat.lt_of_lt_of_le hpos hn)⟩

/-- C12, an instance of the amended claim: after `ringLifeCalls` (one `next()`,
two `update()` calls) the cursor of the ring of two particles is at 1 and the
following `next()` leaves the swarm as it is. -/
theorem PSO.next_generational_update_ring_instance :
    ringStart.run ringLifeCalls = some ringLife ∧
      nextCalls ringLifeCalls = 1 ∧ updateCalls ringLifeCalls = 2 ∧
      ringLife.next_particle_id = 1 ∧
      (ringLife.next (fun _ => (fun _ => 0, fun _ => 0))).2.swarm = ringLife.swarm ∧
      ((ringLife.next_particle_id = 0 ∧ ringLife.n_evaluations > 0) ↔
        (nextCalls ringLifeCalls % ringStart.n_particles = 0 ∧ updateCalls ringLifeCalls > 0)) :=
  ⟨by decide!, by decide!, by decide!, by decide!, by decide!,
    ((PSO.next_generational_update ringStart (by decide!) (by decide!)).2.2 (by decide!)
      (by decide!) ringLifeCalls ringLife (by decide!)).1⟩

/-! ### The protocol of the controller -/

theorem setEvaluation_particle (sw sw1 : List Particle) (i : Nat) (f : ℚ)
    (h : Particle.setEvaluation sw i f = some sw1) (j : Nat) (p : Particle)
    (hp : sw[j]? = some p) :
    ∃ p1, sw1[j]? = some p1 ∧
      eraseGbest p1 = eraseGbest (if j = i then Particle.recordEvaluation p f else p) := by
  obtain ⟨p0, hp0, he⟩ := setEvaluation_erase sw sw1 i f h
  have hlt : j < sw.length := (List.getElem?_eq_some.mp hp).1
  by_cases hji : j = i
  · subst hji
    rw [hp] at hp0
    simp only [Option.some.injEq] at hp0
    subst hp0
    simp only [if_true]
    exact erase_getElem? _ _ he j _ (by simp [List.getElem?_set, hlt])
  · simp only [hji, if_false]
    exact erase_getElem? _ _ he j p
      (by simp [List.getElem?_set, Ne.symm hji, hp])

theorem eraseGbest_fields (p q : Particle) (h : eraseGbest p = eraseGbest q) :
    p.inertia = q.inertia ∧ p.neighbours = q.neighbours ∧ p.current = q.current := by
  have h1 := congrArg Particle.inertia h
  have h2 := congrArg Particle.neighbours h
  have h3 := congrArg Particle.current h
  exact ⟨h1, h2, h3⟩

theorem recordEvaluation_fields (p : Particle) (f : ℚ) :
    (Particle.recordEvaluation p f).inertia = p.inertia ∧
      (Particle.recordEvaluation p f).neighbours = p.neighbours ∧
      (Particle.recordEvaluation p f).current = ⟨p.current.x, f⟩ := by
  by_cases hf : f > p.pbest.eval
  · simp [Particle.recordEvaluation, hf]
  · simp [Particle.recordEvaluation, hf]

theorem setEvaluation_neighbours (sw sw1 : List Particle) (i : Nat) (f : ℚ)
    (h : Particle.setEvaluation sw i f = some sw1) :
    sw1.map (fun q => q.neighbours) = sw.map (fun q => q.neighbours) := by
  have hlen := setEvaluation_length sw sw1 i f h
  apply List.ext_getElem?
  intro j
  simp only [List.getElem?_map]
  cases hp : sw[j]? with
  | none =>
    have : sw1[j]? = none := by
      rw [List.getElem?_eq_none_iff] at hp ⊢
      omega
    simp [this]
  | some p =>
    obtain ⟨p1, hp1, he⟩ := setEvaluation_particle sw sw1 i f h j p hp
    have e := (eraseGbest_fields _ _ he).2.1
    by_cases hji : j = i
    · simp only [hji, if_true] at e
      simp [hp1, e, (recordEvaluation_fields p f).2.1]
    · simp only [hji, if_false] at e
      simp [hp1, e]

theorem next_fields (s : PSO) (g : MoveSources) :
    (s.next g).1 = s.next_particle_id ∧
      (s.next g).2.next_particle_id = (s.next_particle_id + 1) % s.n_particles ∧
      (s.next g).2.n_particles = s.n_particles ∧ (s.next g).2.decay = s.decay ∧
      (s.next g).2.n_evaluations = s.n_evaluations := by
  by_cases hc : s.next_particle_id = 0 ∧ s.n_evaluations > 0
  · simp [PSO.next, hc, PSO.setInertia]
  · simp [PSO.next, hc]

theorem movedSwarm_getElem? (s : PSO) (g : MoveSources) (i : Nat) :
    (movedSwarm s g)[i]? = (s.swarm[i]?).map (fun p =>
      { Particle.move p (g i).1 (g i).2 with inertia := s.inertia * s.decay }) := by
  simp [movedSwarm, List.getElem?_mapIdx]

theorem movedSwarm_neighbours (s : PSO) (g : MoveSources) :
    (movedSwarm s g).map (fun q => q.neighbours) = s.swarm.map (fun q => q.neighbours) := by
  apply List.ext_getElem?
  intro j
  simp only [List.getElem?_map, movedSwarm_getElem?]
  cases s.swarm[j]? with
  | none => rfl
  | some p => simp [Particle.move]

theorem movedSwarm_inertia (s : PSO) (g : MoveSources) :
    ∀ p ∈ movedSwarm s g, p.inertia = s.inertia * s.decay := by
  intro p hp
  obtain ⟨j, hj⟩ := List.getElem?_of_mem hp
  rw [movedSwarm_getElem?] at hj
  cases hq : s.swarm[j]? with
  | none => simp [hq] at hj
  | some q =>
    simp only [hq, Option.map_some', Option.some.injEq] at hj
    rw [← hj]

theorem protocol_step (N : Nat) (w0 d : ℚ) (all : List (ℚ × MoveSources)) (q r : Nat)
    (c : Controller) (hinv : ProtocolInv N w0 d all q r c) (f : ℚ) (g : MoveSources)
    (hf : all[q * N + r]? = some (f, g)) :
    ∃ s c1, c.beforeNext f = some s ∧ c.update f g = some c1 ∧
      s.swarm.length = s.n_particles ∧ s.n_particles = N ∧
      (∀ i ≤ r, ∃ p, s.swarm[i]? = some p ∧
        some p.current.eval = (all[q * N + i]?).map Prod.fst) ∧
      (r + 1 = N → ProtocolInv N w0 d all (q + 1) 0 c1 ∧
        (s.next_particle_id = 0 ∧ s.n_evaluations > 0)) ∧
      (r + 1 < N → ProtocolInv N w0 d all q (r + 1) c1 ∧
        ¬ (s.next_particle_id = 0 ∧ s.n_evaluations > 0)) := by
  obtain ⟨h1, h2, h3, h4, h5, h6, h7, h8, h9, h10, h11, h12, h13⟩ := hinv
  have hcur : c.currentParticle < c.pso.swarm.length := by rw [h10, h3]; exact h6
  obtain ⟨sw, hsw⟩ := setEvaluation_isSome c.pso.swarm c.currentParticle f h4 hcur
  have hswlen : sw.length = N := by rw [setEvaluation_length _ _ _ _ hsw, h3]
  have hb : c.beforeNext f = some (PSO.update { c.pso with swarm := sw }) := by
    simp [Controller.beforeNext, hsw]
  have hu : c.update f g = some
      { is_training := c.is_training
        objective := c.objective ++ [f]
        pso := ((PSO.update { c.pso with swarm := sw }).next g).2
        currentParticle := ((PSO.update { c.pso with swarm := sw }).next g).1 } := by
    simp [Controller.update, Controller.beforeNext, h1, hsw]
  have hvalid : NeighboursValid sw :=
    neighboursValid_congr _ _ (setEvaluation_neighbours _ _ _ _ hsw) h4
  have hpart : ∀ j p, c.pso.swarm[j]? = some p → ∃ p1, sw[j]? = some p1 ∧
      p1.inertia = p.inertia ∧ p1.current = (if j = r then ⟨p.current.x, f⟩ else p.current) := by
    intro j p hp
    obtain ⟨p1, hp1, he⟩ := setEvaluation_particle _ _ _ _ hsw j p hp
    obtain ⟨e1, _, e3⟩ := eraseGbest_fields _ _ he
    refine ⟨p1, hp1, ?_, ?_⟩
    · rw [e1]
      by_cases hj : j = c.currentParticle
      · simp [hj, (recordEvaluation_fields p f).1]
      · simp [hj]
    · rw [e3, h10]
      by_cases hj : j = r
      · simp [hj, (recordEvaluation_fields p f).2.2]
      · simp [hj]
  have hsinertia : ∀ p1 ∈ sw, p1.inertia = w0 * d ^ q := by
    intro p1 hp1
    obtain ⟨j, hj⟩ := List.getElem?_of_mem hp1
    have hjlt : j < c.pso.swarm.length := by
      rw [h3, ← hswlen]
      exact (List.getElem?_eq_some.mp hj).1
    obtain ⟨p2, hp2, e1, _⟩ := hpart j _ (List.getElem?_eq_getElem hjlt)
    rw [hj] at hp2
    simp only [Option.some.injEq] at hp2
    rw [hp2, e1]
    exact h12 _ (List.getElem_mem hjlt)
  have hevals : ∀ i ≤ r, ∃ p, sw[i]? = some p ∧
      some p.current.eval = (all[q * N + i]?).map Prod.fst := by
    intro i hi
    have hilt : i < c.pso.swarm.length := by rw [h3]; omega
    obtain ⟨p1, hp1, _, e2⟩ := hpart i _ (List.getElem?_eq_getElem hilt)
    refine ⟨p1, hp1, ?_⟩
    by_cases hir : i = r
    · subst hir
      simp [e2, hf]
    · obtain ⟨p0, hp0, e0⟩ := h13 i (by omega)
      rw [List.getElem?_eq_getElem hilt] at hp0
      simp only [Option.some.injEq] at hp0
      simp only [hir, if_false] at e2
      rw [e2, hp0]
      exact e0
  obtain ⟨n1, n2, n3, n4, n5⟩ := next_fields (PSO.update { c.pso with swarm := sw }) g
  have un : (PSO.update { c.pso with swarm := sw }).n_particles = N := h2
  have usw : (PSO.update { c.pso with swarm := sw }).swarm = sw := rfl
  have ucur : (PSO.update { c.pso with swarm := sw }).next_particle_id = (r + 1) % N := h9
  have uev : (PSO.update { c.pso with swarm := sw }).n_evaluations = q * N + r + 1 := by
    show c.pso.n_evaluations + 1 = _
    rw [h7]
  have uit : (PSO.update { c.pso with swarm := sw }).n_iterations = q := h8
  have uin : (PSO.update { c.pso with swarm := sw }).inertia = w0 * d ^ q := h11
  have ude : (PSO.update { c.pso with swarm := sw }).decay = d := h5
  refine ⟨_, _, hb, hu, by rw [usw, un, hswlen], un, by rw [usw]; exact hevals, ?_, ?_⟩
  · intro hr
    have hmod : (r + 1) % N = 0 := by rw [hr]; exact Nat.mod_self N
    have hg : (PSO.update { c.pso with swarm := sw }).next_particle_id = 0 ∧
        (PSO.update { c.pso with swarm := sw }).n_evaluations > 0 := by
      rw [ucur, uev]
      exact ⟨hmod, Nat.succ_pos _⟩
    obtain ⟨m1, m2, m3⟩ := next_of_guard _ g (by rw [usw, un, hswlen]) hg
    refine ⟨?_, hg⟩
    refine ⟨h1, by rw [n3, un], ?_, ?_, by rw [n4, ude], by omega, ?_, by rw [m3, uit],
      by rw [n2, ucur, hmod, un], by rw [n1, ucur, hmod], ?_, ?_, ?_⟩
    · show (((PSO.update { c.pso with swarm := sw }).next g).2).swarm.length = N
      rw [m1]
      simp [movedSwarm, usw, hswlen]
    · show NeighboursValid (((PSO.update { c.pso with swarm := sw }).next g).2).swarm
      rw [m1]
      exact neighboursValid_congr _ _ (movedSwarm_neighbours _ g) (by rw [usw]; exact hvalid)
    · show (((PSO.update { c.pso with swarm := sw }).next g).2).n_evaluations = (q + 1) * N + 0
      rw [n5, uev, Nat.succ_mul]
      omega
    · show (((PSO.update { c.pso with swarm := sw }).next g).2).inertia = w0 * d ^ (q + 1)
      rw [m2, uin, ude, pow_succ, mul_assoc]
    · intro p hp
      have hp' : p ∈ movedSwarm (PSO.update { c.pso with swarm := sw }) g := by
        rw [← m1]
        exact hp
      rw [movedSwarm_inertia _ g p hp', uin, ude, pow_succ, mul_assoc]
    · intro i hi
      omega
  · intro hr
    have hmod : (r + 1) % N = r + 1 := Nat.mod_eq_of_lt hr
    have hg : ¬ ((PSO.update { c.pso with swarm := sw }).next_particle_id = 0 ∧
        (PSO.update { c.pso with swarm := sw }).n_evaluations > 0) := by
      rw [ucur, hmod]
      intro hh
      omega
    obtain ⟨m1, m2, m3⟩ := next_of_not_guard _ g hg
    refine ⟨?_, hg⟩
    refine ⟨h1, by rw [n3, un], ?_, ?_, by rw [n4, ude], hr, ?_, by rw [m3, uit],
      by rw [n2, ucur, hmod, un], by rw [n1, ucur, hmod], ?_, ?_, ?_⟩
    · show (((PSO.update { c.pso with swarm := sw }).next g).2).swarm.length = N
      rw [m1, usw, hswlen]
    · show NeighboursValid (((PSO.update { c.pso with swarm := sw }).next g).2).swarm
      rw [m1, usw]
      exact hvalid
    · show (((PSO.update { c.pso with swarm := sw }).next g).2).n_evaluations = q * N + (r + 1)
      rw [n5, uev]
      omega
    · show (((PSO.update { c.pso with swarm := sw }).next g).2).inertia = w0 * d ^ q
      rw [m2, uin]
    · intro p hp
      have hp' : p ∈ sw := by
        have : (((PSO.update { c.pso with swarm := sw }).next g).2).swarm = sw := by
          rw [m1, usw]
        rw [← this]
        exact hp
      exact hsinertia p hp'
    · intro i hi
      have : (((PSO.update { c.pso with swarm := sw }).next g).2).swarm = sw := by
        rw [m1, usw]
      show ∃ p, (((PSO.update { c.pso with swarm := sw }).next g).2).swarm[i]? = some p ∧ _
      rw [this]
      exact hevals i (by omega)

theorem protocol_run (N : Nat) (w0 d : ℚ) (all : List (ℚ × MoveSources))
    (fs : List (ℚ × MoveSources)) :
    ∀ (pre : List (ℚ × MoveSources)) (q r : Nat) (c : Controller), all = pre ++ fs →
      pre.length = q * N + r → ProtocolInv N w0 d all q r c →
      ∃ c1 q1 r1, c.updates fs = some c1 ∧ ProtocolInv N w0 d all q1 r1 c1 ∧
        q1 * N + r1 = all.length ∧ (Controller.log c fs).length = fs.length ∧
        ∀ t < fs.length, ∃ entry, (Controller.log c fs)[t]? = some entry ∧
          LogEntrySpec N all (pre.length + t) entry := by
  induction fs with
  | nil =>
    intro pre q r c hall hpre hinv
    refine ⟨c, q, r, rfl, hinv, ?_, rfl, ?_⟩
    · rw [hall]
      simp [hpre]
    · intro t ht
      simp at ht
  | cons fg rest ih =>
    intro pre q r c hall hpre hinv
    have hf : all[q * N + r]? = some (fg.1, fg.2) := by
      rw [hall, ← hpre, List.getElem?_append_right (le_refl _)]
      simp
    obtain ⟨s, c1, hb, hu, hsl, hsn, hev, hwrap, hstay⟩ :=
      protocol_step N w0 d all q r c hinv fg.1 fg.2 hf
    have hrlt : r < N := hinv.rlt
    have hcurr : c.currentParticle = r := hinv.current
    have hall1 : all = (pre ++ [fg]) ++ rest := by rw [hall]; simp
    have hfirst : LogEntrySpec N all pre.length (c.currentParticle, s) := by
      rw [hpre]
      refine ⟨?_, ?_, ?_⟩
      · show c.currentParticle = (q * N + r) % N
        rw [Nat.mul_add_mod', Nat.mod_eq_of_lt hrlt, hcurr]
      · intro hm
        have hm1 : (r + 1) % N = 0 := by
          rw [Nat.add_assoc, Nat.mul_add_mod'] at hm
          exact hm
        have hrN : r + 1 = N := by
          rcases Nat.lt_or_ge (r + 1) N with h1 | h1
          · rw [Nat.mod_eq_of_lt h1] at hm1
            omega
          · omega
        obtain ⟨_, hg⟩ := hwrap hrN
        refine ⟨fun g => (next_of_guard s g hsl hg).1, ?_⟩
        intro i hi
        obtain ⟨p, hp, e⟩ := hev i (by omega)
        refine ⟨p, hp, ?_⟩
        have : q * N + r + 1 - N + i = q * N + i := by omega
        show some p.current.eval = (all[q * N + r + 1 - N + i]?).map Prod.fst
        rw [this]
        exact e
      · intro hm
        have hm1 : (r + 1) % N ≠ 0 := by
          rw [Nat.add_assoc, Nat.mul_add_mod'] at hm
          exact hm
        have hrN : r + 1 < N := by
          rcases Nat.lt_or_ge (r + 1) N with h1 | h1
          · exact h1
          · have : r + 1 = N := by omega
            rw [this, Nat.mod_self] at hm1
            exact absurd rfl hm1
        obtain ⟨_, hg⟩ := hstay hrN
        exact fun g => (next_of_not_guard s g hg).1
    have hnext : ∃ q2 r2, ProtocolInv N w0 d all q2 r2 c1 ∧
        (pre ++ [fg]).length = q2 * N + r2 := by
      rcases Nat.lt_or_ge (r + 1) N with h1 | h1
      · exact ⟨q, r + 1, (hstay h1).1, by simp [hpre]; omega⟩
      · have hrN : r + 1 = N := by omega
        refine ⟨q + 1, 0, (hwrap hrN).1, ?_⟩
        simp only [List.length_append, List.length_singleton, hpre, Nat.succ_mul]
        omega
    obtain ⟨q2, r2, hinv2, hpre2⟩ := hnext
    obtain ⟨c3, q3, r3, hu3, hinv3, hlen3, hloglen, hlog⟩ :=
      ih (pre ++ [fg]) q2 r2 c1 hall1 hpre2 hinv2
    have hlogeq : Controller.log c (fg :: rest) = (c.currentParticle, s) :: Controller.log c1 rest := by
      simp [Controller.log, hb, hu]
    refine ⟨c3, q3, r3, ?_, hinv3, hlen3, ?_, ?_⟩
    · simp [Controller.updates, hu, hu3]
    · rw [hlogeq]
      simp [hloglen]
    · intro t ht
      rw [hlogeq]
      cases t with
      | zero => exact ⟨(c.currentParticle, s), by simp, by simpa using hfirst⟩
      | succ t1 =>
        obtain ⟨entry, he1, he2⟩ := hlog t1 (by simpa using ht)
        refine ⟨entry, by simpa using he1, ?_⟩
        have : (pre ++ [fg]).length + t1 = pre.length + (t1 + 1) := by
          simp
          omega
        rw [this] at he2
        exact he2

theorem count_multiples (N k : Nat) :
    ((List.range k).filter (fun j => decide ((j + 1) % N = 0))).length = k / N := by
  induction k with
  | zero => simp
  | succ k ih =>
    rw [List.range_succ, List.filter_append, List.length_append, ih, Nat.succ_div]
    by_cases h : N ∣ k + 1
    · have : (k + 1) % N = 0 := Nat.mod_eq_zero_of_dvd h
      simp [h, this]
    · have : (k + 1) % N ≠ 0 := fun h0 => h (Nat.dvd_of_mod_eq_zero h0)
      simp [h, this]

theorem initialize_inv (c : Controller) (htr : c.is_training = true)
    (hpos : 0 < c.pso.n_particles) (hlen : c.pso.swarm.length = c.pso.n_particles)
    (hvalid : NeighboursValid c.pso.swarm) (hev : c.pso.n_evaluations = 0)
    (hit : c.pso.n_iterations = 0) (hcur : c.pso.next_particle_id = 0)
    (hin : ∀ p ∈ c.pso.swarm, p.inertia = c.pso.inertia)
    (lbs ubs : VectorXd) (gi : InitSources) (g0 : MoveSources)
    (all : List (ℚ × MoveSources)) :
    ProtocolInv c.pso.n_particles c.pso.inertia c.pso.decay all 0 0
      ( c.initialize lbs ubs gi g0) := by
  let sw0 : List Particle := forParticles c.pso.n_particles
    (fun i p => Particle.initialize p lbs ubs (gi i).1 (gi i).2) c.pso.swarm
  let s0 : PSO := { c.pso with swarm := sw0 }
  have hg : ¬ (s0.next_particle_id = 0 ∧ s0.n_evaluations > 0) := by
    intro hh
    have h2 : c.pso.n_evaluations > 0 := hh.2
    omega
  obtain ⟨m1, m2, m3⟩ := next_of_not_guard s0 g0 hg
  obtain ⟨n1, n2, n3, n4, n5⟩ := next_fields s0 g0
  have hpart : ∀ (j : Nat) (p1 : Particle), sw0[j]? = some p1 →
      ∃ p, c.pso.swarm[j]? = some p ∧ p1.inertia = p.inertia ∧ p1.neighbours = p.neighbours := by
    intro j p1 hp1
    rw [forParticles_getElem?] at hp1
    cases hp : c.pso.swarm[j]? with
    | none => simp [hp] at hp1
    | some p =>
      simp only [hp, Option.map_some', Option.some.injEq] at hp1
      refine ⟨p, rfl, ?_, ?_⟩
      · rw [← hp1]
        split
        · rfl
        · rfl
      · rw [← hp1]
        split
        · rfl
        · rfl
  have hnb : sw0.map (fun q => q.neighbours) = c.pso.swarm.map (fun q => q.neighbours) := by
    apply List.ext_getElem?
    intro j
    simp only [List.getElem?_map]
    cases hp1 : sw0[j]? with
    | none =>
      rw [forParticles_getElem?] at hp1
      cases hp : c.pso.swarm[j]? with
      | none => rfl
      | some p => simp [hp] at hp1
    | some p1 =>
      obtain ⟨p, hp, _, e⟩ := hpart j p1 hp1
      simp [hp, e]
  refine ⟨htr, n3, ?_, ?_, n4, hpos, ?_, ?_, ?_, ?_, ?_, ?_, ?_⟩
  · show ((s0.next g0).2).swarm.length = c.pso.n_particles
    rw [m1]
    show sw0.length = c.pso.n_particles
    simp [sw0, forParticles, hlen]
  · show NeighboursValid ((s0.next g0).2).swarm
    rw [m1]
    exact neighboursValid_congr _ _ hnb hvalid
  · show ((s0.next g0).2).n_evaluations = 0 * c.pso.n_particles + 0
    rw [n5]
    show c.pso.n_evaluations = _
    simp [hev]
  · show ((s0.next g0).2).n_iterations = 0
    rw [m3]
    exact hit
  · show ((s0.next g0).2).next_particle_id = (0 + 1) % c.pso.n_particles
    rw [n2]
    show (c.pso.next_particle_id + 1) % c.pso.n_particles = _
    simp [hcur]
  · show (s0.next g0).1 = 0
    rw [n1]
    exact hcur
  · show ((s0.next g0).2).inertia = c.pso.inertia * c.pso.decay ^ 0
    rw [m2]
    show c.pso.inertia = _
    simp
  · intro p1 hp1
    have hp1' : p1 ∈ sw0 := by
      have hsw : ((s0.next g0).2).swarm = sw0 := m1
      rw [← hsw]
      exact hp1
    obtain ⟨j, hj⟩ := List.getElem?_of_mem hp1'
    obtain ⟨p, hp, e, _⟩ := hpart j p1 hj
    rw [e, hin p (List.getElem?_mem hp)]
    simp
  · intro i hi
    omega

/-- C11: a controller in training mode owns a swarm of `N ≥ 1` particles with
valid neighbour lists, fresh counters and cursor, and the same inertia `w0` in
the optimiser and in every particle. After `Controller::initialize()` (one
`next()`) and `k` calls of `Controller::update` (`setEvaluation` on the
dispatched particle, `update()`, `next()`), all of which succeed:
`n_evaluations = k`, `n_iterations = k / N`, the particle dispatched is
`k mod N`, and the inertia of the optimiser and of every particle is
`w0 * decay ^ (k / N)`. Fitness number `j` goes to particle `j mod N`; the
`next()` that follows it moves every particle when `j + 1` is a multiple of `N`,
each particle then holding as current fitness the value reported for it in the
pass just completed, and leaves the swarm as it is otherwise; there are `k / N`
such `j` below `k`. -/
theorem Controller.protocol_invariants (c : Controller) (htr : c.is_training = true)
    (hpos : 0 < c.pso.n_particles) (hlen : c.pso.swarm.length = c.pso.n_particles)
    (hvalid : NeighboursValid c.pso.swarm) (hev : c.pso.n_evaluations = 0)
    (hit : c.pso.n_iterations = 0) (hcur : c.pso.next_particle_id = 0)
    (hin : ∀ p ∈ c.pso.swarm, p.inertia = c.pso.inertia)
    (lbs ubs : VectorXd) (gi : InitSources) (g0 : MoveSources)
    (fs : List (ℚ × MoveSources)) :
    ∃ c1, ( c.initialize lbs ubs gi g0).updates fs = some c1 ∧
      c1.pso.n_evaluations = fs.length ∧
      c1.pso.n_iterations = fs.length / c.pso.n_particles ∧
      c1.currentParticle = fs.length % c.pso.n_particles ∧
      c1.pso.inertia = c.pso.inertia * c.pso.decay ^ (fs.length / c.pso.n_particles) ∧
      (∀ p ∈ c1.pso.swarm,
        p.inertia = c.pso.inertia * c.pso.decay ^ (fs.length / c.pso.n_particles)) ∧
      ((List.range fs.length).filter
        (fun j => decide ((j + 1) % c.pso.n_particles = 0))).length =
          fs.length / c.pso.n_particles ∧
      (Controller.log ( c.initialize lbs ubs gi g0) fs).length = fs.length ∧
      ∀ j < fs.length, ∃ entry,
        (Controller.log ( c.initialize lbs ubs gi g0) fs)[j]? = some entry ∧
          entry.1 = j % c.pso.n_particles ∧
          ((j + 1) % c.pso.n_particles = 0 →
            (∀ g, (entry.2.next g).2.swarm = movedSwarm entry.2 g) ∧
              ∀ i < c.pso.n_particles, ∃ p, entry.2.swarm[i]? = some p ∧
                some p.current.eval = (fs[j + 1 - c.pso.n_particles + i]?).map Prod.fst) ∧
          ((j + 1) % c.pso.n_particles ≠ 0 →
            ∀ g, (entry.2.next g).2.swarm = entry.2.swarm) := by
  have hinv := initialize_inv c htr hpos hlen hvalid hev hit hcur hin lbs ubs gi g0 fs
  obtain ⟨c1, q1, r1, hu, hinv1, hk, hloglen, hlog⟩ :=
    protocol_run c.pso.n_particles c.pso.inertia c.pso.decay fs fs [] 0 0
      ( c.initialize lbs ubs gi g0) rfl (by simp) hinv
  have hq : fs.length / c.pso.n_particles = q1 := by
    rw [← hk, Nat.mul_comm, Nat.mul_add_div hpos, Nat.div_eq_of_lt hinv1.rlt, Nat.add_zero]
  have hr : fs.length % c.pso.n_particles = r1 := by
    rw [← hk, Nat.mul_add_mod', Nat.mod_eq_of_lt hinv1.rlt]
  refine ⟨c1, hu, ?_, ?_, ?_, ?_, ?_, count_multiples _ _, hloglen, ?_⟩
  · rw [hinv1.nevals, hk]
  · rw [hinv1.niter, hq]
  · rw [hinv1.current, hr]
  · rw [hinv1.inertia, hq]
  · intro p hp
    rw [hinv1.pinertia p hp, hq]
  · intro j hj
    obtain ⟨entry, he, hs⟩ := hlog j hj
    simp only [List.length_nil, Nat.zero_add] at hs
    exact ⟨entry, he, hs⟩

/-- C11, an instance: the controller of a ring of two particles, with inertia
0.85 and decay 0.98, receives the fitness values 5, 9 and 7; afterwards
`n_evaluations = 3`, `n_iterations = 1`, the particle dispatched is particle 1
and the inertia is `0.85 * 0.98`. -/
theorem Controller.protocol_invariants_ring_instance :
    ringController.pso.n_particles = 2 ∧ ringController.pso.inertia = 85 / 100 ∧
      ringController.pso.decay = 98 / 100 ∧
      ringControllerStart.pso.swarm.map (fun p => p.current.x) = [[2], [8]] ∧
      ∃ c1, ringControllerStart.updates threeFitnessValues = some c1 ∧
        c1.pso.n_evaluations = 3 ∧ c1.pso.n_iterations = 1 ∧ c1.currentParticle = 1 ∧
        c1.pso.inertia = 85 / 100 * (98 / 100) ∧
        ∀ p ∈ c1.pso.swarm, p.inertia = 85 / 100 * (98 / 100) := by
  refine ⟨by decide!, by decide!, by decide!, by decide!, ?_⟩
  obtain ⟨c1, h1, h2, h3, h4, h5, h6, _⟩ :=
    Controller.protocol_invariants ringController (by decide!) (by decide!) (by decide!)
      (by decide!) (by decide!) (by decide!) (by decide!) (by decide!) [0] [10]
      (fun i => if i = 0 then (fun _ => -3 / 5, fun _ => 0) else (fun _ => 3 / 5, fun _ => 0))
      (fun _ => (fun _ => 0, fun _ => 0)) threeFitnessValues
  have hk : threeFitnessValues.length = 3 := rfl
  have hn : ringController.pso.n_particles = 2 := by decide!
  have hw : ringController.pso.inertia = 85 / 100 := by decide!
  have hd : ringController.pso.decay = 98 / 100 := by decide!
  rw [hk] at h2
  rw [hk, hn] at h3 h4
  rw [hk, hn, hw, hd] at h5 h6
  refine ⟨c1, h1, h2, by simpa using h3, by simpa using h4, by simpa using h5, ?_⟩
  intro p hp
  simpa using h6 p hp

/-! ### The ergodic topology -/

theorem withNeighbours_nil (p : Particle) : withNeighbours p [] = p := by
  simp [withNeighbours]

theorem withNeighbours_append (p : Particle) (a b : List Nat) :
    withNeighbours (withNeighbours p a) b = withNeighbours p (a ++ b) := by
  simp [withNeighbours]

theorem addNeighbourAt_getElem? (sw : List Particle) (i k j : Nat) :
    (addNeighbourAt sw i k)[j]? =
      (sw[j]?).map (fun p => if i = j then withNeighbours p [k] else p) := by
  unfold addNeighbourAt
  rw [List.getElem?_modify]
  cases sw[j]? with
  | none => rfl
  | some p =>
    by_cases h : i = j
    · simp [h, Particle.addNeighbour, withNeighbours]
    · simp [h]

theorem foldl_length_preserved {β : Type} (f : List Particle → β → List Particle)
    (hf : ∀ sw b, (f sw b).length = sw.length) (l : List β) (sw : List Particle) :
    (l.foldl f sw).length = sw.length := by
  induction l generalizing sw with
  | nil => rfl
  | cons b bs ih =>
    simp only [List.foldl_cons]
    rw [ih, hf]

theorem ergodicInner_getElem? (m t : Nat) (ht : t ≤ m) (sw : List Particle) (j : Nat) :
    ((List.range t).foldl (fun sw1 k => addNeighbourAt (addNeighbourAt sw1 m k) k m) sw)[j]? =
      (sw[j]?).map (fun p =>
        if j = m then withNeighbours p (List.range t)
        else if j < t then withNeighbours p [m] else p) := by
  induction t with
  | zero =>
    simp only [List.range_zero, List.foldl_nil]
    cases hsw : sw[j]? with
    | none => rfl
    | some p =>
      by_cases h : j = m
      · simp [h, withNeighbours_nil]
      · simp [h]
  | succ t ih =>
    rw [List.range_succ, List.foldl_append]
    simp only [List.foldl_cons, List.foldl_nil]
    rw [addNeighbourAt_getElem?, addNeighbourAt_getElem?, ih (by omega)]
    cases hsw : sw[j]? with
    | none => rfl
    | some p =>
      simp only [Option.map_some', Option.some.injEq]
      by_cases h1 : j = m
      · subst h1
        have h2 : ¬ t = j := by omega
        simp only [h2, if_true, if_false, withNeighbours_append, List.range_succ]
      · have h4 : ¬ m = j := fun h => h1 h.symm
        by_cases h3 : t = j
        · subst h3
          have h6 : t < t + 1 := by omega
          simp only [h1, h4, h6, lt_irrefl, if_true, if_false]
        · by_cases h5 : j < t
          · have h6 : j < t + 1 := by omega
            simp only [h1, h3, h4, h5, h6, if_true, if_false]
          · have h6 : ¬ j < t + 1 := by omega
            simp only [h1, h3, h4, h5, h6, if_true, if_false]

theorem filter_ne_range_succ (n j : Nat) (h : j < n) :
    (List.range (n + 1)).filter (fun k => decide (k ≠ j)) =
      (List.range n).filter (fun k => decide (k ≠ j)) ++ [n] := by
  rw [List.range_succ, List.filter_append]
  have : n ≠ j := by omega
  simp [this]

theorem filter_ne_range_self (n : Nat) :
    (List.range (n + 1)).filter (fun k => decide (k ≠ n)) = List.range n := by
  rw [List.range_succ, List.filter_append]
  have h1 : (List.range n).filter (fun k => decide (k ≠ n)) = List.range n := by
    apply List.filter_eq_self.mpr
    intro a ha
    have := List.mem_range.mp ha
    simp
    omega
  rw [h1]
  simp

theorem ergodicOuter_getElem? (n : Nat) (sw : List Particle) (j : Nat) :
    ((List.range n).foldl
      (fun sw0 i =>
        (List.range i).foldl (fun sw1 k => addNeighbourAt (addNeighbourAt sw1 i k) k i) sw0)
      sw)[j]? =
      (sw[j]?).map (fun p =>
        if j < n then withNeighbours p ((List.range n).filter (fun k => decide (k ≠ j)))
        else p) := by
  induction n with
  | zero =>
    simp only [List.range_zero, List.foldl_nil]
    cases hsw : sw[j]? with
    | none => rfl
    | some p => simp
  | succ n ih =>
    rw [List.range_succ, List.foldl_append]
    simp only [List.foldl_cons, List.foldl_nil]
    rw [ergodicInner_getElem? n n (le_refl n), ih]
    cases hsw : sw[j]? with
    | none => rfl
    | some p =>
      simp only [Option.map_some', Option.some.injEq]
      by_cases h1 : j = n
      · subst h1
        have h2 : j < j + 1 := by omega
        simp only [lt_irrefl, if_false, if_true, h2, ← List.range_succ, filter_ne_range_self]
      · by_cases h2 : j < n
        · have h3 : j < n + 1 := by omega
          simp only [h1, h2, h3, if_true, if_false, withNeighbours_append,
            ← List.range_succ, filter_ne_range_succ n j h2]
        · have h3 : ¬ j < n + 1 := by omega
          simp only [h1, h2, h3, if_false]

theorem filter_ne_range_props (N i : Nat) (hi : i < N) :
    ((List.range N).filter (fun k => decide (k ≠ i))).length = N - 1 ∧
      i ∉ (List.range N).filter (fun k => decide (k ≠ i)) ∧
      ∀ j < N, j ≠ i → ((List.range N).filter (fun k => decide (k ≠ i))).count j = 1 := by
  have hnd : ((List.range N).filter (fun k => decide (k ≠ i))).Nodup :=
    List.Nodup.filter _ (List.nodup_range N)
  refine ⟨?_, ?_, ?_⟩
  · have he : (List.range N).erase i = (List.range N).filter (fun k => decide (k ≠ i)) := by
      rw [List.Nodup.erase_eq_filter (List.nodup_range N)]
      apply List.filter_congr
      intro x _
      rw [Bool.eq_iff_iff]
      simp
    rw [← he, List.length_erase_of_mem (List.mem_range.mpr hi), List.length_range]
  · simp
  · intro j hj hji
    apply List.count_eq_one_of_mem hnd
    simp [hj, hji]

/-- C15: when `createErgodicTopology` is called on `N` particles without
neighbours, as `PSO::initialize` does, the neighbour list of each particle `i`
becomes `0, …, i-1, i+1, …, N-1`: it has length `N - 1`, does not contain `i`
and contains every other particle exactly once. -/
theorem PSO.createErgodicTopology_complete (s : PSO)
    (hlen : s.swarm.length = s.n_particles) (hfresh : ∀ p ∈ s.swarm, p.neighbours = []) :
    s.createErgodicTopology.swarm.length = s.n_particles ∧
      ∀ i < s.n_particles, ∃ p, s.createErgodicTopology.swarm[i]? = some p ∧
        p.neighbours = (List.range s.n_particles).filter (fun k => decide (k ≠ i)) ∧
        p.neighbours.length = s.n_particles - 1 ∧ i ∉ p.neighbours ∧
        ∀ j < s.n_particles, j ≠ i → p.neighbours.count j = 1 := by
  have hget : ∀ i < s.n_particles, ∃ p, s.createErgodicTopology.swarm[i]? = some p ∧
      p.neighbours = (List.range s.n_particles).filter (fun k => decide (k ≠ i)) := by
    intro i hi
    have hlt : i < s.swarm.length := by rw [hlen]; exact hi
    have h := ergodicOuter_getElem? s.n_particles s.swarm i
    rw [List.getElem?_eq_getElem hlt] at h
    simp only [Option.map_some', hi, if_true] at h
    refine ⟨_, h, ?_⟩
    simp [withNeighbours, hfresh _ (List.getElem_mem hlt)]
  constructor
  · rw [← hlen]
    simp only [PSO.createErgodicTopology]
    apply foldl_length_preserved
    intro sw i
    apply foldl_length_preserved
    intro sw1 k
    simp [addNeighbourAt]
  · intro i hi
    obtain ⟨p, hp, hn⟩ := hget i hi
    obtain ⟨a, b, c⟩ := filter_ne_range_props s.n_particles i hi
    exact ⟨p, hp, hn, by rw [hn]; exact a, by rw [hn]; exact b,
      fun j hj hji => by rw [hn]; exact c j hj hji⟩

/-- C15, an instance: the constructor builds the ergodic swarm of three
particles with the neighbour lists `[1, 2]`, `[0, 2]` and `[0, 1]`. -/
theorem PSO.createErgodicTopology_complete_three :
    (PSO.ctorTopology MAXIMIZE 3 1 TOPOLOGY_ERGODIC).map
        (fun s => s.swarm.map (fun p => p.neighbours)) = some [[1, 2], [0, 2], [0, 1]] ∧
      (freshSwarm 3 MAXIMIZE 1 TOPOLOGY_ERGODIC).createErgodicTopology.swarm.map
        (fun p => p.neighbours) = [[1, 2], [0, 2], [0, 1]] ∧
      (freshSwarm 3 MAXIMIZE 1 TOPOLOGY_ERGODIC).createErgodicTopology.swarm.length = 3 ∧
      ∀ i < 3, ∃ p, (freshSwarm 3 MAXIMIZE 1 TOPOLOGY_ERGODIC).createErgodicTopology.swarm[i]? =
          some p ∧ p.neighbours = (List.range 3).filter (fun k => decide (k ≠ i)) ∧
        p.neighbours.length = 3 - 1 ∧ i ∉ p.neighbours ∧
        ∀ j < 3, j ≠ i → p.neighbours.count j = 1 :=
  ⟨by decide!, by decide!,
    (PSO.createErgodicTopology_complete (freshSwarm 3 MAXIMIZE 1 TOPOLOGY_ERGODIC)
      (by decide!) (by decide!)).1,
    (PSO.createErgodicTopology_complete (freshSwarm 3 MAXIMIZE 1 TOPOLOGY_ERGODIC)
      (by decide!) (by decide!)).2⟩

/-! ### The ring topology and the single-particle swarms -/

/-- C14, the failing input: for three particles, `(0 - 1) % 3` computed on a
64-bit `size_t` is `(2 ^ 64 - 1) % 3 = 0`, so `createRingTopology` gives particle
0 the neighbours 0 and 1 instead of 2 and 1; the other particles get the
neighbours the claim states. For the 25 particles of the default swarm the first
neighbour of particle 0 is particle 15. -/
theorem PSO.createRingTopology_three :
    PSO.ctorTopology MAXIMIZE 3 1 TOPOLOGY_RING = some ringOfThree ∧
      ((0 + SIZE_T_RANGE - 1) % SIZE_T_RANGE) % 3 = 0 ∧
      ((0 + SIZE_T_RANGE - 1) % SIZE_T_RANGE) % 25 = 15 ∧
      ((0 : Int) - 1) % 3 = 2 ∧
      ringOfThree.swarm.map (fun p => p.neighbours) = [[0, 1], [0, 2], [1, 0]] ∧
      (ringOfThree.swarm[0]?).map (fun p => p.neighbours) ≠ some [2, 1] :=
  ⟨by decide!, by decide!, by decide!, by decide!, by decide!, by decide!⟩

/-- C19, the failing inputs: the single particle of an ergodic or of a star
swarm has no neighbour, and `setEvaluation(5)` reads `neighbours[0]` outside the
empty list; in the ring the particle is its own neighbour, `setEvaluation(5)`
succeeds and leaves the neighbourhood best equal to the personal best. -/
theorem Particle.setEvaluation_single_particle :
    (singleParticle TOPOLOGY_ERGODIC).swarm.map (fun p => p.neighbours) = [[]] ∧
      (singleParticle TOPOLOGY_ERGODIC).swarm.map (fun p => p.current.x) = [[2]] ∧
      Particle.setEvaluation (singleParticle TOPOLOGY_ERGODIC).swarm 0 5 = none ∧
      (singleParticle TOPOLOGY_STAR).swarm.map (fun p => p.neighbours) = [[]] ∧
      (singleParticle TOPOLOGY_STAR).swarm.map (fun p => p.current.x) = [[2]] ∧
      Particle.setEvaluation (singleParticle TOPOLOGY_STAR).swarm 0 5 = none ∧
      (singleParticle TOPOLOGY_RING).swarm.map (fun p => p.neighbours) = [[0, 0]] ∧
      (Particle.setEvaluation (singleParticle TOPOLOGY_RING).swarm 0 5).map
        (fun sw => sw.map (fun p => (p.pbest, p.gbest))) = some [(⟨[2], 5⟩, ⟨[2], 5⟩)] :=
  ⟨by decide!, by decide!, by decide!, by decide!, by decide!, by decide!, by decide!,
    by decide!⟩
theorem star_getElem? (n : Nat) (sw : List Particle) (j : Nat) :
    ((List.range' 1 n).foldl (fun sw0 i => addNeighbourAt (addNeighbourAt sw0 i 0) 0 i) sw)[j]? =
      (sw[j]?).map (fun p =>
        if j = 0 then withNeighbours p (List.range' 1 n)
        else if j ≤ n then withNeighbours p [0] else p) := by
  induction n with
  | zero =>
    simp only [List.range'_zero, List.foldl_nil]
    cases hsw : sw[j]? with
    | none => rfl
    | some p =>
      by_cases h : j = 0
      · simp [h, withNeighbours_nil]
      · have h2 : ¬ j ≤ 0 := by omega
        simp [h, h2]
  | succ n ih =>
    rw [List.range'_concat, List.foldl_append]
    simp only [List.foldl_cons, List.foldl_nil, Nat.one_mul]
    rw [addNeighbourAt_getElem?, addNeighbourAt_getElem?, ih]
    cases hsw : sw[j]? with
    | none => rfl
    | some p =>
      simp only [Option.map_some', Option.some.injEq]
      by_cases h1 : j = 0
      · subst h1
        have h2 : ¬ 1 + n = 0 := by omega
        simp only [h2, if_true, if_false, withNeighbours_append]
      · have h4 : ¬ 0 = j := fun h => h1 h.symm
        by_cases h3 : 1 + n = j
        · subst h3
          have h5 : ¬ 1 + n ≤ n := by omega
          have h6 : 1 + n ≤ n + 1 := by omega
          simp only [h1, h4, h5, h6, if_true, if_false]
        · by_cases h5 : j ≤ n
          · have h6 : j ≤ n + 1 := by omega
            simp only [h1, h3, h4, h5, h6, if_true, if_false]
          · have h6 : ¬ j ≤ n + 1 := by omega
            simp only [h1, h3, h4, h5, h6, if_false]

theorem ergodic_neighbours (s : PSO) (hlen : s.swarm.length = s.n_particles)
    (hfresh : ∀ p ∈ s.swarm, p.neighbours = []) (i : Nat) (p : Particle)
    (hp : s.createErgodicTopology.swarm[i]? = some p) :
    i < s.n_particles ∧
      p.neighbours = (List.range s.n_particles).filter (fun k => decide (k ≠ i)) := by
  have h := ergodicOuter_getElem? s.n_particles s.swarm i
  have hp' : ((List.range s.n_particles).foldl
      (fun sw0 i =>
        (List.range i).foldl (fun sw1 k => addNeighbourAt (addNeighbourAt sw1 i k) k i) sw0)
      s.swarm)[i]? = some p := hp
  rw [hp'] at h
  cases hq : s.swarm[i]? with
  | none => simp [hq] at h
  | some q =>
    have hlt : i < s.n_particles := by
      rw [← hlen]
      exact (List.getElem?_eq_some.mp hq).1
    simp only [hq, Option.map_some', hlt, if_true, Option.some.injEq] at h
    refine ⟨hlt, ?_⟩
    rw [h]
    simp [withNeighbours, hfresh q (List.getElem?_mem hq)]

theorem star_neighbours (s : PSO) (hlen : s.swarm.length = s.n_particles)
    (hfresh : ∀ p ∈ s.swarm, p.neighbours = []) (i : Nat) (p : Particle)
    (hp : s.createStarTopology.swarm[i]? = some p) :
    i < s.n_particles ∧
      p.neighbours = if i = 0 then List.range' 1 (s.n_particles - 1) else [0] := by
  have h := star_getElem? (s.n_particles - 1) s.swarm i
  have hp' : ((List.range' 1 (s.n_particles - 1)).foldl
      (fun sw0 i => addNeighbourAt (addNeighbourAt sw0 i 0) 0 i) s.swarm)[i]? = some p := by
    rw [← List.tail_range]
    exact hp
  rw [hp'] at h
  cases hq : s.swarm[i]? with
  | none => simp [hq] at h
  | some q =>
    have hlt : i < s.n_particles := by
      rw [← hlen]
      exact (List.getElem?_eq_some.mp hq).1
    simp only [hq, Option.map_some', Option.some.injEq] at h
    refine ⟨hlt, ?_⟩
    rw [h]
    by_cases h0 : i = 0
    · simp [h0, withNeighbours, hfresh q (List.getElem?_mem hq)]
    · have h1 : i ≤ s.n_particles - 1 := by omega
      simp [h0, h1, withNeighbours, hfresh q (List.getElem?_mem hq)]

/-- C16: for swarms of any size built on particles without neighbours, the
ergodic and the star adjacency are undirected; the failing input is the ring of
three particles the constructor builds, where particle 0 is a neighbour of
particle 2 and particle 2 is not a neighbour of particle 0. -/
theorem PSO.topologies_undirected :
    (∀ s : PSO, s.swarm.length = s.n_particles → (∀ p ∈ s.swarm, p.neighbours = []) →
        ∀ (i j : Nat) (p q : Particle), s.createErgodicTopology.swarm[i]? = some p →
          s.createErgodicTopology.swarm[j]? = some q →
          (j ∈ p.neighbours ↔ i ∈ q.neighbours)) ∧
      (∀ s : PSO, s.swarm.length = s.n_particles → (∀ p ∈ s.swarm, p.neighbours = []) →
        ∀ (i j : Nat) (p q : Particle), s.createStarTopology.swarm[i]? = some p →
          s.createStarTopology.swarm[j]? = some q →
          (j ∈ p.neighbours ↔ i ∈ q.neighbours)) ∧
      PSO.ctorTopology MAXIMIZE 3 1 TOPOLOGY_RING = some ringOfThree ∧
      (ringOfThree.swarm[2]?).map (fun p => p.neighbours) = some [1, 0] ∧
      (ringOfThree.swarm[0]?).map (fun p => p.neighbours) = some [0, 1] ∧
      (ringOfThree.swarm[2]?).map (fun p => decide (0 ∈ p.neighbours)) = some true ∧
      (ringOfThree.swarm[0]?).map (fun p => decide (2 ∈ p.neighbours)) = some false := by
  refine ⟨?_, ?_, by decide!, by decide!, by decide!, by decide!, by decide!⟩
  · intro s hlen hfresh i j p q hp hq
    obtain ⟨hi, ep⟩ := ergodic_neighbours s hlen hfresh i p hp
    obtain ⟨hj, eq⟩ := ergodic_neighbours s hlen hfresh j q hq
    rw [ep, eq]
    simp only [List.mem_filter, List.mem_range, decide_eq_true_eq]
    constructor
    · rintro ⟨_, h⟩
      exact ⟨hi, fun h1 => h h1.symm⟩
    · rintro ⟨_, h⟩
      exact ⟨hj, fun h1 => h h1.symm⟩
  · intro s hlen hfresh i j p q hp hq
    obtain ⟨hi, ep⟩ := star_neighbours s hlen hfresh i p hp
    obtain ⟨hj, eq⟩ := star_neighbours s hlen hfresh j q hq
    rw [ep, eq]
    by_cases hi0 : i = 0
    · by_cases hj0 : j = 0
      · subst hi0
        subst hj0
        rfl
      · simp only [hi0, hj0, if_true, if_false, List.mem_range'_1, List.mem_singleton]
        constructor
        · intro _
          trivial
        · intro _
          omega
    · by_cases hj0 : j = 0
      · simp only [hi0, hj0, if_true, if_false, List.mem_range'_1, List.mem_singleton]
        constructor
        · intro _
          omega
        · intro _
          trivial
      · simp only [hi0, hj0, if_false, List.mem_singleton]

/-! ### The neighbourhood best -/

theorem checkNeibourhoodLoop_cons_ge (a : ℚ) (as : List ℚ) (i bi : Nat) (bs : ℚ) (h : bs ≤ a) :
    checkNeibourhoodLoop MAXIMIZE (a :: as) i bi bs =
      checkNeibourhoodLoop MAXIMIZE as (i + 1) i a := by
  simp [checkNeibourhoodLoop, not_lt.mpr h]

theorem checkNeibourhoodLoop_cons_lt (a : ℚ) (as : List ℚ) (i bi : Nat) (bs : ℚ) (h : a < bs) :
    checkNeibourhoodLoop MAXIMIZE (a :: as) i bi bs =
      checkNeibourhoodLoop MAXIMIZE as (i + 1) bi bs := by
  simp [checkNeibourhoodLoop, h]

theorem checkNeibourhoodLoop_of_lt (l : List ℚ) (i bi : Nat) (bs : ℚ)
    (h : ∀ x ∈ l, x < bs) : checkNeibourhoodLoop MAXIMIZE l i bi bs = bi := by
  induction l generalizing i with
  | nil => rfl
  | cons a as ih =>
    have ha : a < bs := h a (List.mem_cons_self _ _)
    rw [checkNeibourhoodLoop_cons_lt a as i bi bs ha]
    exact ih (i + 1) (fun x hx => h x (List.mem_cons_of_mem _ hx))

theorem checkNeibourhoodLoop_lastMax (l : List ℚ) (i bi : Nat) (bs : ℚ)
    (h : ∃ x ∈ l, bs ≤ x) :
    ∃ m v, l[m]? = some v ∧ checkNeibourhoodLoop MAXIMIZE l i bi bs = i + m ∧ bs ≤ v ∧
      (∀ (j : Nat) (x : ℚ), l[j]? = some x → x ≤ v) ∧
      (∀ (j : Nat) (x : ℚ), m < j → l[j]? = some x → x < v) := by
  induction l generalizing i bi bs with
  | nil =>
    obtain ⟨x, hx, _⟩ := h
    simp at hx
  | cons a as ih =>
    by_cases ha : a < bs
    · have hrest : ∃ x ∈ as, bs ≤ x := by
        obtain ⟨x, hx, hbx⟩ := h
        rcases List.mem_cons.mp hx with rfl | hx'
        · exact absurd ha (not_lt.mpr hbx)
        · exact ⟨x, hx', hbx⟩
      obtain ⟨m, v, hm, hr, hbv, hmax, hlast⟩ := ih (i + 1) bi bs hrest
      refine ⟨m + 1, v, by simpa using hm, ?_, hbv, ?_, ?_⟩
      · rw [checkNeibourhoodLoop_cons_lt a as i bi bs ha, hr]
        omega
      · intro j x hj
        cases j with
        | zero =>
          simp only [List.getElem?_cons_zero, Option.some.injEq] at hj
          subst hj
          exact le_of_lt (lt_of_lt_of_le ha hbv)
        | succ j1 => exact hmax j1 x (by simpa using hj)
      · intro j x hmj hj
        cases j with
        | zero => omega
        | succ j1 => exact hlast j1 x (by omega) (by simpa using hj)
    · have hba : bs ≤ a := not_lt.mp ha
      by_cases hrest : ∃ x ∈ as, a ≤ x
      · obtain ⟨m, v, hm, hr, hbv, hmax, hlast⟩ := ih (i + 1) i a hrest
        refine ⟨m + 1, v, by simpa using hm, ?_, le_trans hba hbv, ?_, ?_⟩
        · rw [checkNeibourhoodLoop_cons_ge a as i bi bs hba, hr]
          omega
        · intro j x hj
          cases j with
          | zero =>
            simp only [List.getElem?_cons_zero, Option.some.injEq] at hj
            subst hj
            exact hbv
          | succ j1 => exact hmax j1 x (by simpa using hj)
        · intro j x hmj hj
          cases j with
          | zero => omega
          | succ j1 => exact hlast j1 x (by omega) (by simpa using hj)
      · have hall : ∀ x ∈ as, x < a := by
          intro x hx
          by_contra hx1
          exact hrest ⟨x, hx, not_lt.mp hx1⟩
        refine ⟨0, a, by simp, ?_, hba, ?_, ?_⟩
        · rw [checkNeibourhoodLoop_cons_ge a as i bi bs hba,
            checkNeibourhoodLoop_of_lt as (i + 1) i a hall]
          rfl
        · intro j x hj
          cases j with
          | zero =>
            simp only [List.getElem?_cons_zero, Option.some.injEq] at hj
            subst hj
            exact le_refl _
          | succ j1 =>
            exact le_of_lt (hall x (List.getElem?_mem (by simpa using hj)))
        · intro j x hmj hj
          cases j with
          | zero => omega
          | succ j1 => exact hall x (List.getElem?_mem (by simpa using hj))

theorem checkNeibourhood_lastMax (sw : List Particle) (k : Nat) (p : Particle)
    (nbs : List Particle) (hp : sw[k]? = some p) (htask : p.task = MAXIMIZE)
    (hd : deref sw p.neighbours = some nbs) (hne : nbs ≠ [])
    (hfloor : ∀ q ∈ nbs, -DBL_MAX ≤ q.pbest.eval) :
    ∃ m r, IsLastMax (nbs.map (fun q => q.pbest)) m r ∧
      Particle.checkNeibourhood sw k = some (sw.set k { p with gbest := r }) := by
  have hex : ∃ x ∈ nbs.map (fun q => q.pbest.eval), -DBL_MAX ≤ x := by
    cases nbs with
    | nil => exact absurd rfl hne
    | cons q qs => exact ⟨q.pbest.eval, by simp, hfloor q (List.mem_cons_self _ _)⟩
  obtain ⟨m, v, hm, hr, _, hmax, hlast⟩ :=
    checkNeibourhoodLoop_lastMax (nbs.map (fun q => q.pbest.eval)) 0 0 (-DBL_MAX) hex
  rw [Nat.zero_add] at hr
  rw [List.getElem?_map] at hm
  cases hq : nbs[m]? with
  | none => simp [hq] at hm
  | some q =>
    simp only [hq, Option.map_some', Option.some.injEq] at hm
    refine ⟨m, q.pbest, ⟨by simp [hq], ?_, ?_⟩, ?_⟩
    · intro j r hj
      rw [List.getElem?_map] at hj
      cases hqj : nbs[j]? with
      | none => simp [hqj] at hj
      | some qj =>
        simp only [hqj, Option.map_some', Option.some.injEq] at hj
        rw [← hj, hm]
        exact hmax j qj.pbest.eval (by simp [hqj])
    · intro j r hmj hj
      rw [List.getElem?_map] at hj
      cases hqj : nbs[j]? with
      | none => simp [hqj] at hj
      | some qj =>
        simp only [hqj, Option.map_some', Option.some.injEq] at hj
        rw [← hj, hm]
        exact hlast j qj.pbest.eval hmj (by simp [hqj])
    · simp only [Particle.checkNeibourhood, hp, hd, htask, if_true, hr, hq]

theorem deref_getElem? (sw : List Particle) (ks : List Nat) (nbs : List Particle)
    (h : deref sw ks = some nbs) (m : Nat) :
    nbs[m]? = (ks[m]?).bind (fun k => sw[k]?) := by
  induction ks generalizing nbs m with
  | nil =>
    simp only [deref, Option.some.injEq] at h
    subst h
    simp
  | cons k ks ih =>
    simp only [deref] at h
    cases hk : sw[k]? with
    | none => simp [hk] at h
    | some q =>
      cases hd : deref sw ks with
      | none => simp [hk, hd] at h
      | some qs =>
        simp only [hk, hd, Option.some.injEq] at h
        subst h
        cases m with
        | zero => simp [hk]
        | succ m1 => simpa using ih qs hd m1

theorem run_floor (calls : List Call) (s s1 : PSO) (h : s.run calls = some s1)
    (hf : ∀ p ∈ s.swarm, -DBL_MAX ≤ p.pbest.eval) :
    ∀ p ∈ s1.swarm, -DBL_MAX ≤ p.pbest.eval := by
  intro p1 hp1
  obtain ⟨i, hi⟩ := List.getElem?_of_mem hp1
  have hlen : s1.swarm.length = s.swarm.length := (run_frame calls s s1 h).2.2.2.2.1
  have hlt : i < s.swarm.length := by
    rw [← hlen]
    exact (List.getElem?_eq_some.mp hi).1
  obtain ⟨p2, hp2, e⟩ := run_pbest i calls s s1 _ h (List.getElem?_eq_getElem hlt)
  rw [hi] at hp2
  simp only [Option.some.injEq] at hp2
  rw [hp2, e]
  exact le_trans (hf _ (List.getElem_mem hlt)) (improveFold_eval_ge _ _)

theorem checkNeibourhood_neighbours (sw : List Particle) (k : Nat) (p : Particle)
    (hp : sw[k]? = some p) (htask : p.task = MAXIMIZE) (hne : p.neighbours ≠ [])
    (hin : ∀ nb ∈ p.neighbours, nb < sw.length)
    (hfloor : ∀ q ∈ sw, -DBL_MAX ≤ q.pbest.eval) :
    ∃ m nb q, p.neighbours[m]? = some nb ∧ sw[nb]? = some q ∧
      Particle.checkNeibourhood sw k = some (sw.set k { p with gbest := q.pbest }) ∧
      (∀ (j nb1 : Nat) (q1 : Particle), p.neighbours[j]? = some nb1 → sw[nb1]? = some q1 →
        q1.pbest.eval ≤ q.pbest.eval) ∧
      (∀ (j nb1 : Nat) (q1 : Particle), m < j → p.neighbours[j]? = some nb1 →
        sw[nb1]? = some q1 → q1.pbest.eval < q.pbest.eval) := by
  obtain ⟨nbs, hd, hl⟩ := deref_isSome sw p.neighbours hin
  have hnbs : nbs ≠ [] := by
    intro h0
    rw [h0] at hl
    exact hne (List.length_eq_zero.mp hl.symm)
  have hmem : ∀ q ∈ nbs, q ∈ sw := by
    intro q hq
    obtain ⟨j, hj⟩ := List.getElem?_of_mem hq
    rw [deref_getElem? sw p.neighbours nbs hd j] at hj
    cases hk : p.neighbours[j]? with
    | none => simp [hk] at hj
    | some nb =>
      simp only [hk, Option.some_bind] at hj
      exact List.getElem?_mem hj
  obtain ⟨m, r, ⟨hm, hmax, hlast⟩, hc⟩ :=
    checkNeibourhood_lastMax sw k p nbs hp htask hd hnbs (fun q hq => hfloor q (hmem q hq))
  rw [List.getElem?_map] at hm
  cases hq : nbs[m]? with
  | none => simp [hq] at hm
  | some q =>
    simp only [hq, Option.map_some', Option.some.injEq] at hm
    have hq1 := hq
    rw [deref_getElem? sw p.neighbours nbs hd m] at hq1
    cases hk : p.neighbours[m]? with
    | none => simp [hk] at hq1
    | some nb =>
      simp only [hk, Option.some_bind] at hq1
      refine ⟨m, nb, q, hk, hq1, by rw [hm]; exact hc, ?_, ?_⟩
      · intro j nb1 q1 hj hq1j
        have : nbs[j]? = some q1 := by
          rw [deref_getElem? sw p.neighbours nbs hd j, hj]
          simpa using hq1j
        rw [hm]
        exact hmax j q1.pbest (by simp [this])
      · intro j nb1 q1 hmj hj hq1j
        have : nbs[j]? = some q1 := by
          rw [deref_getElem? sw p.neighbours nbs hd j, hj]
          simpa using hq1j
        rw [hm]
        exact hlast j q1.pbest hmj (by simp [this])

/-- C17: in a swarm reached by any sequence of calls from a state in which no
personal-best fitness is below `-DBL_MAX` (as after construction), for a MAXIMIZE
particle with a non-empty list of neighbours that are particles of the swarm,
`checkNeibourhood()` succeeds and sets the neighbourhood best of the particle to
the personal best of one of its neighbours, whose personal-best fitness is
maximal among all its neighbours; nothing else changes. -/
theorem Particle.checkNeibourhood_max (s0 s : PSO) (calls : List Call)
    (hfloor : ∀ q ∈ s0.swarm, -DBL_MAX ≤ q.pbest.eval) (hrun : s0.run calls = some s)
    (k : Nat) (p : Particle) (hp : s.swarm[k]? = some p) (htask : p.task = MAXIMIZE)
    (hne : p.neighbours ≠ []) (hin : ∀ nb ∈ p.neighbours, nb < s.swarm.length) :
    ∃ nb q, nb ∈ p.neighbours ∧ s.swarm[nb]? = some q ∧
      Particle.checkNeibourhood s.swarm k = some (s.swarm.set k { p with gbest := q.pbest }) ∧
      ∀ nb1 ∈ p.neighbours, ∀ q1, s.swarm[nb1]? = some q1 → q1.pbest.eval ≤ q.pbest.eval := by
  obtain ⟨m, nb, q, hm, hq, hc, hmax, _⟩ :=
    checkNeibourhood_neighbours s.swarm k p hp htask hne hin (run_floor calls s0 s hrun hfloor)
  refine ⟨nb, q, List.getElem?_mem hm, hq, hc, ?_⟩
  intro nb1 hnb1 q1 hq1
  obtain ⟨j, hj⟩ := List.getElem?_of_mem hnb1
  exact hmax j nb1 q1 hj hq1

/-- C17, an instance: in the ergodic swarm of three particles where particles 1
and 2 have been evaluated to 7, `checkNeibourhood()` on particle 0 sets its
neighbourhood best to a personal best of fitness 7. -/
theorem Particle.checkNeibourhood_max_ergodic_instance :
    (∀ q ∈ ergodicOfThree.swarm, q.pbest.eval = -DBL_MAX) ∧
      ergodicOfThree.run ergodicTieCalls = some ergodicTie ∧
      ergodicTie.swarm[0]? = some ergodicTieParticle0 ∧
      ergodicTieParticle0.neighbours = [1, 2] ∧
      ((Particle.checkNeibourhood ergodicTie.swarm 0).bind (fun sw => sw[0]?)).map
        (fun p => p.gbest.eval) = some 7 ∧
      ∃ nb q, nb ∈ ergodicTieParticle0.neighbours ∧ ergodicTie.swarm[nb]? = some q ∧
        Particle.checkNeibourhood ergodicTie.swarm 0 =
          some (ergodicTie.swarm.set 0 { ergodicTieParticle0 with gbest := q.pbest }) ∧
        ∀ nb1 ∈ ergodicTieParticle0.neighbours, ∀ q1, ergodicTie.swarm[nb1]? = some q1 →
          q1.pbest.eval ≤ q.pbest.eval :=
  ⟨by decide!, by decide!, by decide!, by decide!, by decide!,
    Particle.checkNeibourhood_max ergodicOfThree ergodicTie ergodicTieCalls
      (by decide!) (by decide!) 0 ergodicTieParticle0 (by decide!) (by decide!) (by decide!)
      (by decide!)⟩

/-- C18 as stated fails: in the ergodic swarm of three particles, the neighbours
of particle 0 are particles 1 and 2, in this order, with the personal bests
`(5, 7)` and `(8, 7)`; `checkNeibourhood()` on particle 0 selects `(8, 7)`, the
personal best of the neighbour encountered last. -/
theorem Particle.checkNeibourhood_tie_takes_last :
    ergodicOfThree.run ergodicTieCalls = some ergodicTie ∧
      (ergodicTie.swarm[0]?).map (fun p => p.neighbours) = some [1, 2] ∧
      (ergodicTie.swarm[0]?).map (fun p => p.task) = some MAXIMIZE ∧
      (ergodicTie.swarm[1]?).map (fun p => p.pbest) = some ⟨[5], 7⟩ ∧
      (ergodicTie.swarm[2]?).map (fun p => p.pbest) = some ⟨[8], 7⟩ ∧
      ((Particle.checkNeibourhood ergodicTie.swarm 0).bind (fun sw => sw[0]?)).map
        (fun p => p.gbest) = some ⟨[8], 7⟩ ∧
      ((Particle.checkNeibourhood ergodicTie.swarm 0).bind (fun sw => sw[0]?)).map
        (fun p => p.gbest) ≠ some ⟨[5], 7⟩ :=
  ⟨by decide!, by decide!, by decide!, by decide!, by decide!, by decide!, by decide!⟩

/-- C18, amended: under the hypotheses of C17, when several neighbours of a
MAXIMIZE particle share the maximal personal-best fitness, `checkNeibourhood()`
selects the one encountered last in the neighbour list: every neighbour after
the selected one in the list has a strictly smaller personal-best fitness. -/
theorem Particle.checkNeibourhood_last_max (s0 s : PSO) (calls : List Call)
    (hfloor : ∀ q ∈ s0.swarm, -DBL_MAX ≤ q.pbest.eval) (hrun : s0.run calls = some s)
    (k : Nat) (p : Particle) (hp : s.swarm[k]? = some p) (htask : p.task = MAXIMIZE)
    (hne : p.neighbours ≠ []) (hin : ∀ nb ∈ p.neighbours, nb < s.swarm.length) :
    ∃ m nb q, p.neighbours[m]? = some nb ∧ s.swarm[nb]? = some q ∧
      Particle.checkNeibourhood s.swarm k = some (s.swarm.set k { p with gbest := q.pbest }) ∧
      (∀ (j nb1 : Nat) (q1 : Particle), p.neighbours[j]? = some nb1 →
        s.swarm[nb1]? = some q1 → q1.pbest.eval ≤ q.pbest.eval) ∧
      (∀ (j nb1 : Nat) (q1 : Particle), m < j → p.neighbours[j]? = some nb1 →
        s.swarm[nb1]? = some q1 → q1.pbest.eval < q.pbest.eval) :=
  checkNeibourhood_neighbours s.swarm k p hp htask hne hin (run_floor calls s0 s hrun hfloor)

/-- C18, an instance of the amended claim on the ergodic swarm of three
particles: the neighbour selected for particle 0 is the second of its list. -/
theorem Particle.checkNeibourhood_last_max_ergodic_instance :
    ergodicOfThree.run ergodicTieCalls = some ergodicTie ∧
      ergodicTie.swarm[0]? = some ergodicTieParticle0 ∧
      ergodicTieParticle0.neighbours[1]? = some 2 ∧
      Particle.checkNeibourhood ergodicTie.swarm 0 =
        some (ergodicTie.swarm.set 0 { ergodicTieParticle0 with gbest := ⟨[8], 7⟩ }) ∧
      ∃ m nb q, ergodicTieParticle0.neighbours[m]? = some nb ∧ ergodicTie.swarm[nb]? = some q ∧
        Particle.checkNeibourhood ergodicTie.swarm 0 =
          some (ergodicTie.swarm.set 0 { ergodicTieParticle0 with gbest := q.pbest }) ∧
        (∀ (j nb1 : Nat) (q1 : Particle), ergodicTieParticle0.neighbours[j]? = some nb1 →
          ergodicTie.swarm[nb1]? = some q1 → q1.pbest.eval ≤ q.pbest.eval) ∧
        (∀ (j nb1 : Nat) (q1 : Particle), m < j → ergodicTieParticle0.neighbours[j]? = some nb1 →
          ergodicTie.swarm[nb1]? = some q1 → q1.pbest.eval < q.pbest.eval) :=
  ⟨by decide!, by decide!, by decide!, by decide!,
    Particle.checkNeibourhood_last_max ergodicOfThree ergodicTie ergodicTieCalls
      (by decide!) (by decide!) 0 ergodicTieParticle0 (by decide!) (by decide!) (by decide!)
      (by decide!)⟩

/-! ### The fitness of the bests -/

theorem allowed_mono (A B : List ℚ) (v : ℚ) (h : Allowed A v) : Allowed (A ++ B) v := by
  rcases h with h | h
  · exact Or.inl h
  · exact Or.inr (List.mem_append_left _ h)

theorem swarmBests_mono (A B : List ℚ) (sw : List Particle) (h : SwarmBests A sw) :
    SwarmBests (A ++ B) sw :=
  fun p hp => ⟨allowed_mono A B _ (h p hp).1, allowed_mono A B _ (h p hp).2⟩

theorem swarmBests_set (A : List ℚ) (sw : List Particle) (k : Nat) (p : Particle)
    (h : SwarmBests A sw) (hp : Allowed A p.pbest.eval ∧ Allowed A p.gbest.eval) :
    SwarmBests A (sw.set k p) := by
  intro q hq
  rcases List.mem_or_eq_of_mem_set hq with h1 | h1
  · exact h q h1
  · rw [h1]
    exact hp

theorem checkNeibourhood_bests (A : List ℚ) (sw sw1 : List Particle) (k : Nat)
    (h : Particle.checkNeibourhood sw k = some sw1) (hb : SwarmBests A sw) :
    SwarmBests A sw1 := by
  unfold Particle.checkNeibourhood at h
  cases hp : sw[k]? with
  | none => simp [hp] at h
  | some p =>
    simp only [hp] at h
    cases hd : deref sw p.neighbours with
    | none => simp [hd] at h
    | some nbs =>
      simp only [hd] at h
      split at h
      · simp at h
      · rename_i q hq
        simp only [Option.some.injEq] at h
        subst h
        have hqsw : q ∈ sw := by
          rw [deref_getElem? sw p.neighbours nbs hd] at hq
          cases hk : p.neighbours[checkNeibourhoodLoop p.task (nbs.map (fun q => q.pbest.eval)) 0 0
              (if p.task = MAXIMIZE then -DBL_MAX else DBL_MAX)]? with
          | none => simp [hk] at hq
          | some nb =>
            simp only [hk, Option.some_bind] at hq
            exact List.getElem?_mem hq
        exact swarmBests_set A sw k _ hb ⟨(hb p (List.getElem?_mem hp)).1, (hb q hqsw).1⟩

theorem checkNeighbours_bests (A : List ℚ) (ks : List Nat) (sw sw1 : List Particle)
    (h : checkNeighbours sw ks = some sw1) (hb : SwarmBests A sw) : SwarmBests A sw1 := by
  induction ks generalizing sw with
  | nil =>
    simp only [checkNeighbours, Option.some.injEq] at h
    rw [← h]
    exact hb
  | cons k ks ih =>
    simp only [checkNeighbours] at h
    cases hc : Particle.checkNeibourhood sw k with
    | none => simp [hc] at h
    | some sw2 =>
      simp only [hc] at h
      exact ih sw2 h (checkNeibourhood_bests A sw sw2 k hc hb)

theorem setEvaluation_bests (A : List ℚ) (sw sw1 : List Particle) (i : Nat) (f : ℚ)
    (h : Particle.setEvaluation sw i f = some sw1) (hb : SwarmBests A sw) :
    SwarmBests (A ++ [f]) sw1 := by
  unfold Particle.setEvaluation at h
  cases hp : sw[i]? with
  | none => simp [hp] at h
  | some p =>
    simp only [hp] at h
    cases hc : Particle.checkNeibourhood (sw.set i (Particle.recordEvaluation p f)) i with
    | none => simp [hc] at h
    | some sw2 =>
      simp only [hc] at h
      have hrec : Allowed (A ++ [f]) (Particle.recordEvaluation p f).pbest.eval ∧
          Allowed (A ++ [f]) (Particle.recordEvaluation p f).gbest.eval := by
        have hpb := hb p (List.getElem?_mem hp)
        by_cases hf : f > p.pbest.eval
        · simp only [Particle.recordEvaluation, hf, if_true]
          exact ⟨Or.inr (by simp), allowed_mono A [f] _ hpb.2⟩
        · simp only [Particle.recordEvaluation, hf, if_false]
          exact ⟨allowed_mono A [f] _ hpb.1, allowed_mono A [f] _ hpb.2⟩
      have h1 : SwarmBests (A ++ [f]) (sw.set i (Particle.recordEvaluation p f)) :=
        swarmBests_set _ sw i _ (swarmBests_mono A [f] sw hb) hrec
      exact checkNeighbours_bests _ _ _ sw1 h (checkNeibourhood_bests _ _ sw2 i hc h1)

theorem improveFold_mem (l : List Solution) (b : Solution) :
    improveFold l b = b ∨ improveFold l b ∈ l := by
  induction l generalizing b with
  | nil => exact Or.inl rfl
  | cons r rs ih =>
    by_cases hr : r.eval > b.eval
    · simp only [improveFold, hr, if_true]
      rcases ih r with h | h
      · exact Or.inr (by rw [h]; exact List.mem_cons_self _ _)
      · exact Or.inr (List.mem_cons_of_mem _ h)
    · simp only [improveFold, hr, if_false]
      rcases ih b with h | h
      · exact Or.inl h
      · exact Or.inr (List.mem_cons_of_mem _ h)

theorem next_bests (s : PSO) (g : MoveSources) :
    (∀ p1 ∈ (s.next g).2.swarm, ∃ p ∈ s.swarm, p1.pbest = p.pbest ∧ p1.gbest = p.gbest) ∧
      (s.next g).2.global_best = s.global_best := by
  constructor
  · intro p1 hp1
    obtain ⟨j, hj⟩ := List.getElem?_of_mem hp1
    by_cases hc : s.next_particle_id = 0 ∧ s.n_evaluations > 0
    · simp only [PSO.next, hc, and_self, if_true, PSO.setInertia, forParticles_getElem?] at hj
      cases hq : s.swarm[j]? with
      | none => simp [hq] at hj
      | some q =>
        simp only [hq, Option.map_some', Option.some.injEq] at hj
        refine ⟨q, List.getElem?_mem hq, ?_⟩
        rw [← hj]
        by_cases hi : j < s.n_particles
        · simp [hi, Particle.move]
        · simp [hi]
    · simp only [PSO.next, hc, if_false] at hj
      exact ⟨p1, List.getElem?_mem hj, rfl, rfl⟩
  · by_cases hc : s.next_particle_id = 0 ∧ s.n_evaluations > 0
    · simp [PSO.next, hc, PSO.setInertia]
    · simp [PSO.next, hc]

theorem evaluationsPassed_cons (c : Call) (cs : List Call) :
    evaluationsPassed (c :: cs) = evaluationsPassed [c] ++ evaluationsPassed cs := by
  cases c <;> simp [evaluationsPassed]

theorem call_bests (A : List ℚ) (s s1 : PSO) (c : Call) (h : s.call c = some s1)
    (hb : SwarmBests A s.swarm) (hg : Allowed A s.global_best.eval) :
    SwarmBests (A ++ evaluationsPassed [c]) s1.swarm ∧
      Allowed (A ++ evaluationsPassed [c]) s1.global_best.eval := by
  cases c with
  | initialise j lbs ubs g_pos g_vel =>
    simp only [PSO.call] at h
    cases hj : s.swarm[j]? with
    | none => simp [hj] at h
    | some pj =>
      simp only [hj, Option.some.injEq] at h
      subst h
      refine ⟨swarmBests_mono A _ _ (swarmBests_set A s.swarm j _ hb ?_), allowed_mono A _ _ hg⟩
      exact hb pj (List.getElem?_mem hj)
  | move j g1 g2 =>
    simp only [PSO.call] at h
    cases hj : s.swarm[j]? with
    | none => simp [hj] at h
    | some pj =>
      simp only [hj, Option.some.injEq] at h
      subst h
      refine ⟨swarmBests_mono A _ _ (swarmBests_set A s.swarm j _ hb ?_), allowed_mono A _ _ hg⟩
      exact hb pj (List.getElem?_mem hj)
  | setEvaluation j f =>
    simp only [PSO.call] at h
    cases hs : Particle.setEvaluation s.swarm j f with
    | none => simp [hs] at h
    | some sw1 =>
      simp only [hs, Option.some.injEq] at h
      subst h
      exact ⟨setEvaluation_bests A s.swarm sw1 j f hs hb, allowed_mono A _ _ hg⟩
  | update =>
    simp only [PSO.call, Option.some.injEq] at h
    subst h
    refine ⟨swarmBests_mono A _ _ hb, allowed_mono A _ _ ?_⟩
    show Allowed A (updateLoop (s.swarm.take s.n_particles) s.global_best false).1.eval
    rw [updateLoop_fst]
    rcases improveFold_mem ((s.swarm.take s.n_particles).map (fun p => p.pbest))
      s.global_best with h1 | h1
    · rw [h1]
      exact hg
    · obtain ⟨p, hp, e⟩ := List.mem_map.mp h1
      rw [← e]
      exact (hb p (List.mem_of_mem_take hp)).1
  | next g =>
    simp only [PSO.call, Option.some.injEq] at h
    subst h
    obtain ⟨n1, n2⟩ := next_bests s g
    refine ⟨?_, ?_⟩
    · intro p1 hp1
      obtain ⟨p, hp, e1, e2⟩ := n1 p1 hp1
      rw [e1, e2]
      exact ⟨allowed_mono A _ _ (hb p hp).1, allowed_mono A _ _ (hb p hp).2⟩
    · rw [n2]
      exact allowed_mono A _ _ hg

theorem run_bests (calls : List Call) (A : List ℚ) (s s1 : PSO) (h : s.run calls = some s1)
    (hb : SwarmBests A s.swarm) (hg : Allowed A s.global_best.eval) :
    SwarmBests (A ++ evaluationsPassed calls) s1.swarm ∧
      Allowed (A ++ evaluationsPassed calls) s1.global_best.eval := by
  induction calls generalizing A s with
  | nil =>
    simp only [PSO.run, Option.some.injEq] at h
    subst h
    exact ⟨swarmBests_mono A _ _ hb, allowed_mono A _ _ hg⟩
  | cons c cs ih =>
    simp only [PSO.run] at h
    cases hc : s.call c with
    | none => simp [hc] at h
    | some s2 =>
      simp only [hc] at h
      obtain ⟨b2, g2⟩ := call_bests A s s2 c hc hb hg
      have := ih (A ++ evaluationsPassed [c]) s2 h b2 g2
      rw [List.append_assoc, ← evaluationsPassed_cons] at this
      exact this

/-- C20: in a swarm in which the fitness of every personal best, of every
neighbourhood best and of the global best is `-DBL_MAX`, as after the
construction of a MAXIMIZE swarm, after any sequence of `initialize`, `move`,
`setEvaluation(f)`, `update()` and `next()` calls the fitness stored in each
particle's personal best, in each particle's neighbourhood best and in the
global best is `-DBL_MAX` or one of the values `f` passed to `setEvaluation`; so
none of them is `TO_BE_EVALUATED` unless that very value was passed to
`setEvaluation`. -/
theorem PSO.bests_are_reported (s0 s : PSO) (calls : List Call)
    (hp0 : ∀ p ∈ s0.swarm, p.pbest.eval = -DBL_MAX ∧ p.gbest.eval = -DBL_MAX)
    (hg0 : s0.global_best.eval = -DBL_MAX) (hrun : s0.run calls = some s) :
    (∀ p ∈ s.swarm,
        (p.pbest.eval = -DBL_MAX ∨ p.pbest.eval ∈ evaluationsPassed calls) ∧
        (p.gbest.eval = -DBL_MAX ∨ p.gbest.eval ∈ evaluationsPassed calls)) ∧
      (s.global_best.eval = -DBL_MAX ∨ s.global_best.eval ∈ evaluationsPassed calls) ∧
      (TO_BE_EVALUATED ∉ evaluationsPassed calls →
        (∀ p ∈ s.swarm, p.pbest.eval ≠ TO_BE_EVALUATED ∧ p.gbest.eval ≠ TO_BE_EVALUATED) ∧
          s.global_best.eval ≠ TO_BE_EVALUATED) := by
  have hb : SwarmBests [] s0.swarm := fun p hp => ⟨Or.inl (hp0 p hp).1, Or.inl (hp0 p hp).2⟩
  obtain ⟨h1, h2⟩ := run_bests calls [] s0 s hrun hb (Or.inl hg0)
  simp only [List.nil_append] at h1 h2
  have hne : (-DBL_MAX : ℚ) ≠ TO_BE_EVALUATED := by
    norm_num [DBL_MAX, TO_BE_EVALUATED]
  have key : ∀ v : ℚ, Allowed (evaluationsPassed calls) v →
      TO_BE_EVALUATED ∉ evaluationsPassed calls → v ≠ TO_BE_EVALUATED := by
    intro v hv hnot hv1
    rcases hv with h | h
    · exact hne (by rw [← h, hv1])
    · exact hnot (by rw [← hv1]; exact h)
  refine ⟨h1, h2, ?_⟩
  intro hnot
  exact ⟨fun p hp => ⟨key _ (h1 p hp).1 hnot, key _ (h1 p hp).2 hnot⟩, key _ h2 hnot⟩

/-- C20, an instance: in the ergodic swarm of three particles, after the
initialisations, the two evaluations to 7, an `update()`, a move and a dispatch,
the personal bests have the fitness `-DBL_MAX`, 7 and 7, the neighbourhood bests
and the global best the fitness 7, while every particle holds the pending marker
as current fitness. -/
theorem PSO.bests_are_reported_ergodic_instance :
    (∀ p ∈ ergodicOfThree.swarm, p.pbest.eval = -DBL_MAX ∧ p.gbest.eval = -DBL_MAX) ∧
      ergodicOfThree.global_best.eval = -DBL_MAX ∧
      ergodicOfThree.run (ergodicTieCalls ++ [Call.update, Call.move 0 (fun _ => 0) (fun _ => 0),
        Call.next (fun _ => (fun _ => 0, fun _ => 0))]) = some ergodicTieLater ∧
      evaluationsPassed (ergodicTieCalls ++ [Call.update, Call.move 0 (fun _ => 0) (fun _ => 0),
        Call.next (fun _ => (fun _ => 0, fun _ => 0))]) = [7, 7] ∧
      ergodicTieLater.swarm.map (fun p => p.pbest.eval) = [-DBL_MAX, 7, 7] ∧
      ergodicTieLater.swarm.map (fun p => p.gbest.eval) = [7, 7, 7] ∧
      ergodicTieLater.swarm.map (fun p => p.current.eval) =
        [TO_BE_EVALUATED, TO_BE_EVALUATED, TO_BE_EVALUATED] ∧
      ergodicTieLater.global_best.eval = 7 ∧
      (ergodicTieLater.global_best.eval = -DBL_MAX ∨
        ergodicTieLater.global_best.eval ∈
          evaluationsPassed (ergodicTieCalls ++ [Call.update,
            Call.move 0 (fun _ => 0) (fun _ => 0),
            Call.next (fun _ => (fun _ => 0, fun _ => 0))])) :=
  ⟨by decide!, by decide!, by decide!, by decide!, by decide!, by decide!, by decide!,
    by decide!,
    (PSO.bests_are_reported ergodicOfThree ergodicTieLater _ (by decide!) (by decide!)
      (by decide!)).2.1⟩

/-! ### The size of the swarm -/

theorem createErgodicTopology_length (s : PSO) :
    s.createErgodicTopology.swarm.length = s.swarm.length := by
  simp only [PSO.createErgodicTopology]
  apply foldl_length_preserved
  intro sw i
  apply foldl_length_preserved
  intro sw1 j
  simp [addNeighbourAt]

theorem setNeighborhood_fields (s : PSO) :
    s.setNeighborhood.n_particles = s.n_particles ∧
      s.setNeighborhood.next_particle_id = s.next_particle_id ∧
      s.setNeighborhood.n_evaluations = s.n_evaluations := by
  simp only [PSO.setNeighborhood, PSO.createErgodicTopology, PSO.createRingTopology,
    PSO.createStarTopology]
  split_ifs <;> simp

theorem initialize_ergodic_some (s0 : PSO) (task : Int) (n_dim : Nat) (hsw : s0.swarm = [])
    (htop : s0.topology = TOPOLOGY_ERGODIC) (hpos : 0 < s0.n_particles) :
    ∃ s, s0.initialize task n_dim = some s ∧ s.n_particles = s0.n_particles ∧
      s.swarm.length = s0.n_particles ∧ s.next_particle_id = 0 ∧
      s.n_evaluations = s0.n_evaluations := by
  obtain ⟨s2, hs2, h2⟩ : ∃ s2 : PSO, s0.initialize task n_dim =
      (match s2.setNeighborhood.swarm[0]? with
        | none => none
        | some p => some { s2.setNeighborhood with global_best := p.pbest }) ∧
      s2.topology = TOPOLOGY_ERGODIC ∧ s2.n_particles = s0.n_particles ∧
      s2.swarm.length = s0.n_particles ∧ s2.next_particle_id = 0 ∧
      s2.n_evaluations = s0.n_evaluations :=
    ⟨_, rfl, by simp [htop, hsw]⟩
  rw [hs2]
  have hlen : s2.setNeighborhood.swarm.length = s0.n_particles := by
    rw [← h2.2.2.1]
    simp [PSO.setNeighborhood, h2.1, createErgodicTopology_length]
  have hf := setNeighborhood_fields s2
  cases h0 : s2.setNeighborhood.swarm[0]? with
  | none =>
    rw [List.getElem?_eq_none_iff, hlen] at h0
    omega
  | some p =>
    refine ⟨_, rfl, ?_, hlen, ?_, ?_⟩
    · show s2.setNeighborhood.n_particles = _
      rw [hf.1, h2.2.1]
    · show s2.setNeighborhood.next_particle_id = _
      rw [hf.2.1, h2.2.2.2.1]
    · show s2.setNeighborhood.n_evaluations = _
      rw [hf.2.2, h2.2.2.2.2]

theorem ctor_some (task : Int) (n_particles n_dim : Nat) :
    ∃ s, PSO.ctor task n_particles n_dim = some s ∧ s.n_particles = 25 ∧
      s.swarm.length = 25 ∧ s.next_particle_id = 0 ∧ s.n_evaluations = 0 := by
  exact initialize_ergodic_some {} task n_dim rfl rfl (by decide)

theorem dispatched_fresh (g : MoveSources) (n : Nat) (s : PSO) (h : s.n_evaluations = 0)
    (hc : s.next_particle_id < s.n_particles) :
    dispatched g n s =
      (List.range n).map (fun k => (s.next_particle_id + k) % s.n_particles) := by
  induction n generalizing s with
  | zero => rfl
  | succ n ih =>
    obtain ⟨h1, h2, h3, -, h5⟩ := next_fields s g
    have hpos : 0 < s.n_particles := by omega
    have ih1 := ih (s.next g).2 (by rw [h5, h]) (by rw [h2, h3]; exact Nat.mod_lt _ hpos)
    rw [dispatched, ih1, h1, h2, h3, List.range_succ_eq_map, List.map_cons, List.map_map,
      Nat.add_zero (s.next_particle_id), Nat.mod_eq_of_lt hc]
    congr 1
    apply List.map_congr_left
    intro k _
    simp only [Function.comp, Nat.succ_eq_add_one]
    rw [Nat.mod_add_mod, Nat.add_assoc, Nat.add_comm 1 k]

theorem setters_fields (s : PSO) (a b c : ℚ) :
    (((s.setPhi1 a).setPhi2 b).setInertia c).n_particles = s.n_particles ∧
      (((s.setPhi1 a).setPhi2 b).setInertia c).swarm.length = s.swarm.length ∧
      (((s.setPhi1 a).setPhi2 b).setInertia c).next_particle_id = s.next_particle_id ∧
      (((s.setPhi1 a).setPhi2 b).setInertia c).n_evaluations = s.n_evaluations := by
  simp [PSO.setPhi1, PSO.setPhi2, PSO.setInertia, forParticles]

/-- C21 fails on the code: the constructor `PSO(task, n_particles, n_dim)` never
reads `n_particles`, so the swarm has the 25 particles of the default member
initialiser whatever is asked for; the optimiser of the controller, asked for 50
particles, owns 25, and 50 calls of `next()` return the particles 0 to 24 twice. -/
theorem PSO.ctor_ignores_n_particles (task : Int) (n_particles n_dim : Nat) :
    (∃ s, PSO.ctor task n_particles n_dim = some s ∧ s.n_particles = 25 ∧
        s.swarm.length = 25) ∧
      (∃ s, controllerPSO n_dim = some s ∧ s.n_particles = 25 ∧ s.swarm.length = 25 ∧
        ∀ g, dispatched g 50 s = List.range 25 ++ List.range 25) := by
  obtain ⟨s, hs, h1, h2, h3, h4⟩ := ctor_some task n_particles n_dim
  obtain ⟨t, ht, t1, t2, t3, t4⟩ := ctor_some MAXIMIZE 50 n_dim
  obtain ⟨f1, f2, f3, f4⟩ := setters_fields t (187 / 100) (124 / 100) (85 / 100)
  refine ⟨⟨s, hs, h1, h2⟩, ⟨_, by rw [controllerPSO, ht]; rfl, ?_, ?_, ?_⟩⟩
  · rw [f1, t1]
  · rw [f2, t2]
  · intro g
    rw [dispatched_fresh g 50 _ (by rw [f4, t4]) (by rw [f3, f1, t3, t1]; decide), f3, f1, t3, t1]
    decide

/-! ### Loops and blocks -/

theorem foldlM_range_invariant {α : Type} (f : α → Nat → Option α) (g : Nat → α) (n : Nat)
    (h : ∀ k < n, f (g k) k = some (g (k + 1))) :
    (List.range n).foldlM f (g 0) = some (g n) := by
  induction n with
  | zero => rfl
  | succ n ih =>
    rw [List.range_succ, List.foldlM_append, ih (fun k hk => h k (Nat.lt_succ_of_lt hk))]
    simp [h n (Nat.lt_succ_self n)]

theorem MatrixXd.WF.flatten_length (A : MatrixXd) (h : A.WF) :
    A.coeff.flatten.length = A.rows * A.cols := by
  obtain ⟨h1, h2⟩ := h
  rw [List.length_flatten, ← h1]
  have : List.map List.length A.coeff = List.replicate A.coeff.length A.cols := by
    rw [List.eq_replicate_iff]
    refine ⟨by simp, ?_⟩
    intro x hx
    obtain ⟨r, hr, rfl⟩ := List.mem_map.1 hx
    exact h2 r hr
  rw [this, List.sum_replicate]
  simp

theorem MLP.Shaped.matrix (m : MLP) (h : m.Shaped) (k : Nat) (hk : k < m.A.length) :
    m.A[k]? = some (m.A.getD k default) ∧ (m.A.getD k default).WF := by
  have h1 : m.A[k]? = some (m.A.getD k default) := by
    simp [List.getD_eq_getElem?_getD, List.getElem?_eq_getElem hk]
  exact ⟨h1, h.1 _ (List.getElem?_mem h1)⟩

theorem MLP.Shaped.bias (m : MLP) (h : m.Shaped) (hb : m.use_bias = true) (k : Nat)
    (hk : k < m.A.length) :
    m.b[k]? = some (m.b.getD k []) ∧ (m.b.getD k []).length = (m.A.getD k default).cols := by
  obtain ⟨h1, h2⟩ := h.2 hb
  refine ⟨?_, h2 k hk⟩
  have : k < m.b.length := by omega
  simp [List.getD_eq_getElem?_getD, List.getElem?_eq_getElem this]

theorem MLP.layerBlock_length (m : MLP) (h : m.Shaped) (k : Nat) (hk : k < m.A.length) :
    (m.layerBlock k).length =
      (m.A.getD k default).cols * (m.A.getD k default).rows +
        if m.use_bias = true then (m.b.getD k []).length else 0 := by
  rw [MLP.layerBlock, List.length_append, (h.matrix m k hk).2.flatten_length, Nat.mul_comm]
  split_ifs <;> simp

theorem MLP.blockOffset_succ (m : MLP) (k : Nat) :
    m.blockOffset (k + 1) = m.blockOffset k + (m.layerBlock k).length := by
  simp [MLP.blockOffset, List.range_succ]

theorem MLP.specWeights_length (m : MLP) : m.specWeights.length = m.blockOffset m.A.length := by
  simp [MLP.specWeights, MLP.blockOffset, List.length_flatten, List.map_map, Function.comp_def]

theorem MLP.getNumberOfParameters_eq (m : MLP) (h : m.Shaped) :
    m.getNumberOfParameters = some (m.blockOffset m.A.length) := by
  have := foldlM_range_invariant m.countLayer m.blockOffset m.A.length (by
    intro k hk
    rw [MLP.countLayer, (h.matrix m k hk).1, m.blockOffset_succ, m.layerBlock_length h k hk]
    by_cases hb : m.use_bias = true
    · simp only [hb, if_true, (h.bias m hb k hk).1, Nat.add_assoc]
    · simp only [hb, Bool.false_eq_true, if_false, Nat.add_zero])
  exact this

/-! ### Networks built layer by layer -/

theorem foldl_addFullyConnectedLayer (layers : List (Nat × Nat)) (m0 : MLP) :
    (layers.foldl (fun m l => m.addFullyConnectedLayer l.1 l.2) m0).use_bias = m0.use_bias ∧
      (layers.foldl (fun m l => m.addFullyConnectedLayer l.1 l.2) m0).A =
        m0.A ++ layers.map (fun l => MatrixXd.Zero l.1 l.2) ∧
      (layers.foldl (fun m l => m.addFullyConnectedLayer l.1 l.2) m0).b =
        (if m0.use_bias = true then m0.b ++ layers.map (fun l => VectorXd.Zero l.2)
          else m0.b) ∧
      (layers.foldl (fun m l => m.addFullyConnectedLayer l.1 l.2) m0).h =
        m0.h ++ layers.map (fun l => VectorXd.Zero l.2) ∧
      (layers.foldl (fun m l => m.addFullyConnectedLayer l.1 l.2) m0).activations =
        m0.activations ∧
      (layers.foldl (fun m l => m.addFullyConnectedLayer l.1 l.2) m0).n_inputs = m0.n_inputs := by
  induction layers generalizing m0 with
  | nil => simp
  | cons l ls ih =>
    obtain ⟨h1, h2, h3, h4, h5, h6⟩ := ih (m0.addFullyConnectedLayer l.1 l.2)
    simp only [List.foldl_cons, h1, h2, h3, h4, h5, h6]
    by_cases hb : m0.use_bias = true <;> simp [MLP.addFullyConnectedLayer, hb]

theorem MLP.build_fields (n_inputs : Nat) (use_bias : Bool) (layers : List (Nat × Nat)) :
    (MLP.build n_inputs use_bias layers).use_bias = use_bias ∧
      (MLP.build n_inputs use_bias layers).A = layers.map (fun l => MatrixXd.Zero l.1 l.2) ∧
      (MLP.build n_inputs use_bias layers).b =
        (if use_bias = true then layers.map (fun l => VectorXd.Zero l.2) else []) ∧
      (MLP.build n_inputs use_bias layers).h =
        VectorXd.Zero n_inputs :: layers.map (fun l => VectorXd.Zero l.2) := by
  obtain ⟨h1, h2, h3, h4, -, -⟩ := foldl_addFullyConnectedLayer layers (MLP.ctor n_inputs use_bias)
  exact ⟨h1, h2, h3, h4⟩

theorem MatrixXd.Zero_WF (rows cols : Nat) : (MatrixXd.Zero rows cols).WF := by
  constructor
  · simp [MatrixXd.Zero]
  · intro r hr
    simp only [MatrixXd.Zero] at hr
    rw [List.eq_of_mem_replicate hr]
    simp [VectorXd.Zero, MatrixXd.Zero]

theorem MLP.build_shaped (n_inputs : Nat) (use_bias : Bool) (layers : List (Nat × Nat)) :
    (MLP.build n_inputs use_bias layers).Shaped := by
  obtain ⟨h1, h2, h3, -⟩ := MLP.build_fields n_inputs use_bias layers
  constructor
  · intro A hA
    rw [h2] at hA
    obtain ⟨l, -, rfl⟩ := List.mem_map.1 hA
    exact MatrixXd.Zero_WF _ _
  · intro hb
    rw [h1] at hb
    rw [h2, h3]
    simp only [hb, if_true, List.length_map, true_and]
    intro k hk
    simp [List.getD_eq_getElem?_getD, List.getElem?_map, List.getElem?_eq_getElem hk,
      VectorXd.Zero, MatrixXd.Zero]

theorem MLP.build_blockOffset (n_inputs : Nat) (use_bias : Bool) (layers : List (Nat × Nat)) :
    (MLP.build n_inputs use_bias layers).blockOffset (MLP.build n_inputs use_bias layers).A.length =
      parameterCount use_bias layers := by
  obtain ⟨h1, h2, h3, -⟩ := MLP.build_fields n_inputs use_bias layers
  have hlen : (MLP.build n_inputs use_bias layers).A.length = layers.length := by simp [h2]
  rw [MLP.blockOffset, parameterCount, hlen]
  congr 1
  apply List.ext_getElem?
  intro k
  by_cases hk : k < layers.length
  · have hk2 : k < (MLP.build n_inputs use_bias layers).A.length := by omega
    rw [List.getElem?_map, List.getElem?_range hk, Option.map_some',
      MLP.layerBlock_length _ (MLP.build_shaped _ _ _) k hk2, h1, h2, h3]
    by_cases hb : use_bias = true <;>
      simp [hb, List.getD_eq_getElem?_getD, List.getElem?_map, List.getElem?_eq_getElem hk,
        VectorXd.Zero, MatrixXd.Zero, Nat.mul_comm]
  · rw [List.getElem?_eq_none_iff.2 (by simpa using hk),
      List.getElem?_eq_none_iff.2 (by simpa using hk)]

/-! ### The number of parameters -/

/-- C22: whatever the calls `addFullyConnectedLayer(rows, cols)` that build a
network, `getNumberOfParameters()` returns the sum over the layers of
`rows * cols`, plus `cols` per layer when the network has biases; for the
network of the target speed module, whose layers are 7 x 7, 7 x 7 and 7 x 1
with biases, it returns 120. -/
theorem MLP.getNumberOfParameters_sum (n_inputs : Nat) (use_bias : Bool)
    (layers : List (Nat × Nat)) :
    (MLP.build n_inputs use_bias layers).getNumberOfParameters =
        some ((layers.map (fun l => l.1 * l.2 + if use_bias then l.2 else 0)).sum) ∧
      targetSpeedMLP.getNumberOfParameters = some 120 := by
  refine ⟨?_, by decide⟩
  rw [MLP.getNumberOfParameters_eq _ (MLP.build_shaped _ _ _), MLP.build_blockOffset]
  rfl

/-! ### The serialisation of the weights -/

theorem setSegment_middle (pre mid post rhs : VectorXd) (h : rhs.length = mid.length) :
    VectorXd.setSegment (pre ++ mid ++ post) pre.length mid.length rhs =
      some (pre ++ rhs ++ post) := by
  have h1 : pre.length + mid.length ≤ (pre ++ mid ++ post).length := by simp
  rw [VectorXd.setSegment, if_pos ⟨h1, h⟩]
  congr 2
  · rw [List.append_assoc, List.take_left]
  · rw [← List.length_append, List.drop_left]

theorem flatten_take_succ (L : List VectorXd) (i : Nat) (r : VectorXd) (h : L[i]? = some r) :
    (L.take (i + 1)).flatten = (L.take i).flatten ++ r := by
  rw [List.take_succ, h]
  simp

theorem MatrixXd.WF.take_length (A : MatrixXd) (h : A.WF) (i : Nat) (hi : i ≤ A.rows) :
    (A.coeff.take i).flatten.length = i * A.cols := by
  have : (List.map List.length (A.coeff.take i)) = List.replicate i A.cols := by
    rw [List.eq_replicate_iff]
    refine ⟨by simp [h.1, hi], ?_⟩
    intro x hx
    obtain ⟨r, hr, rfl⟩ := List.mem_map.1 hx
    exact h.2 r (List.mem_of_mem_take hr)
  rw [List.length_flatten, this, List.sum_replicate]
  simp

theorem MatrixXd.WF.row (A : MatrixXd) (h : A.WF) (i : Nat) (hi : i < A.rows) :
    ∃ r, A.row i = some r ∧ A.coeff[i]? = some r ∧ r.length = A.cols := by
  have hi2 : i < A.coeff.length := by rw [h.1]; exact hi
  refine ⟨A.coeff[i], ?_, List.getElem?_eq_getElem hi2, h.2 _ (List.getElem_mem hi2)⟩
  rw [MatrixXd.row, if_pos hi, List.getElem?_eq_getElem hi2]

theorem MLP.storeRows_eq (A : MatrixXd) (h : A.WF) (pre mid post : VectorXd)
    (hmid : mid.length = A.rows * A.cols) :
    MLP.storeRows A pre.length (pre ++ mid ++ post) = some (pre ++ A.coeff.flatten ++ post) := by
  have key := foldlM_range_invariant
    (fun w i =>
      match A.row i with
      | none => none
      | some r => VectorXd.setSegment w (pre.length + i * A.cols) A.cols r)
    (fun i => pre ++ (A.coeff.take i).flatten ++ mid.drop (i * A.cols) ++ post) A.rows (by
      intro i hi
      obtain ⟨r, hr1, hr2, hr3⟩ := h.row A i hi
      simp only [hr1]
      have hlen : (mid.drop (i * A.cols)).length = A.cols + (mid.drop ((i + 1) * A.cols)).length := by
        simp only [List.length_drop, hmid]
        have : (i + 1) * A.cols ≤ A.rows * A.cols := Nat.mul_le_mul_right _ hi
        rw [Nat.add_mul, Nat.one_mul] at this ⊢
        omega
      have hsplit : mid.drop (i * A.cols) =
          (mid.drop (i * A.cols)).take A.cols ++ mid.drop ((i + 1) * A.cols) := by
        rw [Nat.add_mul, Nat.one_mul, ← List.drop_drop, List.take_append_drop]
      have htk : ((mid.drop (i * A.cols)).take A.cols).length = A.cols := by
        rw [List.length_take, hlen]
        omega
      have hpre : (pre ++ (A.coeff.take i).flatten).length = pre.length + i * A.cols := by
        rw [List.length_append, h.take_length A i (Nat.le_of_lt hi)]
      rw [flatten_take_succ A.coeff i r hr2]
      have := setSegment_middle (pre ++ (A.coeff.take i).flatten)
        ((mid.drop (i * A.cols)).take A.cols) (mid.drop ((i + 1) * A.cols) ++ post) r
        (by rw [htk, hr3])
      rw [hpre, htk] at this
      rw [hsplit]
      simpa [List.append_assoc] using this)
  simp only [List.take_zero, List.flatten_nil, List.append_nil, Nat.zero_mul, List.drop_zero] at key
  rw [MLP.storeRows, key]
  have h1 : A.coeff.take A.rows = A.coeff := by rw [← h.1, List.take_length]
  have h2 : mid.drop (A.rows * A.cols) = [] := by rw [← hmid, List.drop_length]
  rw [h1, h2, List.append_nil]

theorem MLP.storeLayer_eq (m : MLP) (h : m.Shaped) (k : Nat) (hk : k < m.A.length)
    (pre mid post : VectorXd) (hmid : mid.length = (m.layerBlock k).length) :
    m.storeLayer (pre ++ mid ++ post, pre.length) k =
      some (pre ++ m.layerBlock k ++ post, pre.length + (m.layerBlock k).length) := by
  obtain ⟨hA, hwf⟩ := h.matrix m k hk
  have hflat := hwf.flatten_length
  by_cases hb : m.use_bias = true
  · obtain ⟨hbk, hbl⟩ := h.bias m hb k hk
    have hblock : m.layerBlock k = (m.A.getD k default).coeff.flatten ++ m.b.getD k [] := by
      simp [MLP.layerBlock, hb]
    rw [hblock, List.length_append, hflat, hbl] at hmid
    have hsplit : mid = mid.take ((m.A.getD k default).rows * (m.A.getD k default).cols) ++
        mid.drop ((m.A.getD k default).rows * (m.A.getD k default).cols) :=
      (List.take_append_drop _ _).symm
    have h1 : (mid.take ((m.A.getD k default).rows * (m.A.getD k default).cols)).length =
        (m.A.getD k default).rows * (m.A.getD k default).cols := by
      rw [List.length_take, hmid]
      omega
    have h2 : (mid.drop ((m.A.getD k default).rows * (m.A.getD k default).cols)).length =
        (m.A.getD k default).cols := by
      rw [List.length_drop, hmid]
      omega
    have hrows := MLP.storeRows_eq _ hwf pre
      (mid.take ((m.A.getD k default).rows * (m.A.getD k default).cols))
      (mid.drop ((m.A.getD k default).rows * (m.A.getD k default).cols) ++ post) h1
    rw [← List.append_assoc, List.append_assoc pre, ← hsplit] at hrows
    have hseg := setSegment_middle (pre ++ (m.A.getD k default).coeff.flatten)
      (mid.drop ((m.A.getD k default).rows * (m.A.getD k default).cols)) post (m.b.getD k [])
      (by rw [hbl, h2])
    rw [List.length_append, hflat, h2, List.append_assoc
      (pre ++ (m.A.getD k default).coeff.flatten)] at hseg
    simp only [MLP.storeLayer, hA, hb, if_true, hbk]
    rw [hrows]
    simp only []
    rw [hseg]
    simp only [hblock, List.length_append, hflat, hbl, List.append_assoc, Nat.add_assoc]
  · have hblock : m.layerBlock k = (m.A.getD k default).coeff.flatten := by
      simp [MLP.layerBlock, hb]
    rw [hblock, hflat] at hmid
    have hrows := MLP.storeRows_eq _ hwf pre mid post hmid
    simp only [MLP.storeLayer, hA, hb, Bool.false_eq_true, if_false]
    rw [hrows]
    simp only [hblock, hflat]

theorem MLP.blockOffset_le (m : MLP) (k n : Nat) (h : k ≤ n) :
    m.blockOffset k ≤ m.blockOffset n := by
  induction n with
  | zero =>
    have : k = 0 := by omega
    rw [this]
  | succ n ih =>
    by_cases hk : k = n + 1
    · rw [hk]
    · have := ih (by omega)
      rw [m.blockOffset_succ]
      omega

theorem MLP.prefix_length (m : MLP) (k : Nat) :
    ((List.range k).map m.layerBlock).flatten.length = m.blockOffset k := by
  simp [MLP.blockOffset, List.length_flatten, List.map_map, Function.comp_def]

theorem MLP.storeLayers_eq (m : MLP) (h : m.Shaped) :
    (List.range m.A.length).foldlM m.storeLayer
        (VectorXd.Zero (m.blockOffset m.A.length), 0) =
      some (m.specWeights, m.blockOffset m.A.length) := by
  have key := foldlM_range_invariant m.storeLayer
    (fun k => (((List.range k).map m.layerBlock).flatten ++
      VectorXd.Zero (m.blockOffset m.A.length - m.blockOffset k), m.blockOffset k))
    m.A.length (by
      intro k hk
      have hle := m.blockOffset_le (k + 1) m.A.length hk
      have hsucc := m.blockOffset_succ k
      have hz : VectorXd.Zero (m.blockOffset m.A.length - m.blockOffset k) =
          VectorXd.Zero (m.layerBlock k).length ++
            VectorXd.Zero (m.blockOffset m.A.length - m.blockOffset (k + 1)) := by
        rw [VectorXd.Zero, VectorXd.Zero, VectorXd.Zero, List.append_replicate_replicate]
        congr 1
        omega
      have := m.storeLayer_eq h k hk ((List.range k).map m.layerBlock).flatten
        (VectorXd.Zero (m.layerBlock k).length)
        (VectorXd.Zero (m.blockOffset m.A.length - m.blockOffset (k + 1)))
        (by simp [VectorXd.Zero])
      rw [m.prefix_length k, List.append_assoc, ← hz] at this
      simp only [this, hsucc, List.range_succ, List.map_append, List.map_cons, List.map_nil,
        List.flatten_append, List.flatten_cons, List.flatten_nil, List.append_nil])
  simp only [List.range_zero, List.map_nil, List.flatten_nil, List.nil_append, MLP.blockOffset,
    List.sum_nil, Nat.sub_zero] at key
  simp only [MLP.blockOffset]
  rw [key]
  simp [MLP.specWeights, VectorXd.Zero]

theorem MLP.getWeights_eq (m : MLP) (h : m.Shaped) : m.getWeights = some m.specWeights := by
  rw [MLP.getWeights, m.getNumberOfParameters_eq h]
  simp only [m.storeLayers_eq h, m.specWeights_length, if_true]

theorem flatten_getElem?_block (L : List VectorXd) (k : Nat) (blk : VectorXd)
    (hk : L[k]? = some blk) (t : Nat) (ht : t < blk.length) :
    L.flatten[(L.take k).flatten.length + t]? = blk[t]? := by
  induction L generalizing k with
  | nil => simp at hk
  | cons a as ih =>
    cases k with
    | zero =>
      simp only [List.getElem?_cons_zero, Option.some.injEq] at hk
      subst hk
      simp [List.getElem?_append_left ht]
    | succ k =>
      simp only [List.getElem?_cons_succ] at hk
      simp only [List.take_succ_cons, List.flatten_cons, List.length_append]
      rw [List.getElem?_append_right (by omega), ← ih k hk]
      congr 1
      omega

theorem MLP.specWeights_block (m : MLP) (k : Nat) (hk : k < m.A.length) (t : Nat)
    (ht : t < (m.layerBlock k).length) :
    m.specWeights[m.blockOffset k + t]? = (m.layerBlock k)[t]? := by
  have h1 : ((List.range m.A.length).map m.layerBlock)[k]? = some (m.layerBlock k) := by
    rw [List.getElem?_map, List.getElem?_range hk]
    rfl
  have h2 := flatten_getElem?_block _ k _ h1 t ht
  rw [← List.map_take, List.take_range, Nat.min_eq_left (Nat.le_of_lt hk), m.prefix_length] at h2
  exact h2

theorem MatrixXd.WF.flatten_getElem? (A : MatrixXd) (h : A.WF) (i j : Nat) (hi : i < A.rows)
    (hj : j < A.cols) : A.coeff.flatten[i * A.cols + j]? = some (A.at i j) := by
  obtain ⟨r, -, hr2, hr3⟩ := h.row A i hi
  have := flatten_getElem?_block A.coeff i r hr2 j (by omega)
  rw [h.take_length A i (Nat.le_of_lt hi)] at this
  rw [this, MatrixXd.at]
  simp [List.getD_eq_getElem?_getD, hr2, List.getElem?_eq_getElem (show j < r.length by omega)]

/-- C23: on a network with the shape its construction gives, `getWeights()`
returns a vector of length `getNumberOfParameters()` that is the serialisation
the specification describes: the block of layer `k` starts where the blocks of
the layers before it end, holds entry `(i, j)` of its `rows x cols` matrix at
offset `i * cols + j` and, with biases, entry `j` of its bias vector at offset
`rows * cols + j`. -/
theorem MLP.getWeights_layout (m : MLP) (h : m.Shaped) :
    ∃ w, m.getWeights = some w ∧ m.getNumberOfParameters = some w.length ∧
      w = m.specWeights ∧ m.blockOffset 0 = 0 ∧
      ∀ k A, m.A[k]? = some A →
        m.blockOffset (k + 1) =
          m.blockOffset k + A.rows * A.cols + (if m.use_bias = true then A.cols else 0) ∧
        (∀ i j, i < A.rows → j < A.cols →
          w[m.blockOffset k + (i * A.cols + j)]? = some (A.at i j)) ∧
        (m.use_bias = true → ∀ j, j < A.cols →
          w[m.blockOffset k + (A.rows * A.cols + j)]? = (m.b.getD k [])[j]?) := by
  refine ⟨m.specWeights, m.getWeights_eq h, ?_, rfl, rfl, ?_⟩
  · rw [m.getNumberOfParameters_eq h, m.specWeights_length]
  · intro k A hA
    have hk : k < m.A.length := by
      by_contra hc
      rw [List.getElem?_eq_none_iff.2 (by omega)] at hA
      cases hA
    obtain ⟨hA2, hwf⟩ := h.matrix m k hk
    have hAeq : m.A.getD k default = A := by
      rw [hA2] at hA
      exact Option.some.inj hA
    rw [hAeq] at hwf
    have hlen := m.layerBlock_length h k hk
    have hflat := hwf.flatten_length
    rw [hAeq] at hlen
    refine ⟨?_, ?_, ?_⟩
    · rw [m.blockOffset_succ, hlen, Nat.mul_comm A.cols]
      by_cases hb : m.use_bias = true
      · rw [if_pos hb, if_pos hb, ← hAeq, (h.bias m hb k hk).2, Nat.add_assoc]
      · rw [if_neg hb, if_neg hb]
        rfl
    · intro i j hi hj
      have hlt : i * A.cols + j < A.rows * A.cols := by
        calc i * A.cols + j < i * A.cols + A.cols := by omega
          _ = (i + 1) * A.cols := by rw [Nat.add_mul, Nat.one_mul]
          _ ≤ A.rows * A.cols := Nat.mul_le_mul_right _ hi
      rw [m.specWeights_block k hk _ (by rw [hlen, Nat.mul_comm A.cols]; omega), MLP.layerBlock,
        hAeq, List.getElem?_append_left (by rw [hflat]; exact hlt)]
      exact hwf.flatten_getElem? A i j hi hj
    · intro hb j hj
      have hbl := (h.bias m hb k hk).2
      rw [hAeq] at hbl
      rw [m.specWeights_block k hk _ (by rw [hlen, if_pos hb, hbl, Nat.mul_comm A.cols]; omega),
        MLP.layerBlock, hAeq, List.getElem?_append_right (by rw [hflat]; omega), hflat, if_pos hb]
      congr 1
      omega

/-- C23 on a network with the layers 2 x 3 and 3 x 1 whose weights are the
numbers 0 to 12: the serialisation gives back 0 to 12, entry (1, 2) of the first
matrix being at offset 1 * 3 + 2. -/
theorem MLP.getWeights_layout_two_layers :
    twoLayerCounting.Shaped ∧
      twoLayerCounting.getWeights = some [0, 1, 2, 3, 4, 5, 6, 7, 8, 9, 10, 11, 12] ∧
      ∃ w, twoLayerCounting.getWeights = some w ∧
        twoLayerCounting.getNumberOfParameters = some w.length ∧
        w = twoLayerCounting.specWeights ∧ twoLayerCounting.blockOffset 0 = 0 ∧
        ∀ k A, twoLayerCounting.A[k]? = some A →
          twoLayerCounting.blockOffset (k + 1) =
            twoLayerCounting.blockOffset k + A.rows * A.cols +
              (if twoLayerCounting.use_bias = true then A.cols else 0) ∧
          (∀ i j, i < A.rows → j < A.cols →
            w[twoLayerCounting.blockOffset k + (i * A.cols + j)]? = some (A.at i j)) ∧
          (twoLayerCounting.use_bias = true → ∀ j, j < A.cols →
            w[twoLayerCounting.blockOffset k + (A.rows * A.cols + j)]? =
              (twoLayerCounting.b.getD k [])[j]?) :=
  ⟨by decide!, by decide!, MLP.getWeights_layout twoLayerCounting (by decide!)⟩

/-! ### Reading the weights back -/

theorem segment_eq (w : VectorXd) (start n : Nat) (h : start + n ≤ w.length) :
    w.segment start n = some ((w.drop start).take n) ∧ ((w.drop start).take n).length = n := by
  constructor
  · rw [VectorXd.segment, if_pos h]
  · rw [List.length_take, List.length_drop]
    omega

theorem take_drop_take_drop (w : VectorXd) (off n x c : Nat) (h : x + c ≤ n) :
    (((w.drop off).take n).drop x).take c = (w.drop (off + x)).take c := by
  rw [List.drop_take, List.take_take, List.drop_drop, Nat.min_eq_left (by omega)]

theorem set_append_drop (pre l : List VectorXd) (i : Nat) (r : VectorXd) (hi : i < l.length)
    (hpre : pre.length = i) :
    (pre ++ l.drop i).set i r = pre ++ [r] ++ l.drop (i + 1) := by
  subst hpre
  rw [List.set_append_right _ _ (Nat.le_refl _), Nat.sub_self]
  rw [List.drop_eq_getElem_cons hi, List.set_cons_zero, List.append_assoc, List.singleton_append]

theorem MLP.loadRows_eq (A : MatrixXd) (h : A.WF) (blockA : VectorXd)
    (hlen : blockA.length = A.rows * A.cols) :
    MLP.loadRows A blockA = some (MLP.loadedMatrix blockA 0 A) := by
  have key := foldlM_range_invariant
    (fun (M : MatrixXd) i =>
      match blockA.segment (i * A.cols) A.cols with
      | none => none
      | some r => M.setRow i r)
    (fun i => MatrixXd.mk A.rows A.cols ((List.range i).map
        (fun i => (blockA.drop (i * A.cols)).take A.cols) ++ A.coeff.drop i))
    A.rows (by
      intro i hi
      have hle : i * A.cols + A.cols ≤ blockA.length := by
        rw [hlen]
        calc i * A.cols + A.cols = (i + 1) * A.cols := by rw [Nat.add_mul, Nat.one_mul]
          _ ≤ A.rows * A.cols := Nat.mul_le_mul_right _ hi
      obtain ⟨h1, h2⟩ := segment_eq blockA (i * A.cols) A.cols hle
      simp only [h1]
      have hi2 : i < A.coeff.length := by rw [h.1]; exact hi
      have hcond : i < A.rows ∧
          i < ((List.range i).map (fun i => (blockA.drop (i * A.cols)).take A.cols) ++
            A.coeff.drop i).length ∧
          ((blockA.drop (i * A.cols)).take A.cols).length = A.cols := by
        refine ⟨hi, ?_, h2⟩
        simp only [List.length_append, List.length_map, List.length_range, List.length_drop]
        omega
      rw [MatrixXd.setRow, if_pos hcond]
      rw [set_append_drop _ A.coeff i _ hi2 (by simp), List.range_succ, List.map_append,
        List.map_cons, List.map_nil])
  simp only [List.range_zero, List.map_nil, List.nil_append, List.drop_zero] at key
  have hd : A.coeff.drop A.rows = [] := by rw [← h.1, List.drop_length]
  have hA : MatrixXd.mk A.rows A.cols A.coeff = A := rfl
  rw [hA] at key
  refine Eq.trans key ?_
  rw [MLP.loadedMatrix, hd, List.append_nil]
  simp only [Nat.zero_add]
theorem mapIdx_set_step {α : Type} (l : List α) (f : Nat → α → α) (k : Nat) (a : α)
    (hk : l[k]? = some a) :
    (l.mapIdx (fun i x => if i < k then f i x else x)).set k (f k a) =
      l.mapIdx (fun i x => if i < k + 1 then f i x else x) := by
  apply List.ext_getElem?
  intro i
  rw [List.getElem?_set, List.getElem?_mapIdx, List.getElem?_mapIdx, List.length_mapIdx]
  have hlt : k < l.length := by
    by_contra hc
    rw [List.getElem?_eq_none_iff.2 (by omega)] at hk
    cases hk
  by_cases hik : k = i
  · subst hik
    simp [hk, hlt]
  · rw [if_neg hik]
    cases l[i]? with
    | none => rfl
    | some x =>
      simp only [Option.map_some']
      by_cases h1 : i < k
      · rw [if_pos h1, if_pos (by omega)]
      · rw [if_neg h1, if_neg (by omega)]

theorem MLP.loadedMatrix_block (w : VectorXd) (off : Nat) (A : MatrixXd) :
    MLP.loadedMatrix ((w.drop off).take (A.rows * A.cols)) 0 A = MLP.loadedMatrix w off A := by
  simp only [MLP.loadedMatrix, Nat.zero_add]
  congr 1
  apply List.map_congr_left
  intro i hi
  rw [List.mem_range] at hi
  apply take_drop_take_drop
  calc i * A.cols + A.cols = (i + 1) * A.cols := by rw [Nat.add_mul, Nat.one_mul]
    _ ≤ A.rows * A.cols := Nat.mul_le_mul_right _ hi

theorem MLP.loadLayer_step (m : MLP) (h : m.Shaped) (w : VectorXd)
    (hw : w.length = m.blockOffset m.A.length) (k : Nat) (hk : k < m.A.length) :
    MLP.loadLayer w (m.loadedUpTo w k, m.blockOffset k) k =
      some (m.loadedUpTo w (k + 1), m.blockOffset (k + 1)) := by
  obtain ⟨hA, hwf⟩ := h.matrix m k hk
  have hlen := m.layerBlock_length h k hk
  have hsucc := m.blockOffset_succ k
  have hle := m.blockOffset_le (k + 1) m.A.length hk
  have hAk : (m.loadedUpTo w k).A[k]? = some (m.A.getD k default) := by
    simp only [MLP.loadedUpTo, List.getElem?_mapIdx]
    rw [hA]
    simp only [Option.map_some', Nat.lt_irrefl, if_false]
  have hseg := segment_eq w (m.blockOffset k)
    ((m.A.getD k default).rows * (m.A.getD k default).cols)
    (by rw [hw]; rw [Nat.mul_comm] at hlen; omega)
  have hrows := MLP.loadRows_eq _ hwf _ hseg.2
  rw [MLP.loadedMatrix_block] at hrows
  have hset := mapIdx_set_step m.A (fun i A => MLP.loadedMatrix w (m.blockOffset i) A) k _ hA
  by_cases hb : m.use_bias = true
  · obtain ⟨hbk, hbl⟩ := h.bias m hb k hk
    rw [if_pos hb, hbl] at hlen
    have hseg2 := segment_eq w
      (m.blockOffset k + (m.A.getD k default).rows * (m.A.getD k default).cols)
      (m.A.getD k default).cols (by rw [hw]; rw [Nat.mul_comm] at hlen; omega)
    have hkb : k < m.b.length := by rw [(h.2 hb).1]; exact hk
    have hsetb := mapIdx_set_step m.b
      (fun i (_ : VectorXd) =>
        (w.drop (m.blockOffset i + (m.A.getD i default).rows * (m.A.getD i default).cols)).take
          (m.A.getD i default).cols) k _ hbk
    simp only [MLP.loadLayer, hAk, hseg.1, hrows]
    simp only [MLP.loadedUpTo, hb, if_true]
    simp only [hseg2.1, List.length_mapIdx, hkb, hset, hsetb, if_true]
    rw [hsucc, hlen, Nat.mul_comm (m.A.getD k default).cols, Nat.add_assoc]
  · rw [if_neg hb] at hlen
    simp only [MLP.loadLayer, hAk, hseg.1, hrows]
    simp only [MLP.loadedUpTo, hb, Bool.false_eq_true, if_false, hset]
    rw [hsucc, hlen, Nat.mul_comm (m.A.getD k default).cols]
    rfl

theorem mapIdx_id {α : Type} (l : List α) : l.mapIdx (fun _ x => x) = l := by
  apply List.ext_getElem?
  intro i
  rw [List.getElem?_mapIdx]
  cases l[i]? <;> rfl

theorem MLP.loadedUpTo_zero (m : MLP) (w : VectorXd) : m.loadedUpTo w 0 = m := by
  cases m with
  | mk n_inputs use_bias h A b activations =>
    cases use_bias <;> simp [MLP.loadedUpTo, mapIdx_id]

theorem MLP.setWeights_eq (m : MLP) (h : m.Shaped) (w : VectorXd)
    (hw : w.length = m.blockOffset m.A.length) :
    m.setWeights w = some (m.loadedUpTo w m.A.length) := by
  have key := foldlM_range_invariant (MLP.loadLayer w)
    (fun k => (m.loadedUpTo w k, m.blockOffset k)) m.A.length
    (fun k hk => m.loadLayer_step h w hw k hk)
  simp only [MLP.loadedUpTo_zero] at key
  have h0 : m.blockOffset 0 = 0 := rfl
  rw [h0] at key
  rw [MLP.setWeights, key]
  simp only [hw, if_true]

theorem take_drop_eq_of_getElem? (w r : VectorXd) (x : Nat)
    (h : ∀ j, j < r.length → w[x + j]? = r[j]?) : (w.drop x).take r.length = r := by
  apply List.ext_getElem?
  intro j
  rw [List.getElem?_take, List.getElem?_drop]
  by_cases hj : j < r.length
  · rw [if_pos hj, h j hj]
  · rw [if_neg hj, List.getElem?_eq_none_iff.2 (by omega)]

theorem MLP.specWeights_row (m : MLP) (h : m.Shaped) (k : Nat) (hk : k < m.A.length) (i : Nat)
    (r : VectorXd) (hr : (m.A.getD k default).coeff[i]? = some r) :
    (m.specWeights.drop (m.blockOffset k + i * (m.A.getD k default).cols)).take
      (m.A.getD k default).cols = r := by
  obtain ⟨-, hwf⟩ := h.matrix m k hk
  have hi : i < (m.A.getD k default).rows := by
    rw [← hwf.1]
    by_contra hc
    rw [List.getElem?_eq_none_iff.2 (by omega)] at hr
    cases hr
  have hrl : r.length = (m.A.getD k default).cols := hwf.2 r (List.getElem?_mem hr)
  have hflat := hwf.flatten_length
  rw [← hrl]
  apply take_drop_eq_of_getElem?
  intro j hj
  have hlt : i * (m.A.getD k default).cols + j <
      (m.A.getD k default).rows * (m.A.getD k default).cols := by
    calc i * (m.A.getD k default).cols + j
        < i * (m.A.getD k default).cols + (m.A.getD k default).cols := by omega
      _ = (i + 1) * (m.A.getD k default).cols := by rw [Nat.add_mul, Nat.one_mul]
      _ ≤ (m.A.getD k default).rows * (m.A.getD k default).cols := Nat.mul_le_mul_right _ hi
  have hb := flatten_getElem?_block _ i r hr j hj
  rw [hwf.take_length _ i (Nat.le_of_lt hi)] at hb
  rw [hrl, Nat.add_assoc, m.specWeights_block k hk _
    (by rw [MLP.layerBlock, List.length_append, hflat]; omega), MLP.layerBlock,
    List.getElem?_append_left (by rw [hflat]; exact hlt), hb]

theorem MLP.specWeights_bias (m : MLP) (h : m.Shaped) (hb : m.use_bias = true) (k : Nat)
    (hk : k < m.A.length) :
    (m.specWeights.drop
      (m.blockOffset k + (m.A.getD k default).rows * (m.A.getD k default).cols)).take
        (m.A.getD k default).cols = m.b.getD k [] := by
  obtain ⟨-, hwf⟩ := h.matrix m k hk
  obtain ⟨-, hbl⟩ := h.bias m hb k hk
  have hflat := hwf.flatten_length
  rw [← hbl]
  apply take_drop_eq_of_getElem?
  intro j hj
  rw [hbl] at hj ⊢
  rw [Nat.add_assoc, m.specWeights_block k hk _
    (by rw [MLP.layerBlock, List.length_append, hflat, if_pos hb]; omega), MLP.layerBlock,
    List.getElem?_append_right (by rw [hflat]; omega), hflat, if_pos hb]
  congr 1
  omega

theorem MLP.loadedUpTo_specWeights (m : MLP) (h : m.Shaped) :
    m.loadedUpTo m.specWeights m.A.length = m := by
  have hA : m.A.mapIdx (fun k A =>
      if k < m.A.length then MLP.loadedMatrix m.specWeights (m.blockOffset k) A else A) = m.A := by
    apply List.ext_getElem?
    intro k
    rw [List.getElem?_mapIdx]
    by_cases hk : k < m.A.length
    · obtain ⟨hAk, hwf⟩ := h.matrix m k hk
      rw [hAk, Option.map_some', if_pos hk]
      congr 1
      have hcoeff : (List.range (m.A.getD k default).rows).map
          (fun i => (m.specWeights.drop (m.blockOffset k + i * (m.A.getD k default).cols)).take
            (m.A.getD k default).cols) = (m.A.getD k default).coeff := by
        apply List.ext_getElem?
        intro i
        rw [List.getElem?_map]
        by_cases hi : i < (m.A.getD k default).rows
        · obtain ⟨r, -, hr2, -⟩ := hwf.row _ i hi
          rw [List.getElem?_range hi, Option.map_some', hr2, m.specWeights_row h k hk i r hr2]
        · rw [List.getElem?_eq_none_iff.2 (by simpa using hi),
            List.getElem?_eq_none_iff.2 (by rw [hwf.1]; omega)]
          rfl
      rw [MLP.loadedMatrix, hcoeff]
    · rw [List.getElem?_eq_none_iff.2 (by omega)]
      rfl
  have hB : m.use_bias = true → m.b.mapIdx (fun k v =>
      if k < m.A.length then
        (m.specWeights.drop
          (m.blockOffset k + (m.A.getD k default).rows * (m.A.getD k default).cols)).take
            (m.A.getD k default).cols
      else v) = m.b := by
    intro hb
    apply List.ext_getElem?
    intro k
    rw [List.getElem?_mapIdx]
    have hlen : m.b.length = m.A.length := (h.2 hb).1
    by_cases hk : k < m.A.length
    · obtain ⟨hbk, -⟩ := h.bias m hb k hk
      rw [hbk, Option.map_some', if_pos hk, m.specWeights_bias h hb k hk]
    · rw [List.getElem?_eq_none_iff.2 (by omega)]
      rfl
  rw [MLP.loadedUpTo, hA]
  by_cases hb : m.use_bias = true
  · rw [if_pos hb, hB hb]
  · rw [if_neg hb]

theorem MLP.loadedMatrix_flatten (w : VectorXd) (off : Nat) (A : MatrixXd) :
    (MLP.loadedMatrix w off A).coeff.flatten = (w.drop off).take (A.rows * A.cols) := by
  simp only [MLP.loadedMatrix]
  generalize A.rows = r
  induction r with
  | zero => simp
  | succ r ih =>
    rw [List.range_succ, List.map_append, List.flatten_append, ih, Nat.add_mul, Nat.one_mul,
      List.take_add, List.drop_drop]
    simp

theorem MLP.loadedMatrix_WF (w : VectorXd) (off : Nat) (A : MatrixXd)
    (h : off + A.rows * A.cols ≤ w.length) : (MLP.loadedMatrix w off A).WF := by
  constructor
  · simp [MLP.loadedMatrix]
  · intro r hr
    simp only [MLP.loadedMatrix, List.mem_map, List.mem_range] at hr
    obtain ⟨i, hi, rfl⟩ := hr
    have : (i + 1) * A.cols ≤ A.rows * A.cols := Nat.mul_le_mul_right _ hi
    rw [Nat.add_mul, Nat.one_mul] at this
    simp only [MLP.loadedMatrix, List.length_take, List.length_drop]
    omega

theorem MLP.loadedUpTo_fields (m : MLP) (h : m.Shaped) (w : VectorXd) :
    (m.loadedUpTo w m.A.length).use_bias = m.use_bias ∧
      (m.loadedUpTo w m.A.length).A.length = m.A.length ∧
      (m.loadedUpTo w m.A.length).b.length = m.b.length ∧
      (∀ k < m.A.length, (m.loadedUpTo w m.A.length).A.getD k default =
        MLP.loadedMatrix w (m.blockOffset k) (m.A.getD k default)) ∧
      (m.use_bias = true → ∀ k < m.A.length, (m.loadedUpTo w m.A.length).b.getD k [] =
        (w.drop (m.blockOffset k + (m.A.getD k default).rows * (m.A.getD k default).cols)).take
          (m.A.getD k default).cols) := by
  refine ⟨rfl, by simp [MLP.loadedUpTo], ?_, ?_, ?_⟩
  · by_cases hb : m.use_bias = true <;> simp [MLP.loadedUpTo, hb]
  · intro k hk
    simp only [MLP.loadedUpTo, List.getD_eq_getElem?_getD, List.getElem?_mapIdx,
      List.getElem?_eq_getElem hk, Option.map_some', if_pos hk, Option.getD_some]
  · intro hb k hk
    have hkb : k < m.b.length := by rw [(h.2 hb).1]; exact hk
    simp only [MLP.loadedUpTo, hb, if_true, List.getD_eq_getElem?_getD, List.getElem?_mapIdx,
      List.getElem?_eq_getElem hkb, Option.map_some', if_pos hk, Option.getD_some]

theorem MLP.loadedUpTo_layerBlock (m : MLP) (h : m.Shaped) (w : VectorXd) (k : Nat)
    (hk : k < m.A.length) :
    (m.loadedUpTo w m.A.length).layerBlock k =
      (w.drop (m.blockOffset k)).take (m.layerBlock k).length := by
  obtain ⟨h1, -, -, h4, h5⟩ := m.loadedUpTo_fields h w
  have hlen := m.layerBlock_length h k hk
  rw [MLP.layerBlock, h4 k hk, h1, MLP.loadedMatrix_flatten, hlen,
    Nat.mul_comm (m.A.getD k default).cols]
  by_cases hb : m.use_bias = true
  · rw [if_pos hb, if_pos hb, h5 hb k hk, (h.bias m hb k hk).2, List.take_add, List.drop_drop]
  · rw [if_neg hb, if_neg hb, List.append_nil, Nat.add_zero]

theorem MLP.loadedUpTo_prefix (m : MLP) (h : m.Shaped) (w : VectorXd) (n : Nat)
    (hn : n ≤ m.A.length) :
    ((List.range n).map (m.loadedUpTo w m.A.length).layerBlock).flatten =
      w.take (m.blockOffset n) := by
  induction n with
  | zero => simp [MLP.blockOffset]
  | succ n ih =>
    rw [List.range_succ, List.map_append, List.flatten_append, ih (by omega), List.map_cons,
      List.map_nil, List.flatten_cons, List.flatten_nil, List.append_nil,
      m.loadedUpTo_layerBlock h w n hn, m.blockOffset_succ, List.take_add]

theorem MLP.loadedUpTo_shaped (m : MLP) (h : m.Shaped) (w : VectorXd)
    (hw : w.length = m.blockOffset m.A.length) : (m.loadedUpTo w m.A.length).Shaped := by
  obtain ⟨h1, h2, h3, h4, h5⟩ := m.loadedUpTo_fields h w
  have hbound : ∀ k < m.A.length,
      m.blockOffset k + (m.A.getD k default).rows * (m.A.getD k default).cols +
        (if m.use_bias = true then (m.A.getD k default).cols else 0) ≤ w.length := by
    intro k hk
    have hlen := m.layerBlock_length h k hk
    have hsucc := m.blockOffset_succ k
    have hle := m.blockOffset_le (k + 1) m.A.length hk
    rw [hw, Nat.mul_comm]
    by_cases hb : m.use_bias = true
    · rw [if_pos hb] at hlen ⊢
      rw [(h.bias m hb k hk).2] at hlen
      omega
    · rw [if_neg hb] at hlen ⊢
      omega
  constructor
  · intro A hA
    obtain ⟨k, hk, rfl⟩ := List.mem_iff_getElem.1 hA
    rw [h2] at hk
    have hd := h4 k hk
    rw [List.getD_eq_getElem?_getD, List.getElem?_eq_getElem (by rw [h2]; exact hk),
      Option.getD_some] at hd
    rw [hd]
    apply MLP.loadedMatrix_WF
    have := hbound k hk
    omega
  · intro hb
    rw [h1] at hb
    refine ⟨by rw [h2, h3, (h.2 hb).1], ?_⟩
    intro k hk
    rw [h2] at hk
    have := hbound k hk
    rw [if_pos hb] at this
    rw [h4 k hk, h5 hb k hk, List.length_take, List.length_drop]
    simp only [MLP.loadedMatrix]
    omega

theorem MLP.loadedUpTo_getWeights (m : MLP) (h : m.Shaped) (w : VectorXd)
    (hw : w.length = m.blockOffset m.A.length) :
    (m.loadedUpTo w m.A.length).getWeights = some w := by
  rw [MLP.getWeights_eq _ (m.loadedUpTo_shaped h w hw), MLP.specWeights,
    (m.loadedUpTo_fields h w).2.1, m.loadedUpTo_prefix h w m.A.length (Nat.le_refl _), ← hw,
    List.take_length]

/-- C24: on a network with the shape its construction gives, `setWeights(w)`
succeeds for every `w` of length `getNumberOfParameters()` and `getWeights()`
then returns exactly `w`; and `setWeights(getWeights())` succeeds and leaves the
network, so every weight matrix and bias vector, unchanged. -/
theorem MLP.weights_round_trip (m : MLP) (h : m.Shaped) :
    (∀ (w : VectorXd) (n : Nat), m.getNumberOfParameters = some n → w.length = n →
        ∃ m1, m.setWeights w = some m1 ∧ m1.getWeights = some w) ∧
      ∃ w, m.getWeights = some w ∧ m.setWeights w = some m := by
  constructor
  · intro w n hn hw
    rw [m.getNumberOfParameters_eq h] at hn
    have hw2 : w.length = m.blockOffset m.A.length := by
      rw [hw]
      exact (Option.some.inj hn).symm
    exact ⟨_, m.setWeights_eq h w hw2, m.loadedUpTo_getWeights h w hw2⟩
  · refine ⟨m.specWeights, m.getWeights_eq h, ?_⟩
    rw [m.setWeights_eq h _ m.specWeights_length, m.loadedUpTo_specWeights h]

/-- C24 on a network with the layers 2 x 3 and 3 x 1 whose weights are the
numbers 0 to 12. -/
theorem MLP.weights_round_trip_two_layers :
    twoLayerCounting.Shaped ∧
      (∀ (w : VectorXd) (n : Nat), twoLayerCounting.getNumberOfParameters = some n →
          w.length = n →
          ∃ m1, twoLayerCounting.setWeights w = some m1 ∧ m1.getWeights = some w) ∧
        ∃ w, twoLayerCounting.getWeights = some w ∧
          twoLayerCounting.setWeights w = some twoLayerCounting :=
  ⟨by decide!, MLP.weights_round_trip twoLayerCounting (by decide!)⟩

/-! ### The forward pass -/

theorem forwardUpTo_fields (exp tanh : ℚ → ℚ) (m : MLP) (n : Nat) :
    (forwardUpTo exp tanh m n).A = m.A ∧ (forwardUpTo exp tanh m n).b = m.b ∧
      (forwardUpTo exp tanh m n).use_bias = m.use_bias ∧
      (forwardUpTo exp tanh m n).activations = m.activations ∧
      (forwardUpTo exp tanh m n).n_inputs = m.n_inputs ∧
      (forwardUpTo exp tanh m n).h.length = m.h.length := by
  induction n with
  | zero => simp [forwardUpTo]
  | succ n ih =>
    obtain ⟨h1, h2, h3, h4, h5, h6⟩ := ih
    simp [forwardUpTo, h1, h2, h3, h4, h5, h6]

theorem forwardUpTo_stable (exp tanh : ℚ → ℚ) (m : MLP) (j n : Nat) (h : j ≤ n) :
    (forwardUpTo exp tanh m n).h[j]? = (forwardUpTo exp tanh m j).h[j]? := by
  induction n with
  | zero =>
    have : j = 0 := by omega
    rw [this]
  | succ n ih =>
    by_cases hj : j = n + 1
    · rw [hj]
    · rw [← ih (by omega)]
      simp only [forwardUpTo]
      rw [List.getElem?_set, if_neg (by omega)]

theorem inplaceClipping_eq (v : VectorXd) :
    inplaceClipping v = v.map (fun x => clip (x + 1 / 2) 0 1) := by
  unfold inplaceClipping
  apply List.map_congr_left
  intro x _
  unfold clip
  by_cases h1 : x + 1 / 2 < 0
  · rw [if_pos h1, min_eq_right (by linarith), max_eq_left (le_of_lt h1)]
  · rw [if_neg h1]
    by_cases h2 : 1 < x + 1 / 2
    · rw [if_pos h2, min_eq_left (le_of_lt h2), max_eq_right (by norm_num)]
    · rw [if_neg h2, min_eq_right (not_lt.mp h2), max_eq_right (not_lt.mp h1)]

theorem activate_eq (exp tanh : ℚ → ℚ) (activations : List Int) (k : Nat) (v : VectorXd) :
    MLP.activateLayer exp tanh activations k v = specActivation exp tanh activations k v := by
  unfold specActivation MLP.activateLayer
  cases activations[k]? with
  | none => rfl
  | some a =>
    simp only [MLP.activate, inplaceClipping_eq, inplaceReLU, inplaceTanh, inplaceSigmoid,
      ACTIVATION_SIGMOID, ACTIVATION_TANH, ACTIVATION_RELU, ACTIVATION_CLIPPING]
    by_cases h3 : a = 3
    · subst h3
      simp
    · by_cases h2 : a = 2
      · subst h2
        simp
      · by_cases h1 : a = 1
        · subst h1
          simp
        · by_cases h0 : a = 0 <;> simp [h0, h1, h2, h3]
theorem specActivation_length (exp tanh : ℚ → ℚ) (activations : List Int) (k : Nat)
    (v : VectorXd) : (specActivation exp tanh activations k v).length = v.length := by
  unfold specActivation
  cases activations[k]? with
  | none => rfl
  | some a =>
    dsimp only
    split_ifs <;> simp

theorem specLayer_length (exp tanh : ℚ → ℚ) (m : MLP) (h : m.Chained) (k : Nat)
    (hk : k < m.A.length) (v : VectorXd) :
    (specLayer exp tanh m k v).length = (m.A.getD k default).cols := by
  simp only [specLayer, specActivation_length]
  by_cases hb : m.use_bias = true
  · rw [if_pos hb, List.length_zipWith, (h.2.2.2 hb).2 k hk]
    simp [specTransposeMul]
  · rw [if_neg hb]
    simp [specTransposeMul]

theorem forwardUpTo_input_length (exp tanh : ℚ → ℚ) (m : MLP) (h : m.Chained) (k : Nat)
    (hk : k < m.A.length) :
    ∃ v, (forwardUpTo exp tanh m k).h[k]? = some v ∧ v.length = (m.A.getD k default).rows := by
  have hlen := (forwardUpTo_fields exp tanh m k).2.2.2.2.2
  have hk2 : k < (forwardUpTo exp tanh m k).h.length := by rw [hlen, h.1]; omega
  refine ⟨(forwardUpTo exp tanh m k).h[k], List.getElem?_eq_getElem hk2, ?_⟩
  cases k with
  | zero =>
    have h0 := h.2.1 hk
    have hk3 : 0 < m.h.length := by rw [h.1]; omega
    rw [List.getD_eq_getElem?_getD, List.getElem?_eq_getElem hk3] at h0
    exact h0
  | succ n =>
    simp only [forwardUpTo, List.getElem_set_self]
    rw [specLayer_length exp tanh m h n (by omega)]
    exact h.2.2.1 n (by omega)

theorem forwardLayer_step (exp tanh : ℚ → ℚ) (m : MLP) (h : m.Chained) (k : Nat)
    (hk : k < m.A.length) :
    MLP.forwardLayer exp tanh (forwardUpTo exp tanh m k) k =
      some (forwardUpTo exp tanh m (k + 1)) := by
  obtain ⟨f1, f2, f3, f4, -, f6⟩ := forwardUpTo_fields exp tanh m k
  obtain ⟨v, hv, hvl⟩ := forwardUpTo_input_length exp tanh m h k hk
  have hA : m.A[k]? = some (m.A.getD k default) := by
    rw [List.getD_eq_getElem?_getD, List.getElem?_eq_getElem hk, Option.getD_some]
  have hvd : (forwardUpTo exp tanh m k).h.getD k [] = v := by
    rw [List.getD_eq_getElem?_getD, hv, Option.getD_some]
  have hlt : k + 1 < (forwardUpTo exp tanh m k).h.length := by rw [f6, h.1]; omega
  have hmul : (m.A.getD k default).transposeMul v =
      some (specTransposeMul (m.A.getD k default) v) := by
    rw [MatrixXd.transposeMul, if_pos hvl]
    rfl
  have hact := activate_eq exp tanh m.activations k
  simp only [MLP.forwardLayer, f1, f2, f3, f4, hA, hv, hmul]
  by_cases hb : m.use_bias = true
  · obtain ⟨hbl, hbk⟩ := h.2.2.2 hb
    have hbs : m.b[k]? = some (m.b.getD k []) := by
      rw [List.getD_eq_getElem?_getD, List.getElem?_eq_getElem (by omega), Option.getD_some]
    have hadd : (specTransposeMul (m.A.getD k default) v).addAssign (m.b.getD k []) =
        some (List.zipWith (fun s t => s + t) (specTransposeMul (m.A.getD k default) v)
          (m.b.getD k [])) := by
      rw [VectorXd.addAssign, if_pos (by rw [hbk k hk]; simp [specTransposeMul])]
      rfl
    simp only [hb, if_true, hbs, hadd, hact, if_pos hlt]
    simp only [forwardUpTo, specLayer, hb, if_true, hvd, f1, f2, f3, f4]
  · simp only [hb, Bool.false_eq_true, if_false, hact, if_pos hlt]
    simp only [forwardUpTo, specLayer, hb, Bool.false_eq_true, if_false, hvd, f1, f2, f3, f4]

theorem forward_eq (exp tanh : ℚ → ℚ) (m : MLP) (h : m.Chained) :
    m.forward exp tanh = some (forwardUpTo exp tanh m m.A.length) :=
  foldlM_range_invariant (MLP.forwardLayer exp tanh) (forwardUpTo exp tanh m) m.A.length
    (fun k hk => forwardLayer_step exp tanh m h k hk)

/-- C25: on a network whose dimensions chain, `forward()` succeeds, leaves the
input `h[0]`, the matrices and the biases as they are, and computes for each
layer `k` in order `h[k + 1] = activation_k(A_kᵀ · h[k] + b_k)` from the new
`h[k]`, without `b_k` when the network has no biases; the clipping activation is
`clamp(x + 0.5, 0, 1)` and the rectified-linear one `max(0, x)`. -/
theorem MLP.forward_layers (m : MLP) (exp tanh : ℚ → ℚ) (h : m.Chained) :
    (∃ m1, m.forward exp tanh = some m1 ∧ m1.A = m.A ∧ m1.b = m.b ∧
        m1.h.length = m.h.length ∧ m1.h[0]? = m.h[0]? ∧
        ∀ k < m.A.length, ∃ hk, m1.h[k]? = some hk ∧
          m1.h[k + 1]? = some (specLayer exp tanh m k hk)) ∧
      (∀ v, inplaceClipping v = v.map (fun x => clip (x + 1 / 2) 0 1)) ∧
      ∀ v, inplaceReLU v = v.map (fun x => max 0 x) := by
  refine ⟨⟨_, forward_eq exp tanh m h, ?_⟩, inplaceClipping_eq, fun v => rfl⟩
  obtain ⟨f1, f2, -, -, -, f6⟩ := forwardUpTo_fields exp tanh m m.A.length
  refine ⟨f1, f2, f6, forwardUpTo_stable exp tanh m 0 m.A.length (Nat.zero_le _), ?_⟩
  intro k hk
  obtain ⟨v, hv, -⟩ := forwardUpTo_input_length exp tanh m h k hk
  refine ⟨v, ?_, ?_⟩
  · rw [forwardUpTo_stable exp tanh m k m.A.length (Nat.le_of_lt hk), hv]
  · have hlen := (forwardUpTo_fields exp tanh m k).2.2.2.2.2
    rw [forwardUpTo_stable exp tanh m (k + 1) m.A.length hk]
    simp only [forwardUpTo]
    rw [List.getElem?_set_self (by rw [hlen, h.1]; omega), List.getD_eq_getElem?_getD, hv,
      Option.getD_some]

/-- C25 on one layer with the 2 x 2 identity as weights, no bias and the
clipping activation: the input `[0.3, -0.2]` gives the output `[0.8, 0.3]`. -/
theorem MLP.forward_layers_identity :
    identityLayer.Chained ∧
      (identityLayer.forward (fun x => x) (fun x => x)).bind MLP.out = some [8 / 10, 3 / 10] ∧
      (∃ m1, identityLayer.forward (fun x => x) (fun x => x) = some m1 ∧
          m1.A = identityLayer.A ∧ m1.b = identityLayer.b ∧
          m1.h.length = identityLayer.h.length ∧ m1.h[0]? = identityLayer.h[0]? ∧
          ∀ k < identityLayer.A.length, ∃ hk, m1.h[k]? = some hk ∧
            m1.h[k + 1]? = some (specLayer (fun x => x) (fun x => x) identityLayer k hk)) ∧
        (∀ v, inplaceClipping v = v.map (fun x => clip (x + 1 / 2) 0 1)) ∧
        ∀ v, inplaceReLU v = v.map (fun x => max 0 x) :=
  ⟨by decide!, by decide!,
    MLP.forward_layers identityLayer (fun x => x) (fun x => x) (by decide!)⟩

/-! ### Assignment loops -/

theorem foldlM_range'_invariant {α : Type} (f : α → Nat → Option α) (g : Nat → α) (lo n : Nat)
    (h : ∀ k < n, f (g k) (lo + k) = some (g (k + 1))) :
    (List.range' lo n).foldlM f (g 0) = some (g n) := by
  induction n with
  | zero => rfl
  | succ n ih =>
    rw [List.range'_concat, List.foldlM_append, ih (fun k hk => h k (Nat.lt_succ_of_lt hk))]
    simp [h n (Nat.lt_succ_self n)]

theorem foldlM_some_invariant {α β : Type} (f : α → β → Option α) (P : α → Prop)
    (hP : ∀ d i d1, P d → f d i = some d1 → P d1) (l : List β) (init d : α) (h0 : P init)
    (h : l.foldlM f init = some d) : P d := by
  induction l generalizing init with
  | nil =>
    simp only [List.foldlM_nil] at h
    cases h
    exact h0
  | cons i l ih =>
    rw [List.foldlM_cons] at h
    cases hf : f init i with
    | none => rw [hf] at h; cases h
    | some d1 =>
      rw [hf] at h
      exact ih d1 (hP init i d1 h0 hf) h

theorem foldlM_none_of_mem {α β : Type} (f : α → β → Option α) (P : α → Prop)
    (hP : ∀ d i d1, P d → f d i = some d1 → P d1) (l : List β) (j : β) (hj : j ∈ l)
    (hnone : ∀ d, P d → f d j = none) (init : α) (h0 : P init) : l.foldlM f init = none := by
  induction l generalizing init with
  | nil => cases hj
  | cons i l ih =>
    rw [List.foldlM_cons]
    cases hf : f init i with
    | none => rfl
    | some d1 =>
      rcases List.mem_cons.1 hj with hji | hjl
      · subst hji
        rw [hnone init h0] at hf
        cases hf
      · exact ih hjl d1 (hP init i d1 h0 hf)

theorem setCoeff_length (d d1 : VectorXd) (i : Nat) (x : ℚ) (h : d.setCoeff i x = some d1) :
    d1.length = d.length := by
  unfold VectorXd.setCoeff at h
  split_ifs at h
  cases h
  simp

theorem assignLoop_length (lo hi off : Nat) (value : Nat → Option ℚ) (dst d : VectorXd)
    (h : assignLoop lo hi off value dst = some d) : d.length = dst.length := by
  refine foldlM_some_invariant _ (fun d => d.length = dst.length) ?_ _ dst d rfl h
  intro d0 i d1 h0 hf
  cases hv : value i with
  | none => simp [hv] at hf
  | some x =>
    simp only [hv] at hf
    rw [setCoeff_length _ _ _ _ hf, h0]

theorem assignLoop_none (lo hi off : Nat) (value : Nat → Option ℚ) (dst : VectorXd) (j : Nat)
    (h1 : lo ≤ j) (h2 : j < hi) (hj : value j = none ∨ dst.length ≤ j - off) :
    assignLoop lo hi off value dst = none := by
  refine foldlM_none_of_mem _ (fun d => d.length = dst.length) ?_ _ j ?_ ?_ dst rfl
  · intro d0 i d1 h0 hf
    cases hv : value i with
    | none => simp [hv] at hf
    | some x =>
      simp only [hv] at hf
      rw [setCoeff_length _ _ _ _ hf, h0]
  · rw [List.mem_range'_1]
    omega
  · intro d hd
    rcases hj with hj | hj
    · simp [hj]
    · cases hv : value j with
      | none => rfl
      | some x =>
        simp only [VectorXd.setCoeff]
        rw [if_neg (by omega)]

theorem assignLoop_eq (lo n off : Nat) (hoff : off ≤ lo) (value : Nat → Option ℚ) (g : Nat → ℚ)
    (hval : ∀ i, lo ≤ i → i < lo + n → value i = some (g i)) (dst : VectorXd)
    (hlen : lo - off + n ≤ dst.length) :
    assignLoop lo (lo + n) off value dst =
      some (dst.take (lo - off) ++ (List.range' lo n).map g ++ dst.drop (lo - off + n)) := by
  have key := foldlM_range'_invariant
    (fun d i =>
      match value i with
      | none => none
      | some x => VectorXd.setCoeff d (i - off) x)
    (fun k => dst.take (lo - off) ++ (List.range' lo k).map g ++ dst.drop (lo - off + k)) lo n (by
      intro k hk
      simp only [hval (lo + k) (Nat.le_add_right _ _) (by omega)]
      have hidx : lo + k - off =
          (dst.take (lo - off) ++ (List.range' lo k).map g).length := by
        simp only [List.length_append, List.length_take, List.length_map, List.length_range']
        omega
      have hdrop : dst.drop (lo - off + k) =
          dst[lo - off + k] :: dst.drop (lo - off + (k + 1)) :=
        List.drop_eq_getElem_cons (by omega)
      rw [VectorXd.setCoeff, if_pos (by
        simp only [List.length_append, List.length_take, List.length_map, List.length_range',
          List.length_drop]
        omega), hdrop, hidx, List.set_append_right _ _ (Nat.le_refl _), Nat.sub_self,
        List.set_cons_zero, List.range'_concat, List.map_append, List.map_cons, List.map_nil,
        Nat.one_mul]
      simp only [List.append_assoc, List.singleton_append])
  simp only [List.range'_zero, List.map_nil, List.append_nil, Nat.add_zero,
    List.take_append_drop] at key
  rw [assignLoop, Nat.add_sub_cancel_left]
  exact key

/-- A loop that copies `src[lo - srcOff], ..` into a whole array or vector. -/
theorem assignLoop_copy (lo n off : Nat) (hoff : off ≤ lo) (src dst : VectorXd) (srcOff : Nat)
    (hso : srcOff ≤ lo) (hsrc : lo - srcOff + n ≤ src.length)
    (hlen : lo - off + n ≤ dst.length) :
    assignLoop lo (lo + n) off (fun i => src[i - srcOff]?) dst =
      some (dst.take (lo - off) ++ (src.drop (lo - srcOff)).take n ++
        dst.drop (lo - off + n)) := by
  rw [assignLoop_eq lo n off hoff _ (fun i => src.getD (i - srcOff) 0) ?_ dst hlen]
  · congr 3
    apply List.ext_getElem?
    intro k
    rw [List.getElem?_map, List.getElem?_take, List.getElem?_drop]
    by_cases hk : k < n
    · rw [if_pos hk, List.getElem?_range' _ _ hk, Option.map_some', List.getD_eq_getElem?_getD,
        Nat.one_mul, List.getElem?_eq_getElem (by omega), List.getElem?_eq_getElem (by omega),
        Option.getD_some]
      congr 2
      omega
    · rw [if_neg hk, List.getElem?_eq_none_iff.2 (by simp; omega)]
      rfl
  · intro i h1 h2
    show src[i - srcOff]? = some (src.getD (i - srcOff) 0)
    rw [List.getD_eq_getElem?_getD, List.getElem?_eq_getElem (by omega), Option.getD_some]

theorem assignLoop_fill (lo n : Nat) (c : ℚ) (dst : VectorXd) (hlen : lo + n ≤ dst.length) :
    assignLoop lo (lo + n) 0 (fun _ => some c) dst =
      some (dst.take lo ++ List.replicate n c ++ dst.drop (lo + n)) := by
  rw [assignLoop_eq lo n 0 (Nat.zero_le _) _ (fun _ => c) (fun _ _ _ => rfl) dst
    (by rw [Nat.sub_zero]; exact hlen), Nat.sub_zero]
  congr 3
  rw [List.eq_replicate_iff]
  refine ⟨by simp, ?_⟩
  intro b hb
  obtain ⟨_, _, rfl⟩ := List.mem_map.1 hb
  rfl

/-! ### The parameters of the modules -/

theorem AccelBrakeModule.accelbrake_getParameters_eq (m : AccelBrakeModule) :
    m.getParameters = some [m.threshold] := rfl

theorem AccelBrakeModule.accelbrake_setParameters_eq (m : AccelBrakeModule) (v : VectorXd) :
    m.setParameters v = (v[0]?).map (fun x => ({ threshold := x } : AccelBrakeModule)) := by
  unfold AccelBrakeModule.setParameters VectorXd.coeff
  cases v[0]? <;> rfl

theorem GearModule.writeThresholds_eq (m : GearModule) (h : m.WF) (v : VectorXd)
    (hv : 12 ≤ v.length) :
    m.writeThresholds v =
      some (m.GI.map (fun (t : Int) => (t : ℚ)) ++ m.GD.map (fun (t : Int) => (t : ℚ)) ++ v.drop 12) := by
  have h1 := assignLoop_copy 0 6 0 (Nat.le_refl _) (m.GI.map (fun (t : Int) => (t : ℚ))) v 0
    (Nat.le_refl _) (by simp [h.1]) (by omega)
  have h2 := assignLoop_copy 6 6 0 (Nat.zero_le _) (m.GD.map (fun (t : Int) => (t : ℚ)))
    (m.GI.map (fun (t : Int) => (t : ℚ)) ++ v.drop 6) 6
    (Nat.le_refl _) (by simp [h.2]) (by simp [h.1]; omega)
  simp only [List.getElem?_map, Nat.sub_zero, Nat.zero_add, List.take_zero, List.nil_append,
    List.drop_zero, Nat.sub_self] at h1 h2
  rw [List.take_of_length_le (by simp [h.1])] at h1
  have e1 : List.take 6 (m.GI.map (fun (t : Int) => (t : ℚ)) ++ v.drop 6) =
      m.GI.map (fun (t : Int) => (t : ℚ)) := by
    rw [List.take_append_of_le_length (by simp [h.1]), List.take_of_length_le (by simp [h.1])]
  have e2 : List.drop (6 + 6) (m.GI.map (fun (t : Int) => (t : ℚ)) ++ v.drop 6) = v.drop 12 := by
    rw [List.drop_append_eq_append_drop, List.drop_of_length_le (by simp [h.1]),
      List.nil_append, List.drop_drop]
    simp [h.1]
  have e3 : List.take 6 (m.GD.map (fun (t : Int) => (t : ℚ))) =
      m.GD.map (fun (t : Int) => (t : ℚ)) := List.take_of_length_le (by simp [h.2])
  rw [e1, e2, e3] at h2
  simp only [GearModule.writeThresholds]
  rw [h1]
  exact h2

theorem GearModule.writeThresholds_none (m : GearModule) (v : VectorXd) (hv : v.length < 12) :
    m.writeThresholds v = none := by
  simp only [GearModule.writeThresholds]
  cases h1 : assignLoop 0 6 0 (fun i => (m.GI[i]?).map (fun (t : Int) => (t : ℚ))) v with
  | none => rfl
  | some p =>
    have hp := assignLoop_length _ _ _ _ _ _ h1
    by_cases h6 : v.length < 6
    · rw [assignLoop_none 0 6 0 _ v v.length (Nat.zero_le _) h6 (Or.inr (by omega))] at h1
      cases h1
    · exact assignLoop_none 6 12 0 _ p v.length (by omega) hv (Or.inr (by omega))

theorem GearModule.gear_getParameters_eq (m : GearModule) (h : m.WF) :
    m.getParameters =
      some (m.GI.map (fun (t : Int) => (t : ℚ)) ++ m.GD.map (fun (t : Int) => (t : ℚ))) := by
  rw [GearModule.getParameters, m.writeThresholds_eq h _ (by simp [VectorXd.Zero])]
  simp [VectorXd.Zero]

theorem GearModule.gear_setParameters_eq (m : GearModule) (h : m.WF) (v : VectorXd) :
    m.setParameters v = if 12 ≤ v.length then some m else none := by
  unfold GearModule.setParameters
  by_cases hv : 12 ≤ v.length
  · rw [if_pos hv, m.writeThresholds_eq h v hv]
  · rw [if_neg hv, m.writeThresholds_none v (by omega)]

theorem OpponentsModule.opponents_getParameters_none (m : OpponentsModule) : m.getParameters = none := by
  simp only [OpponentsModule.getParameters]
  cases h1 : assignLoop 0 5 0 (fun i => m.tol_brake[i]?) (VectorXd.Zero 12) with
  | none => rfl
  | some p1 =>
    have hp1 := assignLoop_length _ _ _ _ _ _ h1
    simp only
    cases h2 : assignLoop 5 11 0 (fun i => m.tol_overtake[i - 5]?) p1 with
    | none => rfl
    | some p2 =>
      have hp2 := assignLoop_length _ _ _ _ _ _ h2
      exact assignLoop_none 11 17 0 _ p2 12 (by omega) (by omega)
        (Or.inr (by rw [hp2, hp1]; simp [VectorXd.Zero]))

theorem OpponentsModule.opponents_setParameters_eq (m : OpponentsModule) (h : m.WF) (v : VectorXd)
    (hv : 17 ≤ v.length) :
    m.setParameters v =
      some { tol_brake := v.take 5, tol_overtake := (v.drop 5).take 6,
             inc_overtake := (v.drop 11).take 6 } := by
  obtain ⟨w1, w2, w3⟩ := h
  have h1 := assignLoop_copy 0 5 0 (Nat.le_refl _) v m.tol_brake 0 (Nat.le_refl _)
    (by omega) (by omega)
  have h2 := assignLoop_copy 5 6 5 (Nat.le_refl _) v m.tol_overtake 0 (Nat.zero_le _)
    (by omega) (by omega)
  have h3 := assignLoop_copy 11 6 11 (Nat.le_refl _) v m.inc_overtake 0 (Nat.zero_le _)
    (by omega) (by omega)
  simp only [Nat.sub_zero, Nat.zero_add, List.take_zero, List.nil_append, List.drop_zero,
    Nat.sub_self, Nat.reduceAdd] at h1 h2 h3
  have d1 : m.tol_brake.drop 5 = [] := List.drop_of_length_le (by omega)
  have d2 : m.tol_overtake.drop 6 = [] := List.drop_of_length_le (by omega)
  have d3 : m.inc_overtake.drop 6 = [] := List.drop_of_length_le (by omega)
  rw [d1, List.append_nil] at h1
  rw [d2, List.append_nil] at h2
  rw [d3, List.append_nil] at h3
  simp only [OpponentsModule.setParameters, h1, h2, h3]

theorem OpponentsModule.opponents_setParameters_none (m : OpponentsModule) (v : VectorXd)
    (hv : v.length < 17) : m.setParameters v = none := by
  simp only [OpponentsModule.setParameters]
  cases h1 : assignLoop 0 5 0 (fun i => v[i]?) m.tol_brake with
  | none => rfl
  | some tb =>
    simp only
    cases h2 : assignLoop 5 11 5 (fun i => v[i]?) m.tol_overtake with
    | none => rfl
    | some tov =>
      simp only
      by_cases h5 : v.length < 5
      · rw [assignLoop_none 0 5 0 _ _ v.length (Nat.zero_le _) h5
          (Or.inl (List.getElem?_eq_none_iff.2 (Nat.le_refl _)))] at h1
        cases h1
      · by_cases h11 : v.length < 11
        · rw [assignLoop_none 5 11 5 _ _ v.length (by omega) h11
            (Or.inl (List.getElem?_eq_none_iff.2 (Nat.le_refl _)))] at h2
          cases h2
        · rw [assignLoop_none 11 17 11 _ _ v.length (by omega) hv
            (Or.inl (List.getElem?_eq_none_iff.2 (Nat.le_refl _)))]

theorem TargetSpeedModule.WF.count (m : TargetSpeedModule) (h : m.WF) :
    m.mlp.getNumberOfParameters = some 120 ∧ m.getNumberOfParameters = some 122 ∧
      m.mlp.getWeights = some m.mlp.specWeights ∧ m.mlp.specWeights.length = 120 := by
  have h1 : m.mlp.getNumberOfParameters = some 120 := by
    rw [m.mlp.getNumberOfParameters_eq h.1, h.2]
  refine ⟨h1, ?_, m.mlp.getWeights_eq h.1, ?_⟩
  · rw [TargetSpeedModule.getNumberOfParameters, h1]
  · rw [m.mlp.specWeights_length, h.2]

theorem append_two_set (w : VectorXd) (a b x y : ℚ) (n : Nat) (hn : w.length = n) :
    ((w ++ [a, b]).setCoeff n x).bind (fun p => p.setCoeff (n + 1) y) = some (w ++ [x, y]) := by
  subst hn
  simp [VectorXd.setCoeff, List.set_append_right]

theorem TargetSpeedModule.target_speed_getParameters_eq (m : TargetSpeedModule) (h : m.WF) :
    m.getParameters = some (m.mlp.specWeights ++ [m.min_speed, m.max_speed]) := by
  obtain ⟨h1, -, h3, h4⟩ := h.count
  have hl := assignLoop_copy 0 120 0 (Nat.le_refl _) m.mlp.specWeights (VectorXd.Zero 122) 0
    (Nat.le_refl _) (by omega) (by simp [VectorXd.Zero])
  simp only [Nat.sub_zero, Nat.zero_add, List.take_zero, List.nil_append, List.drop_zero] at hl
  rw [List.take_of_length_le (by omega)] at hl
  have hz : List.drop 120 (VectorXd.Zero 122) = [0, 0] := by decide
  rw [hz] at hl
  have h2 := append_two_set m.mlp.specWeights 0 0 m.min_speed m.max_speed 120 h4
  simp only [TargetSpeedModule.getParameters, h1, h3, hl]
  cases hs : VectorXd.setCoeff (m.mlp.specWeights ++ [0, 0]) 120 m.min_speed with
  | none => rw [hs] at h2; cases h2
  | some p =>
    rw [hs] at h2
    exact h2

theorem TargetSpeedModule.target_speed_bounds_eq (m : TargetSpeedModule) (h : m.WF) (w a b : ℚ) :
    m.bounds w a b = some (List.replicate 120 w ++ [a, b]) := by
  obtain ⟨h1, -, -, -⟩ := h.count
  have hl := assignLoop_fill 0 120 w (VectorXd.Zero 122) (by simp [VectorXd.Zero])
  simp only [Nat.zero_add, List.take_zero, List.nil_append] at hl
  have hz : List.drop 120 (VectorXd.Zero 122) = [0, 0] := by decide
  rw [hz] at hl
  have h2 := append_two_set (List.replicate 120 w) 0 0 a b 120 (by simp)
  simp only [TargetSpeedModule.bounds, h1, hl]
  cases hs : VectorXd.setCoeff (List.replicate 120 w ++ [0, 0]) 120 a with
  | none => rw [hs] at h2; cases h2
  | some p =>
    rw [hs] at h2
    exact h2

theorem TargetSpeedModule.target_speed_setParameters_eq (m : TargetSpeedModule) (h : m.WF) (v : VectorXd)
    (hv : 122 ≤ v.length) :
    m.setParameters v =
      some { mlp := m.mlp.loadedUpTo (v.take 120) m.mlp.A.length, min_speed := v.getD 120 0,
             max_speed := v.getD 121 0 } := by
  obtain ⟨h1, -, -, -⟩ := h.count
  have hl := assignLoop_copy 0 120 0 (Nat.le_refl _) v (VectorXd.Zero 120) 0
    (Nat.le_refl _) (by omega) (by simp [VectorXd.Zero])
  simp only [Nat.sub_zero, Nat.zero_add, List.take_zero, List.nil_append, List.drop_zero] at hl
  have hz : List.drop 120 (VectorXd.Zero 120) = [] := by decide
  rw [hz, List.append_nil] at hl
  have hset := m.mlp.setWeights_eq h.1 (v.take 120) (by rw [h.2, List.length_take]; omega)
  have c1 : v.coeff 120 = some (v.getD 120 0) := by
    rw [VectorXd.coeff, List.getD_eq_getElem?_getD, List.getElem?_eq_getElem (by omega),
      Option.getD_some]
  have c2 : v.coeff (120 + 1) = some (v.getD 121 0) := by
    rw [VectorXd.coeff, List.getD_eq_getElem?_getD, List.getElem?_eq_getElem (by omega),
      Option.getD_some]
  simp only [TargetSpeedModule.setParameters, h1, hl, hset, c1, c2]

theorem TargetSpeedModule.target_speed_setParameters_none (m : TargetSpeedModule) (h : m.WF) (v : VectorXd)
    (hv : v.length < 122) : m.setParameters v = none := by
  obtain ⟨h1, -, -, -⟩ := h.count
  simp only [TargetSpeedModule.setParameters, h1]
  by_cases h120 : v.length < 120
  · rw [assignLoop_none 0 120 0 _ _ v.length (Nat.zero_le _) h120
      (Or.inl (List.getElem?_eq_none_iff.2 (Nat.le_refl _)))]
  · cases assignLoop 0 120 0 (fun i => v[i]?) (VectorXd.Zero 120) with
    | none => rfl
    | some weights =>
      simp only
      cases m.mlp.setWeights weights with
      | none => rfl
      | some mlp1 =>
        simp only
        by_cases h121 : v.length < 121
        · have : v.coeff 120 = none := List.getElem?_eq_none_iff.2 (by omega)
          rw [this]
        · have : v.coeff (120 + 1) = none := List.getElem?_eq_none_iff.2 (by omega)
          rw [this]
          cases v.coeff 120 <;> rfl

theorem MLP.loadedUpTo_blockOffset (m : MLP) (h : m.Shaped) (w : VectorXd)
    (hw : w.length = m.blockOffset m.A.length) :
    (m.loadedUpTo w m.A.length).blockOffset (m.loadedUpTo w m.A.length).A.length =
      m.blockOffset m.A.length := by
  have h1 := m.loadedUpTo_getWeights h w hw
  rw [MLP.getWeights_eq _ (m.loadedUpTo_shaped h w hw)] at h1
  rw [← MLP.specWeights_length, Option.some.inj h1, hw]

theorem TargetSpeedModule.target_speed_setParameters_WF (m m1 : TargetSpeedModule) (h : m.WF) (v : VectorXd)
    (hs : m.setParameters v = some m1) : m1.WF := by
  by_cases hv : 122 ≤ v.length
  · rw [m.target_speed_setParameters_eq h v hv] at hs
    have hw : (v.take 120).length = m.mlp.blockOffset m.mlp.A.length := by
      rw [h.2, List.length_take]
      omega
    cases hs
    exact ⟨m.mlp.loadedUpTo_shaped h.1 _ hw, by rw [m.mlp.loadedUpTo_blockOffset h.1 _ hw, h.2]⟩
  · rw [m.target_speed_setParameters_none h v (by omega)] at hs
    cases hs

theorem TargetSpeedModule.ctor_WF (a b : ℚ) : (TargetSpeedModule.ctor a b).WF := by
  simp only [TargetSpeedModule.WF, TargetSpeedModule.ctor]
  decide

/-- C28 fails on the code for the opponents module: `getParameters()` allocates
`Eigen::VectorXd::Zero(12)` and its third loop writes the coefficients 11 to 16,
so in every state the write of coefficient 12 is outside the vector, while
`getNumberOfParameters()` is 17. The four other modules return a vector as long
as their number of parameters: 1, 12, 9 and 122. -/
theorem OpponentsModule.getParameters_out_of_range :
    (∀ m : OpponentsModule, m.getNumberOfParameters = 17 ∧ m.getParameters = none) ∧
      (∀ m : AccelBrakeModule,
        ∃ p, m.getParameters = some p ∧ p.length = m.getNumberOfParameters) ∧
      (∀ m : GearModule, m.WF →
        ∃ p, m.getParameters = some p ∧ p.length = m.getNumberOfParameters) ∧
      (∀ (m : SteeringControlModule) (v : VectorXd), v.length = m.getNumberOfParameters →
        (m.setParameters v).getParameters.length = m.getNumberOfParameters) ∧
      (∀ m : TargetSpeedModule, m.WF →
        ∃ p, m.getParameters = some p ∧ some p.length = m.getNumberOfParameters) ∧
      GearModule.ctor.WF ∧ (TargetSpeedModule.ctor 0 0).WF := by
  refine ⟨fun m => ⟨rfl, m.opponents_getParameters_none⟩,
    fun m => ⟨_, m.accelbrake_getParameters_eq, rfl⟩, ?_, ?_, ?_,
    by decide, TargetSpeedModule.ctor_WF 0 0⟩
  · intro m h
    refine ⟨_, m.gear_getParameters_eq h, ?_⟩
    simp [h.1, h.2, GearModule.getNumberOfParameters]
  · intro m v hv
    exact hv
  · intro m h
    obtain ⟨-, h2, -, h4⟩ := h.count
    refine ⟨_, m.target_speed_getParameters_eq h, ?_⟩
    rw [h2, List.length_append, h4]
    rfl

/-! ### The flat vector of the controller -/

theorem Controller.place_eq (pre r : VectorXd) (k rest : Nat) (hr : r.length = k) :
    Controller.place (some (pre ++ VectorXd.Zero (k + rest), pre.length)) (some k) (some r) =
      some (pre ++ r ++ VectorXd.Zero rest, pre.length + k) := by
  have hz : VectorXd.Zero (k + rest) = VectorXd.Zero k ++ VectorXd.Zero rest := by
    rw [VectorXd.Zero, VectorXd.Zero, VectorXd.Zero, List.replicate_add]
  have hs := setSegment_middle pre (VectorXd.Zero k) (VectorXd.Zero rest) r
    (by simp [VectorXd.Zero, hr])
  have hk : (VectorXd.Zero k).length = k := by simp [VectorXd.Zero]
  rw [hk, List.append_assoc, ← hz] at hs
  simp only [Controller.place, hs]

theorem Controller.concatenate_eq (a g o s t : VectorXd) :
    Controller.concatenate (a.length + g.length + o.length + s.length + t.length)
        (some a.length, some a) (some g.length, some g) (some o.length, some o)
        (some s.length, some s) (some t.length, some t) =
      some (a ++ g ++ o ++ s ++ t) := by
  have h1 := Controller.place_eq [] a a.length (g.length + o.length + s.length + t.length) rfl
  have h2 := Controller.place_eq a g g.length (o.length + s.length + t.length) rfl
  have h3 := Controller.place_eq (a ++ g) o o.length (s.length + t.length) rfl
  have h4 := Controller.place_eq (a ++ g ++ o) s s.length t.length rfl
  have h5 := Controller.place_eq (a ++ g ++ o ++ s) t t.length 0 rfl
  simp only [List.nil_append, List.length_nil, Nat.zero_add, List.length_append,
    Nat.add_zero] at h1 h2 h3 h4 h5
  have e : a.length + g.length + o.length + s.length + t.length =
      a.length + (g.length + o.length + s.length + t.length) := by omega
  have e2 : g.length + o.length + s.length + t.length =
      g.length + (o.length + s.length + t.length) := by omega
  have e3 : o.length + s.length + t.length = o.length + (s.length + t.length) := by omega
  simp only [Controller.concatenate]
  rw [e, h1, e2, h2, e3, h3, h4, h5]
  simp [VectorXd.Zero]

theorem Controller.concatenate_none (n : Nat) (a g s t : Option Nat × Option VectorXd)
    (k : Option Nat) :
    Controller.concatenate n a g (k, none) s t = none := by
  simp only [Controller.concatenate]
  have h3 : ∀ st, Controller.place st k none = none := by
    intro st
    unfold Controller.place
    split <;> simp_all
  have h0 : ∀ x y, Controller.place none x y = none := by
    intro x y
    unfold Controller.place
    split <;> simp_all
  rw [h3, h0, h0]
  rfl

theorem Controller.getParameters_always_none (c : ControllerModules) :
    Controller.getParameters c = none := by
  rw [Controller.getParameters, c.opponents_module.opponents_getParameters_none]
  exact Controller.concatenate_none _ _ _ _ _ _
theorem Controller.setParameters_slices (c : ControllerModules) (h : c.WF) (v : VectorXd)
    (hv : 161 ≤ v.length) :
    ∃ a g o t,
      c.accelbrake_module.setParameters ((v.drop 0).take 1) = some a ∧
      c.gear_module.setParameters ((v.drop 1).take 12) = some g ∧
      c.opponents_module.setParameters ((v.drop 13).take 17) = some o ∧
      c.target_speed_module.setParameters ((v.drop 39).take 122) = some t ∧
      Controller.setParameters c v =
        some { c with
          accelbrake_module := a, gear_module := g, opponents_module := o,
          steering_module := c.steering_module.setParameters ((v.drop 30).take 9),
          target_speed_module := t } := by
  obtain ⟨-, hg, ho, ht⟩ := h
  obtain ⟨s0, l0⟩ := segment_eq v 0 1 (by omega)
  obtain ⟨s1, l1⟩ := segment_eq v 1 12 (by omega)
  obtain ⟨s2, l2⟩ := segment_eq v 13 17 (by omega)
  obtain ⟨s3, l3⟩ := segment_eq v 30 9 (by omega)
  obtain ⟨s4, l4⟩ := segment_eq v 39 122 (by omega)
  have ea : c.accelbrake_module.setParameters ((v.drop 0).take 1) =
      some { threshold := v.getD 0 0 } := by
    rw [c.accelbrake_module.accelbrake_setParameters_eq, List.getElem?_take, if_pos (by omega),
      List.drop_zero, List.getD_eq_getElem?_getD, List.getElem?_eq_getElem (by omega)]
    rfl
  have eg : c.gear_module.setParameters ((v.drop 1).take 12) = some c.gear_module := by
    rw [c.gear_module.gear_setParameters_eq hg, if_pos (by omega)]
  have eo := c.opponents_module.opponents_setParameters_eq ho ((v.drop 13).take 17) (by omega)
  have et := c.target_speed_module.target_speed_setParameters_eq ht ((v.drop 39).take 122) (by omega)
  refine ⟨_, _, _, _, ea, eg, eo, et, ?_⟩
  have hc := (ht.count).2.1
  simp only [Controller.setParameters, AccelBrakeModule.getNumberOfParameters,
    GearModule.getNumberOfParameters, OpponentsModule.getNumberOfParameters,
    SteeringControlModule.getNumberOfParameters, hc, Nat.zero_add, Nat.reduceAdd, s0, s1, s2,
    s3, s4, Option.some_bind, Option.map_some', ea, eg, eo, et]

theorem Controller.setParameters_short (c : ControllerModules) (h : c.WF) (v : VectorXd)
    (hv : v.length < 161) : Controller.setParameters c v = none := by
  have hc := (h.2.2.2.count).2.1
  have s4 : v.segment 39 122 = none := by
    rw [VectorXd.segment, if_neg (by omega)]
  simp only [Controller.setParameters, AccelBrakeModule.getNumberOfParameters,
    GearModule.getNumberOfParameters, OpponentsModule.getNumberOfParameters,
    SteeringControlModule.getNumberOfParameters, hc, Nat.zero_add, Nat.reduceAdd, s4,
    Option.none_bind]
  split
  · rfl
  · split
    · rfl
    · split
      · rfl
      · split <;> rfl

theorem Controller.setParameters_take (c : ControllerModules) (h : c.WF) (v : VectorXd)
    (hv : 161 ≤ v.length) :
    Controller.setParameters c v = Controller.setParameters c (v.take 161) := by
  obtain ⟨a, g, o, t, h1, h2, h3, h4, h5⟩ := Controller.setParameters_slices c h v hv
  obtain ⟨a1, g1, o1, t1, k1, k2, k3, k4, k5⟩ :=
    Controller.setParameters_slices c h (v.take 161) (by rw [List.length_take]; omega)
  have e : ∀ j n, j + n ≤ 161 → ((v.take 161).drop j).take n = (v.drop j).take n := by
    intro j n hjn
    rw [List.drop_take, List.take_take, Nat.min_eq_left (by omega)]
  rw [e 0 1 (by omega), h1] at k1
  rw [e 1 12 (by omega), h2] at k2
  rw [e 13 17 (by omega), h3] at k3
  rw [e 39 122 (by omega), h4] at k4
  rw [h5, k5, e 30 9 (by omega), Option.some.inj k1, Option.some.inj k2, Option.some.inj k3,
    Option.some.inj k4]

theorem Controller.setParameters_keeps_WF (c c1 : ControllerModules) (h : c.WF) (v : VectorXd)
    (hs : Controller.setParameters c v = some c1) :
    c1.WF ∧ c1.gear_module = c.gear_module ∧
      c1.accelbrake_module.threshold = v.getD 0 0 := by
  by_cases hv : 161 ≤ v.length
  · obtain ⟨a, g, o, t, h1, h2, h3, h4, h5⟩ := Controller.setParameters_slices c h v hv
    rw [h5] at hs
    cases hs
    have ho := c.opponents_module.opponents_setParameters_eq h.2.2.1 ((v.drop 13).take 17)
      (by rw [List.length_take, List.length_drop]; omega)
    rw [h3] at ho
    have hg : c.gear_module.setParameters ((v.drop 1).take 12) = some c.gear_module := by
      rw [c.gear_module.gear_setParameters_eq h.2.1, if_pos (by
        rw [List.length_take, List.length_drop]; omega)]
    rw [h2] at hg
    have ha : c.accelbrake_module.setParameters ((v.drop 0).take 1) =
        some { threshold := v.getD 0 0 } := by
      rw [c.accelbrake_module.accelbrake_setParameters_eq, List.getElem?_take, if_pos (by omega),
        List.drop_zero, List.getD_eq_getElem?_getD, List.getElem?_eq_getElem (by omega)]
      rfl
    rw [h1] at ha
    refine ⟨⟨h.1, ?_, ?_, ?_⟩, Option.some.inj hg, ?_⟩
    · show g.WF
      rw [Option.some.inj hg]
      exact h.2.1
    · show o.WF
      rw [Option.some.inj ho]
      refine ⟨?_, ?_, ?_⟩ <;> simp only [List.length_take, List.length_drop] <;> omega
    · exact c.target_speed_module.target_speed_setParameters_WF t h.2.2.2 _ h4
    · show a.threshold = _
      rw [Option.some.inj ha]
  · rw [Controller.setParameters_short c h v (by omega)] at hs
    cases hs

theorem freshModules_WF : freshModules.WF := by
  have h : Controller.ctorModules 0 0 0 = some
      { gear_module := GearModule.ctor, target_speed_module := TargetSpeedModule.ctor 0 0,
        accelbrake_module := { threshold := 0 }, steering_module := SteeringControlModule.ctor,
        opponents_module := {}, n_parameters := 161 } := by
    have hc := ((TargetSpeedModule.ctor_WF 0 0).count).2.1
    simp only [Controller.ctorModules, hc]
    rfl
  rw [freshModules, h]
  exact ⟨rfl, by decide, by decide, TargetSpeedModule.ctor_WF 0 0⟩

theorem laidOut_append (a g o s t : VectorXd) (ha : a.length = 1) (hg : g.length = 12)
    (ho : o.length = 17) (hs : s.length = 9) (ht : t.length = 122) :
    LaidOut (a ++ g ++ o ++ s ++ t) a g o s t := by
  refine ⟨by simp [ha, hg, ho, hs, ht], ?_, ?_, ?_, ?_, ?_⟩
  · rw [List.drop_zero, List.append_assoc, List.append_assoc, List.append_assoc, ← ha,
      List.take_left]
  · rw [List.append_assoc, List.append_assoc, List.append_assoc, ← ha, List.drop_left, ← hg,
      List.take_left]
  · have e : (13 : Nat) = (a ++ g).length := by simp [ha, hg]
    rw [List.append_assoc (a ++ g), List.append_assoc (a ++ g), e, List.drop_left, ← ho,
      List.append_assoc, List.take_left]
  · have e : (30 : Nat) = (a ++ g ++ o).length := by simp [ha, hg, ho]
    rw [List.append_assoc (a ++ g ++ o), e, List.drop_left, ← hs, List.take_left]
  · have e : (39 : Nat) = (a ++ g ++ o ++ s).length := by simp [ha, hg, ho, hs]
    rw [e, List.drop_left, ← ht, List.take_length]

theorem Controller.concatenate_laidOut (a g o s t : VectorXd) (ha : a.length = 1)
    (hg : g.length = 12) (ho : o.length = 17) (hs : s.length = 9) (ht : t.length = 122) :
    Controller.concatenate 161 (some 1, some a) (some 12, some g) (some 17, some o)
        (some 9, some s) (some 122, some t) = some (a ++ g ++ o ++ s ++ t) := by
  have := Controller.concatenate_eq a g o s t
  rw [ha, hg, ho, hs, ht] at this
  exact this

theorem GearModule.gear_bounds_eq (m : GearModule) :
    m.getLowerBounds = some (List.replicate 6 3000 ++ List.replicate 6 1000) ∧
      m.getUpperBounds = some (List.replicate 6 8000 ++ List.replicate 6 4000) := by
  constructor
  · show GearModule.getLowerBounds {} = _
    decide!
  · show GearModule.getUpperBounds {} = _
    decide!

theorem OpponentsModule.opponents_bounds_eq (m : OpponentsModule) :
    m.getLowerBounds = some (VectorXd.Zero 17) ∧
      m.getUpperBounds = some (List.replicate 11 20 ++ List.replicate 6 (3 / 10)) := by
  constructor
  · rfl
  · show OpponentsModule.getUpperBounds {} = _
    decide!

theorem SteeringControlModule.steering_bounds_eq (m : SteeringControlModule) :
    m.getLowerBounds = some [-5 / 2, -2, -3 / 2, -1, -1 / 2, 0, 1 / 2, 1, 3 / 2] ∧
      m.getUpperBounds = some [-3 / 2, -1, -1 / 2, 0, 1 / 2, 1, 3 / 2, 2, 5 / 2] := by
  constructor
  · show SteeringControlModule.getLowerBounds SteeringControlModule.ctor = _
    decide!
  · show SteeringControlModule.getUpperBounds SteeringControlModule.ctor = _
    decide!

/-- C26 fails on the code for `getParameters()`: in a controller whose modules
have the shapes of their construction, the numbers of parameters are 1, 12, 17,
9 and 122 and `n_parameters` is their sum 161; `getLowerBounds()` and
`getUpperBounds()` return the vectors of the modules at `[0, 1)`, `[1, 13)`,
`[13, 30)`, `[30, 39)` and `[39, 161)`; `setParameters(v)` hands every module
the segment of `v` at the same offset; but `getParameters()` returns no vector:
the accel/brake, gear and target-speed modules give vectors of 1, 12 and 122
parameters, the opponents module writes outside its vector of 12, and the
opponents stanza at `[13, 30)` cannot be filled. The stanzas themselves
place five vectors of the right lengths at the offsets of the claim. -/
theorem Controller.flat_vector_layout (c : ControllerModules) (xavier : ℚ) (v : VectorXd)
    (h : c.WF) (hv : v.length = 161) :
    c.accelbrake_module.getNumberOfParameters = 1 ∧
      c.gear_module.getNumberOfParameters = 12 ∧
      c.opponents_module.getNumberOfParameters = 17 ∧
      c.steering_module.getNumberOfParameters = 9 ∧
      c.target_speed_module.getNumberOfParameters = some 122 ∧
      c.n_parameters = 1 + 12 + 17 + 9 + 122 ∧
      (∃ a g o s t r,
        c.accelbrake_module.getLowerBounds = some a ∧ c.gear_module.getLowerBounds = some g ∧
        c.opponents_module.getLowerBounds = some o ∧
        c.steering_module.getLowerBounds = some s ∧
        c.target_speed_module.getLowerBounds xavier = some t ∧
        Controller.getLowerBounds c xavier = some r ∧ LaidOut r a g o s t) ∧
      (∃ a g o s t r,
        c.accelbrake_module.getUpperBounds = some a ∧ c.gear_module.getUpperBounds = some g ∧
        c.opponents_module.getUpperBounds = some o ∧
        c.steering_module.getUpperBounds = some s ∧
        c.target_speed_module.getUpperBounds xavier = some t ∧
        Controller.getUpperBounds c xavier = some r ∧ LaidOut r a g o s t) ∧
      (∃ a g o t,
        c.accelbrake_module.setParameters ((v.drop 0).take 1) = some a ∧
        c.gear_module.setParameters ((v.drop 1).take 12) = some g ∧
        c.opponents_module.setParameters ((v.drop 13).take 17) = some o ∧
        c.target_speed_module.setParameters ((v.drop 39).take 122) = some t ∧
        Controller.setParameters c v =
          some { c with
            accelbrake_module := a, gear_module := g, opponents_module := o,
            steering_module := c.steering_module.setParameters ((v.drop 30).take 9),
            target_speed_module := t }) ∧
      (Controller.getParameters c = none ∧ c.opponents_module.getParameters = none ∧
        ∃ a g t, c.accelbrake_module.getParameters = some a ∧ a.length = 1 ∧
          c.gear_module.getParameters = some g ∧ g.length = 12 ∧
          c.target_speed_module.getParameters = some t ∧ t.length = 122) ∧
      ∀ a g o s t : VectorXd, a.length = 1 → g.length = 12 → o.length = 17 → s.length = 9 →
        t.length = 122 →
        ∃ r, Controller.concatenate 161 (some 1, some a) (some 12, some g) (some 17, some o)
          (some 9, some s) (some 122, some t) = some r ∧ LaidOut r a g o s t := by
  have hc := (h.2.2.2.count).2.1
  have hg := c.gear_module.gear_bounds_eq
  have ho := c.opponents_module.opponents_bounds_eq
  have hs := c.steering_module.steering_bounds_eq
  refine ⟨rfl, rfl, rfl, rfl, hc, h.1, ?_, ?_,
    Controller.setParameters_slices c h v (by omega), ?_, ?_⟩
  · refine ⟨_, _, _, _, _, _, rfl, hg.1, ho.1, hs.1,
      c.target_speed_module.target_speed_bounds_eq h.2.2.2 _ _ _, ?_,
      laidOut_append _ _ _ _ _ rfl rfl (by simp [VectorXd.Zero]) rfl (by simp)⟩
    rw [Controller.getLowerBounds, hc, hg.1, ho.1, hs.1, h.1,
      TargetSpeedModule.getLowerBounds, c.target_speed_module.target_speed_bounds_eq h.2.2.2]
    exact Controller.concatenate_laidOut _ _ _ _ _ rfl rfl (by simp [VectorXd.Zero]) rfl
      (by simp)
  · refine ⟨_, _, _, _, _, _, rfl, hg.2, ho.2, hs.2,
      c.target_speed_module.target_speed_bounds_eq h.2.2.2 _ _ _, ?_,
      laidOut_append _ _ _ _ _ rfl rfl (by simp) rfl (by simp)⟩
    rw [Controller.getUpperBounds, hc, hg.2, ho.2, hs.2, h.1,
      TargetSpeedModule.getUpperBounds, c.target_speed_module.target_speed_bounds_eq h.2.2.2]
    exact Controller.concatenate_laidOut _ _ _ _ _ rfl rfl (by simp) rfl (by simp)
  · refine ⟨Controller.getParameters_always_none c,
      c.opponents_module.opponents_getParameters_none, _, _, _, rfl, rfl,
      c.gear_module.gear_getParameters_eq h.2.1, ?_,
      c.target_speed_module.target_speed_getParameters_eq h.2.2.2, ?_⟩
    · simp [h.2.1.1, h.2.1.2]
    · simp [(h.2.2.2.count).2.2.2]
  · intro a g o s t ha hg1 ho1 hs1 ht
    exact ⟨_, Controller.concatenate_laidOut a g o s t ha hg1 ho1 hs1 ht,
      laidOut_append a g o s t ha hg1 ho1 hs1 ht⟩

/-- C26, an instance: a controller just constructed, with the vector of 161 ones. -/
theorem Controller.flat_vector_layout_fresh :
    freshModules.WF ∧ (VectorXd.Ones 161).length = 161 ∧
      freshModules.accelbrake_module.getNumberOfParameters = 1 ∧
      freshModules.gear_module.getNumberOfParameters = 12 ∧
      freshModules.opponents_module.getNumberOfParameters = 17 ∧
      freshModules.steering_module.getNumberOfParameters = 9 ∧
      freshModules.target_speed_module.getNumberOfParameters = some 122 ∧
      freshModules.n_parameters = 1 + 12 + 17 + 9 + 122 ∧
      (∃ a g o s t r,
        freshModules.accelbrake_module.getLowerBounds = some a ∧ freshModules.gear_module.getLowerBounds = some g ∧
        freshModules.opponents_module.getLowerBounds = some o ∧
        freshModules.steering_module.getLowerBounds = some s ∧
        freshModules.target_speed_module.getLowerBounds (7 / 40) = some t ∧
        Controller.getLowerBounds freshModules (7 / 40) = some r ∧ LaidOut r a g o s t) ∧
      (∃ a g o s t r,
        freshModules.accelbrake_module.getUpperBounds = some a ∧ freshModules.gear_module.getUpperBounds = some g ∧
        freshModules.opponents_module.getUpperBounds = some o ∧
        freshModules.steering_module.getUpperBounds = some s ∧
        freshModules.target_speed_module.getUpperBounds (7 / 40) = some t ∧
        Controller.getUpperBounds freshModules (7 / 40) = some r ∧ LaidOut r a g o s t) ∧
      (∃ a g o t,
        freshModules.accelbrake_module.setParameters (((VectorXd.Ones 161).drop 0).take 1) = some a ∧
        freshModules.gear_module.setParameters (((VectorXd.Ones 161).drop 1).take 12) = some g ∧
        freshModules.opponents_module.setParameters (((VectorXd.Ones 161).drop 13).take 17) = some o ∧
        freshModules.target_speed_module.setParameters (((VectorXd.Ones 161).drop 39).take 122) = some t ∧
        Controller.setParameters freshModules (VectorXd.Ones 161) =
          some { freshModules with
            accelbrake_module := a, gear_module := g, opponents_module := o,
            steering_module := freshModules.steering_module.setParameters (((VectorXd.Ones 161).drop 30).take 9),
            target_speed_module := t }) ∧
      (Controller.getParameters freshModules = none ∧
        freshModules.opponents_module.getParameters = none ∧
        ∃ a g t, freshModules.accelbrake_module.getParameters = some a ∧ a.length = 1 ∧
          freshModules.gear_module.getParameters = some g ∧ g.length = 12 ∧
          freshModules.target_speed_module.getParameters = some t ∧ t.length = 122) ∧
      ∀ a g o s t : VectorXd, a.length = 1 → g.length = 12 → o.length = 17 → s.length = 9 →
        t.length = 122 →
        ∃ r, Controller.concatenate 161 (some 1, some a) (some 12, some g) (some 17, some o)
          (some 9, some s) (some 122, some t) = some r ∧ LaidOut r a g o s t :=
  ⟨freshModules_WF, by simp [VectorXd.Ones],
    Controller.flat_vector_layout freshModules (7 / 40) (VectorXd.Ones 161) freshModules_WF
      (by simp [VectorXd.Ones])⟩

theorem Controller.setParameters_some (c : ControllerModules) (h : c.WF) (v : VectorXd)
    (hv : 161 ≤ v.length) : ∃ c1, Controller.setParameters c v = some c1 := by
  obtain ⟨a, g, o, t, -, -, -, -, h5⟩ := Controller.setParameters_slices c h v hv
  exact ⟨_, h5⟩

theorem ones_length (n : Nat) : (VectorXd.Ones n).length = n := by simp [VectorXd.Ones]

/-- C27 fails on the code: `Controller::getParameters()` calls
`OpponentsModule::getParameters()`, which writes outside its vector of 12
coefficients, and assigns that vector to a segment of 17: whatever the state of
the controller, also after `setParameters(v)` with `v` of length 161, the call
does not return a vector. -/
theorem Controller.getParameters_fails :
    (∀ c : ControllerModules, Controller.getParameters c = none) ∧
      ∃ c1, Controller.setParameters freshModules (VectorXd.Ones 161) = some c1 ∧
        c1.opponents_module.getParameters = none ∧ Controller.getParameters c1 = none := by
  refine ⟨Controller.getParameters_always_none, ?_⟩
  obtain ⟨c1, h1⟩ := Controller.setParameters_some freshModules freshModules_WF
    (VectorXd.Ones 161) (by rw [ones_length])
  exact ⟨c1, h1, c1.opponents_module.opponents_getParameters_none, Controller.getParameters_always_none c1⟩

/-- C29 as stated fails: a vector longer than the number of parameters is
accepted by every module and by the controller, and the steering module accepts
a shorter one as well. -/
theorem Controller.setParameters_accepts_long_vectors :
    ({ threshold := 0 } : AccelBrakeModule).setParameters [1, 2] = some { threshold := 1 } ∧
      GearModule.ctor.setParameters (VectorXd.Ones 13) = some GearModule.ctor ∧
      (∃ o, ({} : OpponentsModule).setParameters (VectorXd.Ones 18) = some o) ∧
      (SteeringControlModule.ctor.setParameters (VectorXd.Ones 10)).weights = VectorXd.Ones 10 ∧
      (SteeringControlModule.ctor.setParameters [1]).weights = [1] ∧
      (∃ t, (TargetSpeedModule.ctor 0 0).setParameters (VectorXd.Ones 123) = some t) ∧
      ∃ c1, Controller.setParameters freshModules (VectorXd.Ones 162) = some c1 := by
  refine ⟨rfl, ?_, ⟨_, OpponentsModule.opponents_setParameters_eq _ (by decide) _ (by rw [ones_length]; omega)⟩,
    rfl, rfl,
    ⟨_, TargetSpeedModule.target_speed_setParameters_eq _ (TargetSpeedModule.ctor_WF 0 0) _
      (by rw [ones_length]; omega)⟩,
    Controller.setParameters_some freshModules freshModules_WF _ (by rw [ones_length]; omega)⟩
  rw [GearModule.gear_setParameters_eq _ (by decide), if_pos (by rw [ones_length]; omega)]

/-- C29 as amended: no `setParameters` compares the length of its argument with
the number of parameters. The acceleration and brake, gear, opponents and target
speed modules and the controller fail exactly when the vector is shorter than
the number of parameters, on the access beyond its end, so they accept a longer
one; the steering module stores any vector whole. -/
theorem Controller.setParameters_fails_iff_short (c : ControllerModules) (v : VectorXd)
    (h : c.WF) :
    (c.accelbrake_module.setParameters v = none ↔ v.length < 1) ∧
      (c.gear_module.setParameters v = none ↔ v.length < 12) ∧
      (c.opponents_module.setParameters v = none ↔ v.length < 17) ∧
      (c.target_speed_module.setParameters v = none ↔ v.length < 122) ∧
      (Controller.setParameters c v = none ↔ v.length < 161) ∧
      (c.steering_module.setParameters v).weights = v := by
  refine ⟨?_, ?_, ?_, ?_, ?_, rfl⟩
  · rw [c.accelbrake_module.accelbrake_setParameters_eq]
    cases v with
    | nil => simp
    | cons x xs => simp
  · rw [c.gear_module.gear_setParameters_eq h.2.1]
    by_cases hv : 12 ≤ v.length
    · simp [hv]
    · simp only [if_neg hv, true_iff]
      omega
  · by_cases hv : 17 ≤ v.length
    · rw [c.opponents_module.opponents_setParameters_eq h.2.2.1 v hv]
      simp only [reduceCtorEq, false_iff]
      omega
    · rw [c.opponents_module.opponents_setParameters_none v (by omega)]
      simp only [true_iff]
      omega
  · by_cases hv : 122 ≤ v.length
    · rw [c.target_speed_module.target_speed_setParameters_eq h.2.2.2 v hv]
      simp only [reduceCtorEq, false_iff]
      omega
    · rw [c.target_speed_module.target_speed_setParameters_none h.2.2.2 v (by omega)]
      simp only [true_iff]
      omega
  · by_cases hv : 161 ≤ v.length
    · obtain ⟨c1, h1⟩ := Controller.setParameters_some c h v hv
      rw [h1]
      simp only [reduceCtorEq, false_iff]
      omega
    · rw [Controller.setParameters_short c h v (by omega)]
      simp only [true_iff]
      omega

/-- C29 as amended on a controller just constructed and the vector of 162
ones, which only the steering module would store whole. -/
theorem Controller.setParameters_fails_iff_short_fresh :
    freshModules.WF ∧
      (freshModules.accelbrake_module.setParameters (VectorXd.Ones 162) = none ↔
        (VectorXd.Ones 162).length < 1) ∧
      (freshModules.gear_module.setParameters (VectorXd.Ones 162) = none ↔
        (VectorXd.Ones 162).length < 12) ∧
      (freshModules.opponents_module.setParameters (VectorXd.Ones 162) = none ↔
        (VectorXd.Ones 162).length < 17) ∧
      (freshModules.target_speed_module.setParameters (VectorXd.Ones 162) = none ↔
        (VectorXd.Ones 162).length < 122) ∧
      (Controller.setParameters freshModules (VectorXd.Ones 162) = none ↔
        (VectorXd.Ones 162).length < 161) ∧
      (freshModules.steering_module.setParameters (VectorXd.Ones 162)).weights =
        VectorXd.Ones 162 :=
  ⟨freshModules_WF,
    Controller.setParameters_fails_iff_short freshModules (VectorXd.Ones 162) freshModules_WF⟩

/-- C30 as stated fails: given 162 ones, one more than the number of
parameters, `Controller::setParameters` succeeds and changes the modules: the
braking tolerances of the opponents module go from their initial values to 1,
and the threshold of the acceleration and brake module becomes 1. -/
theorem Controller.setParameters_applies_long_vector :
    (VectorXd.Ones 162).length ≠ freshModules.n_parameters ∧
      ∃ c1, Controller.setParameters freshModules (VectorXd.Ones 162) = some c1 ∧
        freshModules.opponents_module.tol_brake = [6, 13 / 2, 7, 15 / 2, 8] ∧
        c1.opponents_module.tol_brake = [1, 1, 1, 1, 1] ∧
        c1.accelbrake_module.threshold = 1 ∧ c1 ≠ freshModules := by
  have hw := freshModules_WF
  obtain ⟨a, g, o, t, -, -, h3, -, h5⟩ := Controller.setParameters_slices freshModules hw
    (VectorXd.Ones 162) (by rw [ones_length]; omega)
  have h2 := (Controller.setParameters_keeps_WF freshModules _ hw _ h5).2.2
  rw [freshModules.opponents_module.opponents_setParameters_eq hw.2.2.1 _
    (by rw [List.length_take, List.length_drop, ones_length]; omega)] at h3
  have ho : o.tol_brake = [1, 1, 1, 1, 1] := by
    rw [← Option.some.inj h3]
    decide!
  have h0 : freshModules.opponents_module.tol_brake = [6, 13 / 2, 7, 15 / 2, 8] := by decide!
  refine ⟨by rw [ones_length, hw.1]; omega, _, h5, h0, ho, ?_, ?_⟩
  · rw [h2]
    decide!
  · intro hc
    have := congrArg (fun c => c.opponents_module.tol_brake) hc
    simp only [ho, h0] at this
    revert this
    decide!

/-- C30 as amended: `Controller::setParameters(v)` has no check of the length of
`v`. When `v` is longer than the 161 parameters the call succeeds and sets the
modules as it does for `v` cut to its first 161 coefficients; when `v` is
shorter the call fails, on a segment that reaches beyond the end of `v`. -/
theorem Controller.setParameters_wrong_length (c : ControllerModules) (v : VectorXd)
    (h : c.WF) :
    (161 ≤ v.length →
        Controller.setParameters c v = Controller.setParameters c (v.take 161) ∧
          ∃ c1, Controller.setParameters c v = some c1) ∧
      (v.length < 161 → Controller.setParameters c v = none) :=
  ⟨fun hv => ⟨Controller.setParameters_take c h v hv, Controller.setParameters_some c h v hv⟩,
    fun hv => Controller.setParameters_short c h v hv⟩

/-- C30 as amended on a controller just constructed and the vector of 162
ones. -/
theorem Controller.setParameters_wrong_length_fresh :
    freshModules.WF ∧
      (161 ≤ (VectorXd.Ones 162).length →
        Controller.setParameters freshModules (VectorXd.Ones 162) =
            Controller.setParameters freshModules ((VectorXd.Ones 162).take 161) ∧
          ∃ c1, Controller.setParameters freshModules (VectorXd.Ones 162) = some c1) ∧
      ((VectorXd.Ones 162).length < 161 →
        Controller.setParameters freshModules (VectorXd.Ones 162) = none) :=
  ⟨freshModules_WF,
    Controller.setParameters_wrong_length freshModules (VectorXd.Ones 162) freshModules_WF⟩

/-! ### The parameters of the gear module -/

theorem foldlM_gear_setParameters (m : GearModule) (h : m.WF) (vs : List VectorXd)
    (hv : ∀ v ∈ vs, v.length = 12) : vs.foldlM GearModule.setParameters m = some m := by
  induction vs with
  | nil => rfl
  | cons v vs ih =>
    rw [List.foldlM_cons, m.gear_setParameters_eq h v,
      if_pos (by rw [hv v (List.mem_cons_self _ _)])]
    exact ih (fun w hw => hv w (List.mem_cons_of_mem _ hw))

/-- C33: `GearModule::setParameters(v)` with `v` of length 12 leaves the module,
so the thresholds `GI` and `GD`, as it is, and after any such calls on a module
just constructed `getParameters()` returns the vector
`[8000, 8000, 8000, 8000, 8000, 0, 0, 2500, 3000, 3000, 3500, 3500]`. -/
theorem GearModule.setParameters_no_effect (vs : List VectorXd) (v : VectorXd)
    (hvs : ∀ w ∈ vs, w.length = 12) (hv : v.length = 12) :
    GearModule.ctor.setParameters v = some GearModule.ctor ∧
      ∃ m, vs.foldlM GearModule.setParameters GearModule.ctor = some m ∧
        m.GI = [8000, 8000, 8000, 8000, 8000, 0] ∧ m.GD = [0, 2500, 3000, 3000, 3500, 3500] ∧
        m.getParameters =
          some [8000, 8000, 8000, 8000, 8000, 0, 0, 2500, 3000, 3000, 3500, 3500] := by
  have hw : GearModule.ctor.WF := by decide
  refine ⟨?_, GearModule.ctor, foldlM_gear_setParameters _ hw vs hvs, rfl, rfl, ?_⟩
  · rw [GearModule.ctor.gear_setParameters_eq hw v, if_pos (by omega)]
  · rw [GearModule.ctor.gear_getParameters_eq hw]
    decide!

/-- C33 on the vectors of 12 ones and of 12 zeros. -/
theorem GearModule.setParameters_no_effect_ones :
    (∀ w ∈ [VectorXd.Ones 12, VectorXd.Zero 12], w.length = 12) ∧
      (VectorXd.Ones 12).length = 12 ∧
      GearModule.ctor.setParameters (VectorXd.Ones 12) = some GearModule.ctor ∧
      ∃ m, [VectorXd.Ones 12, VectorXd.Zero 12].foldlM GearModule.setParameters
          GearModule.ctor = some m ∧
        m.GI = [8000, 8000, 8000, 8000, 8000, 0] ∧ m.GD = [0, 2500, 3000, 3000, 3500, 3500] ∧
        m.getParameters =
          some [8000, 8000, 8000, 8000, 8000, 0, 0, 2500, 3000, 3000, 3500, 3500] :=
  ⟨by decide, by decide,
    GearModule.setParameters_no_effect [VectorXd.Ones 12, VectorXd.Zero 12] (VectorXd.Ones 12)
      (by decide) (by decide)⟩

/-! ### The bounds of the modules -/

theorem forall₂_replicate (n : Nat) (a b : ℚ) (h : a ≤ b) :
    List.Forall₂ (fun l u => l ≤ u) (List.replicate n a) (List.replicate n b) := by
  induction n with
  | zero => exact List.Forall₂.nil
  | succ n ih => exact List.Forall₂.cons h ih

theorem isBox_append (a b c d : VectorXd) (n k : Nat) (h1 : IsBox a b n) (h2 : IsBox c d k) :
    IsBox (a ++ c) (b ++ d) (n + k) := by
  refine ⟨by simp [h1.1, h2.1], by simp [h1.2.1, h2.2.1], List.rel_append h1.2.2 h2.2.2⟩

theorem Controller.getLowerBounds_eq (c : ControllerModules) (h : c.WF) (xavier : ℚ) :
    Controller.getLowerBounds c xavier =
      some ([1] ++ (List.replicate 6 3000 ++ List.replicate 6 1000) ++ VectorXd.Zero 17 ++
        [-5 / 2, -2, -3 / 2, -1, -1 / 2, 0, 1 / 2, 1, 3 / 2] ++
        (List.replicate 120 (-xavier) ++ [0, 100])) := by
  have hc := (h.2.2.2.count).2.1
  rw [Controller.getLowerBounds, hc, c.gear_module.gear_bounds_eq.1,
    c.opponents_module.opponents_bounds_eq.1, c.steering_module.steering_bounds_eq.1, h.1,
    TargetSpeedModule.getLowerBounds, c.target_speed_module.target_speed_bounds_eq h.2.2.2]
  exact Controller.concatenate_laidOut _ _ _ _ _ rfl rfl (by simp [VectorXd.Zero]) rfl
    (by simp)

theorem Controller.getUpperBounds_eq (c : ControllerModules) (h : c.WF) (xavier : ℚ) :
    Controller.getUpperBounds c xavier =
      some ([2] ++ (List.replicate 6 8000 ++ List.replicate 6 4000) ++
        (List.replicate 11 20 ++ List.replicate 6 (3 / 10)) ++
        [-3 / 2, -1, -1 / 2, 0, 1 / 2, 1, 3 / 2, 2, 5 / 2] ++
        (List.replicate 120 xavier ++ [70, 350])) := by
  have hc := (h.2.2.2.count).2.1
  rw [Controller.getUpperBounds, hc, c.gear_module.gear_bounds_eq.2,
    c.opponents_module.opponents_bounds_eq.2, c.steering_module.steering_bounds_eq.2, h.1,
    TargetSpeedModule.getUpperBounds, c.target_speed_module.target_speed_bounds_eq h.2.2.2]
  exact Controller.concatenate_laidOut _ _ _ _ _ rfl rfl (by simp) rfl (by simp)

/-- C34: in a controller whose modules have the shapes of their construction,
with the double `std::sqrt(6.0 / (14.0 * 14.0))` not negative, the lower and the
upper bounds of each of the five modules and of the controller are vectors as
long as the number of parameters (1, 12, 17, 9, 122 and 161) with
`lower[i] <= upper[i]` for every index `i`. -/
theorem Controller.bounds_are_boxes (c : ControllerModules) (xavier : ℚ) (h : c.WF)
    (hx : 0 ≤ xavier) :
    (∃ lo hi, c.accelbrake_module.getLowerBounds = some lo ∧
        c.accelbrake_module.getUpperBounds = some hi ∧
        IsBox lo hi c.accelbrake_module.getNumberOfParameters) ∧
      (∃ lo hi, c.gear_module.getLowerBounds = some lo ∧
        c.gear_module.getUpperBounds = some hi ∧
        IsBox lo hi c.gear_module.getNumberOfParameters) ∧
      (∃ lo hi, c.opponents_module.getLowerBounds = some lo ∧
        c.opponents_module.getUpperBounds = some hi ∧
        IsBox lo hi c.opponents_module.getNumberOfParameters) ∧
      (∃ lo hi, c.steering_module.getLowerBounds = some lo ∧
        c.steering_module.getUpperBounds = some hi ∧
        IsBox lo hi c.steering_module.getNumberOfParameters) ∧
      (∃ lo hi n, c.target_speed_module.getLowerBounds xavier = some lo ∧
        c.target_speed_module.getUpperBounds xavier = some hi ∧
        c.target_speed_module.getNumberOfParameters = some n ∧ IsBox lo hi n) ∧
      ∃ lo hi, Controller.getLowerBounds c xavier = some lo ∧
        Controller.getUpperBounds c xavier = some hi ∧ IsBox lo hi c.n_parameters := by
  have hc := (h.2.2.2.count).2.1
  have b1 : IsBox [1] [2] 1 := by decide!
  have b2 : IsBox (List.replicate 6 3000 ++ List.replicate 6 1000)
      (List.replicate 6 8000 ++ List.replicate 6 4000) 12 := by decide!
  have b3 : IsBox (VectorXd.Zero 17) (List.replicate 11 20 ++ List.replicate 6 (3 / 10)) 17 := by
    decide!
  have b4 : IsBox [-5 / 2, -2, -3 / 2, -1, -1 / 2, 0, 1 / 2, 1, 3 / 2]
      [-3 / 2, -1, -1 / 2, 0, 1 / 2, 1, 3 / 2, 2, 5 / 2] 9 := by decide!
  have b5 : IsBox (List.replicate 120 (-xavier) ++ [0, 100])
      (List.replicate 120 xavier ++ [70, 350]) 122 :=
    isBox_append _ _ _ _ 120 2
      ⟨by simp, by simp, forall₂_replicate 120 _ _ (by linarith)⟩ (by decide!)
  refine ⟨⟨_, _, rfl, rfl, b1⟩,
    ⟨_, _, c.gear_module.gear_bounds_eq.1, c.gear_module.gear_bounds_eq.2, b2⟩,
    ⟨_, _, c.opponents_module.opponents_bounds_eq.1, c.opponents_module.opponents_bounds_eq.2, b3⟩,
    ⟨_, _, c.steering_module.steering_bounds_eq.1, c.steering_module.steering_bounds_eq.2, b4⟩,
    ⟨_, _, 122, c.target_speed_module.target_speed_bounds_eq h.2.2.2 _ _ _,
      c.target_speed_module.target_speed_bounds_eq h.2.2.2 _ _ _, hc, b5⟩,
    ⟨_, _, Controller.getLowerBounds_eq c h xavier, Controller.getUpperBounds_eq c h xavier, ?_⟩⟩
  rw [h.1]
  exact isBox_append _ _ _ _ 39 122
    (isBox_append _ _ _ _ 30 9 (isBox_append _ _ _ _ 13 17 (isBox_append _ _ _ _ 1 12 b1 b2) b3)
      b4) b5

/-- C34 on a controller just constructed, with 7/40 for the square root. -/
theorem Controller.bounds_are_boxes_fresh :
    freshModules.WF ∧ (0 : ℚ) ≤ 7 / 40 ∧
      (∃ lo hi, freshModules.accelbrake_module.getLowerBounds = some lo ∧
        freshModules.accelbrake_module.getUpperBounds = some hi ∧
        IsBox lo hi freshModules.accelbrake_module.getNumberOfParameters) ∧
      (∃ lo hi, freshModules.gear_module.getLowerBounds = some lo ∧
        freshModules.gear_module.getUpperBounds = some hi ∧
        IsBox lo hi freshModules.gear_module.getNumberOfParameters) ∧
      (∃ lo hi, freshModules.opponents_module.getLowerBounds = some lo ∧
        freshModules.opponents_module.getUpperBounds = some hi ∧
        IsBox lo hi freshModules.opponents_module.getNumberOfParameters) ∧
      (∃ lo hi, freshModules.steering_module.getLowerBounds = some lo ∧
        freshModules.steering_module.getUpperBounds = some hi ∧
        IsBox lo hi freshModules.steering_module.getNumberOfParameters) ∧
      (∃ lo hi n, freshModules.target_speed_module.getLowerBounds (7 / 40) = some lo ∧
        freshModules.target_speed_module.getUpperBounds (7 / 40) = some hi ∧
        freshModules.target_speed_module.getNumberOfParameters = some n ∧ IsBox lo hi n) ∧
      ∃ lo hi, Controller.getLowerBounds freshModules (7 / 40) = some lo ∧
        Controller.getUpperBounds freshModules (7 / 40) = some hi ∧ IsBox lo hi freshModules.n_parameters :=
  ⟨freshModules_WF, by norm_num,
    Controller.bounds_are_boxes freshModules (7 / 40) freshModules_WF (by norm_num)⟩

/-! ### Calls before initialisation and the parameter file -/

theorem numAfter_succ (values : List ℚ) (num : ℚ) (k : Nat) (hk : k < values.length) :
    numAfter values num (k + 1) = values[k] := by
  rw [numAfter, List.take_succ, List.getElem?_eq_getElem hk, Option.toList,
    List.getLast?_concat, Option.getD_some]

theorem numAfter_step (l : List ℚ) (num : ℚ) (k : Nat) :
    numAfter l num (k + 1) = (((l.drop k).head?).getD (numAfter l num k)) := by
  by_cases hk : k < l.length
  · rw [numAfter_succ l num k hk, List.drop_eq_getElem_cons hk]
    rfl
  · have h1 : l.drop k = [] := List.drop_of_length_le (by omega)
    rw [h1, numAfter, numAfter, List.take_of_length_le (by omega),
      List.take_of_length_le (by omega)]
    rfl

theorem extractDouble_pending (file : Ifstream) (num : ℚ) :
    (extractDouble file num).1 = ((file.pending.head?).getD num) ∧
      (extractDouble file num).2.pending = file.pending.drop 1 ∧
      (extractDouble file num).2 = (extractDouble file 0).2 := by
  obtain ⟨values, failbit⟩ := file
  cases failbit with
  | true => simp [extractDouble, Ifstream.pending]
  | false =>
    cases values with
    | nil => simp [extractDouble, Ifstream.pending, delivered]
    | cons v rest =>
      by_cases h1 : DBL_OVERFLOW ≤ v
      · simp [extractDouble, Ifstream.pending, delivered, h1]
      · by_cases h2 : v ≤ -DBL_OVERFLOW
        · simp [extractDouble, Ifstream.pending, delivered, h1, h2]
        · simp [extractDouble, Ifstream.pending, delivered, h1, h2]

theorem after_pending (file : Ifstream) (k : Nat) :
    (file.after k).pending = file.pending.drop k := by
  induction k with
  | zero => rfl
  | succ k ih =>
    rw [Ifstream.after, (extractDouble_pending (file.after k) 0).2.1, ih, List.drop_drop]

theorem extractDouble_after (file : Ifstream) (num : ℚ) (k : Nat) :
    extractDouble (file.after k) (numAfter file.pending num k) =
      (numAfter file.pending num (k + 1), file.after (k + 1)) := by
  obtain ⟨h1, -, h3⟩ := extractDouble_pending (file.after k) (numAfter file.pending num k)
  apply Prod.ext
  · rw [h1, after_pending, numAfter_step]
  · rw [h3]
    rfl

theorem Controller.loadValues_eq (n : Nat) (file : Ifstream) (num : ℚ) :
    (List.range n).foldlM Controller.loadValue (VectorXd.Zero n, file, num) =
      some ((List.range n).map (fun j => numAfter file.pending num (j + 1)), file.after n,
        numAfter file.pending num n) := by
  have key := foldlM_range_invariant Controller.loadValue
    (fun k => ((List.range k).map (fun j => numAfter file.pending num (j + 1)) ++
      VectorXd.Zero (n - k), file.after k, numAfter file.pending num k)) n (by
      intro k hk
      simp only [Controller.loadValue, extractDouble_after]
      have hz : VectorXd.Zero (n - k) = 0 :: VectorXd.Zero (n - (k + 1)) := by
        rw [VectorXd.Zero, VectorXd.Zero, ← List.replicate_succ]
        congr 1
        omega
      rw [VectorXd.setCoeff, if_pos (by simp [VectorXd.Zero]; omega), hz]
      have hl : ((List.range k).map (fun j => numAfter file.pending num (j + 1))).length = k := by
        simp
      simp only [List.set_append_right _ _ (Nat.le_of_eq hl), hl, Nat.sub_self,
        List.set_cons_zero, List.range_succ, List.map_append, List.map_cons, List.map_nil,
        List.append_assoc, List.singleton_append])
  simp only [List.range_zero, List.map_nil, List.nil_append, Nat.sub_zero,
    Nat.sub_self] at key
  have h0 : numAfter file.pending num 0 = num := rfl
  have h1 : file.after 0 = file := rfl
  rw [h0, h1] at key
  rw [key]
  simp [VectorXd.Zero]

theorem loaded_take (n : Nat) (values : List ℚ) (num : ℚ) (h : n ≤ values.length) :
    (List.range n).map (fun j => numAfter values num (j + 1)) = values.take n := by
  apply List.ext_getElem?
  intro j
  rw [List.getElem?_map, List.getElem?_take]
  by_cases hj : j < n
  · rw [List.getElem?_range hj, if_pos hj, Option.map_some',
      numAfter_succ values num j (by omega), List.getElem?_eq_getElem (by omega)]
  · rw [List.getElem?_eq_none_iff.2 (by simpa using hj), if_neg hj]
    rfl

theorem delivered_take (n : Nat) (values : List ℚ) (hn : n ≤ values.length)
    (hr : ∀ v ∈ values.take n, InDoubleRange v) :
    n ≤ (delivered values).length ∧ (delivered values).take n = values.take n := by
  induction values generalizing n with
  | nil =>
    have : n = 0 := by simpa using hn
    subst this
    exact ⟨Nat.zero_le _, rfl⟩
  | cons v rest ih =>
    cases n with
    | zero => exact ⟨Nat.zero_le _, rfl⟩
    | succ n =>
      have hv : InDoubleRange v := hr v (by simp)
      obtain ⟨i1, i2⟩ := ih n (by simpa using hn)
        (fun w hw => hr w (by rw [List.take_succ_cons]; exact List.mem_cons_of_mem _ hw))
      have e : delivered (v :: rest) = v :: delivered rest := by
        rw [delivered, if_neg (not_le.mpr hv.2), if_neg (not_le.mpr hv.1)]
      rw [e]
      exact ⟨by simpa using i1, by rw [List.take_succ_cons, List.take_succ_cons, i2]⟩

theorem Controller.loadModel_eq (c : Controller) (m : ControllerModules) (values : List ℚ)
    (num : ℚ) :
    Controller.loadModel c m (some values) num =
      Controller.setParameters m
        ((List.range c.pso.n_dim).map (fun j => numAfter (delivered values) num (j + 1))) := by
  simp only [Controller.loadModel, Controller.loadValues_eq]
  rfl

theorem Controller.loadModel_some (c : Controller) (m : ControllerModules) (values : List ℚ)
    (num : ℚ) (h : m.WF) (hn : c.pso.n_dim = 161) :
    ∃ m1, Controller.loadModel c m (some values) num = some m1 := by
  rw [Controller.loadModel_eq, hn]
  exact Controller.setParameters_some m h _ (by simp)

theorem Controller.loadModel_constant (m : ControllerModules) (h : m.WF) (values : List ℚ)
    (x : ℚ)
    (hv : (List.range controller161.pso.n_dim).map
      (fun j => numAfter (delivered values) 0 (j + 1)) = List.replicate 161 x) :
    ∃ m1, Controller.loadModel controller161 m (some values) 0 = some m1 ∧
      m1.accelbrake_module.threshold = x ∧ m1.steering_module.weights = List.replicate 9 x := by
  rw [Controller.loadModel_eq, hv]
  obtain ⟨a, g, o, t, h1, -, -, -, h5⟩ := Controller.setParameters_slices m h
    (List.replicate 161 x) (by simp)
  refine ⟨_, h5, ?_, ?_⟩
  · rw [AccelBrakeModule.accelbrake_setParameters_eq] at h1
    simp only [List.drop_zero, List.take_replicate] at h1
    have h2 : (List.replicate (min 1 161) x)[0]? = some x := by
      rw [List.getElem?_replicate, if_pos (by decide)]
    rw [h2, Option.map_some', Option.some.injEq] at h1
    rw [← h1]
  · show ((List.replicate 161 x).drop 30).take 9 = List.replicate 9 x
    simp

/-- C31 as stated fails: with a file that holds the single value 7, where 161
are expected, `Controller::loadModel()` reports nothing and installs parameters:
the 160 entries that could not be read repeat the value 7, so the nine steering
weights are 7; with a file of 200 values it reports nothing either. -/
theorem Controller.loadModel_short_file :
    (∃ m1, Controller.loadModel controller161 freshModules (some [7]) 0 = some m1 ∧
        m1.accelbrake_module.threshold = 7 ∧ m1.steering_module.weights = List.replicate 9 7) ∧
      ∃ m2, Controller.loadModel controller161 freshModules (some (List.replicate 200 1)) 0 =
        some m2 :=
  ⟨Controller.loadModel_constant freshModules freshModules_WF [7] 7 (by decide!),
    Controller.loadModel_some _ _ _ _ freshModules_WF rfl⟩

/-- C31 as amended: `Controller::loadModel()` fails when the file cannot be
opened; otherwise it reports nothing whatever the number of values in the file,
installs parameters, and when the file holds at least the 161 values expected
and the first 161 are in the range of `double`, it installs these 161 values and
ignores the others. -/
theorem Controller.loadModel_reads_n_dim_values (c : Controller) (m : ControllerModules)
    (values : List ℚ) (num : ℚ) (h : m.WF) (hn : c.pso.n_dim = 161) :
    Controller.loadModel c m none num = none ∧
      (∃ m1, Controller.loadModel c m (some values) num = some m1) ∧
      (161 ≤ values.length → (∀ v ∈ values.take 161, InDoubleRange v) →
        Controller.loadModel c m (some values) num =
          Controller.setParameters m (values.take 161)) := by
  refine ⟨rfl, Controller.loadModel_some c m values num h hn, ?_⟩
  intro hv hr
  obtain ⟨d1, d2⟩ := delivered_take 161 values hv hr
  rw [Controller.loadModel_eq, hn, loaded_take 161 (delivered values) num d1, d2]

/-- C31 as amended on a controller just constructed: a file of the 200 values
0, 1, ..., 199 installs its first 161 values; a file that holds the single value
7 installs parameters; and a file of 161 values whose first overflows the type
`double` installs `DBL_MAX` everywhere, the stream having failed at the first
extraction. -/
theorem Controller.loadModel_reads_n_dim_values_fresh :
    freshModules.WF ∧ controller161.pso.n_dim = 161 ∧ countingFile.length = 200 ∧
      Controller.loadModel controller161 freshModules (some countingFile) 0 =
        Controller.setParameters freshModules (countingFile.take 161) ∧
      (∃ m1, Controller.loadModel controller161 freshModules (some [7]) 0 = some m1) ∧
      (∃ m2, Controller.loadModel controller161 freshModules (some overflowingFile) 0 =
          some m2 ∧
        m2.accelbrake_module.threshold = DBL_MAX ∧
        m2.steering_module.weights = List.replicate 9 DBL_MAX) :=
  ⟨freshModules_WF, rfl, by simp [countingFile],
    (Controller.loadModel_reads_n_dim_values controller161 freshModules countingFile 0
      freshModules_WF rfl).2.2 (by simp [countingFile]) (by decide!),
    (Controller.loadModel_reads_n_dim_values controller161 freshModules [7] 0
      freshModules_WF rfl).2.1,
    Controller.loadModel_constant freshModules freshModules_WF overflowingFile DBL_MAX
      (by decide!)⟩

theorem ctor_global_best (task : Int) (n_particles n_dim : Nat) (s : PSO)
    (h : PSO.ctor task n_particles n_dim = some s) :
    s.global_best = (Particle.ctor task n_dim 1 1 1).pbest := by
  simp only [PSO.ctor, PSO.initialize, List.nil_append] at h
  split at h
  · cases h
  · rename_i p hp
    cases h
    simp only [PSO.setNeighborhood, TOPOLOGY_ERGODIC, if_true, PSO.createErgodicTopology,
      ergodicOuter_getElem?] at hp
    rw [List.getElem?_replicate, if_pos (by decide), Option.map_some'] at hp
    cases hp
    simp [withNeighbours]

/-- C32 as stated fails: on a swarm just constructed, whose particles have not
been initialised, `setEvaluation(5)` on particle 0 is accepted and records the
fitness 5 for the all-zero position as personal best, and `getBestPosition()`
returns the all-zero position. -/
theorem Particle.setEvaluation_before_initialize :
    Particle.setEvaluation ergodicOfThree.swarm 0 5 = some ergodicUninitialised ∧
      (ergodicOfThree.swarm[0]?).map (fun p => (p.current.x, p.lbs, p.ubs)) =
        some ([0], [], []) ∧
      (ergodicUninitialised[0]?).map (fun p => (p.current, p.pbest)) =
        some ({ x := [0], eval := 5 }, { x := [0], eval := 5 }) ∧
      ergodicOfThree.n_evaluations = 0 ∧ ergodicOfThree.getBestPosition = [0] := by
  decide!

/-- C32 as amended: neither call is guarded. `setEvaluation(f)` on a particle as
its constructor left it, with valid neighbour lists in the swarm, succeeds,
records `f` for the all-zero position and, `f` being above `-DBL_MAX`, makes it
the personal best; `getBestPosition()` on an optimiser just constructed returns
the all-zero position. -/
theorem Particle.setEvaluation_unguarded (sw : List Particle) (i n_dim : Nat) (p : Particle)
    (f : ℚ) (hv : NeighboursValid sw) (hp : sw[i]? = some p)
    (hc : p.current.x = VectorXd.Zero n_dim)
    (hb : p.pbest = { x := VectorXd.Zero n_dim, eval := -DBL_MAX }) (hf : -DBL_MAX < f) :
    (∃ sw1 p1, Particle.setEvaluation sw i f = some sw1 ∧ sw1[i]? = some p1 ∧
        p1.current = { x := VectorXd.Zero n_dim, eval := f } ∧
        p1.pbest = { x := VectorXd.Zero n_dim, eval := f }) ∧
      ∀ n_particles, ∃ s, PSO.ctor MAXIMIZE n_particles n_dim = some s ∧
        s.n_evaluations = 0 ∧ s.getBestPosition = VectorXd.Zero n_dim := by
  constructor
  · have hi : i < sw.length := by
      by_contra hc2
      rw [List.getElem?_eq_none_iff.2 (by omega)] at hp
      cases hp
    obtain ⟨sw1, h1⟩ := setEvaluation_isSome sw i f hv hi
    obtain ⟨p1, h2, h3⟩ := setEvaluation_particle sw sw1 i f h1 i p hp
    rw [if_pos rfl] at h3
    obtain ⟨h4, h5⟩ := eraseGbest_pbest _ _ h3
    refine ⟨sw1, p1, h1, h2, ?_, ?_⟩
    · rw [h5, (recordEvaluation_fields p f).2.2, hc]
    · rw [h4]
      simp only [Particle.recordEvaluation, hb, hc]
      rw [if_pos hf]
  · intro n_particles
    obtain ⟨s, h1, -, -, -, h5⟩ := ctor_some MAXIMIZE n_particles n_dim
    refine ⟨s, h1, h5, ?_⟩
    rw [PSO.getBestPosition, ctor_global_best _ _ _ s h1]
    rfl

/-- C32 as amended on particle 0 of an ergodic swarm of three particles just
constructed, with the fitness 5. -/
theorem Particle.setEvaluation_unguarded_ergodic_instance :
    NeighboursValid ergodicOfThree.swarm ∧
      (∃ sw1 p1, Particle.setEvaluation ergodicOfThree.swarm 0 5 = some sw1 ∧
        sw1[0]? = some p1 ∧ p1.current = { x := VectorXd.Zero 1, eval := 5 } ∧
        p1.pbest = { x := VectorXd.Zero 1, eval := 5 }) ∧
      ∀ n_particles, ∃ s, PSO.ctor MAXIMIZE n_particles 1 = some s ∧
        s.n_evaluations = 0 ∧ s.getBestPosition = VectorXd.Zero 1 :=
  ⟨by decide!, Particle.setEvaluation_unguarded ergodicOfThree.swarm 0 1
    (Particle.ctor MAXIMIZE 1 1 1 1 |> fun q => { q with neighbours := [1, 2] }) 5
    (by decide!) (by decide!) (by decide!) (by decide!) (by decide!)⟩

theorem atInt_ofNat {α : Type} (a : List α) (k : Nat) : atInt a (k : Int) = a[k]? := by
  simp [atInt]

theorem intRange_eq : intRange (-4) 5 = (List.range 9).map (fun t => ((t : Int) - 4)) := by
  decide

theorem weigh_loop (m : SteeringControlModule) (cs : CarState) (hm : m.weights.length = 9)
    (hcs : cs.WF) :
    (intRange (-4) 5).foldlM (m.weigh cs) (0, 0) =
      some ((List.zipWith (fun t w => t * w) cs.frontReadings m.weights).sum,
        cs.frontReadings.sum) := by
  obtain ⟨-, ht, -⟩ := hcs
  obtain ⟨ws, hws⟩ : ∃ ws, m.weights = ws := ⟨_, rfl⟩
  obtain ⟨tr, htr⟩ : ∃ tr, cs.track = tr := ⟨_, rfl⟩
  rw [hws] at hm
  rw [htr] at ht
  match ws, hm with
  | [w0, w1, w2, w3, w4, w5, w6, w7, w8], _ =>
    match tr, ht with
    | [t0, t1, t2, t3, t4, t5, t6, t7, t8, t9, t10, t11, t12, t13, t14, t15, t16, t17, t18], _ =>
      have e : intRange (-4) 5 = [-4, -3, -2, -1, 0, 1, 2, 3, 4] := by decide
      rw [e]
      simp only [List.foldlM_cons, List.foldlM_nil, SteeringControlModule.weigh,
        SteeringControlModule.FRONT, CarState.frontReadings, htr, hws]
      simp [atInt]
      constructor <;> ring

/-- The value of `SteeringControlModule::control(cs)` in every case: a module
with nine weights and a car state with its arrays of the declared lengths. -/
theorem SteeringControlModule.control_eq (m : SteeringControlModule) (cs : CarState)
    (hm : m.weights.length = 9) (hcs : cs.WF) :
    m.control cs =
      if cs.gear = -1 then some (-cs.angle / SteeringControlModule.STEER_LOCK)
      else if |cs.trackPos| > 1 then
        (divide (if cs.track.getD 9 0 ≥ 100 then 2 / 10 else 1) cs.frontReadings.sum).map
          (fun q => (List.zipWith (fun t w => t * w) cs.frontReadings m.weights).sum * q)
      else some ((cs.angle - cs.trackPos * (1 / 2)) / SteeringControlModule.STEER_LOCK) := by
  unfold SteeringControlModule.control
  by_cases hg : cs.gear = -1
  · simp [hg]
  · rw [if_neg hg, if_neg hg]
    by_cases ht : |cs.trackPos| > 1
    · have hlen : 9 < cs.track.length := by rw [hcs.2.1]; decide
      have hfront : atInt cs.track SteeringControlModule.FRONT = some (cs.track.getD 9 0) := by
        have : SteeringControlModule.FRONT = ((9 : Nat) : Int) := rfl
        rw [this, atInt_ofNat, List.getD_eq_getElem _ _ hlen, List.getElem?_eq_getElem hlen]
      simp only [SteeringControlModule.isOnTrack, ht, decide_True, if_true, hfront,
        weigh_loop m cs hm hcs]
      cases divide (if cs.track.getD 9 0 ≥ 100 then 2 / 10 else 1) cs.frontReadings.sum <;> rfl
    · simp [SteeringControlModule.isOnTrack, ht]

/-- C35 fails on the code: for every module with nine weights and every
car state that is not in reverse gear, has `|trackPos| > 1` (the branch guarded
by `isOnTrack`) and whose nine readings `track[5..13]` sum to zero,
`SteeringControlModule::control` divides `f0` by zero: there is no test of
`norm` before `steer *= (f0 / norm)`, and no finite steering value is
returned. -/
theorem SteeringControlModule.control_divides_by_zero (m : SteeringControlModule)
    (cs : CarState) (hm : m.weights.length = 9) (hcs : cs.WF) (hg : cs.gear ≠ -1)
    (ht : |cs.trackPos| > 1) (h0 : cs.frontReadings.sum = 0) :
    m.control cs = none := by
  rw [SteeringControlModule.control_eq m cs hm hcs, if_neg hg, if_pos ht, h0]
  simp [divide]

/-- Instance of C35: a car in first gear beside the track (`trackPos = 2`) whose
track sensors all read 0, under the module as constructed. -/
theorem SteeringControlModule.control_divides_by_zero_all_zero :
    (restingCar 0).gear ≠ -1 ∧ ({ restingCar 0 with trackPos := 2 } : CarState).WF ∧
      ({ restingCar 0 with trackPos := 2 } : CarState).frontReadings.sum = 0 ∧
      SteeringControlModule.ctor.control { restingCar 0 with trackPos := 2 } = none :=
  ⟨by decide, by decide, by decide!,
    SteeringControlModule.control_divides_by_zero SteeringControlModule.ctor
      { restingCar 0 with trackPos := 2 } (by decide) (by decide) (by decide) (by decide!)
      (by decide!)⟩

theorem getWheelsSpeed_eq (cs : CarState) (hcs : cs.WF) :
    cs.getWheelsSpeed = some (cs.wheelSpinVel.sum / 4 * (3325 / 10000) * 4 * M_PI ^ 2) := by
  obtain ⟨-, -, hw⟩ := hcs
  obtain ⟨ws, hws⟩ : ∃ ws, cs.wheelSpinVel = ws := ⟨_, rfl⟩
  rw [hws] at hw
  match ws, hw with
  | [w0, w1, w2, w3], _ =>
    have e : intRange 0 4 = [0, 1, 2, 3] := by decide
    simp only [CarState.getWheelsSpeed, e, List.foldlM_cons, List.foldlM_nil, hws]
    simp [atInt]
    left
    ring

/-- C38 fails on the code: whatever positive function stands for `std::exp`, in
a forward gear, when the speed exceeds the wheel speed by the threshold plus 10
or more, the ABS term takes more than the speed control value (below 2) gives,
and `AccelBrakeModule::control` returns a value below 0; `Controller::control`
then commands a brake above 1. The documentation of the method says the value
ranges from 0 to 1. -/
theorem AccelBrakeModule.control_below_zero (m : AccelBrakeModule) (exp sqrt : ℚ → ℚ)
    (cs : CarState) (target_speed wheels : ℚ) (hexp : ∀ x, 0 < exp x) (hg : cs.gear ≠ -1)
    (hw : cs.getWheelsSpeed = some wheels)
    (hslip : 10 ≤ cs.getSpeed sqrt - wheels - m.threshold) :
    ∃ r, m.control exp sqrt cs target_speed = some r ∧ r < 0 ∧
      1 < (Controller.pedals r).2 := by
  have h2 : 2 / (1 + exp (cs.getSpeed sqrt - target_speed)) < 2 := by
    rw [div_lt_iff₀ (by linarith [hexp (cs.getSpeed sqrt - target_speed)])]
    linarith [hexp (cs.getSpeed sqrt - target_speed)]
  have hr : (2 / (1 + exp (cs.getSpeed sqrt - target_speed)) -
      (cs.getSpeed sqrt - wheels - m.threshold) / 5) / 2 < 0 := by
    linarith
  refine ⟨_, ?_, hr, ?_⟩
  · simp only [AccelBrakeModule.control, if_neg hg, hw]
    rw [if_pos (by linarith)]
  · rw [Controller.pedals, if_neg (by linarith)]
    show 1 < 1 - _ * 2
    linarith

/-- Instance of C38: a car at speed 100 with locked wheels, threshold 1 and
target speed 100: the value returned is -47/5 and the brake command 99/5. -/
theorem AccelBrakeModule.control_below_zero_locked_wheels :
    lockedWheelsCar.WF ∧
      (⟨1⟩ : AccelBrakeModule).control expSample sqrtSample lockedWheelsCar 100 =
        some (-47 / 5) ∧
      Controller.pedals (-47 / 5) = (0, 99 / 5) ∧
      ∃ r, (⟨1⟩ : AccelBrakeModule).control expSample sqrtSample lockedWheelsCar 100 = some r ∧
        r < 0 ∧ 1 < (Controller.pedals r).2 :=
  ⟨by decide, by decide!, by decide!,
    AccelBrakeModule.control_below_zero ⟨1⟩ expSample sqrtSample lockedWheelsCar 100 0
      (fun x => by unfold expSample; split <;> norm_num) (by decide) (by decide!)
      (by decide!)⟩

/-- C39 fails on the code: `GearModule::control` reads its decrease threshold
`gd` from the array `GI` and its increase threshold `gi` from the array `GD`,
both at the index `gear + 1`. When the car is not stuck, the gear goes up when
`rpm` exceeds the entry of `GD` and down when `rpm` is below the entry of `GI`;
in gear 5 or 6 the index is outside both arrays. -/
theorem GearModule.control_swaps_thresholds (m m1 : GearModule) (cs : CarState)
    (hm : m.WF) (hs : m.checkIfStuck cs = some (false, m1)) :
    (∀ a b, atInt m.GI (cs.gear + 1) = some a → atInt m.GD (cs.gear + 1) = some b →
      m.control cs = some
        (if cs.rpm > b ∧ cs.gear < 6 then cs.gear + 1
          else if cs.rpm < a ∧ cs.gear > 1 then cs.gear - 1 else cs.gear, m1)) ∧
      (5 ≤ cs.gear → m.control cs = none) := by
  constructor
  · intro a b ha hb
    simp only [GearModule.control, ha, hb, hs]
    simp only [Bool.false_eq_true, if_false]
    split_ifs <;> rfl
  · intro h5
    have : atInt m.GI (cs.gear + 1) = none := by
      unfold atInt
      rw [if_pos (by omega)]
      apply List.getElem?_eq_none
      rw [hm.1]
      omega
    simp only [GearModule.control, this]

/-- Instance of C39: in first gear at 5000 rpm, aligned with the track, the
module as constructed returns gear 2, because 5000 exceeds `GD[2] = 3000`; the
entries 0 to 4 of the increase thresholds `GI` are all 8000, which 5000 does not
exceed. In gear 5 the call reads outside the arrays. -/
theorem GearModule.control_swaps_thresholds_first_gear :
    GearModule.ctor.checkIfStuck firstGearCar = some (false, GearModule.ctor) ∧
      GearModule.ctor.control firstGearCar = some (2, GearModule.ctor) ∧
      (∀ k < 5, GearModule.ctor.GI[k]? = some 8000) ∧
      GearModule.ctor.control { firstGearCar with gear := 5 } = none :=
  ⟨by decide!,
    ((GearModule.control_swaps_thresholds GearModule.ctor GearModule.ctor firstGearCar
      (by decide) (by decide!)).1 8000 3000 (by decide) (by decide)).trans (by decide),
    by decide, by decide!⟩

theorem overtake_one (m : OpponentsModule) (cs : CarState) (hm : m.WF) (steer : ℚ) :
    m.overtake cs steer 1 = none := by
  have : atInt m.tol_overtake 6 = none := by
    unfold atInt
    rw [if_pos (by decide)]
    apply List.getElem?_eq_none
    rw [hm.2.1]
    decide
  unfold OpponentsModule.overtake
  simp only [abs_one, show ¬ ((1 : Int) > 5) by decide, if_false, show (1 : Int) + 5 = 6 by rfl,
    this]
  split <;> simp_all

theorem violatedLoop_none (m : OpponentsModule) (cs : CarState) (hm : m.WF) (hcs : cs.WF)
    (h : ∀ t < 5, m.tol_brake.getD t 0 ≤ cs.opponents.getD (14 + t) 0) :
    m.violatedSecurityDistance cs = none := by
  obtain ⟨hb, -, -⟩ := hm
  obtain ⟨ho, -, -⟩ := hcs
  have e : intRange (-4) 5 = [-4, -3, -2, -1, 0, 1, 2, 3, 4] := by decide
  have step : ∀ (t : Nat) (ht : t < 5) (rest : List Int),
      m.violatedLoop cs (((t : Int) - 4) :: rest) = m.violatedLoop cs rest := by
    intro t ht rest
    have h1 : atInt cs.opponents (OpponentsModule.FRONT + ((t : Int) - 4)) =
        some (cs.opponents.getD (14 + t) 0) := by
      have : OpponentsModule.FRONT + ((t : Int) - 4) = ((14 + t : Nat) : Int) := by
        simp only [OpponentsModule.FRONT]
        omega
      rw [this, atInt_ofNat, List.getD_eq_getElem _ _ (by omega),
        List.getElem?_eq_getElem (by omega)]
    have h2 : atInt m.tol_brake ((t : Int) - 4 + 4) = some (m.tol_brake.getD t 0) := by
      have : (t : Int) - 4 + 4 = ((t : Nat) : Int) := by omega
      rw [this, atInt_ofNat, List.getD_eq_getElem _ _ (by omega),
        List.getElem?_eq_getElem (by omega)]
    rw [OpponentsModule.violatedLoop, h1, h2]
    simp only
    rw [if_neg (not_lt.mpr (h t ht))]
  have last : m.violatedLoop cs [1, 2, 3, 4] = none := by
    have h2 : atInt m.tol_brake ((1 : Int) + 4) = none := by
      unfold atInt
      rw [if_pos (by decide)]
      apply List.getElem?_eq_none
      rw [hb]
      decide
    rw [OpponentsModule.violatedLoop, h2]
    split <;> simp_all
  rw [OpponentsModule.violatedSecurityDistance, e]
  have s0 := step 0 (by decide) [-3, -2, -1, 0, 1, 2, 3, 4]
  have s1 := step 1 (by decide) [-2, -1, 0, 1, 2, 3, 4]
  have s2 := step 2 (by decide) [-1, 0, 1, 2, 3, 4]
  have s3 := step 3 (by decide) [0, 1, 2, 3, 4]
  have s4 := step 4 (by decide) [1, 2, 3, 4]
  norm_num at s0 s1 s2 s3 s4
  rw [s0, s1, s2, s3, s4, last]

/-- C40 fails on the code: the loops index the threshold arrays with `i + 4` and
`i + 5` where the sensors are symmetric about `i = 0`. For every module and car
state, `OpponentsModule::control` reads `tol_overtake[6]` at `i = 1`, outside the
array of 6; and `violatedSecurityDistance`, when none of the sensors 14 to 18 is
below its threshold, reads `tol_brake[5]` at `i = 1`, outside the array of 5.
In the embedding both calls are `none`. -/
theorem OpponentsModule.control_reads_out_of_range (m : OpponentsModule) (sqrt : ℚ → ℚ)
    (cs : CarState) (steer accelbrake : ℚ) (hm : m.WF) (hcs : cs.WF) :
    m.control sqrt cs steer accelbrake = none ∧
      ((∀ t < 5, m.tol_brake.getD t 0 ≤ cs.opponents.getD (14 + t) 0) →
        m.violatedSecurityDistance cs = none) := by
  refine ⟨?_, violatedLoop_none m cs hm hcs⟩
  have hloop : (intRange (-10) 11).foldlM (m.overtake cs) steer = none :=
    foldlM_none_of_mem (m.overtake cs) (fun _ => True) (fun _ _ _ _ _ => trivial)
      (intRange (-10) 11) 1 (by decide) (fun d _ => overtake_one m cs hm d) steer trivial
  unfold OpponentsModule.control
  simp only [hloop]
  split <;> rfl

/-- Instance of C40: the module as constructed and a car at rest with no opponent
in range (every sensor reads 200). -/
theorem OpponentsModule.control_reads_out_of_range_no_opponent :
    ({} : OpponentsModule).WF ∧ (restingCar 200).WF ∧
      ({} : OpponentsModule).control sqrtSample (restingCar 200) 0 1 = none ∧
      ({} : OpponentsModule).violatedSecurityDistance (restingCar 200) = none :=
  ⟨by decide, by decide,
    (OpponentsModule.control_reads_out_of_range {} sqrtSample (restingCar 200) 0 1
      (by decide) (by decide)).1,
    by decide!⟩

theorem checkNeibourhood_eq_select (sw : List Particle) (j : Nat) :
    Particle.checkNeibourhood sw j =
      (sw[j]?).bind (fun p =>
        ((bestsOf sw p.neighbours).bind (selectBest p.task)).map
          (fun r => sw.set j { p with gbest := r })) := by
  unfold Particle.checkNeibourhood
  cases hp : sw[j]? with
  | none => rfl
  | some p =>
    simp only [Option.some_bind, bestsOf]
    cases hd : deref sw p.neighbours with
    | none => rfl
    | some nbs =>
      simp only [Option.map_some', Option.some_bind, selectBest, List.map_map,
        List.getElem?_map]
      have e : ((fun r : Solution => r.eval) ∘ fun q : Particle => q.pbest) =
          fun q : Particle => q.pbest.eval := rfl
      rw [e]
      cases nbs[checkNeibourhoodLoop p.task (nbs.map (fun q => q.pbest.eval)) 0 0
        (if p.task = MAXIMIZE then -DBL_MAX else DBL_MAX)]? <;> rfl

theorem bestsOf_congr (sw sw1 : List Particle) (ks : List Nat)
    (h : ∀ k ∈ ks, (sw1[k]?).map (fun q => q.pbest) = (sw[k]?).map (fun q => q.pbest)) :
    bestsOf sw1 ks = bestsOf sw ks := by
  induction ks with
  | nil => rfl
  | cons k ks ih =>
    have ih1 := ih (fun k1 hk1 => h k1 (List.mem_cons_of_mem _ hk1))
    have hk := h k (List.mem_cons_self _ _)
    unfold bestsOf at ih1 ⊢
    simp only [deref]
    cases h1 : sw1[k]? with
    | none =>
      rw [h1] at hk
      cases h2 : sw[k]? with
      | none => rfl
      | some q => rw [h2] at hk; cases hk
    | some q1 =>
      rw [h1] at hk
      cases h2 : sw[k]? with
      | none => rw [h2] at hk; cases hk
      | some q =>
        rw [h2] at hk
        simp only [Option.map_some', Option.some.injEq] at hk
        cases h3 : deref sw1 ks with
        | none =>
          rw [h3] at ih1
          cases h4 : deref sw ks with
          | none => rfl
          | some l => rw [h4] at ih1; cases ih1
        | some l1 =>
          rw [h3] at ih1
          cases h4 : deref sw ks with
          | none => rw [h4] at ih1; cases ih1
          | some l =>
            rw [h4] at ih1
            simp only [Option.map_some', Option.some.injEq] at ih1
            simp [hk, ih1]

theorem freshAt_congr (sw sw1 : List Particle) (p : Particle)
    (h : ∀ k ∈ p.neighbours,
      (sw1[k]?).map (fun q => q.pbest) = (sw[k]?).map (fun q => q.pbest))
    (hf : FreshAt sw p) : FreshAt sw1 p := by
  unfold FreshAt at hf ⊢
  rw [bestsOf_congr sw sw1 p.neighbours h]
  exact hf

theorem freshAt_of_view (sw : List Particle) (p p1 : Particle) (h : bestView p1 = bestView p)
    (hf : FreshAt sw p) : FreshAt sw p1 := by
  simp only [bestView, Prod.mk.injEq] at h
  obtain ⟨h1, h2, -, h4⟩ := h
  unfold FreshAt at hf ⊢
  rw [h1, h2, h4]
  exact hf

theorem noStaleBest_iff (sw : List Particle) :
    NoStaleBest sw ↔ ∀ (j : Nat) (p : Particle), sw[j]? = some p → FreshAt sw p := by
  constructor
  · intro h j p hp
    have hj : j < sw.length := (List.getElem?_eq_some.mp hp).1
    have hc := h j hj
    rw [checkNeibourhood_eq_select, hp, Option.some_bind] at hc
    unfold FreshAt
    cases hr : (bestsOf sw p.neighbours).bind (selectBest p.task) with
    | none => rw [hr] at hc; cases hc
    | some r =>
      rw [hr, Option.map_some', Option.some.injEq] at hc
      have hg := congrArg (fun l : List Particle => l[j]?) hc
      simp only [List.getElem?_set_self hj, hp, Option.some.injEq] at hg
      rw [← hg]
  · intro h j hj
    have hp : sw[j]? = some sw[j] := List.getElem?_eq_getElem hj
    have hf := h j _ hp
    unfold FreshAt at hf
    rw [checkNeibourhood_eq_select, hp, Option.some_bind, hf, Option.map_some']
    congr 1
    apply List.ext_getElem?
    intro n
    by_cases hn : j = n
    · subst hn
      simp [hj]
    · simp [List.getElem?_set_ne hn]

theorem pbest_of_erase (sw sw1 : List Particle) (h : sw1.map eraseGbest = sw.map eraseGbest)
    (k : Nat) : (sw1[k]?).map (fun q => q.pbest) = (sw[k]?).map (fun q => q.pbest) := by
  have h1 := congrArg (fun l : List Particle => (l[k]?).map (fun q => q.pbest)) h
  simpa [List.getElem?_map, eraseGbest, Function.comp] using h1

theorem checkNeibourhood_freshOn (S : Nat → Prop) (sw sw1 : List Particle) (k : Nat)
    (h : Particle.checkNeibourhood sw k = some sw1)
    (hS : ∀ (j : Nat) (p : Particle), S j → sw[j]? = some p → FreshAt sw p) :
    ∀ (j : Nat) (p : Particle), (S j ∨ j = k) → sw1[j]? = some p → FreshAt sw1 p := by
  have hpb := pbest_of_erase sw sw1 (checkNeibourhood_erase sw sw1 k h)
  rw [checkNeibourhood_eq_select] at h
  cases hp : sw[k]? with
  | none => rw [hp] at h; cases h
  | some pk =>
    have hk : k < sw.length := (List.getElem?_eq_some.mp hp).1
    rw [hp, Option.some_bind] at h
    cases hr : (bestsOf sw pk.neighbours).bind (selectBest pk.task) with
    | none => rw [hr] at h; cases h
    | some r =>
      rw [hr, Option.map_some', Option.some.injEq] at h
      intro j p hj hp1
      by_cases hjk : j = k
      · subst hjk
        rw [← h, List.getElem?_set_self hk, Option.some.injEq] at hp1
        apply freshAt_congr sw sw1 p (fun k1 _ => hpb k1)
        rw [← hp1]
        exact hr
      · rw [← h, List.getElem?_set_ne (Ne.symm hjk)] at hp1
        rcases hj with hj | hj
        · exact freshAt_congr sw sw1 p (fun k1 _ => hpb k1) (hS j p hj hp1)
        · exact absurd hj hjk

theorem checkNeighbours_freshOn (ks : List Nat) (S : Nat → Prop) (sw sw1 : List Particle)
    (h : checkNeighbours sw ks = some sw1)
    (hS : ∀ (j : Nat) (p : Particle), S j → sw[j]? = some p → FreshAt sw p) :
    ∀ (j : Nat) (p : Particle), (S j ∨ j ∈ ks) → sw1[j]? = some p → FreshAt sw1 p := by
  induction ks generalizing S sw with
  | nil =>
    simp only [checkNeighbours, Option.some.injEq] at h
    subst h
    intro j p hj hp
    rcases hj with hj | hj
    · exact hS j p hj hp
    · cases hj
  | cons k ks ih =>
    simp only [checkNeighbours] at h
    cases hc : Particle.checkNeibourhood sw k with
    | none => rw [hc] at h; cases h
    | some swm =>
      rw [hc] at h
      have h1 := checkNeibourhood_freshOn S sw swm k hc hS
      have h2 := ih (fun j => S j ∨ j = k) swm h h1
      intro j p hj hp
      apply h2 j p ?_ hp
      rcases hj with hj | hj
      · exact Or.inl (Or.inl hj)
      · rcases List.mem_cons.mp hj with e | e
        · exact Or.inl (Or.inr e)
        · exact Or.inr e

theorem setEvaluation_noStaleBest (sw sw1 : List Particle) (i : Nat) (f : ℚ)
    (h : Particle.setEvaluation sw i f = some sw1) (hf : NoStaleBest sw)
    (hu : Undirected sw) : NoStaleBest sw1 := by
  rw [noStaleBest_iff] at hf ⊢
  have hlen := setEvaluation_length sw sw1 i f h
  unfold Particle.setEvaluation at h
  cases hp : sw[i]? with
  | none => rw [hp] at h; cases h
  | some p =>
    rw [hp] at h
    simp only at h
    cases hc : Particle.checkNeibourhood (sw.set i (Particle.recordEvaluation p f)) i with
    | none => rw [hc] at h; cases h
    | some swb =>
      rw [hc] at h
      simp only at h
      have h0 : ∀ (j : Nat) (q : Particle),
          (j ≠ i ∧ ∀ q1, sw[j]? = some q1 → i ∉ q1.neighbours) →
          (sw.set i (Particle.recordEvaluation p f))[j]? = some q →
          FreshAt (sw.set i (Particle.recordEvaluation p f)) q := by
        intro j q hj hq
        rw [List.getElem?_set_ne (Ne.symm hj.1)] at hq
        apply freshAt_congr sw _ q ?_ (hf j q hq)
        intro k hk
        have hki : i ≠ k := fun e => hj.2 q hq (e ▸ hk)
        rw [List.getElem?_set_ne hki]
      have h1 := checkNeibourhood_freshOn _ _ swb i hc h0
      have h2 := checkNeighbours_freshOn _ _ swb sw1 h h1
      intro j q hq
      apply h2 j q ?_ hq
      by_cases hji : j = i
      · exact Or.inl (Or.inr hji)
      · have hj : j < sw.length := by
          rw [← hlen]
          exact (List.getElem?_eq_some.mp hq).1
        by_cases hn : i ∈ (sw[j]).neighbours
        · right
          rw [(recordEvaluation_fields p f).2.1]
          exact hu i j p _ hp (List.getElem?_eq_getElem hj) hn
        · left
          left
          refine ⟨hji, ?_⟩
          intro q1 hq1
          rw [List.getElem?_eq_getElem hj, Option.some.injEq] at hq1
          rw [← hq1]
          exact hn

theorem neighbours_of_view (sw sw1 : List Particle)
    (h : ∀ j : Nat, (sw1[j]?).map bestView = (sw[j]?).map bestView) :
    sw1.map (fun q => q.neighbours) = sw.map (fun q => q.neighbours) := by
  apply List.ext_getElem?
  intro j
  have h1 := congrArg (Option.map (fun v : Int × List Nat × Solution × Solution => v.2.1)) (h j)
  simpa [List.getElem?_map, Option.map_map, Function.comp, bestView] using h1

theorem task_of_view (sw sw1 : List Particle)
    (h : ∀ j : Nat, (sw1[j]?).map bestView = (sw[j]?).map bestView) :
    sw1.map (fun q => q.task) = sw.map (fun q => q.task) := by
  apply List.ext_getElem?
  intro j
  have h1 := congrArg (Option.map (fun v : Int × List Nat × Solution × Solution => v.1)) (h j)
  simpa [List.getElem?_map, Option.map_map, Function.comp, bestView] using h1

theorem setEvaluation_task (sw sw1 : List Particle) (i : Nat) (f : ℚ)
    (h : Particle.setEvaluation sw i f = some sw1) :
    sw1.map (fun q => q.task) = sw.map (fun q => q.task) := by
  have hlen := setEvaluation_length sw sw1 i f h
  apply List.ext_getElem?
  intro j
  simp only [List.getElem?_map]
  cases hq : sw[j]? with
  | none =>
    rw [List.getElem?_eq_none_iff] at hq
    rw [List.getElem?_eq_none (by omega)]
  | some p =>
    obtain ⟨p1, hp1, e⟩ := setEvaluation_particle sw sw1 i f h j p hq
    have e1 := congrArg (fun q : Particle => q.task) e
    rw [hp1, Option.map_some', Option.map_some', Option.some.injEq]
    refine Eq.trans e1 ?_
    by_cases hji : j = i
    · rw [if_pos hji]
      simp only [eraseGbest, Particle.recordEvaluation]
      split <;> rfl
    · rw [if_neg hji]
      rfl

theorem pbest_of_view (sw sw1 : List Particle)
    (h : ∀ j : Nat, (sw1[j]?).map bestView = (sw[j]?).map bestView) (k : Nat) :
    (sw1[k]?).map (fun q => q.pbest) = (sw[k]?).map (fun q => q.pbest) := by
  have h1 := congrArg (Option.map (fun v : Int × List Nat × Solution × Solution => v.2.2.1)) (h k)
  simpa [Option.map_map, Function.comp, bestView] using h1

theorem noStaleBest_of_view (sw sw1 : List Particle)
    (h : ∀ j : Nat, (sw1[j]?).map bestView = (sw[j]?).map bestView) (hf : NoStaleBest sw) :
    NoStaleBest sw1 := by
  rw [noStaleBest_iff] at hf ⊢
  intro j p1 hp1
  have hj := h j
  rw [hp1] at hj
  cases hq : sw[j]? with
  | none => rw [hq] at hj; cases hj
  | some p =>
    rw [hq, Option.map_some', Option.map_some', Option.some.injEq] at hj
    exact freshAt_congr sw sw1 p1 (fun k _ => pbest_of_view sw sw1 h k)
      (freshAt_of_view sw p p1 hj (hf j p hq))

theorem undirected_congr (sw sw1 : List Particle)
    (h : sw1.map (fun q => q.neighbours) = sw.map (fun q => q.neighbours))
    (hu : Undirected sw) : Undirected sw1 := by
  have key : ∀ (j : Nat) (p1 : Particle), sw1[j]? = some p1 →
      ∃ p, sw[j]? = some p ∧ p.neighbours = p1.neighbours := by
    intro j p1 hp1
    have h1 := congrArg (fun l : List (List Nat) => l[j]?) h
    simp only [List.getElem?_map, hp1, Option.map_some'] at h1
    cases hq : sw[j]? with
    | none => rw [hq] at h1; cases h1
    | some p =>
      rw [hq, Option.map_some', Option.some.injEq] at h1
      exact ⟨p, rfl, h1.symm⟩
  intro i j p q hp hq hi
  obtain ⟨p0, hp0, ep⟩ := key i p hp
  obtain ⟨q0, hq0, eq0⟩ := key j q hq
  rw [← ep]
  exact hu i j p0 q0 hp0 hq0 (eq0 ▸ hi)

theorem call_view (s s1 : PSO) (c : Call) (h : s.call c = some s1)
    (hc : ∀ i f, c ≠ Call.setEvaluation i f) :
    ∀ j : Nat, (s1.swarm[j]?).map bestView = (s.swarm[j]?).map bestView := by
  intro j
  cases c with
  | initialise i lbs ubs g_pos g_vel =>
    simp only [PSO.call] at h
    cases hi : s.swarm[i]? with
    | none => simp [hi] at h
    | some p =>
      simp only [hi, Option.some.injEq] at h
      subst h
      by_cases hij : i = j
      · subst hij
        simp [List.getElem?_set_self (List.getElem?_eq_some.mp hi).1, hi, bestView,
          Particle.initialize]
      · simp [List.getElem?_set_ne hij]
  | move i g1 g2 =>
    simp only [PSO.call] at h
    cases hi : s.swarm[i]? with
    | none => simp [hi] at h
    | some p =>
      simp only [hi, Option.some.injEq] at h
      subst h
      by_cases hij : i = j
      · subst hij
        simp [List.getElem?_set_self (List.getElem?_eq_some.mp hi).1, hi, bestView,
          Particle.move]
      · simp [List.getElem?_set_ne hij]
  | setEvaluation i f => exact absurd rfl (hc i f)
  | update =>
    simp only [PSO.call, Option.some.injEq] at h
    subst h
    rfl
  | next g =>
    simp only [PSO.call, Option.some.injEq] at h
    subst h
    by_cases hg : s.next_particle_id = 0 ∧ s.n_evaluations > 0
    · simp only [PSO.next, hg, and_self, if_true, PSO.setInertia, forParticles_getElem?]
      cases hq : s.swarm[j]? with
      | none => rfl
      | some q =>
        by_cases hi : j < s.n_particles
        · simp [hi, Particle.move, bestView]
        · simp [hi]
    · simp only [PSO.next, hg, if_false]

theorem call_noStaleBest (s s1 : PSO) (c : Call) (h : s.call c = some s1)
    (hf : NoStaleBest s.swarm) (hu : Undirected s.swarm) :
    NoStaleBest s1.swarm ∧ Undirected s1.swarm ∧
      s1.swarm.map (fun q => q.neighbours) = s.swarm.map (fun q => q.neighbours) ∧
      s1.swarm.map (fun q => q.task) = s.swarm.map (fun q => q.task) := by
  by_cases hc : ∃ i f, c = Call.setEvaluation i f
  · obtain ⟨i, f, e⟩ := hc
    subst e
    simp only [PSO.call] at h
    cases hs : Particle.setEvaluation s.swarm i f with
    | none => simp [hs] at h
    | some sw1 =>
      simp only [hs, Option.some.injEq] at h
      subst h
      have hn := setEvaluation_neighbours s.swarm sw1 i f hs
      exact ⟨setEvaluation_noStaleBest s.swarm sw1 i f hs hf hu,
        undirected_congr s.swarm sw1 hn hu, hn, setEvaluation_task s.swarm sw1 i f hs⟩
  · have hv := call_view s s1 c h (fun i f e => hc ⟨i, f, e⟩)
    have hn := neighbours_of_view s.swarm s1.swarm hv
    exact ⟨noStaleBest_of_view s.swarm s1.swarm hv hf, undirected_congr _ _ hn hu, hn,
      task_of_view s.swarm s1.swarm hv⟩

theorem run_noStaleBest (calls : List Call) (s s1 : PSO) (h : s.run calls = some s1)
    (hf : NoStaleBest s.swarm) (hu : Undirected s.swarm) :
    NoStaleBest s1.swarm ∧ Undirected s1.swarm ∧
      s1.swarm.map (fun q => q.neighbours) = s.swarm.map (fun q => q.neighbours) ∧
      s1.swarm.map (fun q => q.task) = s.swarm.map (fun q => q.task) := by
  induction calls generalizing s with
  | nil =>
    simp only [PSO.run, Option.some.injEq] at h
    subst h
    exact ⟨hf, hu, rfl, rfl⟩
  | cons c cs ih =>
    simp only [PSO.run] at h
    cases hc : s.call c with
    | none => rw [hc] at h; cases h
    | some sm =>
      rw [hc] at h
      obtain ⟨h1, h2, h3, ht3⟩ := call_noStaleBest s sm c hc hf hu
      obtain ⟨h4, h5, h6, ht6⟩ := ih sm h h1 h2
      exact ⟨h4, h5, h6.trans h3, ht6.trans ht3⟩

theorem call_isSome (s : PSO) (c : Call) (hv : NeighboursValid s.swarm)
    (hc : c.InSwarm s.swarm.length) : ∃ s1, s.call c = some s1 := by
  cases c with
  | initialise i lbs ubs g_pos g_vel =>
    have hi : i < s.swarm.length := hc
    simp [PSO.call, List.getElem?_eq_getElem hi]
  | move i g1 g2 =>
    have hi : i < s.swarm.length := hc
    simp [PSO.call, List.getElem?_eq_getElem hi]
  | setEvaluation i f =>
    have hi : i < s.swarm.length := hc
    obtain ⟨sw1, h1⟩ := setEvaluation_isSome s.swarm i f hv hi
    simp [PSO.call, h1]
  | update => exact ⟨_, rfl⟩
  | next g => exact ⟨_, rfl⟩

theorem run_isSome (calls : List Call) (s : PSO) (hf : NoStaleBest s.swarm)
    (hu : Undirected s.swarm) (hv : NeighboursValid s.swarm)
    (hc : ∀ c ∈ calls, c.InSwarm s.swarm.length) : ∃ s1, s.run calls = some s1 := by
  induction calls generalizing s with
  | nil => exact ⟨s, rfl⟩
  | cons c cs ih =>
    obtain ⟨sm, hsm⟩ := call_isSome s c hv (hc c (List.mem_cons_self _ _))
    obtain ⟨h1, h2, h3, -⟩ := call_noStaleBest s sm c hsm hf hu
    have hlen : sm.swarm.length = s.swarm.length := by
      have := congrArg List.length h3
      simpa using this
    obtain ⟨s1, hs1⟩ := ih sm h1 h2 (neighboursValid_congr s.swarm sm.swarm h3 hv)
      (fun c1 hc1 => hlen ▸ hc c1 (List.mem_cons_of_mem _ hc1))
    exact ⟨s1, by simp only [PSO.run, hsm, hs1]⟩

theorem freshAt_of_const (sw : List Particle) (p : Particle) (b : Solution)
    (hne : p.neighbours ≠ []) (hin : ∀ k ∈ p.neighbours, k < sw.length)
    (hb : ∀ q ∈ sw, q.pbest = b) (hg : p.gbest = b) : FreshAt sw p := by
  obtain ⟨nbs, hd, hl⟩ := deref_isSome sw p.neighbours hin
  have hall : ∀ r ∈ nbs.map (fun q => q.pbest), r = b := by
    intro r hr
    obtain ⟨q, hq, e⟩ := List.mem_map.mp hr
    obtain ⟨m, hm⟩ := List.getElem?_of_mem hq
    rw [deref_getElem? sw p.neighbours nbs hd m] at hm
    cases hk : p.neighbours[m]? with
    | none => rw [hk] at hm; cases hm
    | some k =>
      rw [hk, Option.some_bind] at hm
      rw [← e]
      exact hb q (List.getElem?_mem hm)
  have hpos : 0 < (nbs.map (fun q => q.pbest)).length := by
    rw [List.length_map, hl]
    exact List.length_pos.mpr hne
  have hidx := checkNeibourhoodLoop_lt p.task
    ((nbs.map (fun q => q.pbest)).map (fun r => r.eval)) 0 0
    (if p.task = MAXIMIZE then -DBL_MAX else DBL_MAX) (by simpa using hpos)
  rw [Nat.zero_add, List.length_map] at hidx
  unfold FreshAt bestsOf
  rw [hd, Option.map_some', Option.some_bind, selectBest, List.getElem?_eq_getElem hidx, hg,
    hall _ (List.getElem_mem hidx)]

theorem ctorTopology_swarm (task : Int) (N n_dim : Nat) (topology : Int) (hN : 2 ≤ N)
    (htop : topology = TOPOLOGY_ERGODIC ∨ topology = TOPOLOGY_STAR) :
    ∃ (s0 : PSO) (c : Particle), PSO.ctorTopology task N n_dim topology = some s0 ∧
      s0.swarm.length = N ∧ c.neighbours = [] ∧ c.gbest = c.pbest ∧ c.task = task ∧
      (c.pbest.eval = if task = MAXIMIZE then -DBL_MAX else DBL_MAX) ∧
      ∀ j < N, s0.swarm[j]? = some (withNeighbours c
        (if topology = TOPOLOGY_ERGODIC then (List.range N).filter (fun k => decide (k ≠ j))
          else if j = 0 then List.range' 1 (N - 1) else [0])) := by
  obtain ⟨s2, hs2, ht, hn, hsw⟩ : ∃ s2 : PSO, PSO.ctorTopology task N n_dim topology =
      (match s2.setNeighborhood.swarm[0]? with
        | none => none
        | some p => some { s2.setNeighborhood with global_best := p.pbest }) ∧
      s2.topology = topology ∧ s2.n_particles = N ∧
      s2.swarm = List.replicate N (Particle.ctor task n_dim s2.phi_1 s2.phi_2 s2.inertia) :=
    ⟨_, rfl, by simp⟩
  have hget : ∀ j < N, s2.setNeighborhood.swarm[j]? =
      some (withNeighbours (Particle.ctor task n_dim s2.phi_1 s2.phi_2 s2.inertia)
        (if topology = TOPOLOGY_ERGODIC then (List.range N).filter (fun k => decide (k ≠ j))
          else if j = 0 then List.range' 1 (N - 1) else [0])) := by
    intro j hj
    rcases htop with e | e
    · have h := ergodicOuter_getElem? s2.n_particles s2.swarm j
      simp only [PSO.setNeighborhood, ht, e, if_true, PSO.createErgodicTopology]
      rw [h, hsw, hn, List.getElem?_replicate, if_pos hj, Option.map_some', if_pos hj]
    · have h := star_getElem? (s2.n_particles - 1) s2.swarm j
      have e1 : ¬ (TOPOLOGY_STAR = TOPOLOGY_ERGODIC) := by decide
      have e2 : ¬ (TOPOLOGY_STAR = TOPOLOGY_RING) := by decide
      simp only [PSO.setNeighborhood, ht, e, e1, e2, if_true, if_false, PSO.createStarTopology,
        List.tail_range]
      rw [h, hsw, hn, List.getElem?_replicate, if_pos hj, Option.map_some',
        if_pos (by omega : j ≤ N - 1)]
      split_ifs <;> rfl
  have hlen : s2.setNeighborhood.swarm.length = N := by
    by_contra hne
    rcases Nat.lt_or_gt_of_ne hne with h | h
    · have := hget (N - 1) (by omega)
      have h1 := (List.getElem?_eq_some.mp this).1
      omega
    · have hN1 : s2.setNeighborhood.swarm[N]? ≠ none := by
        rw [Ne, List.getElem?_eq_none_iff]
        omega
      apply hN1
      rcases htop with e | e
      · have h := ergodicOuter_getElem? s2.n_particles s2.swarm N
        simp only [PSO.setNeighborhood, ht, e, if_true, PSO.createErgodicTopology]
        rw [h, hsw, hn, List.getElem?_replicate, if_neg (by omega), Option.map_none']
      · have h := star_getElem? (s2.n_particles - 1) s2.swarm N
        have e1 : ¬ (TOPOLOGY_STAR = TOPOLOGY_ERGODIC) := by decide
        have e2 : ¬ (TOPOLOGY_STAR = TOPOLOGY_RING) := by decide
        simp only [PSO.setNeighborhood, ht, e, e1, e2, if_true, if_false,
          PSO.createStarTopology, List.tail_range]
        rw [h, hsw, hn, List.getElem?_replicate, if_neg (by omega), Option.map_none']
  rw [hs2, hget 0 (by omega)]
  refine ⟨_, Particle.ctor task n_dim s2.phi_1 s2.phi_2 s2.inertia, rfl, hlen, rfl, rfl, rfl,
    rfl, hget⟩

theorem ctorTopology_inv (task : Int) (N n_dim : Nat) (topology : Int) (hN : 2 ≤ N)
    (htop : topology = TOPOLOGY_ERGODIC ∨ topology = TOPOLOGY_STAR) :
    ∃ s0 : PSO, PSO.ctorTopology task N n_dim topology = some s0 ∧ s0.swarm.length = N ∧
      NoStaleBest s0.swarm ∧ Undirected s0.swarm ∧ NeighboursValid s0.swarm ∧
      (∀ q ∈ s0.swarm, q.task = task) ∧
      (topology = TOPOLOGY_ERGODIC → ∀ (j : Nat) (q : Particle), s0.swarm[j]? = some q →
        q.neighbours = (List.range N).filter (fun k => decide (k ≠ j))) ∧
      (∀ q ∈ s0.swarm, q.pbest.eval = if task = MAXIMIZE then -DBL_MAX else DBL_MAX) := by
  obtain ⟨s0, c, h0, hlen, hc, hg, htask, hev, hget⟩ :=
    ctorTopology_swarm task N n_dim topology hN htop
  have hnb : ∀ (j : Nat) (q : Particle), s0.swarm[j]? = some q → j < N ∧ q.pbest = c.pbest ∧
      q.gbest = c.pbest ∧ q.task = task ∧
      q.neighbours = (if topology = TOPOLOGY_ERGODIC then
          (List.range N).filter (fun k => decide (k ≠ j))
        else if j = 0 then List.range' 1 (N - 1) else [0]) := by
    intro j q hq
    have hj : j < N := hlen ▸ (List.getElem?_eq_some.mp hq).1
    rw [hget j hj, Option.some.injEq] at hq
    rw [← hq]
    simp [withNeighbours, hc, hg, htask, hj]
  have hvalid : ∀ (j : Nat) (q : Particle), s0.swarm[j]? = some q →
      q.neighbours ≠ [] ∧ ∀ k ∈ q.neighbours, k < s0.swarm.length := by
    intro j q hq
    obtain ⟨hj, -, -, -, hn⟩ := hnb j q hq
    rw [hn, hlen]
    rcases htop with e | e
    · rw [if_pos e]
      constructor
      · by_cases h0 : j = 0
        · apply List.ne_nil_of_mem (a := 1)
          simp [h0]
          omega
        · apply List.ne_nil_of_mem (a := 0)
          simp
          omega
      · intro k hk
        simp at hk
        exact hk.1
    · have e1 : ¬ (topology = TOPOLOGY_ERGODIC) := by rw [e]; decide
      rw [if_neg e1]
      by_cases h0 : j = 0
      · rw [if_pos h0]
        constructor
        · apply List.ne_nil_of_mem (a := 1)
          simp
          omega
        · intro k hk
          simp [List.mem_range'] at hk
          omega
      · rw [if_neg h0]
        constructor
        · simp
        · intro k hk
          simp at hk
          omega
  refine ⟨s0, h0, hlen, ?_, ?_, ?_, ?_, ?_, ?_⟩
  · rw [noStaleBest_iff]
    intro j q hq
    obtain ⟨-, hp, hgb, -, -⟩ := hnb j q hq
    refine freshAt_of_const s0.swarm q c.pbest (hvalid j q hq).1 (hvalid j q hq).2 ?_ hgb
    intro q1 hq1
    obtain ⟨m, hm⟩ := List.getElem?_of_mem hq1
    exact (hnb m q1 hm).2.1
  · intro i j p q hp hq hi
    obtain ⟨hi1, -, -, -, hpn⟩ := hnb i p hp
    obtain ⟨hj1, -, -, -, hqn⟩ := hnb j q hq
    rw [hqn] at hi
    rw [hpn]
    rcases htop with e | e
    · rw [if_pos e] at hi ⊢
      simp at hi ⊢
      omega
    · have e1 : ¬ (topology = TOPOLOGY_ERGODIC) := by rw [e]; decide
      rw [if_neg e1] at hi ⊢
      by_cases h0 : j = 0
      · rw [if_pos h0] at hi
        simp [List.mem_range'] at hi
        have : ¬ (i = 0) := by omega
        rw [if_neg this, h0]
        simp
      · rw [if_neg h0] at hi
        simp at hi
        rw [if_pos hi]
        simp only [List.mem_range'_1]
        omega
  · intro q hq
    obtain ⟨m, hm⟩ := List.getElem?_of_mem hq
    exact hvalid m q hm
  · intro q hq
    obtain ⟨m, hm⟩ := List.getElem?_of_mem hq
    exact (hnb m q hm).2.2.2.1
  · intro e j q hq
    rw [(hnb j q hq).2.2.2.2, if_pos e]
  · intro q hq
    obtain ⟨m, hm⟩ := List.getElem?_of_mem hq
    rw [(hnb m q hm).2.1, hev]

theorem getElem?_of_map_eq {β : Type} (f : Particle → β) (sw sw1 : List Particle)
    (h : sw1.map f = sw.map f) (j : Nat) (p1 : Particle) (hp1 : sw1[j]? = some p1) :
    ∃ p, sw[j]? = some p ∧ f p1 = f p := by
  have h1 := congrArg (fun l : List β => l[j]?) h
  simp only [List.getElem?_map, hp1, Option.map_some'] at h1
  cases hq : sw[j]? with
  | none => rw [hq] at h1; cases h1
  | some p =>
    rw [hq, Option.map_some', Option.some.injEq] at h1
    exact ⟨p, rfl, h1⟩

/-- C36: the constructor builds a MAXIMIZE swarm of `N ≥ 2` particles with the
ergodic or the star topology; every sequence of calls (`initialize`, `move` and
`setEvaluation` on particles of the swarm, `update` and `next`, in any order)
runs to the end, and in the state after it `checkNeibourhood()` on any particle
leaves the swarm as it is: every particle already holds, as its neighbourhood
best, the Solution that `checkNeibourhood()` selects from the current personal
bests of its neighbours. -/
theorem PSO.neighbourhood_best_never_stale (N n_dim : Nat) (topology : Int) (hN : 2 ≤ N)
    (htop : topology = TOPOLOGY_ERGODIC ∨ topology = TOPOLOGY_STAR) (calls : List Call) :
    ∃ s0 : PSO, PSO.ctorTopology MAXIMIZE N n_dim topology = some s0 ∧
      ((∀ c ∈ calls, c.InSwarm N) → ∃ s, s0.run calls = some s) ∧
      ∀ s, s0.run calls = some s →
        s.swarm.length = N ∧ ∀ j < N, Particle.checkNeibourhood s.swarm j = some s.swarm := by
  obtain ⟨s0, h0, hlen, hf, hu, hv, -, -, -⟩ := ctorTopology_inv MAXIMIZE N n_dim topology hN htop
  refine ⟨s0, h0, fun hc => run_isSome calls s0 hf hu hv (hlen ▸ hc), ?_⟩
  intro s hs
  obtain ⟨h1, -, h3, -⟩ := run_noStaleBest calls s0 s hs hf hu
  have hl : s.swarm.length = N := by
    have := congrArg List.length h3
    simpa [hlen] using this
  exact ⟨hl, fun j hj => h1 j (hl ▸ hj)⟩

/-- C36, an instance: the star swarm of three particles after `starCalls`. The
personal bests have the fitness 3, 8 and 9; the centre holds the neighbourhood
best of fitness 9 and both leaves the one of fitness 3, the personal best of the
centre. -/
theorem PSO.neighbourhood_best_never_stale_star_instance :
    (∀ c ∈ starCalls, c.InSwarm 3) ∧
      PSO.ctorTopology MAXIMIZE 3 1 TOPOLOGY_STAR = some starOfThree ∧
      starOfThree.run starCalls = some starLater ∧
      starLater.swarm.map (fun p => p.pbest.eval) = [3, 8, 9] ∧
      starLater.swarm.map (fun p => p.gbest.eval) = [9, 3, 3] ∧
      ∃ s0 : PSO, PSO.ctorTopology MAXIMIZE 3 1 TOPOLOGY_STAR = some s0 ∧
        ((∀ c ∈ starCalls, c.InSwarm 3) → ∃ s, s0.run starCalls = some s) ∧
        ∀ s, s0.run starCalls = some s →
          s.swarm.length = 3 ∧ ∀ j < 3, Particle.checkNeibourhood s.swarm j = some s.swarm :=
  ⟨by decide, by decide!, by decide!, by decide!, by decide!,
    PSO.neighbourhood_best_never_stale 3 1 TOPOLOGY_STAR (by decide) (Or.inr rfl) starCalls⟩

/-- C37 as stated fails: in the ergodic swarm of three particles evaluated to 1,
2 and 3, the best personal-best fitness of the swarm is 3, which `update()`
stores as the fitness of the global best, and the neighbourhood best of
particle 2, the only particle to hold it, has the fitness 2: a particle is not
in its own neighbourhood. -/
theorem Particle.gbest_of_sole_best :
    PSO.ctorTopology MAXIMIZE 3 1 TOPOLOGY_ERGODIC = some ergodicOfThree ∧
      ergodicOfThree.run ergodicRankedCalls = some ergodicRanked ∧
      ergodicRanked.swarm.map (fun p => p.pbest.eval) = [1, 2, 3] ∧
      ergodicRanked.global_best.eval = 3 ∧
      ergodicRanked.swarm.map (fun p => p.gbest.eval) = [3, 3, 2] := by
  decide!

/-- C37, amended: under the ergodic topology with `N ≥ 2` particles, in every
state reached from the construction (so also once every particle has been
evaluated), the neighbourhood-best fitness of every particle equals the best
personal-best fitness of the other particles of the swarm; it is the best
personal-best fitness of the whole swarm for every particle whose own personal
best is matched by another particle. -/
theorem Particle.gbest_is_best_of_others (N n_dim : Nat) (calls : List Call) (s0 s : PSO)
    (hN : 2 ≤ N) (h0 : PSO.ctorTopology MAXIMIZE N n_dim TOPOLOGY_ERGODIC = some s0)
    (hrun : s0.run calls = some s) (j : Nat) (p : Particle) (hp : s.swarm[j]? = some p) :
    (∃ (k : Nat) (q : Particle), k ≠ j ∧ s.swarm[k]? = some q ∧ q.pbest.eval = p.gbest.eval) ∧
      (∀ (k : Nat) (q : Particle), k ≠ j → s.swarm[k]? = some q → q.pbest.eval ≤ p.gbest.eval) ∧
      ((∃ (k : Nat) (q : Particle), k ≠ j ∧ s.swarm[k]? = some q ∧ p.pbest.eval ≤ q.pbest.eval) →
        ∀ (k : Nat) (q : Particle), s.swarm[k]? = some q → q.pbest.eval ≤ p.gbest.eval) := by
  obtain ⟨s1, h1, hlen, hf, hu, hv, htask, hnb, hev⟩ :=
    ctorTopology_inv MAXIMIZE N n_dim TOPOLOGY_ERGODIC hN (Or.inl rfl)
  rw [h0, Option.some.injEq] at h1
  subst h1
  obtain ⟨hf1, -, hn1, ht1⟩ := run_noStaleBest calls s0 s hrun hf hu
  have hl : s.swarm.length = N := by
    have := congrArg List.length hn1
    simpa [hlen] using this
  have hj : j < s.swarm.length := (List.getElem?_eq_some.mp hp).1
  obtain ⟨p0, hp0, en⟩ := getElem?_of_map_eq (fun q => q.neighbours) s0.swarm s.swarm hn1 j p hp
  obtain ⟨p1, hp1, et⟩ := getElem?_of_map_eq (fun q => q.task) s0.swarm s.swarm ht1 j p hp
  have hpn : p.neighbours = (List.range N).filter (fun k => decide (k ≠ j)) := by
    rw [en]
    exact hnb rfl j p0 hp0
  have hpt : p.task = MAXIMIZE := by
    rw [et]
    exact htask p1 (List.getElem?_mem hp1)
  have hv1 := neighboursValid_congr s0.swarm s.swarm hn1 hv p (List.getElem?_mem hp)
  have hfloor : ∀ q ∈ s.swarm, -DBL_MAX ≤ q.pbest.eval :=
    run_floor calls s0 s hrun (fun q hq => by rw [hev q hq, if_pos rfl])
  obtain ⟨m, nb, q, hm, hq, hc, hmax, -⟩ :=
    checkNeibourhood_neighbours s.swarm j p hp hpt hv1.1 hv1.2 hfloor
  rw [hf1 j hj, Option.some.injEq] at hc
  have hg : p.gbest = q.pbest := by
    have h2 := congrArg (fun l : List Particle => (l[j]?).map (fun r => r.gbest)) hc
    simpa [List.getElem?_set_self hj, hp] using h2
  have hothers : ∀ (k : Nat) (q1 : Particle), k ≠ j → s.swarm[k]? = some q1 → q1.pbest.eval ≤ p.gbest.eval := by
    intro k q1 hk hq1
    have hkN : k < N := hl ▸ (List.getElem?_eq_some.mp hq1).1
    have hmem : k ∈ p.neighbours := by
      rw [hpn]
      simp [hkN, hk]
    obtain ⟨idx, hidx⟩ := List.getElem?_of_mem hmem
    rw [hg]
    exact hmax idx k q1 hidx hq1
  refine ⟨⟨nb, q, ?_, hq, by rw [hg]⟩, hothers, ?_⟩
  · have hmem : nb ∈ p.neighbours := List.getElem?_mem hm
    rw [hpn] at hmem
    simpa using (List.mem_filter.mp hmem).2
  · rintro ⟨k0, q0, hk0, hq0, hle⟩ k q1 hq1
    by_cases hk : k = j
    · subst hk
      rw [hp, Option.some.injEq] at hq1
      rw [← hq1]
      exact le_trans hle (hothers k0 q0 hk0 hq0)
    · exact hothers k q1 hk hq1

/-- C37, an instance of the amended claim: particle 2 of the ergodic swarm of
three particles evaluated to 1, 2 and 3 holds the neighbourhood best of fitness
2, the best of the personal bests of particles 0 and 1. -/
theorem Particle.gbest_is_best_of_others_ranked_instance :
    ergodicRanked.swarm[2]? = some ergodicRankedParticle2 ∧
      ergodicRankedParticle2.gbest.eval = 2 ∧
      (∃ (k : Nat) (q : Particle), k ≠ 2 ∧ ergodicRanked.swarm[k]? = some q ∧
        q.pbest.eval = ergodicRankedParticle2.gbest.eval) ∧
      (∀ (k : Nat) (q : Particle), k ≠ 2 → ergodicRanked.swarm[k]? = some q →
        q.pbest.eval ≤ ergodicRankedParticle2.gbest.eval) ∧
      ((∃ (k : Nat) (q : Particle), k ≠ 2 ∧ ergodicRanked.swarm[k]? = some q ∧
          ergodicRankedParticle2.pbest.eval ≤ q.pbest.eval) →
        ∀ (k : Nat) (q : Particle), ergodicRanked.swarm[k]? = some q →
          q.pbest.eval ≤ ergodicRankedParticle2.gbest.eval) :=
  ⟨by decide!, by decide!,
    Particle.gbest_is_best_of_others 3 1 ergodicRankedCalls ergodicOfThree ergodicRanked
      (by decide) (by decide!) (by decide!) 2 ergodicRankedParticle2 (by decide!)⟩

theorem Double.clip_of_add (xq l u : ℚ) (v : Double) (hlu : l ≤ u) :
    (v = Double.nan →
        Double.min (Double.max (Double.add (Double.finite xq) v) (Double.finite l))
          (Double.finite u) = Double.nan) ∧
      (v ≠ Double.nan →
        ∃ r, Double.min (Double.max (Double.add (Double.finite xq) v) (Double.finite l))
          (Double.finite u) = Double.finite r ∧ l ≤ r ∧ r ≤ u) := by
  have hfin : ∀ q : ℚ, ∃ r, Double.min (Double.max (Double.finite q) (Double.finite l))
      (Double.finite u) = Double.finite r ∧ l ≤ r ∧ r ≤ u := by
    intro q
    by_cases h1 : q < l
    · refine ⟨l, ?_, le_refl l, hlu⟩
      simp [Double.min, Double.max, Double.lt, h1, not_lt.mpr hlu]
    · by_cases h2 : u < q
      · refine ⟨u, ?_, hlu, le_refl u⟩
        simp [Double.min, Double.max, Double.lt, h1, h2]
      · refine ⟨q, ?_, not_lt.mp h1, not_lt.mp h2⟩
        simp [Double.min, Double.max, Double.lt, h1, h2]
  have hpos : Double.min (Double.max Double.posInf (Double.finite l)) (Double.finite u) =
      Double.finite u := by
    simp [Double.min, Double.max, Double.lt]
  have hneg : Double.min (Double.max Double.negInf (Double.finite l)) (Double.finite u) =
      Double.finite l := by
    simp [Double.min, Double.max, Double.lt, not_lt.mpr hlu]
  constructor
  · intro hv
    subst hv
    simp [Double.min, Double.max, Double.lt, Double.add]
  · intro hv
    cases v with
    | nan => exact absurd rfl hv
    | posInf =>
      rw [Double.add, hpos]
      exact ⟨u, rfl, hlu, le_refl u⟩
    | negInf =>
      rw [Double.add, hneg]
      exact ⟨l, rfl, le_refl l, hlu⟩
    | finite b =>
      rw [Double.add, Double.round]
      split_ifs
      · rw [hpos]
        exact ⟨u, rfl, hlu, le_refl u⟩
      · rw [hneg]
        exact ⟨l, rfl, le_refl l, hlu⟩
      · exact hfin _

theorem Particle.moveDouble_shape (p : Particle) (st : Flight) (g1 g2 : ℕ → ℚ)
    (hl : p.lbs.length = p.n_dim ∧ p.ubs.length = p.n_dim ∧ p.pbest.x.length = p.n_dim ∧
      p.gbest.x.length = p.n_dim ∧ st.velocity.length = p.n_dim ∧ st.x.length = p.n_dim) :
    ∃ V : List Double, V.length = p.n_dim ∧ (p.moveDouble st g1 g2).velocity = V ∧
      (p.moveDouble st g1 g2).x =
        List.zipWith Double.min
          (List.zipWith Double.max (List.zipWith Double.add st.x V)
            (p.lbs.map Double.finite))
          (p.ubs.map Double.finite) := by
  obtain ⟨h1, h2, h3, h4, h5, h6⟩ := hl
  refine ⟨(p.moveDouble st g1 g2).velocity, ?_, rfl, rfl⟩
  simp [Particle.moveDouble, randUniform_length, h3, h4, h5, h6]

/-- C3 fails on the code: on values of the type `double`, for a particle whose
vectors all have `n_dim` coefficients, whose bounds satisfy `lbs ≤ ubs` and
whose position is a vector of numbers, whatever the velocity (infinite
coefficients included), the bests, the weights and the draws, `move()` leaves
coefficient `i` of the position between its bounds when coefficient `i` of the
new velocity is not NaN, and leaves it NaN, outside the bounds, when it is:
`cwiseMax` and `cwiseMin` compare with `<`, which is false on NaN. -/
theorem Particle.moveDouble_keeps_nan (p : Particle) (st : Flight) (g1 g2 : ℕ → ℚ)
    (hl : p.lbs.length = p.n_dim ∧ p.ubs.length = p.n_dim ∧ p.pbest.x.length = p.n_dim ∧
      p.gbest.x.length = p.n_dim ∧ st.velocity.length = p.n_dim ∧ st.x.length = p.n_dim)
    (hb : List.Forall₂ (fun l u => l ≤ u) p.lbs p.ubs)
    (hx : ∀ a ∈ st.x, a.isFinite = true) (i : Nat) (hi : i < p.n_dim) :
    ∃ v, (p.moveDouble st g1 g2).velocity[i]? = some v ∧
      (v = Double.nan → (p.moveDouble st g1 g2).x[i]? = some Double.nan) ∧
      (v ≠ Double.nan →
        ∃ r, (p.moveDouble st g1 g2).x[i]? = some (Double.finite r) ∧ p.lbs.getD i 0 ≤ r ∧
          r ≤ p.ubs.getD i 0) := by
  obtain ⟨V, hV, e1, e2⟩ := Particle.moveDouble_shape p st g1 g2 hl
  obtain ⟨h1, h2, -, -, -, h6⟩ := hl
  have hiV : i < V.length := by omega
  have hix : i < st.x.length := by omega
  have hil : i < p.lbs.length := by omega
  have hiu : i < p.ubs.length := by omega
  obtain ⟨xq, hxq⟩ : ∃ q, st.x[i] = Double.finite q := by
    have h := hx _ (List.getElem_mem hix)
    cases hc : st.x[i] with
    | finite q => exact ⟨q, rfl⟩
    | posInf => rw [hc] at h; cases h
    | negInf => rw [hc] at h; cases h
    | nan => rw [hc] at h; cases h
  have hlu : p.lbs.getD i 0 ≤ p.ubs.getD i 0 := forall₂_le_getD p.lbs p.ubs hb i
  have hxi : (p.moveDouble st g1 g2).x[i]? =
      some (Double.min (Double.max (Double.add (Double.finite xq) V[i])
        (Double.finite (p.lbs.getD i 0))) (Double.finite (p.ubs.getD i 0))) := by
    rw [e2]
    simp only [List.getElem?_zipWith, List.getElem?_map, List.getElem?_eq_getElem hix,
      List.getElem?_eq_getElem hiV, List.getElem?_eq_getElem hil,
      List.getElem?_eq_getElem hiu, Option.map_some', hxq, List.getD_eq_getElem _ _ hil,
      List.getD_eq_getElem _ _ hiu]
  obtain ⟨c1, c2⟩ := Double.clip_of_add xq (p.lbs.getD i 0) (p.ubs.getD i 0) V[i] hlu
  refine ⟨V[i], by rw [e1, List.getElem?_eq_getElem hiV], ?_, ?_⟩
  · intro hv
    rw [hxi, c1 hv]
  · intro hv
    obtain ⟨r, hr, hr1, hr2⟩ := c2 hv
    exact ⟨r, by rw [hxi, hr], hr1, hr2⟩

/-- C3, the failing input: a particle of one dimension with the bounds
`[0, 100]`, at position 10 with velocity 50 and personal best 0, whose inertia
and first weight are `2 ^ 1023`, is moved with both draws equal to `1 / 2`. The
product of the velocity and the inertia overflows to plus infinity, the personal
term to minus infinity, their sum is NaN, and the position after `move()` is
NaN. -/
theorem Particle.moveDouble_keeps_nan_overflow :
    overflowParticle.Initialised ∧
      List.Forall₂ (fun l u => l ≤ u) overflowParticle.lbs overflowParticle.ubs ∧
      overflowParticle.inertia < DBL_MAX ∧ randUniform 1 (fun _ => 0) = [1 / 2] ∧
      Double.mul (Double.finite 50) (Double.finite overflowParticle.inertia) =
        Double.posInf ∧
      Double.mul (Double.finite overflowParticle.phi_1)
        (Double.mul (Double.finite (1 / 2))
          (Double.sub (Double.finite 0) (Double.finite 10))) = Double.negInf ∧
      overflowParticle.moveDouble overflowParticle.flight (fun _ => 0) (fun _ => 0) =
        { velocity := [Double.nan], x := [Double.nan] } ∧
      ∃ v, (overflowParticle.moveDouble overflowParticle.flight (fun _ => 0)
          (fun _ => 0)).velocity[0]? = some v ∧
        (v = Double.nan →
          (overflowParticle.moveDouble overflowParticle.flight (fun _ => 0)
            (fun _ => 0)).x[0]? = some Double.nan) ∧
        (v ≠ Double.nan →
          ∃ r, (overflowParticle.moveDouble overflowParticle.flight (fun _ => 0)
              (fun _ => 0)).x[0]? = some (Double.finite r) ∧
            overflowParticle.lbs.getD 0 0 ≤ r ∧ r ≤ overflowParticle.ubs.getD 0 0) :=
  ⟨by decide!, by decide!, by decide!, by decide!, by decide!, by decide!, by decide!,
    Particle.moveDouble_keeps_nan overflowParticle overflowParticle.flight (fun _ => 0)
      (fun _ => 0) (by decide!) (by decide!) (by decide!) 0 (by decide)⟩

end Jerry
